import Mathlib

/-!
# scip-apex: symbol identity and index assembly

A shallow embedding of `internal/indexer` (`symbols.go`, `kinds.go`,
`occurrences.go`) together with theorems about it.

Modelling conventions.

* Go `string` is Lean `String` (names are taken to be valid UTF-8); `len(s)` is
  `String.utf8ByteSize`; ranging over a string visits `String.data`.
* Go `int` is `Int` (64-bit wrap-around is not modelled: line numbers, columns,
  name lengths and counters stay far below `2 ^ 63`); the explicit `int32(..)`
  conversions of `addOccurrence` are modelled by `int32`.
* Go maps are association lists in iteration order; every theorem quantifies
  over the list, hence over every iteration order.
* Pointers to documents and symbol records are replaced by their map keys
  (`RelativePath`, `Symbol`).
* The recursive walks `descriptorsFor` and `isStdlib` take a bound on the
  recursion depth (`fuel`) and return `none` when it is exceeded; everything
  that calls them lives in `Option`.
* The types of the external packages `resolution`, `ast` and `scip` are
  reconstructed from the fields the indexer reads.
-/

namespace ScipApex

/-! ## symbols.go: names and escaping -/

/-- The backtick character, the quoting delimiter of descriptors. -/
def backtick : Char := Char.ofNat 96

/-- `isIdentChar` of symbols.go. -/
def isIdentChar (ch : Char) : Bool :=
  (decide ('a' ≤ ch) && decide (ch ≤ 'z')) ||
  (decide ('A' ≤ ch) && decide (ch ≤ 'Z')) ||
  (decide ('0' ≤ ch) && decide (ch ≤ '9')) ||
  ch == '_' || ch == '+' || ch == '-' || ch == '$'

/-- Go `strings.ReplaceAll(s, "`", "``")` on the characters of `s`. -/
def replaceBackticks : List Char → List Char
  | [] => []
  | c :: cs =>
    if c = backtick then backtick :: backtick :: replaceBackticks cs
    else c :: replaceBackticks cs

/-- `escapeName` of symbols.go: the loop returns the quoted form at the first
character that is not an identifier character, and the name itself when there
is none. -/
def escapeName (name : String) : String :=
  if name.data.any (fun ch => !isIdentChar ch) then
    "`" ++ String.mk (replaceBackticks name.data) ++ "`"
  else name

/-- Go `strings.Split(s, sep)` for a one-character separator, on characters. -/
def splitChars (sep : Char) : List Char → List (List Char)
  | [] => [[]]
  | c :: cs =>
    if c = sep then [] :: splitChars sep cs
    else
      match splitChars sep cs with
      | [] => [[c]]
      | p :: ps => (c :: p) :: ps

/-- Go `strings.Split(s, ".")`. -/
def splitDots (s : String) : List String :=
  (splitChars '.' s.data).map String.mk

/-- `typeDescriptors` of symbols.go: the builder receives, for every part, the
escaped part and then `#`. -/
def typeDescriptors (qualifiedName : String) : String :=
  (splitDots qualifiedName).foldl (fun b part => b ++ escapeName part ++ "#") ""

def scipScheme : String := "scip-apex"
def scipManager : String := "apex"
def scipPackage : String := "."
def scipVersion : String := "."

/-- `symbolPrefix` of symbols.go. -/
def symbolPrefix : String :=
  scipScheme ++ " " ++ scipManager ++ " " ++ scipPackage ++ " " ++ scipVersion ++ " "

/-- `localSymbol` of symbols.go: `fmt.Sprintf("local %d", n)`. -/
def localSymbol (n : Int) : String := "local " ++ toString n

/-! ## The resolved graph (package `resolution`, as read by the indexer) -/

abbrev SymbolID := Nat

/-- Modelled from the spec: the designated invalid sentinel
`resolution.InvalidSymbol`; the package that declares it is not part of the
sources. The general theorems do not depend on its numeric value; the examples
give their entities other identifiers. -/
def InvalidSymbol : SymbolID := 0

/-- `resolution.SymbolKind`; `Other` stands for every kind the indexer does not
name (the `default` branch of `scipKind`). -/
inductive SymbolKind where
  | Class | Interface | Enum | Method | Constructor | Field | Property
  | Parameter | LocalVariable | Trigger | EnumValue | Other
  deriving DecidableEq, Repr

structure ClassDeclaration where
  Name : String
  FilePath : String
  Line : Int
  Column : Int
  DocComment : String
  deriving DecidableEq, Repr

structure InterfaceDeclaration where
  Name : String
  FilePath : String
  Line : Int
  Column : Int
  deriving DecidableEq, Repr

structure EnumDeclaration where
  Name : String
  FilePath : String
  Line : Int
  Column : Int
  deriving DecidableEq, Repr

structure TriggerDeclaration where
  Name : String
  FilePath : String
  Line : Int
  Column : Int
  deriving DecidableEq, Repr

/-- `ast.FieldDeclaration`; `Getter` and `Setter` record whether the accessor
pointer is non-nil. -/
structure FieldDeclaration where
  Name : String
  FilePath : String
  Line : Int
  Column : Int
  Getter : Bool
  Setter : Bool
  deriving DecidableEq, Repr

structure MethodDeclaration where
  Name : String
  Line : Int
  Column : Int
  DocComment : String
  deriving DecidableEq, Repr

structure ParameterDeclaration where
  Name : String
  deriving DecidableEq, Repr

structure ClassSymbol where
  ID : SymbolID
  QualifiedName : String
  Declaration : Option ClassDeclaration
  Fields : List SymbolID
  Methods : List SymbolID
  Implements : List SymbolID
  Extends : SymbolID
  deriving DecidableEq, Repr

structure InterfaceSymbol where
  ID : SymbolID
  QualifiedName : String
  Declaration : Option InterfaceDeclaration
  Methods : List SymbolID
  Extends : List SymbolID
  deriving DecidableEq, Repr

structure EnumSymbol where
  ID : SymbolID
  QualifiedName : String
  Declaration : Option EnumDeclaration
  deriving DecidableEq, Repr

structure TriggerSymbol where
  ID : SymbolID
  QualifiedName : String
  Declaration : Option TriggerDeclaration
  deriving DecidableEq, Repr

structure MethodSymbol where
  Name : String
  Kind : SymbolKind
  DeclaringType : SymbolID
  Declaration : Option MethodDeclaration
  Parameters : List SymbolID
  deriving DecidableEq, Repr

structure FieldSymbol where
  Name : String
  DeclaringType : SymbolID
  Declaration : Option FieldDeclaration
  deriving DecidableEq, Repr

/-- `resolution.VariableSymbol`; `Declaration` is `some p` exactly when the
declaration node is a non-nil `*ast.ParameterDeclaration`. -/
structure VariableSymbol where
  Kind : SymbolKind
  Parent : SymbolID
  Declaration : Option ParameterDeclaration
  deriving DecidableEq, Repr

/-- `resolution.SymbolGraph`: the lookup-by-identifier accessors and the
enumeration accessors the indexer calls. No relation between them is assumed. -/
structure SymbolGraph where
  ClassByID : SymbolID → Option ClassSymbol
  InterfaceByID : SymbolID → Option InterfaceSymbol
  EnumByID : SymbolID → Option EnumSymbol
  MethodByID : SymbolID → Option MethodSymbol
  FieldByID : SymbolID → Option FieldSymbol
  TriggerByID : SymbolID → Option TriggerSymbol
  VariableByID : SymbolID → Option VariableSymbol
  AllClasses : List ClassSymbol
  AllInterfaces : List InterfaceSymbol
  AllEnums : List EnumSymbol
  AllTriggers : List TriggerSymbol

/-! ## symbols.go: canonical identifiers -/

/-- `descriptorsFor` of symbols.go; the first argument bounds the recursion
depth, `none` means the bound was exceeded. -/
def descriptorsFor (graph : SymbolGraph) : Nat → SymbolID → Option String
  | 0, _ => none
  | fuel + 1, id =>
    match graph.ClassByID id with
    | some cls => some (typeDescriptors cls.QualifiedName)
    | none =>
    match graph.InterfaceByID id with
    | some iface => some (typeDescriptors iface.QualifiedName)
    | none =>
    match graph.EnumByID id with
    | some enum => some (typeDescriptors enum.QualifiedName)
    | none =>
    match graph.MethodByID id with
    | some method =>
      match descriptorsFor graph fuel method.DeclaringType with
      | none => none
      | some parent =>
        if parent = "" then some ""
        else
          let name := if method.Kind = SymbolKind.Constructor then "`<init>`"
                      else escapeName method.Name
          some (parent ++ name ++ "().")
    | none =>
    match graph.FieldByID id with
    | some field =>
      match descriptorsFor graph fuel field.DeclaringType with
      | none => none
      | some parent =>
        if parent = "" then some ""
        else some (parent ++ escapeName field.Name ++ ".")
    | none =>
    match graph.TriggerByID id with
    | some trigger => some (typeDescriptors trigger.QualifiedName)
    | none => some ""

/-- `scipSymbol` of symbols.go. -/
def scipSymbol (graph : SymbolGraph) (fuel : Nat) (id : SymbolID) : Option String :=
  if id = InvalidSymbol then some ""
  else
    match descriptorsFor graph fuel id with
    | none => none
    | some descriptors =>
      if descriptors = "" then some "" else some (symbolPrefix ++ descriptors)

/-! ## kinds.go -/

/-- `scip.SymbolInformation_Kind`, the values the indexer uses. -/
inductive SymbolInformation_Kind where
  | UnspecifiedKind | Class | Interface | Enum | Method | Constructor | Field
  | Property | Parameter | Variable | EnumMember
  deriving DecidableEq, Repr

/-- `scipKind` of kinds.go. -/
def scipKind : SymbolKind → SymbolInformation_Kind
  | SymbolKind.Class => SymbolInformation_Kind.Class
  | SymbolKind.Interface => SymbolInformation_Kind.Interface
  | SymbolKind.Enum => SymbolInformation_Kind.Enum
  | SymbolKind.Method => SymbolInformation_Kind.Method
  | SymbolKind.Constructor => SymbolInformation_Kind.Constructor
  | SymbolKind.Field => SymbolInformation_Kind.Field
  | SymbolKind.Property => SymbolInformation_Kind.Property
  | SymbolKind.Parameter => SymbolInformation_Kind.Parameter
  | SymbolKind.LocalVariable => SymbolInformation_Kind.Variable
  | SymbolKind.Trigger => SymbolInformation_Kind.Class
  | SymbolKind.EnumValue => SymbolInformation_Kind.EnumMember
  | SymbolKind.Other => SymbolInformation_Kind.UnspecifiedKind

/-! ## The index model (package `scip`) and the binding table -/

structure Occurrence where
  Range : List Int
  Symbol : String
  SymbolRoles : Nat
  deriving DecidableEq, Repr

structure Relationship where
  Symbol : String
  IsReference : Bool
  IsImplementation : Bool
  deriving DecidableEq, Repr

structure SymbolInformation where
  Symbol : String
  DisplayName : String
  Kind : SymbolInformation_Kind
  Documentation : List String
  Relationships : List Relationship
  deriving DecidableEq, Repr

structure Document where
  Language : String
  RelativePath : String
  PositionEncoding : Nat
  Occurrences : List Occurrence
  Symbols : List SymbolInformation
  deriving DecidableEq, Repr

/-- `scip.SymbolRole_Definition`. -/
def SymbolRole_Definition : Nat := 1
/-- `scip.SymbolRole_ReadAccess`. -/
def SymbolRole_ReadAccess : Nat := 8
/-- `scip.PositionEncoding_UTF8CodeUnitOffsetFromLineStart`. -/
def PositionEncoding_UTF8CodeUnitOffsetFromLineStart : Nat := 1

/-- An `*ast.Identifier` reference site; `Ptr` is the identity of the node
(the map key). -/
structure Identifier where
  Ptr : Nat
  Synthetic : Bool
  Line : Int
  Column : Int
  Name : String
  deriving DecidableEq, Repr

structure MethodCall where
  Ptr : Nat
  Line : Int
  Column : Int
  Name : String
  deriving DecidableEq, Repr

structure FieldAccess where
  Ptr : Nat
  Line : Int
  Column : Int
  FieldName : String
  deriving DecidableEq, Repr

structure NewExpression where
  Ptr : Nat
  Line : Int
  Column : Int
  TypeName : String
  deriving DecidableEq, Repr

/-- `resolution.ConstructorBinding`; the indexer reads its `Type` field only. -/
structure ConstructorBinding where
  TypeID : SymbolID
  deriving DecidableEq, Repr

/-- `resolution.BindingResult`: the four reference maps, each as the list of its
entries in iteration order, and the node-to-file table (keyed by node identity,
`""` for an absent key). -/
structure BindingResult where
  Identifiers : List (Identifier × SymbolID)
  MethodCalls : List (MethodCall × SymbolID)
  FieldAccesses : List (FieldAccess × SymbolID)
  ConstructorBindings : List (NewExpression × ConstructorBinding)
  NodeFiles : Nat → String

/-! ## occurrences.go: the document builder -/

/-- The fields of `documentBuilder` that are never assigned after construction:
the graph, the binding table (`none` for a nil pointer) and the project root,
the latter through the function `relativePath` it determines
(`filepath.Rel` followed by `filepath.ToSlash`); `fuel` bounds the depth of the
recursive walks. -/
structure BuilderEnv where
  graph : SymbolGraph
  binding : Option BindingResult
  relativePath : String → String
  fuel : Nat

/-- The three maps of `documentBuilder`. -/
structure documentBuilder where
  localCount : String → Int
  docs : List Document
  symbolInfos : List SymbolInformation

/-- `newDocumentBuilder`: three empty maps. -/
def newDocumentBuilder : documentBuilder :=
  { localCount := fun _ => 0, docs := [], symbolInfos := [] }

/-- Go `len(s)`: the number of bytes. -/
def len (s : String) : Int := (s.utf8ByteSize : Int)

/-- Go conversion `int32(x)`. -/
def int32 (x : Int) : Int := (x + 2147483648) % 4294967296 - 2147483648

/-- Go `strings.HasSuffix`. -/
def hasSuffix (s suffix : String) : Bool := suffix.data.isSuffixOf s.data

/-- `isMetadataXML` of occurrences.go. -/
def isMetadataXML (filePath : String) : Bool :=
  hasSuffix filePath ".object-meta.xml" ||
  hasSuffix filePath ".field-meta.xml" ||
  hasSuffix filePath ".object"

/-- `getOrCreateDoc`; the returned pointer is the document with key
`relativePath absPath`. -/
def getOrCreateDoc (cx : BuilderEnv) (absPath : String) (db : documentBuilder) :
    documentBuilder :=
  let relPath := cx.relativePath absPath
  if db.docs.any (fun d => d.RelativePath = relPath) then db
  else
    { db with docs := db.docs ++ [
        { Language := "apex"
          RelativePath := relPath
          PositionEncoding := PositionEncoding_UTF8CodeUnitOffsetFromLineStart
          Occurrences := []
          Symbols := [] }] }

/-- `nextLocal`: increments the counter of the path and formats it. -/
def nextLocal (relPath : String) (db : documentBuilder) : String × documentBuilder :=
  let count := db.localCount relPath + 1
  (localSymbol count, { db with localCount := Function.update db.localCount relPath count })

/-- `addOccurrence`; `doc` is the key of the document the pointer refers to. -/
def addOccurrence (doc : String) (line col endCol : Int) (symbol : String) (roles : Nat)
    (db : documentBuilder) : documentBuilder :=
  { db with docs := db.docs.map (fun d =>
      if d.RelativePath = doc then
        { d with Occurrences := d.Occurrences ++
            [{ Range := [int32 line, int32 col, int32 endCol]
               Symbol := symbol
               SymbolRoles := roles }] }
      else d) }

/-- `symbolInfo`; the returned pointer is the record with key `sym`. -/
def symbolInfo (sym displayName : String) (kind : SymbolInformation_Kind)
    (db : documentBuilder) : documentBuilder :=
  if db.symbolInfos.any (fun si => si.Symbol = sym) then db
  else
    { db with symbolInfos := db.symbolInfos ++
        [{ Symbol := sym
           DisplayName := displayName
           Kind := kind
           Documentation := []
           Relationships := [] }] }

/-- The assignment `si.Documentation = []string{doc}` through the pointer
returned by `symbolInfo`. -/
def setDocumentation (sym doc : String) (db : documentBuilder) : documentBuilder :=
  { db with symbolInfos := db.symbolInfos.map (fun si =>
      if si.Symbol = sym then { si with Documentation := [doc] } else si) }

/-- The statement `si.Relationships = append(si.Relationships, r)`. -/
def appendRelationship (sym : String) (r : Relationship) (db : documentBuilder) :
    documentBuilder :=
  { db with symbolInfos := db.symbolInfos.map (fun si =>
      if si.Symbol = sym then { si with Relationships := si.Relationships ++ [r] } else si) }

/-- Go `d == nil || d.FilePath == ""` for an optional declaration. -/
def noFile {α : Type} (filePath : α → String) : Option α → Bool
  | none => true
  | some d => filePath d == ""

/-- `isStdlib` of occurrences.go; the first argument bounds the recursion depth. -/
def isStdlib (graph : SymbolGraph) : Nat → SymbolID → Option Bool
  | 0, _ => none
  | fuel + 1, symID =>
    if symID = InvalidSymbol then some true
    else
    match graph.ClassByID symID with
    | some cls => some (noFile ClassDeclaration.FilePath cls.Declaration)
    | none =>
    match graph.InterfaceByID symID with
    | some iface => some (noFile InterfaceDeclaration.FilePath iface.Declaration)
    | none =>
    match graph.EnumByID symID with
    | some enum => some (noFile EnumDeclaration.FilePath enum.Declaration)
    | none =>
    match graph.MethodByID symID with
    | some method => isStdlib graph fuel method.DeclaringType
    | none =>
    match graph.FieldByID symID with
    | some field => isStdlib graph fuel field.DeclaringType
    | none =>
    match graph.TriggerByID symID with
    | some trigger => some (noFile TriggerDeclaration.FilePath trigger.Declaration)
    | none =>
    match graph.VariableByID symID with
    | some v => isStdlib graph fuel v.Parent
    | none => some true

/-- One iteration of the loop of `addImplementsRelationships`; `si` is the key
of the record the pointer refers to. -/
def implementsStep (cx : BuilderEnv) (si : String) (db : documentBuilder)
    (ifaceID : SymbolID) : Option documentBuilder :=
  match isStdlib cx.graph cx.fuel ifaceID with
  | none => none
  | some true => some db
  | some false =>
    match scipSymbol cx.graph cx.fuel ifaceID with
    | none => none
    | some ifaceSym =>
      if ifaceSym = "" then some db
      else some (appendRelationship si
        { Symbol := ifaceSym, IsReference := false, IsImplementation := true } db)

/-- `addImplementsRelationships` of occurrences.go. -/
def addImplementsRelationships (cx : BuilderEnv) (si : String) (implements : List SymbolID)
    (db : documentBuilder) : Option documentBuilder :=
  implements.foldlM (implementsStep cx si) db

/-- `addExtendsRelationship` of occurrences.go. -/
def addExtendsRelationship (cx : BuilderEnv) (si : String) (db : documentBuilder)
    (extendsID : SymbolID) : Option documentBuilder :=
  if extendsID = InvalidSymbol then some db
  else
    match isStdlib cx.graph cx.fuel extendsID with
    | none => none
    | some true => some db
    | some false =>
      match scipSymbol cx.graph cx.fuel extendsID with
      | none => none
      | some extSym =>
        if extSym = "" then some db
        else some (appendRelationship si
          { Symbol := extSym, IsReference := true, IsImplementation := false } db)

/-- `addExtendsRelationships` of occurrences.go. -/
def addExtendsRelationships (cx : BuilderEnv) (si : String) (extendsIDs : List SymbolID)
    (db : documentBuilder) : Option documentBuilder :=
  extendsIDs.foldlM (addExtendsRelationship cx si) db

/-- One iteration of the loop of `registerParameters`. -/
def parameterStep (cx : BuilderEnv) (filePath : String) (db : documentBuilder)
    (paramID : SymbolID) : documentBuilder :=
  match cx.graph.VariableByID paramID with
  | none => db
  | some v =>
    match v.Declaration with
    | none => db
    | some param =>
      let r := nextLocal (cx.relativePath filePath) db
      let db := getOrCreateDoc cx filePath r.2
      symbolInfo r.1 param.Name (scipKind SymbolKind.Parameter) db

/-- `registerParameters` of occurrences.go. -/
def registerParameters (cx : BuilderEnv) (filePath : String) (method : MethodSymbol)
    (db : documentBuilder) : documentBuilder :=
  match method.Declaration with
  | none => db
  | some _ => method.Parameters.foldl (parameterStep cx filePath) db

/-- One iteration of the loop of `registerMethods`. -/
def methodStep (cx : BuilderEnv) (filePath : String) (db : documentBuilder)
    (methodID : SymbolID) : Option documentBuilder :=
  match cx.graph.MethodByID methodID with
  | none => some db
  | some method =>
    match method.Declaration with
    | none => some db
    | some decl =>
      let db := getOrCreateDoc cx filePath db
      match scipSymbol cx.graph cx.fuel methodID with
      | none => none
      | some sym =>
        if sym = "" then some db
        else
          let db := addOccurrence (cx.relativePath filePath) (decl.Line - 1) decl.Column
            (decl.Column + len decl.Name) sym SymbolRole_Definition db
          let db := symbolInfo sym decl.Name (scipKind method.Kind) db
          let db := if decl.DocComment ≠ "" then setDocumentation sym decl.DocComment db
                    else db
          some (registerParameters cx filePath method db)

/-- `registerMethods` of occurrences.go. -/
def registerMethods (cx : BuilderEnv) (filePath : String) (methodIDs : List SymbolID)
    (db : documentBuilder) : Option documentBuilder :=
  if filePath = "" then some db
  else methodIDs.foldlM (methodStep cx filePath) db

/-- One iteration of the loop of `registerFields`, for a class whose
declaration is `clsDecl`. -/
def fieldStep (cx : BuilderEnv) (clsDecl : ClassDeclaration) (db : documentBuilder)
    (fieldID : SymbolID) : Option documentBuilder :=
  match cx.graph.FieldByID fieldID with
  | none => some db
  | some field =>
    match field.Declaration with
    | none => some db
    | some decl =>
      let filePath := if decl.FilePath ≠ "" then decl.FilePath else clsDecl.FilePath
      if filePath = "" ∨ isMetadataXML filePath = true then some db
      else
        let db := getOrCreateDoc cx filePath db
        match scipSymbol cx.graph cx.fuel fieldID with
        | none => none
        | some sym =>
          if sym = "" then some db
          else
            let kind := if decl.Getter || decl.Setter then SymbolKind.Property
                        else SymbolKind.Field
            let db := addOccurrence (cx.relativePath filePath) (decl.Line - 1) decl.Column
              (decl.Column + len decl.Name) sym SymbolRole_Definition db
            some (symbolInfo sym decl.Name (scipKind kind) db)

/-- `registerFields` of occurrences.go. -/
def registerFields (cx : BuilderEnv) (cls : ClassSymbol) (db : documentBuilder) :
    Option documentBuilder :=
  match cls.Declaration with
  | none => some db
  | some clsDecl => cls.Fields.foldlM (fieldStep cx clsDecl) db

/-- `registerNestedDeclarations` of occurrences.go: an empty body. -/
def registerNestedDeclarations (_cls : ClassSymbol) (db : documentBuilder) :
    documentBuilder := db

/-- The part of the class loop of `buildDefinitions` that is guarded by the
file-path test: the class's own occurrence, record and relationships. -/
def defineClass (cx : BuilderEnv) (cls : ClassSymbol) (decl : ClassDeclaration)
    (db : documentBuilder) : Option documentBuilder :=
  if decl.FilePath ≠ "" ∧ isMetadataXML decl.FilePath = false then
    let db := getOrCreateDoc cx decl.FilePath db
    match scipSymbol cx.graph cx.fuel cls.ID with
    | none => none
    | some sym =>
      if sym ≠ "" then
        let db := addOccurrence (cx.relativePath decl.FilePath) (decl.Line - 1) decl.Column
          (decl.Column + len decl.Name) sym SymbolRole_Definition db
        let db := symbolInfo sym decl.Name (scipKind SymbolKind.Class) db
        let db := if decl.DocComment ≠ "" then setDocumentation sym decl.DocComment db
                  else db
        match addImplementsRelationships cx sym cls.Implements db with
        | none => none
        | some db => addExtendsRelationship cx sym db cls.Extends
      else some db
  else some db

/-- One iteration of the class loop of `buildDefinitions`. -/
def classStep (cx : BuilderEnv) (db : documentBuilder) (cls : ClassSymbol) :
    Option documentBuilder :=
  match cls.Declaration with
  | none => some db
  | some decl =>
    match defineClass cx cls decl db with
    | none => none
    | some db =>
      match registerFields cx cls db with
      | none => none
      | some db =>
        match registerMethods cx decl.FilePath cls.Methods db with
        | none => none
        | some db => some (registerNestedDeclarations cls db)

/-- One iteration of the interface loop of `buildDefinitions`. -/
def interfaceStep (cx : BuilderEnv) (db : documentBuilder) (iface : InterfaceSymbol) :
    Option documentBuilder :=
  match iface.Declaration with
  | none => some db
  | some decl =>
    if decl.FilePath = "" then some db
    else
      let db := getOrCreateDoc cx decl.FilePath db
      match scipSymbol cx.graph cx.fuel iface.ID with
      | none => none
      | some sym =>
        if sym = "" then some db
        else
          let db := addOccurrence (cx.relativePath decl.FilePath) (decl.Line - 1) decl.Column
            (decl.Column + len decl.Name) sym SymbolRole_Definition db
          let db := symbolInfo sym decl.Name (scipKind SymbolKind.Interface) db
          match addExtendsRelationships cx sym iface.Extends db with
          | none => none
          | some db => registerMethods cx decl.FilePath iface.Methods db

/-- One iteration of the enum loop of `buildDefinitions`. -/
def enumStep (cx : BuilderEnv) (db : documentBuilder) (enum : EnumSymbol) :
    Option documentBuilder :=
  match enum.Declaration with
  | none => some db
  | some decl =>
    if decl.FilePath = "" then some db
    else
      let db := getOrCreateDoc cx decl.FilePath db
      match scipSymbol cx.graph cx.fuel enum.ID with
      | none => none
      | some sym =>
        if sym = "" then some db
        else
          let db := addOccurrence (cx.relativePath decl.FilePath) (decl.Line - 1) decl.Column
            (decl.Column + len decl.Name) sym SymbolRole_Definition db
          some (symbolInfo sym decl.Name (scipKind SymbolKind.Enum) db)

/-- One iteration of the trigger loop of `buildDefinitions`. -/
def triggerStep (cx : BuilderEnv) (db : documentBuilder) (trigger : TriggerSymbol) :
    Option documentBuilder :=
  match trigger.Declaration with
  | none => some db
  | some decl =>
    if decl.FilePath = "" then some db
    else
      let db := getOrCreateDoc cx decl.FilePath db
      match scipSymbol cx.graph cx.fuel trigger.ID with
      | none => none
      | some sym =>
        if sym = "" then some db
        else
          let db := addOccurrence (cx.relativePath decl.FilePath) (decl.Line - 1) decl.Column
            (decl.Column + len decl.Name) sym SymbolRole_Definition db
          some (symbolInfo sym decl.Name (scipKind SymbolKind.Trigger) db)

/-- `buildDefinitions` of occurrences.go: the four loops in order. -/
def buildDefinitions (cx : BuilderEnv) (db : documentBuilder) : Option documentBuilder :=
  match cx.graph.AllClasses.foldlM (classStep cx) db with
  | none => none
  | some db =>
    match cx.graph.AllInterfaces.foldlM (interfaceStep cx) db with
    | none => none
    | some db =>
      match cx.graph.AllEnums.foldlM (enumStep cx) db with
      | none => none
      | some db => cx.graph.AllTriggers.foldlM (triggerStep cx) db

/-- `resolveSymbolString` of occurrences.go; returns the string and the builder
(whose counter `nextLocal` may have advanced). -/
def resolveSymbolString (cx : BuilderEnv) (symID : SymbolID) (filePath : String)
    (db : documentBuilder) : Option (String × documentBuilder) :=
  match scipSymbol cx.graph cx.fuel symID with
  | none => none
  | some sym =>
    if sym ≠ "" then some (sym, db)
    else
      match cx.graph.VariableByID symID with
      | none => some ("", db)
      | some v =>
        if v.Kind = SymbolKind.Parameter ∨ v.Kind = SymbolKind.LocalVariable then
          some (nextLocal (cx.relativePath filePath) db)
        else some ("", db)

/-- One iteration of the loop over `binding.Identifiers`. -/
def identifierStep (cx : BuilderEnv) (b : BindingResult) (db : documentBuilder)
    (entry : Identifier × SymbolID) : Option documentBuilder :=
  let expr := entry.1
  let symID := entry.2
  if expr.Synthetic = true then some db
  else
    let filePath := b.NodeFiles expr.Ptr
    if filePath = "" then some db
    else
      match isStdlib cx.graph cx.fuel symID with
      | none => none
      | some true => some db
      | some false =>
        match resolveSymbolString cx symID filePath db with
        | none => none
        | some (sym, db) =>
          if sym = "" then some db
          else
            let db := getOrCreateDoc cx filePath db
            some (addOccurrence (cx.relativePath filePath) (expr.Line - 1) expr.Column
              (expr.Column + len expr.Name) sym SymbolRole_ReadAccess db)

/-- The common body of the loops over `binding.MethodCalls`,
`binding.FieldAccesses` and `binding.ConstructorBindings`: a reference at
`(line, column)` to the entity `symID`, `name` being the text measured. -/
def referenceStep (cx : BuilderEnv) (b : BindingResult) (ptr : Nat) (line column : Int)
    (name : String) (symID : SymbolID) (db : documentBuilder) : Option documentBuilder :=
  let filePath := b.NodeFiles ptr
  if filePath = "" then some db
  else
    match isStdlib cx.graph cx.fuel symID with
    | none => none
    | some true => some db
    | some false =>
      match scipSymbol cx.graph cx.fuel symID with
      | none => none
      | some sym =>
        if sym = "" then some db
        else
          let db := getOrCreateDoc cx filePath db
          some (addOccurrence (cx.relativePath filePath) (line - 1) column
            (column + len name) sym SymbolRole_ReadAccess db)

/-- One iteration of the loop over `binding.MethodCalls`. -/
def methodCallStep (cx : BuilderEnv) (b : BindingResult) (db : documentBuilder)
    (entry : MethodCall × SymbolID) : Option documentBuilder :=
  referenceStep cx b entry.1.Ptr entry.1.Line entry.1.Column entry.1.Name entry.2 db

/-- One iteration of the loop over `binding.FieldAccesses`. -/
def fieldAccessStep (cx : BuilderEnv) (b : BindingResult) (db : documentBuilder)
    (entry : FieldAccess × SymbolID) : Option documentBuilder :=
  referenceStep cx b entry.1.Ptr entry.1.Line entry.1.Column entry.1.FieldName entry.2 db

/-- One iteration of the loop over `binding.ConstructorBindings`; the local
`typeName` of the source is computed and never used, the span is measured on
`expr.TypeName`. -/
def constructorStep (cx : BuilderEnv) (b : BindingResult) (db : documentBuilder)
    (entry : NewExpression × ConstructorBinding) : Option documentBuilder :=
  referenceStep cx b entry.1.Ptr entry.1.Line entry.1.Column entry.1.TypeName
    entry.2.TypeID db

/-- `buildReferences` of occurrences.go: the four loops in order. -/
def buildReferences (cx : BuilderEnv) (db : documentBuilder) : Option documentBuilder :=
  match cx.binding with
  | none => some db
  | some b =>
    match b.Identifiers.foldlM (identifierStep cx b) db with
    | none => none
    | some db =>
      match b.MethodCalls.foldlM (methodCallStep cx b) db with
      | none => none
      | some db =>
        match b.FieldAccesses.foldlM (fieldAccessStep cx b) db with
        | none => none
        | some db => b.ConstructorBindings.foldlM (constructorStep cx b) db

/-- Whether the occurrence is a definition: `occ.SymbolRoles & Definition != 0`. -/
def isDefinition (occ : Occurrence) : Bool :=
  occ.SymbolRoles &&& SymbolRole_Definition != 0

/-- The inner loops of `documents`: every record of the map that matches a
definition occurrence of the document is appended to its `Symbols`. -/
def attachSymbols (symbolInfos : List SymbolInformation) (doc : Document) : Document :=
  symbolInfos.foldl (fun d si =>
    if d.Occurrences.any (fun occ => occ.Symbol = si.Symbol && isDefinition occ) then
      { d with Symbols := d.Symbols ++ [si] }
    else d) doc

/-- `documents` of occurrences.go: it returns the documents only; no list of
external symbols is built anywhere in the package. -/
def documents (db : documentBuilder) : List Document :=
  db.docs.map (attachSymbols db.symbolInfos)

/-- The three calls of `buildIndex` (indexer.go) on a fresh builder: the
documents handed to the index. -/
def buildIndex (cx : BuilderEnv) : Option (List Document) :=
  match buildDefinitions cx newDocumentBuilder with
  | none => none
  | some db =>
    match buildReferences cx db with
    | none => none
    | some db => some (documents db)

/-! ## Auxiliary definitions for the theorems -/

/-- `escapeName` on characters. -/
def escapeChars (n : List Char) : List Char :=
  if n.any (fun ch => !isIdentChar ch) then backtick :: (replaceBackticks n ++ [backtick])
  else n

/-- Membership in the safe character set `[A-Za-z0-9_+\-$]`. -/
def SafeChar (c : Char) : Prop :=
  ('A' ≤ c ∧ c ≤ 'Z') ∨ ('a' ≤ c ∧ c ≤ 'z') ∨ ('0' ≤ c ∧ c ≤ '9') ∨
    c = '_' ∨ c = '+' ∨ c = '-' ∨ c = '$'

/-- The replacement the escaping rule prescribes: every backtick becomes two. -/
def doubleBackticks (cs : List Char) : List Char :=
  cs.flatMap (fun c => if c = backtick then [backtick, backtick] else [c])

/-- Halving of doubled backticks. -/
def halveBackticks : List Char → List Char
  | [] => []
  | [c] => [c]
  | c :: d :: cs =>
    if c = backtick ∧ d = backtick then backtick :: halveBackticks cs
    else c :: halveBackticks (d :: cs)

/-- The inverse of escaping, as the specification words it: a quoted segment
loses its surrounding backticks and every doubled backtick is halved; an
unquoted segment is left as it is. -/
def unescapeName (s : String) : String :=
  match s.data with
  | [] => s
  | c :: cs => if c = backtick then String.mk (halveBackticks cs.dropLast) else s

/-- The descriptor of a list of name parts: every part escaped and followed
by `#`. -/
def partsDescriptor (parts : List String) : String :=
  String.join (parts.map (fun p => escapeName p ++ "#"))

/-- The three terminators of a descriptor segment. -/
inductive SegKind where
  | type | method | term
  deriving DecidableEq, Repr

/-- The text of a terminator: `#`, `().` or `.`. -/
def SegKind.chars : SegKind → List Char
  | SegKind.type => ['#']
  | SegKind.method => ['(', ')', '.']
  | SegKind.term => ['.']

/-- A descriptor segment: a name before escaping, and its terminator. -/
abbrev Segment := List Char × SegKind

/-- The text of a segment. -/
def renderSegment (s : Segment) : List Char := escapeChars s.1 ++ s.2.chars

/-- The text of a sequence of segments. -/
def renderPath (p : List Segment) : List Char := p.flatMap renderSegment

/-- Reads the inside of a quoted name up to its closing backtick. -/
def readQuoted : List Char → List Char × List Char
  | [] => ([], [])
  | [c] => if c = backtick then ([], []) else ([c], [])
  | c :: d :: cs =>
    if c = backtick then
      if d = backtick then (backtick :: (readQuoted cs).1, (readQuoted cs).2)
      else ([], d :: cs)
    else (c :: (readQuoted (d :: cs)).1, (readQuoted (d :: cs)).2)

/-- Reads an unquoted name: the longest run of identifier characters. -/
def readRaw : List Char → List Char × List Char
  | [] => ([], [])
  | c :: cs =>
    if isIdentChar c then (c :: (readRaw cs).1, (readRaw cs).2) else ([], c :: cs)

/-- Reads a name, quoted or not. -/
def readName : List Char → List Char × List Char
  | [] => ([], [])
  | c :: cs => if c = backtick then readQuoted cs else readRaw (c :: cs)

/-- Reads a terminator. -/
def readKind (cs : List Char) : Option (SegKind × List Char) :=
  match cs with
  | c :: r =>
    if c = '#' then some (SegKind.type, r)
    else if c = '.' then some (SegKind.term, r)
    else if c = '(' then some (SegKind.method, r.drop 2)
    else none
  | [] => none

/-- Reads one segment from the front of a descriptor. -/
def readSegment (cs : List Char) : Option (Segment × List Char) :=
  (readKind (readName cs).2).map (fun kr => (((readName cs).1, kr.1), kr.2))

/-- What the encoder finds at an identifier: a type with its qualified name, a
method or a field. -/
inductive Entity where
  | type (qualifiedName : String)
  | method (m : MethodSymbol)
  | field (f : FieldSymbol)
  deriving DecidableEq, Repr

/-- The entity `descriptorsFor` finds at `id`: the lookups are tried in its
order (class, interface, enum, method, field, trigger). -/
def entityAt (graph : SymbolGraph) (id : SymbolID) : Option Entity :=
  match graph.ClassByID id with
  | some cls => some (Entity.type cls.QualifiedName)
  | none =>
  match graph.InterfaceByID id with
  | some iface => some (Entity.type iface.QualifiedName)
  | none =>
  match graph.EnumByID id with
  | some enum => some (Entity.type enum.QualifiedName)
  | none =>
  match graph.MethodByID id with
  | some method => some (Entity.method method)
  | none =>
  match graph.FieldByID id with
  | some field => some (Entity.field field)
  | none =>
  match graph.TriggerByID id with
  | some trigger => some (Entity.type trigger.QualifiedName)
  | none => none

/-- The graph with no entity. -/
def emptyGraph : SymbolGraph :=
  { ClassByID := fun _ => none
    InterfaceByID := fun _ => none
    EnumByID := fun _ => none
    MethodByID := fun _ => none
    FieldByID := fun _ => none
    TriggerByID := fun _ => none
    VariableByID := fun _ => none
    AllClasses := []
    AllInterfaces := []
    AllEnums := []
    AllTriggers := [] }

/-- Example: the nested class `Outer.Inner` (identifier 2) and its enclosing
class `Outer` (identifier 1), both declared in `Outer.cls`. -/
def nestedGraph : SymbolGraph :=
  let outer : ClassSymbol :=
    { ID := 1, QualifiedName := "Outer"
      Declaration := some
        { Name := "Outer", FilePath := "Outer.cls", Line := 1, Column := 13, DocComment := "" }
      Fields := [], Methods := [], Implements := [], Extends := InvalidSymbol }
  let inner : ClassSymbol :=
    { ID := 2, QualifiedName := "Outer.Inner"
      Declaration := some
        { Name := "Inner", FilePath := "Outer.cls", Line := 2, Column := 17, DocComment := "" }
      Fields := [], Methods := [], Implements := [], Extends := InvalidSymbol }
  { emptyGraph with
    ClassByID := fun id => if id = 1 then some outer else if id = 2 then some inner else none
    AllClasses := [outer, inner] }

/-- Example: the class `MyClass`, declared in `MyClass.cls`. -/
def myClass : ClassSymbol :=
  { ID := 1, QualifiedName := "MyClass"
    Declaration := some
      { Name := "MyClass", FilePath := "MyClass.cls", Line := 1, Column := 13,
        DocComment := "" }
    Fields := [2], Methods := [3, 4], Implements := [], Extends := InvalidSymbol }

/-- Example: the field `count` of `MyClass`, at line 3, column 4. -/
def countField : FieldSymbol :=
  { Name := "count", DeclaringType := 1
    Declaration := some
      { Name := "count", FilePath := "", Line := 3, Column := 4, Getter := false,
        Setter := false } }

/-- Example: the method `getCount` of `MyClass`, at line 5, column 4. -/
def getCountMethod : MethodSymbol :=
  { Name := "getCount", Kind := SymbolKind.Method, DeclaringType := 1
    Declaration := some { Name := "getCount", Line := 5, Column := 4, DocComment := "" }
    Parameters := [] }

/-- Example: the constructor of `MyClass`. -/
def myClassConstructor : MethodSymbol :=
  { Name := "MyClass", Kind := SymbolKind.Constructor, DeclaringType := 1
    Declaration := some { Name := "MyClass", Line := 4, Column := 4, DocComment := "" }
    Parameters := [] }

/-- Example: `MyClass` (identifier 1) with its field `count` (2), its method
`getCount` (3) and its constructor (4). -/
def myClassGraph : SymbolGraph :=
  { emptyGraph with
    ClassByID := fun id => if id = 1 then some myClass else none
    FieldByID := fun id => if id = 2 then some countField else none
    MethodByID := fun id =>
      if id = 3 then some getCountMethod else if id = 4 then some myClassConstructor
      else none
    AllClasses := [myClass] }

/-- Decimal value of a digit string. -/
def digitsValue (cs : List Char) : Nat :=
  cs.foldl (fun a c => 10 * a + (c.toNat - 48)) 0

/-- Reads back a decimal integer with an optional leading `-`. -/
def readInt : List Char → Int
  | [] => 0
  | c :: cs => if c = '-' then - (digitsValue cs : Int) else (digitsValue (c :: cs) : Int)

/-- A sequence of `nextLocal` calls, one per path of the list, with the strings
returned and the final builder. -/
def nextLocals : List String → documentBuilder → List String × documentBuilder
  | [], db => ([], db)
  | p :: ps, db =>
    ((nextLocal p db).1 :: (nextLocals ps (nextLocal p db).2).1,
     (nextLocals ps (nextLocal p db).2).2)

/-- The segments of a type descriptor: one `type` segment per part of the
qualified name. -/
def typePath (qualifiedName : String) : List Segment :=
  (splitChars '.' qualifiedName.data).map (fun p => (p, SegKind.type))

/-- The name segment of a method: the reserved `<init>` for a constructor, the
method's name otherwise. -/
def methodSegmentName (m : MethodSymbol) : String :=
  if m.Kind = SymbolKind.Constructor then "<init>" else m.Name

/-- The segments of the descriptor `descriptorsFor` builds, by the same
recursion; the empty list stands for the empty descriptor. -/
def pathFor (graph : SymbolGraph) : Nat → SymbolID → Option (List Segment)
  | 0, _ => none
  | fuel + 1, id =>
    match entityAt graph id with
    | none => some []
    | some (Entity.type q) => some (typePath q)
    | some (Entity.method m) =>
      match pathFor graph fuel m.DeclaringType with
      | none => none
      | some parent =>
        if parent = [] then some []
        else some (parent ++ [((methodSegmentName m).data, SegKind.method)])
    | some (Entity.field f) =>
      match pathFor graph fuel f.DeclaringType with
      | none => none
      | some parent =>
        if parent = [] then some [] else some (parent ++ [(f.Name.data, SegKind.term)])

/-- Joins parts with a separator: the inverse of `splitChars`. -/
def joinChars (sep : Char) : List (List Char) → List Char
  | [] => []
  | [p] => p
  | p :: q :: r => p ++ sep :: joinChars sep (q :: r)

/-- Example: a class `C` (identifier 1, in `C.cls`) with two overloads of a
method `foo` (identifiers 2 and 3), and an interface (identifier 4) whose
qualified name is `C` as well. -/
def overloadGraph : SymbolGraph :=
  { emptyGraph with
    ClassByID := fun id =>
      if id = 1 then some
        { ID := 1, QualifiedName := "C"
          Declaration := some
            { Name := "C", FilePath := "C.cls", Line := 1, Column := 13, DocComment := "" }
          Fields := [], Methods := [2, 3], Implements := [], Extends := InvalidSymbol }
      else none
    MethodByID := fun id =>
      if id = 2 then some
        { Name := "foo", Kind := SymbolKind.Method, DeclaringType := 1
          Declaration := some { Name := "foo", Line := 2, Column := 9, DocComment := "" }
          Parameters := [5] }
      else if id = 3 then some
        { Name := "foo", Kind := SymbolKind.Method, DeclaringType := 1
          Declaration := some { Name := "foo", Line := 3, Column := 9, DocComment := "" }
          Parameters := [6, 7] }
      else none
    InterfaceByID := fun id =>
      if id = 4 then some
        { ID := 4, QualifiedName := "C"
          Declaration := some { Name := "C", FilePath := "I.cls", Line := 1, Column := 17 }
          Methods := [], Extends := [] }
      else none }

/-- What the encoder does not tell apart: two types with the same qualified
name; two methods whose declaring types have the same descriptor and whose
name segments agree (the segment of a constructor is `<init>`); two fields
whose declaring types have the same descriptor and whose names agree. -/
def SameNaming (graph : SymbolGraph) (fuel : Nat) : Option Entity → Option Entity → Prop
  | some (Entity.type q₁), some (Entity.type q₂) => q₁ = q₂
  | some (Entity.method m₁), some (Entity.method m₂) =>
    descriptorsFor graph fuel m₁.DeclaringType = descriptorsFor graph fuel m₂.DeclaringType ∧
    methodSegmentName m₁ = methodSegmentName m₂
  | some (Entity.field f₁), some (Entity.field f₂) =>
    descriptorsFor graph fuel f₁.DeclaringType = descriptorsFor graph fuel f₂.DeclaringType ∧
    f₁.Name = f₂.Name
  | _, _ => False

/-- The effect of `getOrCreateDoc` on the document map, `key` being the
relative path. -/
def createDoc (key : String) (docs : List Document) : List Document :=
  if docs.any (fun d => d.RelativePath = key) then docs
  else docs ++ [
    { Language := "apex"
      RelativePath := key
      PositionEncoding := PositionEncoding_UTF8CodeUnitOffsetFromLineStart
      Occurrences := []
      Symbols := [] }]

/-- The effect of `addOccurrence` on the document map. -/
def appendOcc (key : String) (o : Occurrence) (docs : List Document) : List Document :=
  docs.map (fun d =>
    if d.RelativePath = key then { d with Occurrences := d.Occurrences ++ [o] } else d)

/-- The occurrence the builder appends for a name at `(line, col)`. -/
def mkOcc (line col : Int) (name symbol : String) (roles : Nat) : Occurrence :=
  { Range := [int32 (line - 1), int32 col, int32 (col + len name)]
    Symbol := symbol
    SymbolRoles := roles }

/-- The document map `ds'` arises from `ds` by creating documents whose keys
satisfy `C` and appending occurrences that satisfy `O`. -/
inductive DocsReach (C : String → Prop) (O : String → Occurrence → Prop) :
    List Document → List Document → Prop where
  | refl (ds : List Document) : DocsReach C O ds ds
  | create {ds ds' : List Document} (key : String) :
      DocsReach C O ds ds' → C key → DocsReach C O ds (createDoc key ds')
  | occ {ds ds' : List Document} (key : String) (o : Occurrence) :
      DocsReach C O ds ds' → O key o → DocsReach C O ds (appendOcc key o ds')

/-- The document with key `key` holds the occurrence `o`. -/
def HasOcc (docs : List Document) (key : String) (o : Occurrence) : Prop :=
  ∃ d ∈ docs, d.RelativePath = key ∧ o ∈ d.Occurrences

/-- The fuel of the environment suffices for both recursive walks on every
identifier. -/
def Adequate (cx : BuilderEnv) : Prop :=
  ∀ id : SymbolID, (descriptorsFor cx.graph cx.fuel id).isSome = true ∧
    (isStdlib cx.graph cx.fuel id).isSome = true

/-- The definition sites of the graph: `DefSite cx path id line col name` holds
when `buildDefinitions` reaches the emission of a definition for the entity
`id`, declared as `name` at `(line, col)`, in the document of the file `path`. -/
inductive DefSite (cx : BuilderEnv) : String → SymbolID → Int → Int → String → Prop where
  | cls (c : ClassSymbol) (decl : ClassDeclaration) :
      c ∈ cx.graph.AllClasses → c.Declaration = some decl → decl.FilePath ≠ "" →
      isMetadataXML decl.FilePath = false →
      DefSite cx decl.FilePath c.ID decl.Line decl.Column decl.Name
  | field (c : ClassSymbol) (cdecl : ClassDeclaration) (fid : SymbolID) (f : FieldSymbol)
      (decl : FieldDeclaration) :
      c ∈ cx.graph.AllClasses → c.Declaration = some cdecl → fid ∈ c.Fields →
      cx.graph.FieldByID fid = some f → f.Declaration = some decl →
      (if decl.FilePath ≠ "" then decl.FilePath else cdecl.FilePath) ≠ "" →
      isMetadataXML (if decl.FilePath ≠ "" then decl.FilePath else cdecl.FilePath) = false →
      DefSite cx (if decl.FilePath ≠ "" then decl.FilePath else cdecl.FilePath) fid
        decl.Line decl.Column decl.Name
  | classMethod (c : ClassSymbol) (cdecl : ClassDeclaration) (mid : SymbolID)
      (m : MethodSymbol) (decl : MethodDeclaration) :
      c ∈ cx.graph.AllClasses → c.Declaration = some cdecl → cdecl.FilePath ≠ "" →
      mid ∈ c.Methods → cx.graph.MethodByID mid = some m → m.Declaration = some decl →
      DefSite cx cdecl.FilePath mid decl.Line decl.Column decl.Name
  | iface (i : InterfaceSymbol) (decl : InterfaceDeclaration) :
      i ∈ cx.graph.AllInterfaces → i.Declaration = some decl → decl.FilePath ≠ "" →
      DefSite cx decl.FilePath i.ID decl.Line decl.Column decl.Name
  | ifaceMethod (i : InterfaceSymbol) (idecl : InterfaceDeclaration) (mid : SymbolID)
      (m : MethodSymbol) (decl : MethodDeclaration) :
      i ∈ cx.graph.AllInterfaces → i.Declaration = some idecl → idecl.FilePath ≠ "" →
      mid ∈ i.Methods → cx.graph.MethodByID mid = some m → m.Declaration = some decl →
      DefSite cx idecl.FilePath mid decl.Line decl.Column decl.Name
  | enum (e : EnumSymbol) (decl : EnumDeclaration) :
      e ∈ cx.graph.AllEnums → e.Declaration = some decl → decl.FilePath ≠ "" →
      DefSite cx decl.FilePath e.ID decl.Line decl.Column decl.Name
  | trigger (t : TriggerSymbol) (decl : TriggerDeclaration) :
      t ∈ cx.graph.AllTriggers → t.Declaration = some decl → decl.FilePath ≠ "" →
      DefSite cx decl.FilePath t.ID decl.Line decl.Column decl.Name

/-- What a definition site may do to the document map: create the document of
its file, and append the definition occurrence when the entity is nameable. -/
def SiteOK (C : String → Prop) (O : String → Occurrence → Prop) (cx : BuilderEnv)
    (path : String) (id : SymbolID) (line col : Int) (name : String) : Prop :=
  C (cx.relativePath path) ∧
  ∀ sym, scipSymbol cx.graph cx.fuel id = some sym → sym ≠ "" →
    O (cx.relativePath path) (mkOcc line col name sym SymbolRole_Definition)

/-- Example: the builder environment of `myClassGraph`, without a binding
table; paths are taken relative to the empty root. -/
def myClassEnv : BuilderEnv :=
  { graph := myClassGraph, binding := none, relativePath := fun p => p, fuel := 3 }

/-- Example: the builder after the definitions pass on `myClassGraph`. -/
def myClassDefinitions : documentBuilder :=
  (buildDefinitions myClassEnv newDocumentBuilder).getD newDocumentBuilder

/-- The lookups and the enumerations of the graph agree: every enumerated type
is found under its own identifier (and under no lookup that `isStdlib` and
`descriptorsFor` try earlier), its identifier is not the invalid sentinel, and
every method or field a type lists, when it is in the graph, is a method or a
field declared by that type. -/
structure Consistent (g : SymbolGraph) : Prop where
  classes : ∀ c ∈ g.AllClasses, c.ID ≠ InvalidSymbol ∧ g.ClassByID c.ID = some c
  interfaces : ∀ i ∈ g.AllInterfaces, i.ID ≠ InvalidSymbol ∧ g.ClassByID i.ID = none ∧
    g.InterfaceByID i.ID = some i
  enums : ∀ e ∈ g.AllEnums, g.ClassByID e.ID = none ∧ g.InterfaceByID e.ID = none ∧
    g.EnumByID e.ID = some e
  triggers : ∀ t ∈ g.AllTriggers, g.ClassByID t.ID = none ∧ g.InterfaceByID t.ID = none ∧
    g.EnumByID t.ID = none ∧ g.MethodByID t.ID = none ∧ g.FieldByID t.ID = none ∧
    g.TriggerByID t.ID = some t
  classMethods : ∀ c ∈ g.AllClasses, ∀ mid ∈ c.Methods, ∀ m, g.MethodByID mid = some m →
    m.DeclaringType = c.ID ∧ mid ≠ InvalidSymbol ∧ g.ClassByID mid = none ∧
    g.InterfaceByID mid = none ∧ g.EnumByID mid = none
  interfaceMethods : ∀ i ∈ g.AllInterfaces, ∀ mid ∈ i.Methods, ∀ m,
    g.MethodByID mid = some m →
    m.DeclaringType = i.ID ∧ mid ≠ InvalidSymbol ∧ g.ClassByID mid = none ∧
    g.InterfaceByID mid = none ∧ g.EnumByID mid = none
  fields : ∀ c ∈ g.AllClasses, ∀ fid ∈ c.Fields, ∀ f, g.FieldByID fid = some f →
    f.DeclaringType = c.ID ∧ fid ≠ InvalidSymbol ∧ g.ClassByID fid = none ∧
    g.InterfaceByID fid = none ∧ g.EnumByID fid = none ∧ g.MethodByID fid = none

/-- The entity `id` is a field whose own declaration names a file that is not a
metadata-descriptor file. -/
def OwnFileField (g : SymbolGraph) (id : SymbolID) : Prop :=
  ∃ f decl, g.FieldByID id = some f ∧ f.Declaration = some decl ∧ decl.FilePath ≠ "" ∧
    isMetadataXML decl.FilePath = false

/-- Example: a class `C` (identifier 1) that is declared but has no source
file, with a field `f` (identifier 2) whose own declaration names the file
`F.cls`. -/
def foreignFieldGraph : SymbolGraph :=
  { emptyGraph with
    ClassByID := fun id =>
      if id = 1 then some
        { ID := 1, QualifiedName := "C"
          Declaration := some
            { Name := "C", FilePath := "", Line := 1, Column := 0, DocComment := "" }
          Fields := [2], Methods := [], Implements := [], Extends := InvalidSymbol }
      else none
    FieldByID := fun id =>
      if id = 2 then some
        { Name := "f", DeclaringType := 1
          Declaration := some
            { Name := "f", FilePath := "F.cls", Line := 7, Column := 4, Getter := false,
              Setter := false } }
      else none
    AllClasses := [
      { ID := 1, QualifiedName := "C"
        Declaration := some
          { Name := "C", FilePath := "", Line := 1, Column := 0, DocComment := "" }
        Fields := [2], Methods := [], Implements := [], Extends := InvalidSymbol }] }

/-- Example: the builder environment of `foreignFieldGraph`. -/
def foreignFieldEnv : BuilderEnv :=
  { graph := foreignFieldGraph, binding := none, relativePath := fun p => p, fuel := 3 }

/-- The reference sites of a binding table: `RefSite b file line col name id`
holds when `buildReferences` examines a reference to the entity `id`, written
as `name` at `(line, col)` in `file` (`b.NodeFiles` of the node); synthetic
identifiers are no sites. -/
inductive RefSite (b : BindingResult) : String → Int → Int → String → SymbolID → Prop where
  | identifier (e : Identifier × SymbolID) :
      e ∈ b.Identifiers → e.1.Synthetic = false →
      RefSite b (b.NodeFiles e.1.Ptr) e.1.Line e.1.Column e.1.Name e.2
  | methodCall (e : MethodCall × SymbolID) :
      e ∈ b.MethodCalls → RefSite b (b.NodeFiles e.1.Ptr) e.1.Line e.1.Column e.1.Name e.2
  | fieldAccess (e : FieldAccess × SymbolID) :
      e ∈ b.FieldAccesses →
      RefSite b (b.NodeFiles e.1.Ptr) e.1.Line e.1.Column e.1.FieldName e.2
  | newExpression (e : NewExpression × ConstructorBinding) :
      e ∈ b.ConstructorBindings →
      RefSite b (b.NodeFiles e.1.Ptr) e.1.Line e.1.Column e.1.TypeName e.2.TypeID

/-- What a reference site may do to the document map: when its file is known
and its target is not foreign, create the document of the file and append a
`ReadAccess` occurrence whose identifier is the target's canonical identifier
or a local identifier. -/
def RefOK (C : String → Prop) (O : String → Occurrence → Prop) (cx : BuilderEnv)
    (file : String) (line col : Int) (name : String) (id : SymbolID) : Prop :=
  file ≠ "" → isStdlib cx.graph cx.fuel id = some false →
    ∀ sym, sym ≠ "" →
      (scipSymbol cx.graph cx.fuel id = some sym ∨
        (scipSymbol cx.graph cx.fuel id = some "" ∧ ∃ n : Int, sym = localSymbol n)) →
      C (cx.relativePath file) ∧
      O (cx.relativePath file) (mkOcc line col name sym SymbolRole_ReadAccess)

/-- The entity has a non-empty canonical identifier. -/
def Nameable (cx : BuilderEnv) (id : SymbolID) : Prop :=
  ∃ t, scipSymbol cx.graph cx.fuel id = some t ∧ t ≠ ""

/-- Example: the binding table of `Greeter.cls`, which reads `obj.count`
(node 1) and calls `obj.getCount()` (node 2) on a `MyClass`. -/
def crossFileBinding : BindingResult :=
  { Identifiers := []
    MethodCalls := [({ Ptr := 2, Line := 5, Column := 12, Name := "getCount" }, 3)]
    FieldAccesses := [({ Ptr := 1, Line := 4, Column := 12, FieldName := "count" }, 2)]
    ConstructorBindings := []
    NodeFiles := fun p => if p = 1 ∨ p = 2 then "Greeter.cls" else "" }

/-- Example: `myClassGraph` with the binding table of `Greeter.cls`. -/
def crossFileEnv : BuilderEnv :=
  { graph := myClassGraph
    binding := some crossFileBinding
    relativePath := fun p => p
    fuel := 3 }

/-- Example: a class `C` of `C.cls` with a method `m` that has one parameter
`p` (identifier 3); the body of `m` uses `p` once, at line 3, column 4. -/
def parameterEnv : BuilderEnv :=
  { graph :=
      { emptyGraph with
        ClassByID := fun id =>
          if id = 1 then some
            { ID := 1, QualifiedName := "C"
              Declaration := some
                { Name := "C", FilePath := "C.cls", Line := 1, Column := 13, DocComment := "" }
              Fields := [], Methods := [2], Implements := [], Extends := InvalidSymbol }
          else none
        MethodByID := fun id =>
          if id = 2 then some
            { Name := "m", Kind := SymbolKind.Method, DeclaringType := 1
              Declaration := some { Name := "m", Line := 2, Column := 9, DocComment := "" }
              Parameters := [3] }
          else none
        VariableByID := fun id =>
          if id = 3 then some
            { Kind := SymbolKind.Parameter, Parent := 2, Declaration := some { Name := "p" } }
          else none
        AllClasses := [
          { ID := 1, QualifiedName := "C"
            Declaration := some
              { Name := "C", FilePath := "C.cls", Line := 1, Column := 13, DocComment := "" }
            Fields := [], Methods := [2], Implements := [], Extends := InvalidSymbol }] }
    binding := some
      { Identifiers := [({ Ptr := 1, Synthetic := false, Line := 3, Column := 4, Name := "p" }, 3)]
        MethodCalls := []
        FieldAccesses := []
        ConstructorBindings := []
        NodeFiles := fun p => if p = 1 then "C.cls" else "" }
    relativePath := fun p => p
    fuel := 4 }

/-- Example: the custom object `TestObject__c`, declared by the metadata
descriptor `TestObject__c.object-meta.xml`, and a class `User` of `User.cls`
that constructs it at line 3, column 25. -/
def customObjectEnv : BuilderEnv :=
  { graph :=
      { emptyGraph with
        ClassByID := fun id =>
          if id = 1 then some
            { ID := 1, QualifiedName := "TestObject__c"
              Declaration := some
                { Name := "TestObject__c", FilePath := "TestObject__c.object-meta.xml",
                  Line := 1, Column := 0, DocComment := "" }
              Fields := [], Methods := [], Implements := [], Extends := InvalidSymbol }
          else if id = 2 then some
            { ID := 2, QualifiedName := "User"
              Declaration := some
                { Name := "User", FilePath := "User.cls", Line := 1, Column := 13,
                  DocComment := "" }
              Fields := [], Methods := [], Implements := [], Extends := InvalidSymbol }
          else none
        AllClasses := [
          { ID := 1, QualifiedName := "TestObject__c"
            Declaration := some
              { Name := "TestObject__c", FilePath := "TestObject__c.object-meta.xml",
                Line := 1, Column := 0, DocComment := "" }
            Fields := [], Methods := [], Implements := [], Extends := InvalidSymbol },
          { ID := 2, QualifiedName := "User"
            Declaration := some
              { Name := "User", FilePath := "User.cls", Line := 1, Column := 13,
                DocComment := "" }
            Fields := [], Methods := [], Implements := [], Extends := InvalidSymbol }] }
    binding := some
      { Identifiers := []
        MethodCalls := []
        FieldAccesses := []
        ConstructorBindings :=
          [({ Ptr := 1, Line := 3, Column := 25, TypeName := "TestObject__c" }, { TypeID := 1 })]
        NodeFiles := fun p => if p = 1 then "User.cls" else "" }
    relativePath := fun p => p
    fuel := 4 }

/-- The symbol-metadata records the builder holds after both passes. -/
def registeredSymbols (cx : BuilderEnv) : Option (List String) :=
  match buildDefinitions cx newDocumentBuilder with
  | none => none
  | some db =>
    match buildReferences cx db with
    | none => none
    | some db => some (db.symbolInfos.map SymbolInformation.Symbol)

/-- Example: `parameterEnv` with a second use of the parameter `p` in the same
file, at line 4, column 8. -/
def twoUsesEnv : BuilderEnv :=
  { parameterEnv with
    binding := some
      { Identifiers := [
          ({ Ptr := 1, Synthetic := false, Line := 3, Column := 4, Name := "p" }, 3),
          ({ Ptr := 2, Synthetic := false, Line := 4, Column := 8, Name := "p" }, 3)]
        MethodCalls := []
        FieldAccesses := []
        ConstructorBindings := []
        NodeFiles := fun p => if p = 1 ∨ p = 2 then "C.cls" else "" } }

/-- Example: the binding table of `User.cls`, which constructs the class `C`
of `foreignFieldGraph` (a class without a source file) at line 3, column 20,
and holds a synthetic identifier node for the field `f`. -/
def foreignCallBinding : BindingResult :=
  { Identifiers := [({ Ptr := 2, Synthetic := true, Line := 3, Column := 4, Name := "f" }, 2)]
    MethodCalls := []
    FieldAccesses := []
    ConstructorBindings := [({ Ptr := 1, Line := 3, Column := 20, TypeName := "C" }, { TypeID := 1 })]
    NodeFiles := fun p => if p = 1 ∨ p = 2 then "User.cls" else "" }

/-- Example: `foreignFieldGraph` with the binding table of `User.cls`. -/
def foreignCallEnv : BuilderEnv :=
  { graph := foreignFieldGraph
    binding := some foreignCallBinding
    relativePath := fun p => p
    fuel := 3 }

/-- An identifier that may stand on an occurrence: non-empty, and starting with
`scip-apex ` or with `local `. -/
def WellFormedSymbol (s : String) : Prop :=
  s ≠ "" ∧ ((∃ r, s = "scip-apex " ++ r) ∨ (∃ r, s = "local " ++ r))

/-- The value is representable as an `int32`. -/
def FitsInt32 (x : Int) : Prop := -2147483648 ≤ x ∧ x < 2147483648

/-- The site an occurrence with the given role is appended for: a definition
site with its declared line, column and name, or a reference site with the
line and column of the node and the name written there. -/
def SpanSite (cx : BuilderEnv) (roles : Nat) (line col : Int) (name : String) : Prop :=
  (roles = SymbolRole_Definition ∧ ∃ path id, DefSite cx path id line col name) ∨
  (roles = SymbolRole_ReadAccess ∧
    ∃ b file id, cx.binding = some b ∧ RefSite b file line col name id)

/-- The file paths for which a document is created without a test for
metadata-descriptor files: the declared file of a class that lists a declared
method, of an interface, of an enum or of a trigger, and the file of a
reference site whose target is not foreign. -/
inductive UnguardedPath (cx : BuilderEnv) : String → Prop where
  | classMethod (c : ClassSymbol) (decl : ClassDeclaration) (mid : SymbolID)
      (m : MethodSymbol) (mdecl : MethodDeclaration) :
      c ∈ cx.graph.AllClasses → c.Declaration = some decl → decl.FilePath ≠ "" →
      mid ∈ c.Methods → cx.graph.MethodByID mid = some m → m.Declaration = some mdecl →
      UnguardedPath cx decl.FilePath
  | iface (i : InterfaceSymbol) (decl : InterfaceDeclaration) :
      i ∈ cx.graph.AllInterfaces → i.Declaration = some decl → decl.FilePath ≠ "" →
      UnguardedPath cx decl.FilePath
  | enum (e : EnumSymbol) (decl : EnumDeclaration) :
      e ∈ cx.graph.AllEnums → e.Declaration = some decl → decl.FilePath ≠ "" →
      UnguardedPath cx decl.FilePath
  | trigger (t : TriggerSymbol) (decl : TriggerDeclaration) :
      t ∈ cx.graph.AllTriggers → t.Declaration = some decl → decl.FilePath ≠ "" →
      UnguardedPath cx decl.FilePath
  | reference (b : BindingResult) (file : String) (line col : Int) (name : String)
      (id : SymbolID) :
      cx.binding = some b → RefSite b file line col name id → file ≠ "" →
      isStdlib cx.graph cx.fuel id = some false → UnguardedPath cx file

/-- Example: an enum `Shape` whose declaration names the file `Shape.object`. -/
def metadataEnumEnv : BuilderEnv :=
  { graph :=
      { emptyGraph with
        EnumByID := fun id =>
          if id = 1 then some
            { ID := 1, QualifiedName := "Shape"
              Declaration := some
                { Name := "Shape", FilePath := "Shape.object", Line := 1, Column := 12 } }
          else none
        AllEnums := [
          { ID := 1, QualifiedName := "Shape"
            Declaration := some
              { Name := "Shape", FilePath := "Shape.object", Line := 1, Column := 12 } }] }
    binding := none
    relativePath := fun p => p
    fuel := 3 }

/-- Example: a class `C` declared at column `2147483647` of the first line of
`C.cls`. -/
def wideLineEnv : BuilderEnv :=
  { graph :=
      { emptyGraph with
        ClassByID := fun id =>
          if id = 1 then some
            { ID := 1, QualifiedName := "C"
              Declaration := some
                { Name := "C", FilePath := "C.cls", Line := 1, Column := 2147483647,
                  DocComment := "" }
              Fields := [], Methods := [], Implements := [], Extends := InvalidSymbol }
          else none
        AllClasses := [
          { ID := 1, QualifiedName := "C"
            Declaration := some
              { Name := "C", FilePath := "C.cls", Line := 1, Column := 2147483647,
                DocComment := "" }
            Fields := [], Methods := [], Implements := [], Extends := InvalidSymbol }] }
    binding := none
    relativePath := fun p => p
    fuel := 3 }

/-- The effect of `symbolInfo` on the map of records. -/
def insertInfo (sym displayName : String) (kind : SymbolInformation_Kind)
    (infos : List SymbolInformation) : List SymbolInformation :=
  if infos.any (fun si => si.Symbol = sym) then infos
  else infos ++ [
    { Symbol := sym
      DisplayName := displayName
      Kind := kind
      Documentation := []
      Relationships := [] }]

/-- The effect of `setDocumentation` on the map of records. -/
def setDocInfo (sym doc : String) (infos : List SymbolInformation) : List SymbolInformation :=
  infos.map (fun si => if si.Symbol = sym then { si with Documentation := [doc] } else si)

/-- The effect of `appendRelationship` on the map of records. -/
def addRelInfo (sym : String) (r : Relationship) (infos : List SymbolInformation) :
    List SymbolInformation :=
  infos.map (fun si =>
    if si.Symbol = sym then { si with Relationships := si.Relationships ++ [r] } else si)

/-- The map of records `b` arises from `a` by registering records, setting
documentation and appending relationships that satisfy `R`. -/
inductive InfosReach (R : Relationship → Prop) :
    List SymbolInformation → List SymbolInformation → Prop where
  | refl (a : List SymbolInformation) : InfosReach R a a
  | info {a b : List SymbolInformation} (sym displayName : String)
      (kind : SymbolInformation_Kind) :
      InfosReach R a b → InfosReach R a (insertInfo sym displayName kind b)
  | doc {a b : List SymbolInformation} (sym doc : String) :
      InfosReach R a b → InfosReach R a (setDocInfo sym doc b)
  | rel {a b : List SymbolInformation} (sym : String) (r : Relationship) :
      R r → InfosReach R a b → InfosReach R a (addRelInfo sym r b)

/-- The map holds a record with the key `sym`. -/
def HasInfo (infos : List SymbolInformation) (sym : String) : Prop :=
  ∃ si ∈ infos, si.Symbol = sym

/-- The record with the key `sym` holds the relationship `r`. -/
def HasRel (infos : List SymbolInformation) (sym : String) (r : Relationship) : Prop :=
  ∃ si ∈ infos, si.Symbol = sym ∧ r ∈ si.Relationships

/-- The relationships the definitions pass appends: the target is an entity
that is not foreign and has a non-empty canonical identifier, which is the
relationship's `Symbol`; exactly one of the two marks is set. -/
def RelTarget (cx : BuilderEnv) (r : Relationship) : Prop :=
  ∃ id, isStdlib cx.graph cx.fuel id = some false ∧
    scipSymbol cx.graph cx.fuel id = some r.Symbol ∧ r.Symbol ≠ "" ∧
    ((r.IsImplementation = true ∧ r.IsReference = false) ∨
     (r.IsReference = true ∧ r.IsImplementation = false))

/-- Example: the class `Circle` of `Circle.cls` (identifier 1) implements the
interface `Comparable` (identifier 2, without a declaration, hence foreign)
and the interface `Drawable` of `Drawable.cls` (identifier 4), and extends the
class `Shape` of `Shape.cls` (identifier 5); `Shape` extends the class `Object`
(identifier 3, without a declaration); `Drawable` extends the interface
`Visible` of `Visible.cls` (identifier 6). -/
def shapesGraph : SymbolGraph :=
  let circle : ClassSymbol :=
    { ID := 1, QualifiedName := "Circle"
      Declaration := some
        { Name := "Circle", FilePath := "Circle.cls", Line := 1, Column := 13,
          DocComment := "" }
      Fields := [], Methods := [], Implements := [2, 4], Extends := 5 }
  let shape : ClassSymbol :=
    { ID := 5, QualifiedName := "Shape"
      Declaration := some
        { Name := "Shape", FilePath := "Shape.cls", Line := 1, Column := 13,
          DocComment := "" }
      Fields := [], Methods := [], Implements := [], Extends := 3 }
  let object : ClassSymbol :=
    { ID := 3, QualifiedName := "Object", Declaration := none
      Fields := [], Methods := [], Implements := [], Extends := InvalidSymbol }
  let comparable : InterfaceSymbol :=
    { ID := 2, QualifiedName := "Comparable", Declaration := none
      Methods := [], Extends := [] }
  let drawable : InterfaceSymbol :=
    { ID := 4, QualifiedName := "Drawable"
      Declaration := some
        { Name := "Drawable", FilePath := "Drawable.cls", Line := 1, Column := 17 }
      Methods := [], Extends := [6] }
  let visible : InterfaceSymbol :=
    { ID := 6, QualifiedName := "Visible"
      Declaration := some
        { Name := "Visible", FilePath := "Visible.cls", Line := 1, Column := 17 }
      Methods := [], Extends := [] }
  { emptyGraph with
    ClassByID := fun id =>
      if id = 1 then some circle else if id = 5 then some shape
      else if id = 3 then some object else none
    InterfaceByID := fun id =>
      if id = 2 then some comparable else if id = 4 then some drawable
      else if id = 6 then some visible else none
    AllClasses := [circle, shape, object]
    AllInterfaces := [comparable, drawable, visible] }

/-- Example: the builder environment of `shapesGraph`, without a binding
table. -/
def shapesEnv : BuilderEnv :=
  { graph := shapesGraph, binding := none, relativePath := fun p => p, fuel := 2 }

/-- The relationships of the records after the definitions pass on a fresh
builder, by identifier. -/
def registeredRelationships (cx : BuilderEnv) : Option (List (String × List Relationship)) :=
  (buildDefinitions cx newDocumentBuilder).map
    (fun db => db.symbolInfos.map (fun si => (si.Symbol, si.Relationships)))

/-- Example: the class `C` of `C.cls` (identifier 1) with its constructor
(identifier 2), a regular method named `<init>` (identifier 3) and a regular
method named `C` like the class (identifier 4). -/
def initGraph : SymbolGraph :=
  { emptyGraph with
    ClassByID := fun id =>
      if id = 1 then some
        { ID := 1, QualifiedName := "C"
          Declaration := some
            { Name := "C", FilePath := "C.cls", Line := 1, Column := 13, DocComment := "" }
          Fields := [], Methods := [2, 3, 4], Implements := [], Extends := InvalidSymbol }
      else none
    MethodByID := fun id =>
      if id = 2 then some
        { Name := "C", Kind := SymbolKind.Constructor, DeclaringType := 1
          Declaration := none, Parameters := [] }
      else if id = 3 then some
        { Name := "<init>", Kind := SymbolKind.Method, DeclaringType := 1
          Declaration := none, Parameters := [] }
      else if id = 4 then some
        { Name := "C", Kind := SymbolKind.Method, DeclaringType := 1
          Declaration := none, Parameters := [] }
      else none }

/-- The link the two recursive walks follow from an identifier: the declaring
type of a method or of a field, the parent of a variable (lookups in the order
of `isStdlib`); `none` where neither walk recurses. -/
def walkLink (g : SymbolGraph) (id : SymbolID) : Option SymbolID :=
  match g.ClassByID id with
  | some _ => none
  | none =>
  match g.InterfaceByID id with
  | some _ => none
  | none =>
  match g.EnumByID id with
  | some _ => none
  | none =>
  match g.MethodByID id with
  | some method => some method.DeclaringType
  | none =>
  match g.FieldByID id with
  | some field => some field.DeclaringType
  | none =>
  match g.TriggerByID id with
  | some _ => none
  | none =>
  match g.VariableByID id with
  | some v => some v.Parent
  | none => none

/-- The identifier reached from `id` after `n` links, `none` when the chain of
links from `id` has fewer than `n` links. -/
def walk (g : SymbolGraph) : Nat → SymbolID → Option SymbolID
  | 0, id => some id
  | n + 1, id =>
    match walkLink g id with
    | none => none
    | some p => walk g n p

/-- The links are acyclic: following one or more links from an identifier
never leads back to it. -/
def Acyclic (g : SymbolGraph) : Prop := ∀ id n, walk g (n + 1) id ≠ some id

/-- The rule of the Stdlib Classifier in the words of the specification; an
identifier denotes the first entity the lookups find, in the order class,
interface, enum, method, field, trigger, variable. An entity is foreign when it
is the invalid sentinel, is unknown to the graph, is a type or trigger whose
declaration is absent or names no file, or is a member or variable whose
declaring type or parent is foreign. -/
inductive Foreign (g : SymbolGraph) : SymbolID → Prop where
  | invalid : Foreign g InvalidSymbol
  | unknown (id : SymbolID) :
      g.ClassByID id = none → g.InterfaceByID id = none → g.EnumByID id = none →
      g.MethodByID id = none → g.FieldByID id = none → g.TriggerByID id = none →
      g.VariableByID id = none → Foreign g id
  | cls (id : SymbolID) (c : ClassSymbol) :
      g.ClassByID id = some c →
      (c.Declaration = none ∨ ∃ d, c.Declaration = some d ∧ d.FilePath = "") → Foreign g id
  | iface (id : SymbolID) (i : InterfaceSymbol) :
      g.ClassByID id = none → g.InterfaceByID id = some i →
      (i.Declaration = none ∨ ∃ d, i.Declaration = some d ∧ d.FilePath = "") → Foreign g id
  | enum (id : SymbolID) (e : EnumSymbol) :
      g.ClassByID id = none → g.InterfaceByID id = none → g.EnumByID id = some e →
      (e.Declaration = none ∨ ∃ d, e.Declaration = some d ∧ d.FilePath = "") → Foreign g id
  | method (id : SymbolID) (m : MethodSymbol) :
      g.ClassByID id = none → g.InterfaceByID id = none → g.EnumByID id = none →
      g.MethodByID id = some m → Foreign g m.DeclaringType → Foreign g id
  | field (id : SymbolID) (f : FieldSymbol) :
      g.ClassByID id = none → g.InterfaceByID id = none → g.EnumByID id = none →
      g.MethodByID id = none → g.FieldByID id = some f → Foreign g f.DeclaringType →
      Foreign g id
  | trigger (id : SymbolID) (t : TriggerSymbol) :
      g.ClassByID id = none → g.InterfaceByID id = none → g.EnumByID id = none →
      g.MethodByID id = none → g.FieldByID id = none → g.TriggerByID id = some t →
      (t.Declaration = none ∨ ∃ d, t.Declaration = some d ∧ d.FilePath = "") → Foreign g id
  | var (id : SymbolID) (v : VariableSymbol) :
      g.ClassByID id = none → g.InterfaceByID id = none → g.EnumByID id = none →
      g.MethodByID id = none → g.FieldByID id = none → g.TriggerByID id = none →
      g.VariableByID id = some v → Foreign g v.Parent → Foreign g id

/-- The kinds under which the definitions pass registers records: the kinds of
types, triggers, fields, properties and parameters, and `scipKind` of the kind
of a method of the graph that has a declaration. -/
def RecordKind (cx : BuilderEnv) (k : SymbolInformation_Kind) : Prop :=
  k = scipKind SymbolKind.Class ∨ k = scipKind SymbolKind.Interface ∨
  k = scipKind SymbolKind.Enum ∨ k = scipKind SymbolKind.Trigger ∨
  k = scipKind SymbolKind.Field ∨ k = scipKind SymbolKind.Property ∨
  k = scipKind SymbolKind.Parameter ∨
  ∃ mid m decl, cx.graph.MethodByID mid = some m ∧ m.Declaration = some decl ∧
    k = scipKind m.Kind

/-- The builder `db'` arises from `db` by the elementary operations of the two
passes: creating a document, appending a `Definition` occurrence and
registering the record of its identifier, registering a record, setting
documentation, appending a relationship, advancing a counter, appending a
`ReadAccess` occurrence. -/
inductive BuilderReach (cx : BuilderEnv) : documentBuilder → documentBuilder → Prop where
  | refl (db : documentBuilder) : BuilderReach cx db db
  | doc {db db' : documentBuilder} (p : String) :
      BuilderReach cx db db' → BuilderReach cx db (getOrCreateDoc cx p db')
  | define {db db' : documentBuilder} (key : String) (line col endCol : Int)
      (sym name : String) (kind : SymbolInformation_Kind) :
      RecordKind cx kind → BuilderReach cx db db' →
      BuilderReach cx db (symbolInfo sym name kind
        (addOccurrence key line col endCol sym SymbolRole_Definition db'))
  | info {db db' : documentBuilder} (sym name : String) (kind : SymbolInformation_Kind) :
      RecordKind cx kind → BuilderReach cx db db' →
      BuilderReach cx db (symbolInfo sym name kind db')
  | setDoc {db db' : documentBuilder} (sym doc : String) :
      BuilderReach cx db db' → BuilderReach cx db (setDocumentation sym doc db')
  | rel {db db' : documentBuilder} (sym : String) (r : Relationship) :
      BuilderReach cx db db' → BuilderReach cx db (appendRelationship sym r db')
  | counter {db db' : documentBuilder} (p : String) :
      BuilderReach cx db db' → BuilderReach cx db (nextLocal p db').2
  | ref {db db' : documentBuilder} (key : String) (line col endCol : Int) (sym : String) :
      BuilderReach cx db db' →
      BuilderReach cx db (addOccurrence key line col endCol sym SymbolRole_ReadAccess db')

/-- Every `Definition` occurrence of every document has a record under its
identifier. -/
def DefsCovered (db : documentBuilder) : Prop :=
  ∀ d ∈ db.docs, ∀ o ∈ d.Occurrences, isDefinition o = true → HasInfo db.symbolInfos o.Symbol

/-- Example: the class `C` of `C.cls` with a declared method `m` whose kind is
none of those `scipKind` names. -/
def otherKindEnv : BuilderEnv :=
  { graph :=
      { emptyGraph with
        ClassByID := fun id =>
          if id = 1 then some
            { ID := 1, QualifiedName := "C"
              Declaration := some
                { Name := "C", FilePath := "C.cls", Line := 1, Column := 13, DocComment := "" }
              Fields := [], Methods := [2], Implements := [], Extends := InvalidSymbol }
          else none
        MethodByID := fun id =>
          if id = 2 then some
            { Name := "m", Kind := SymbolKind.Other, DeclaringType := 1
              Declaration := some { Name := "m", Line := 2, Column := 9, DocComment := "" }
              Parameters := [] }
          else none
        AllClasses := [
          { ID := 1, QualifiedName := "C"
            Declaration := some
              { Name := "C", FilePath := "C.cls", Line := 1, Column := 13, DocComment := "" }
            Fields := [], Methods := [2], Implements := [], Extends := InvalidSymbol }] }
    binding := none
    relativePath := fun p => p
    fuel := 3 }

/-- `symbolInfo` of occurrences.go on the map itself, as a list of key-value
pairs: the lookup is by key, a new record is stored under the key `sym`. -/
def symbolInfoKeyed (sym displayName : String) (kind : SymbolInformation_Kind)
    (m : List (String × SymbolInformation)) : List (String × SymbolInformation) :=
  if m.any (fun e => e.1 = sym) then m
  else m ++ [(sym,
    { Symbol := sym
      DisplayName := displayName
      Kind := kind
      Documentation := []
      Relationships := [] })]

/-- The parameter declaration `registerParameters` finds for a parameter
identifier: that of the variable of the graph with this identifier, when it is
a parameter declaration. -/
def declaredParameter (cx : BuilderEnv) (id : SymbolID) : Option ParameterDeclaration :=
  match cx.graph.VariableByID id with
  | none => none
  | some v => v.Declaration

/-- The parameter declarations `registerParameters` finds for a list of
parameter identifiers, in order. -/
def declaredParameters (cx : BuilderEnv) (ids : List SymbolID) : List ParameterDeclaration :=
  ids.filterMap (declaredParameter cx)

/-- The records of a list of parameter declarations, numbered from `c + 1`. -/
def parameterRecords (c : Int) : List ParameterDeclaration → List SymbolInformation
  | [] => []
  | p :: ps =>
    { Symbol := localSymbol (c + 1)
      DisplayName := p.Name
      Kind := scipKind SymbolKind.Parameter
      Documentation := []
      Relationships := [] } :: parameterRecords (c + 1) ps

/-- Example: the class `A` of `A.cls` (identifier 1) with the method `m(x)`
(identifier 2, parameter `x` with identifier 3) and the class `B` of `B.cls`
(identifier 4) with the method `n(y)` (identifier 5, parameter `y` with
identifier 6); both parameters have a parameter declaration. -/
def twoFilesEnv : BuilderEnv :=
  { graph :=
      { emptyGraph with
        ClassByID := fun id =>
          if id = 1 then some
            { ID := 1, QualifiedName := "A"
              Declaration := some
                { Name := "A", FilePath := "A.cls", Line := 1, Column := 13, DocComment := "" }
              Fields := [], Methods := [2], Implements := [], Extends := InvalidSymbol }
          else if id = 4 then some
            { ID := 4, QualifiedName := "B"
              Declaration := some
                { Name := "B", FilePath := "B.cls", Line := 1, Column := 13, DocComment := "" }
              Fields := [], Methods := [5], Implements := [], Extends := InvalidSymbol }
          else none
        MethodByID := fun id =>
          if id = 2 then some
            { Name := "m", Kind := SymbolKind.Method, DeclaringType := 1
              Declaration := some { Name := "m", Line := 2, Column := 9, DocComment := "" }
              Parameters := [3] }
          else if id = 5 then some
            { Name := "n", Kind := SymbolKind.Method, DeclaringType := 4
              Declaration := some { Name := "n", Line := 2, Column := 9, DocComment := "" }
              Parameters := [6] }
          else none
        VariableByID := fun id =>
          if id = 3 then some
            { Kind := SymbolKind.Parameter, Parent := 2, Declaration := some { Name := "x" } }
          else if id = 6 then some
            { Kind := SymbolKind.Parameter, Parent := 5, Declaration := some { Name := "y" } }
          else none
        AllClasses := [
          { ID := 1, QualifiedName := "A"
            Declaration := some
              { Name := "A", FilePath := "A.cls", Line := 1, Column := 13, DocComment := "" }
            Fields := [], Methods := [2], Implements := [], Extends := InvalidSymbol },
          { ID := 4, QualifiedName := "B"
            Declaration := some
              { Name := "B", FilePath := "B.cls", Line := 1, Column := 13, DocComment := "" }
            Fields := [], Methods := [5], Implements := [], Extends := InvalidSymbol }] }
    binding := none
    relativePath := fun p => p
    fuel := 3 }

/-- Example: the method `m(x)` of `twoFilesEnv`. -/
def methodOfA : MethodSymbol :=
  { Name := "m", Kind := SymbolKind.Method, DeclaringType := 1
    Declaration := some { Name := "m", Line := 2, Column := 9, DocComment := "" }
    Parameters := [3] }

/-- Example: the method `n(y)` of `twoFilesEnv`. -/
def methodOfB : MethodSymbol :=
  { Name := "n", Kind := SymbolKind.Method, DeclaringType := 4
    Declaration := some { Name := "n", Line := 2, Column := 9, DocComment := "" }
    Parameters := [6] }

/-- Example: a class `X` whose declaration names the metadata-descriptor file
`X.object`, with a declared method `m` (identifier 2). -/
def metadataMethodEnv : BuilderEnv :=
  { graph :=
      { emptyGraph with
        ClassByID := fun id =>
          if id = 1 then some
            { ID := 1, QualifiedName := "X"
              Declaration := some
                { Name := "X", FilePath := "X.object", Line := 1, Column := 0,
                  DocComment := "" }
              Fields := [], Methods := [2], Implements := [], Extends := InvalidSymbol }
          else none
        MethodByID := fun id =>
          if id = 2 then some
            { Name := "m", Kind := SymbolKind.Method, DeclaringType := 1
              Declaration := some { Name := "m", Line := 2, Column := 9, DocComment := "" }
              Parameters := [] }
          else none
        AllClasses := [
          { ID := 1, QualifiedName := "X"
            Declaration := some
              { Name := "X", FilePath := "X.object", Line := 1, Column := 0,
                DocComment := "" }
            Fields := [], Methods := [2], Implements := [], Extends := InvalidSymbol }] }
    binding := none
    relativePath := fun p => p
    fuel := 3 }

/-! # Theorems -/

/-! ## Names and escaping -/

theorem escapeName_data (name : String) : (escapeName name).data = escapeChars name.data := by
  unfold escapeName escapeChars
  split
  · simp [String.data_append]
    rfl
  · rfl

theorem replaceBackticks_eq_double (cs : List Char) :
    replaceBackticks cs = doubleBackticks cs := by
  induction cs with
  | nil => rfl
  | cons c cs ih =>
    by_cases h : c = backtick <;> simp [replaceBackticks, doubleBackticks, h, List.flatMap_cons] at ih ⊢
    <;> exact ih

theorem isIdentChar_iff (c : Char) : isIdentChar c = true ↔ SafeChar c := by
  unfold isIdentChar SafeChar
  simp only [Bool.or_eq_true, Bool.and_eq_true, decide_eq_true_eq, beq_iff_eq]
  tauto

theorem halve_replace (cs : List Char) : halveBackticks (replaceBackticks cs) = cs := by
  induction cs with
  | nil => rfl
  | cons c cs ih =>
    by_cases h : c = backtick
    · simp [replaceBackticks, h, halveBackticks, ih]
    · simp only [replaceBackticks, h, if_false]
      cases hr : replaceBackticks cs with
      | nil => rw [hr] at ih; simp [halveBackticks, ← ih]
      | cons d ds => rw [hr] at ih; simp [halveBackticks, h, ih]

theorem backtick_not_ident : isIdentChar backtick = false := by decide

theorem unescape_escape (name : String) : unescapeName (escapeName name) = name := by
  by_cases h : name.data.any (fun ch => !isIdentChar ch) = true
  · have hd : (escapeName name).data = backtick :: (replaceBackticks name.data ++ [backtick]) := by
      rw [escapeName_data, escapeChars, if_pos h]
    unfold unescapeName
    rw [hd]
    simp [halve_replace]
  · have hn : escapeName name = name := by simp [escapeName, h]
    rw [hn]
    unfold unescapeName
    cases hd : name.data with
    | nil => rfl
    | cons c cs =>
      have : c ≠ backtick := by
        intro hc
        apply h
        rw [hd, hc]
        simp [backtick_not_ident]
      simp [this]

theorem escapeName_injective : Function.Injective escapeName := by
  intro a b h
  rw [← unescape_escape a, ← unescape_escape b, h]

theorem splitChars_ne_nil (sep : Char) (cs : List Char) : splitChars sep cs ≠ [] := by
  cases cs with
  | nil => simp [splitChars]
  | cons c cs =>
    unfold splitChars
    split
    · simp
    · split <;> simp

theorem splitChars_append_sep (sep : Char) (a b : List Char) :
    splitChars sep (a ++ sep :: b) = splitChars sep a ++ splitChars sep b := by
  induction a with
  | nil => simp [splitChars]
  | cons c a ih =>
    by_cases h : c = sep
    · simp [splitChars, h, ih]
    · simp only [List.cons_append, splitChars, h, if_false]
      change (match splitChars sep (a ++ sep :: b) with
        | [] => [[c]]
        | p :: ps => (c :: p) :: ps) = _
      rw [ih]
      cases hs : splitChars sep a with
      | nil => exact absurd hs (splitChars_ne_nil sep a)
      | cons p ps => simp

theorem splitChars_of_not_mem (sep : Char) (b : List Char) (h : sep ∉ b) :
    splitChars sep b = [b] := by
  induction b with
  | nil => rfl
  | cons c b ih =>
    have hc : c ≠ sep := fun e => h (by simp [e])
    have hb : sep ∉ b := fun e => h (by simp [e])
    simp [splitChars, hc, ih hb]

theorem splitDots_append_dot (a b : String) :
    splitDots (a ++ "." ++ b) = splitDots a ++ splitDots b := by
  unfold splitDots
  have : (a ++ "." ++ b).data = a.data ++ '.' :: b.data := by
    simp [String.data_append]
  rw [this, splitChars_append_sep, List.map_append]

theorem splitDots_of_no_dot (b : String) (h : '.' ∉ b.data) : splitDots b = [b] := by
  unfold splitDots
  rw [splitChars_of_not_mem _ _ h]
  rfl

theorem foldl_descriptor (parts : List String) (acc : String) :
    parts.foldl (fun b part => b ++ escapeName part ++ "#") acc
      = acc ++ partsDescriptor parts := by
  induction parts generalizing acc with
  | nil => simp [partsDescriptor, String.join]
  | cons p ps ih =>
    rw [List.foldl_cons, ih]
    apply String.ext
    simp [partsDescriptor, String.data_append, String.data_join]

theorem typeDescriptors_eq (q : String) :
    typeDescriptors q = partsDescriptor (splitDots q) := by
  unfold typeDescriptors
  rw [foldl_descriptor]
  simp

theorem partsDescriptor_append (l₁ l₂ : List String) :
    partsDescriptor (l₁ ++ l₂) = partsDescriptor l₁ ++ partsDescriptor l₂ := by
  apply String.ext
  simp [partsDescriptor, String.data_append, String.data_join]

theorem typeDescriptors_append_dot (a b : String) :
    typeDescriptors (a ++ "." ++ b) = typeDescriptors a ++ typeDescriptors b := by
  simp only [typeDescriptors_eq, splitDots_append_dot, partsDescriptor_append]

theorem typeDescriptors_ne_empty (q : String) : typeDescriptors q ≠ "" := by
  rw [typeDescriptors_eq]
  unfold splitDots
  cases h : splitChars '.' q.data with
  | nil => exact absurd h (splitChars_ne_nil _ _)
  | cons p ps =>
    intro he
    have := congrArg String.data he
    simp [partsDescriptor, String.data_join, String.data_append] at this

theorem kind_head (k : SegKind) (r : List Char) :
    ∃ c t, k.chars ++ r = c :: t ∧ c ≠ backtick ∧ isIdentChar c = false := by
  cases k
  · exact ⟨'#', r, rfl, by decide, by decide⟩
  · exact ⟨'(', ')' :: '.' :: r, rfl, by decide, by decide⟩
  · exact ⟨'.', r, rfl, by decide, by decide⟩

theorem readKind_chars (k : SegKind) (r : List Char) : readKind (k.chars ++ r) = some (k, r) := by
  cases k <;> simp [SegKind.chars, readKind]

theorem readRaw_append (n : List Char) (c : Char) (t : List Char)
    (hn : ∀ x ∈ n, isIdentChar x = true) (hc : isIdentChar c = false) :
    readRaw (n ++ c :: t) = (n, c :: t) := by
  induction n with
  | nil => simp [readRaw, hc]
  | cons x n ih =>
    have hx : isIdentChar x = true := hn x (by simp)
    have := ih (fun y hy => hn y (by simp [hy]))
    simp [readRaw, hx, this]

theorem readQuoted_replace (n : List Char) (c : Char) (t : List Char) (hc : c ≠ backtick) :
    readQuoted (replaceBackticks n ++ backtick :: c :: t) = (n, c :: t) := by
  induction n with
  | nil => simp [replaceBackticks, readQuoted, hc]
  | cons x n ih =>
    by_cases hx : x = backtick
    · simp [replaceBackticks, hx, readQuoted, ih]
    · simp only [replaceBackticks, hx, if_false, List.cons_append]
      cases hr : replaceBackticks n ++ backtick :: c :: t with
      | nil => simp at hr
      | cons d ds =>
        rw [hr] at ih
        simp [readQuoted, hx, ih]

theorem readName_escape (n : List Char) (c : Char) (t : List Char)
    (hc : c ≠ backtick) (hi : isIdentChar c = false) :
    readName (escapeChars n ++ c :: t) = (n, c :: t) := by
  unfold escapeChars
  split
  · simp [readName, readQuoted_replace n c t hc]
  · rename_i h
    have hn : ∀ x ∈ n, isIdentChar x = true := by
      intro x hx
      by_contra hcon
      apply h
      simp only [List.any_eq_true]
      exact ⟨x, hx, by simpa using hcon⟩
    cases n with
    | nil => simp [readName, hc, readRaw, hi]
    | cons x n =>
      have hx : x ≠ backtick := by
        intro e
        have := hn x (by simp)
        rw [e] at this
        exact absurd this (by decide)
      have := readRaw_append (x :: n) c t hn hi
      simp only [List.cons_append] at this
      simp [readName, hx, this]

theorem readSegment_render (s : Segment) (r : List Char) :
    readSegment (renderSegment s ++ r) = some (s, r) := by
  obtain ⟨c, t, hct, hc, hi⟩ := kind_head s.2 r
  unfold readSegment renderSegment
  rw [List.append_assoc, hct, readName_escape _ _ _ hc hi, ← hct, readKind_chars]
  rfl

theorem renderSegment_ne_nil (s : Segment) : renderSegment s ≠ [] := by
  unfold renderSegment
  cases h : s.2 <;> simp [SegKind.chars]

theorem renderPath_injective : Function.Injective renderPath := by
  intro p
  induction p with
  | nil =>
    intro q h
    cases q with
    | nil => rfl
    | cons s q =>
      simp only [renderPath, List.flatMap_nil, List.flatMap_cons] at h
      cases hr : renderSegment s with
      | nil => exact absurd hr (renderSegment_ne_nil s)
      | cons x xs => rw [hr] at h; simp at h
  | cons s p ih =>
    intro q h
    cases q with
    | nil =>
      simp only [renderPath, List.flatMap_nil, List.flatMap_cons] at h
      cases hr : renderSegment s with
      | nil => exact absurd hr (renderSegment_ne_nil s)
      | cons x xs => rw [hr] at h; simp at h
    | cons s' q =>
      simp only [renderPath, List.flatMap_cons] at h
      have h1 := readSegment_render s (List.flatMap p renderSegment)
      rw [h, readSegment_render] at h1
      simp only [Option.some.injEq, Prod.mk.injEq] at h1
      rw [h1.1, ih h1.2.symm]

/-! ## The encoder: grammar of identifiers -/

theorem symbolPrefix_eq : symbolPrefix = "scip-apex apex . . " := by decide

theorem scipSymbol_of_descriptor (g : SymbolGraph) (fuel : Nat) (id : SymbolID) (d : String)
    (hid : id ≠ InvalidSymbol) (hd : descriptorsFor g fuel id = some d) (hne : d ≠ "") :
    scipSymbol g fuel id = some ("scip-apex apex . . " ++ d) := by
  simp [scipSymbol, hid, hd, hne, symbolPrefix_eq]

theorem descriptorsFor_type (g : SymbolGraph) (fuel : Nat) (id : SymbolID) (q : String)
    (hq : entityAt g id = some (Entity.type q)) :
    descriptorsFor g (fuel + 1) id = some (typeDescriptors q) := by
  unfold entityAt at hq
  unfold descriptorsFor
  cases hc : g.ClassByID id with
  | some cls => simp [hc] at hq ⊢; rw [hq]
  | none =>
    cases hi : g.InterfaceByID id with
    | some iface => simp [hc, hi] at hq ⊢; rw [hq]
    | none =>
      cases he : g.EnumByID id with
      | some e => simp [hc, hi, he] at hq ⊢; rw [hq]
      | none =>
        cases hm : g.MethodByID id with
        | some m => simp [hc, hi, he, hm] at hq
        | none =>
          cases hf : g.FieldByID id with
          | some f => simp [hc, hi, he, hm, hf] at hq
          | none =>
            cases ht : g.TriggerByID id with
            | some t => simp [hc, hi, he, hm, hf, ht] at hq ⊢; rw [hq]
            | none => simp [hc, hi, he, hm, hf, ht] at hq

theorem descriptorsFor_method (g : SymbolGraph) (fuel : Nat) (id : SymbolID) (m : MethodSymbol)
    (hq : entityAt g id = some (Entity.method m)) :
    descriptorsFor g (fuel + 1) id =
      match descriptorsFor g fuel m.DeclaringType with
      | none => none
      | some parent =>
        if parent = "" then some ""
        else some (parent ++ (if m.Kind = SymbolKind.Constructor then "`<init>`"
                              else escapeName m.Name) ++ "().") := by
  unfold entityAt at hq
  conv_lhs => unfold descriptorsFor
  cases hc : g.ClassByID id with
  | some cls => simp [hc] at hq
  | none =>
    cases hi : g.InterfaceByID id with
    | some iface => simp [hc, hi] at hq
    | none =>
      cases he : g.EnumByID id with
      | some e => simp [hc, hi, he] at hq
      | none =>
        cases hm : g.MethodByID id with
        | some m' =>
          simp only [hc, hi, he, hm, Option.some.injEq, Entity.method.injEq] at hq
          subst hq
          rfl
        | none =>
          cases hf : g.FieldByID id with
          | some f => simp [hc, hi, he, hm, hf] at hq
          | none =>
            cases ht : g.TriggerByID id with
            | some t => simp [hc, hi, he, hm, hf, ht] at hq
            | none => simp [hc, hi, he, hm, hf, ht] at hq

theorem descriptorsFor_field (g : SymbolGraph) (fuel : Nat) (id : SymbolID) (f : FieldSymbol)
    (hq : entityAt g id = some (Entity.field f)) :
    descriptorsFor g (fuel + 1) id =
      match descriptorsFor g fuel f.DeclaringType with
      | none => none
      | some parent =>
        if parent = "" then some "" else some (parent ++ escapeName f.Name ++ ".") := by
  unfold entityAt at hq
  conv_lhs => unfold descriptorsFor
  cases hc : g.ClassByID id with
  | some cls => simp [hc] at hq
  | none =>
    cases hi : g.InterfaceByID id with
    | some iface => simp [hc, hi] at hq
    | none =>
      cases he : g.EnumByID id with
      | some e => simp [hc, hi, he] at hq
      | none =>
        cases hm : g.MethodByID id with
        | some m' => simp [hc, hi, he, hm] at hq
        | none =>
          cases hf : g.FieldByID id with
          | some f' =>
            simp only [hc, hi, he, hm, hf, Option.some.injEq, Entity.field.injEq] at hq
            subst hq
            rfl
          | none =>
            cases ht : g.TriggerByID id with
            | some t => simp [hc, hi, he, hm, hf, ht] at hq
            | none => simp [hc, hi, he, hm, hf, ht] at hq

theorem descriptorsFor_unknown (g : SymbolGraph) (fuel : Nat) (id : SymbolID)
    (hq : entityAt g id = none) : descriptorsFor g (fuel + 1) id = some "" := by
  unfold entityAt at hq
  unfold descriptorsFor
  cases hc : g.ClassByID id with
  | some cls => simp [hc] at hq
  | none =>
    cases hi : g.InterfaceByID id with
    | some iface => simp [hc, hi] at hq
    | none =>
      cases he : g.EnumByID id with
      | some e => simp [hc, hi, he] at hq
      | none =>
        cases hm : g.MethodByID id with
        | some m' => simp [hc, hi, he, hm] at hq
        | none =>
          cases hf : g.FieldByID id with
          | some f' => simp [hc, hi, he, hm, hf] at hq
          | none =>
            cases ht : g.TriggerByID id with
            | some t => simp [hc, hi, he, hm, hf, ht] at hq
            | none => rfl

/-- C3. Type identifier grammar and nesting: for a class, interface, enum or
trigger with qualified name `q`, `scipSymbol` returns the four-token prefix
followed by the escaped parts of `q`, each terminated by `#`; for the
qualified name `Outer.Inner` this is `scip-apex apex . . Outer#Inner#`; and the
identifier of a nested type `outer.inner` is the identifier of the type
`outer` extended by the escaped `inner` and `#`. -/
theorem C3_type_identifier_grammar (g : SymbolGraph) (fuel : Nat) (id : SymbolID)
    (q : String) (hid : id ≠ InvalidSymbol) (hq : entityAt g id = some (Entity.type q)) :
    scipSymbol g (fuel + 1) id = some ("scip-apex apex . . " ++
      String.join ((splitDots q).map (fun p => escapeName p ++ "#"))) ∧
    (q = "Outer.Inner" →
      scipSymbol g (fuel + 1) id = some "scip-apex apex . . Outer#Inner#") ∧
    (∀ (outer inner : String) (oid : SymbolID), q = outer ++ "." ++ inner →
      '.' ∉ inner.data → oid ≠ InvalidSymbol →
      entityAt g oid = some (Entity.type outer) →
      ∃ o, scipSymbol g (fuel + 1) oid = some o ∧
        scipSymbol g (fuel + 1) id = some (o ++ escapeName inner ++ "#")) := by
  have hd := descriptorsFor_type g fuel id q hq
  have hs := scipSymbol_of_descriptor g (fuel + 1) id _ hid hd (typeDescriptors_ne_empty q)
  refine ⟨?_, ?_, ?_⟩
  · rw [hs, typeDescriptors_eq]; rfl
  · intro h
    rw [hs, h]
    decide
  · intro outer inner oid h hdot hoid ho
    have hdo := descriptorsFor_type g fuel oid outer ho
    refine ⟨_, scipSymbol_of_descriptor g (fuel + 1) oid _ hoid hdo
      (typeDescriptors_ne_empty outer), ?_⟩
    rw [hs, h, typeDescriptors_append_dot, typeDescriptors_eq inner,
      splitDots_of_no_dot inner hdot]
    apply congrArg some
    apply String.ext
    simp [partsDescriptor, String.data_append, String.data_join]

/-- C3 at the nested class of `nestedGraph`. -/
theorem C3_type_identifier_grammar_witness :
    scipSymbol nestedGraph 1 2 = some "scip-apex apex . . Outer#Inner#" ∧
    scipSymbol nestedGraph 1 1 = some "scip-apex apex . . Outer#" :=
  ⟨(C3_type_identifier_grammar nestedGraph 0 2 "Outer.Inner" (by decide) (by decide)).2.1 rfl,
   by decide⟩

/-- C4. Member identifier grammar: with `D` the non-empty descriptor of the
declaring type, `descriptorsFor` returns `D`, the escaped name and `().` for a
regular method, `D`, the reserved `<init>` segment and `().` for a
constructor, and `D`, the escaped name and `.` for a field or property; the
field's declaration (getter, setter) does not enter the result. -/
theorem C4_member_identifier_grammar (g : SymbolGraph) (fuel : Nat) (id : SymbolID)
    (D : String) (hD : D ≠ "") :
    (∀ m, entityAt g id = some (Entity.method m) → m.Kind ≠ SymbolKind.Constructor →
      descriptorsFor g fuel m.DeclaringType = some D →
      descriptorsFor g (fuel + 1) id = some (D ++ escapeName m.Name ++ "().")) ∧
    (∀ m, entityAt g id = some (Entity.method m) → m.Kind = SymbolKind.Constructor →
      descriptorsFor g fuel m.DeclaringType = some D →
      descriptorsFor g (fuel + 1) id = some (D ++ "`<init>`" ++ "().")) ∧
    (∀ f, entityAt g id = some (Entity.field f) →
      descriptorsFor g fuel f.DeclaringType = some D →
      descriptorsFor g (fuel + 1) id = some (D ++ escapeName f.Name ++ ".")) := by
  refine ⟨?_, ?_, ?_⟩
  · intro m hm hk hp
    rw [descriptorsFor_method g fuel id m hm, hp]
    simp [hD, hk]
  · intro m hm hk hp
    rw [descriptorsFor_method g fuel id m hm, hp]
    simp [hD, hk]
  · intro f hf hp
    rw [descriptorsFor_field g fuel id f hf, hp]
    simp [hD]

/-- C4 at the members of `myClassGraph`. -/
theorem C4_member_identifier_grammar_witness :
    descriptorsFor myClassGraph 2 3 = some "MyClass#getCount()." ∧
    descriptorsFor myClassGraph 2 4 = some "MyClass#`<init>`()." ∧
    descriptorsFor myClassGraph 2 2 = some "MyClass#count." :=
  have h := C4_member_identifier_grammar myClassGraph 1
  ⟨(h 3 "MyClass#" (by decide)).1 getCountMethod (by decide) (by decide) (by decide),
   (h 4 "MyClass#" (by decide)).2.1 myClassConstructor (by decide) (by decide) (by decide),
   (h 2 "MyClass#" (by decide)).2.2 countField (by decide) (by decide)⟩

/-- C5. Escaping rule: a name all of whose characters are in
`[A-Za-z0-9_+\-$]` is returned unchanged (so are the empty name and
`TestObject__c`); every other name is returned between two backticks, with
each of its backticks doubled. -/
theorem C5_escaping_rule (name : String) :
    ((∀ c ∈ name.data, SafeChar c) → escapeName name = name) ∧
    ((¬ ∀ c ∈ name.data, SafeChar c) →
      escapeName name = "`" ++ String.mk (doubleBackticks name.data) ++ "`") ∧
    escapeName "" = "" ∧ escapeName "TestObject__c" = "TestObject__c" := by
  refine ⟨?_, ?_, by decide, by decide⟩
  · intro h
    have : ¬ (name.data.any (fun ch => !isIdentChar ch) = true) := by
      simp only [List.any_eq_true, not_exists, not_and]
      intro c hc
      simp [(isIdentChar_iff c).2 (h c hc)]
    simp [escapeName, this]
  · intro h
    have : name.data.any (fun ch => !isIdentChar ch) = true := by
      simp only [List.any_eq_true]
      by_contra hcon
      apply h
      intro c hc
      rw [← isIdentChar_iff]
      by_contra hi
      exact hcon ⟨c, hc, by simpa using hi⟩
    simp [escapeName, this, replaceBackticks_eq_double]

/-- C5 at a name with a blank and at a name with a backtick. -/
theorem C5_escaping_rule_witness :
    escapeName "My Field" = "`My Field`" ∧ escapeName "a`b" = "`a``b`" ∧
    escapeName "TestObject__c" = "TestObject__c" :=
  ⟨by decide, by decide, (C5_escaping_rule "x").2.2.2⟩

/-- C6. Escaping round trip: `unescapeName` (strip the surrounding backticks
of a quoted segment and halve every doubled backtick, leave an unquoted
segment as it is) recovers every name from its escaped form; hence
`escapeName` is injective. -/
theorem C6_escaping_round_trip :
    (∀ name : String, unescapeName (escapeName name) = name) ∧
    Function.Injective escapeName :=
  ⟨unescape_escape, escapeName_injective⟩

/-! ## Local identifiers -/

theorem digitChar_toNat (k : Nat) (hk : k < 10) : (Nat.digitChar k).toNat - 48 = k := by
  interval_cases k <;> rfl

theorem digitChar_ne_minus (k : Nat) (hk : k < 10) : Nat.digitChar k ≠ '-' := by
  interval_cases k <;> decide

theorem toDigitsCore_value (fuel : Nat) : ∀ (n : Nat) (ds : List Char), n < fuel →
    (Nat.toDigitsCore 10 fuel n ds).foldl (fun a c => 10 * a + (c.toNat - 48)) 0
      = ds.foldl (fun a c => 10 * a + (c.toNat - 48)) n := by
  induction fuel with
  | zero => intro n ds h; omega
  | succ fuel ih =>
    intro n ds h
    simp only [Nat.toDigitsCore]
    split
    · rename_i h0
      simp only [List.foldl_cons]
      rw [digitChar_toNat _ (Nat.mod_lt _ (by decide))]
      congr 1
      omega
    · rename_i h0
      rw [ih (n / 10) _ (by omega)]
      simp only [List.foldl_cons]
      rw [digitChar_toNat _ (Nat.mod_lt _ (by decide))]
      congr 1
      omega

theorem toDigitsCore_head (fuel : Nat) : ∀ (n : Nat) (ds : List Char), 0 < fuel →
    ∃ k t, k < 10 ∧ Nat.toDigitsCore 10 fuel n ds = Nat.digitChar k :: t := by
  induction fuel with
  | zero => intro n ds h; omega
  | succ fuel ih =>
    intro n ds _
    simp only [Nat.toDigitsCore]
    split
    · exact ⟨n % 10, ds, Nat.mod_lt _ (by decide), rfl⟩
    · rename_i h0
      cases fuel with
      | zero => exact ⟨n % 10, ds, Nat.mod_lt _ (by decide), rfl⟩
      | succ fuel => exact ih (n / 10) _ (by omega)

theorem digitsValue_toDigits (n : Nat) : digitsValue (Nat.toDigits 10 n) = n := by
  simp [digitsValue, Nat.toDigits, toDigitsCore_value (n + 1) n [] (by omega)]

theorem readInt_toString (i : Int) : readInt (toString i).data = i := by
  cases i with
  | ofNat n =>
    change readInt (Nat.toDigits 10 n) = _
    obtain ⟨k, t, hk, ht⟩ := toDigitsCore_head (n + 1) n [] (by omega)
    have hv := digitsValue_toDigits n
    unfold Nat.toDigits at hv ⊢
    rw [ht] at hv ⊢
    simp [readInt, digitChar_ne_minus k hk, hv]
  | negSucc n =>
    change readInt ("-" ++ Nat.repr (n + 1)).data = _
    have : ("-" ++ Nat.repr (n + 1)).data = '-' :: Nat.toDigits 10 (n + 1) := by
      simp [String.data_append, Nat.repr, List.asString]
    rw [this]
    simp [readInt, digitsValue_toDigits, Int.negSucc_eq]

theorem localSymbol_injective : Function.Injective localSymbol := by
  intro a b h
  have hd := congrArg String.data h
  simp only [localSymbol, String.data_append, List.append_cancel_left_eq] at hd
  rw [← readInt_toString a, ← readInt_toString b, hd]

theorem nextLocals_get (paths : List String) : ∀ (db : documentBuilder) (i : Nat) (p : String),
    paths[i]? = some p →
    (nextLocals paths db).1[i]? =
      some (localSymbol (db.localCount p + ((paths.take (i + 1)).count p : Nat))) := by
  induction paths with
  | nil => intro db i p h; simp at h
  | cons q ps ih =>
    intro db i p h
    cases i with
    | zero =>
      simp only [List.getElem?_cons_zero, Option.some.injEq] at h
      subst h
      simp [nextLocals, nextLocal]
    | succ i =>
      simp only [List.getElem?_cons_succ] at h
      simp only [nextLocals, List.getElem?_cons_succ]
      rw [ih _ i p h]
      congr 2
      by_cases hq : q = p
      · subst hq
        simp [nextLocal, List.take_succ_cons, List.count_cons]
        omega
      · have hq' : p ≠ q := fun e => hq e.symm
        simp [nextLocal, List.take_succ_cons, List.count_cons, hq, Function.update_noteq hq']

theorem count_take_lt (paths : List String) (p : String) (i j : Nat) (hij : i < j)
    (hj : paths[j]? = some p) :
    (paths.take (i + 1)).count p < (paths.take (j + 1)).count p := by
  have hjlt : j < paths.length := by
    rcases Nat.lt_or_ge j paths.length with h | h
    · exact h
    · rw [List.getElem?_eq_none h] at hj; simp at hj
  have hjp : paths[j] = p := by
    rw [List.getElem?_eq_getElem hjlt] at hj
    simpa using hj
  have h1 : (paths.take (i + 1)).count p ≤ (paths.take j).count p := by
    apply List.Sublist.count_le
    exact (List.take_sublist_take_left paths (by omega))
  have h2 : (paths.take (j + 1)).count p = (paths.take j).count p + 1 := by
    rw [List.take_succ, List.getElem?_eq_getElem hjlt, hjp]
    simp [List.count_append]
  omega

/-- C10. Local identifiers are never reused within a document: in a sequence
of `nextLocal` calls on one builder, two calls for the same path return
different strings; the call at position `i` returns `local` followed by the
counter the path had, plus the number of calls made for that path so far; on a
fresh builder the `k`-th call for a path returns `local k`. -/
theorem C10_local_identifiers_never_reused (db : documentBuilder) (paths : List String)
    (i j : Nat) (p : String) (hij : i < j)
    (hi : paths[i]? = some p) (hj : paths[j]? = some p) :
    ∃ a b, (nextLocals paths db).1[i]? = some a ∧ (nextLocals paths db).1[j]? = some b ∧
      a ≠ b ∧
      a = localSymbol (db.localCount p + ((paths.take (i + 1)).count p : Nat)) ∧
      (nextLocals paths newDocumentBuilder).1[i]? =
        some ("local " ++ toString ((paths.take (i + 1)).count p)) := by
  refine ⟨_, _, nextLocals_get paths db i p hi, nextLocals_get paths db j p hj, ?_, rfl, ?_⟩
  · intro h
    have := localSymbol_injective h
    have hlt := count_take_lt paths p i j hij hj
    omega
  · rw [nextLocals_get paths newDocumentBuilder i p hi]
    simp [newDocumentBuilder, localSymbol]
    rfl

/-- C10 on four calls, two paths interleaved. -/
theorem C10_local_identifiers_never_reused_witness :
    (nextLocals ["A.cls", "B.cls", "A.cls", "B.cls"] newDocumentBuilder).1 =
      ["local 1", "local 1", "local 2", "local 2"] ∧
    ∃ a b, (nextLocals ["A.cls", "B.cls", "A.cls", "B.cls"] newDocumentBuilder).1[0]? = some a ∧
      (nextLocals ["A.cls", "B.cls", "A.cls", "B.cls"] newDocumentBuilder).1[2]? = some b ∧
      a ≠ b :=
  ⟨by decide,
   let ⟨a, b, ha, hb, hab, _⟩ := C10_local_identifiers_never_reused newDocumentBuilder
     ["A.cls", "B.cls", "A.cls", "B.cls"] 0 2 "A.cls" (by decide) (by decide) (by decide)
   ⟨a, b, ha, hb, hab⟩⟩

/-! ## Identifiers determine the descriptor path -/

theorem joinChars_splitChars (sep : Char) (s : List Char) :
    joinChars sep (splitChars sep s) = s := by
  induction s with
  | nil => rfl
  | cons c cs ih =>
    by_cases h : c = sep
    · simp only [splitChars, h, if_true]
      cases hs : splitChars sep cs with
      | nil => exact absurd hs (splitChars_ne_nil sep cs)
      | cons p ps => rw [hs] at ih; simp [joinChars, ih]
    · simp only [splitChars, h, if_false]
      cases hs : splitChars sep cs with
      | nil => exact absurd hs (splitChars_ne_nil sep cs)
      | cons p ps =>
        rw [hs] at ih
        cases ps with
        | nil => simp [joinChars] at ih ⊢; exact ih
        | cons q r => simp [joinChars] at ih ⊢; exact ih

theorem typePath_injective : Function.Injective typePath := by
  intro a b h
  unfold typePath at h
  have h2 : splitChars '.' a.data = splitChars '.' b.data := by
    have := congrArg (List.map Prod.fst) h
    simpa [List.map_map, Function.comp_def] using this
  apply String.ext
  rw [← joinChars_splitChars '.' a.data, ← joinChars_splitChars '.' b.data, h2]

theorem typePath_ne_nil (q : String) : typePath q ≠ [] := by
  unfold typePath
  simp [splitChars_ne_nil]

theorem renderPath_append (p q : List Segment) :
    renderPath (p ++ q) = renderPath p ++ renderPath q := by
  simp [renderPath, List.flatMap_append]

theorem renderPath_eq_nil (p : List Segment) : renderPath p = [] ↔ p = [] := by
  constructor
  · intro h
    exact renderPath_injective (by rw [h]; rfl)
  · intro h; rw [h]; rfl

theorem typeDescriptors_data (q : String) :
    (typeDescriptors q).data = renderPath (typePath q) := by
  rw [typeDescriptors_eq]
  unfold partsDescriptor splitDots typePath renderPath
  rw [String.data_join]
  generalize splitChars '.' q.data = parts
  induction parts with
  | nil => rfl
  | cons p ps ih =>
    simp only [List.map_cons, List.flatten_cons, List.flatMap_cons, ih]
    simp [renderSegment, SegKind.chars, String.data_append, escapeName_data]

theorem init_escape : escapeChars "<init>".data = "`<init>`".data := by decide

theorem descriptorsFor_eq_render (g : SymbolGraph) (fuel : Nat) : ∀ id : SymbolID,
    descriptorsFor g fuel id = (pathFor g fuel id).map (fun p => String.mk (renderPath p)) := by
  induction fuel with
  | zero => intro id; rfl
  | succ fuel ih =>
    intro id
    cases he : entityAt g id with
    | none => rw [descriptorsFor_unknown g fuel id he]; simp [pathFor, he]; rfl
    | some e =>
      cases e with
      | type q =>
        rw [descriptorsFor_type g fuel id q he]
        simp only [pathFor, he, Option.map_some']
        apply congrArg some
        apply String.ext
        exact typeDescriptors_data q
      | method m =>
        rw [descriptorsFor_method g fuel id m he, ih m.DeclaringType]
        simp only [pathFor, he]
        cases hp : pathFor g fuel m.DeclaringType with
        | none => rfl
        | some parent =>
          simp only [Option.map_some']
          by_cases hn : parent = []
          · subst hn
            simp [renderPath]
          · have hne : String.mk (renderPath parent) ≠ "" := by
              intro h
              have := congrArg String.data h
              exact hn ((renderPath_eq_nil parent).1 this)
            simp only [hne, hn, if_false, Option.map_some']
            apply congrArg some
            apply String.ext
            simp only [String.data_append, renderPath_append, List.append_assoc]
            congr 1
            simp only [renderPath, List.flatMap_cons, List.flatMap_nil, List.append_nil,
              renderSegment, SegKind.chars, methodSegmentName]
            split
            · rw [init_escape]
            · rw [escapeName_data]
      | field f =>
        rw [descriptorsFor_field g fuel id f he, ih f.DeclaringType]
        simp only [pathFor, he]
        cases hp : pathFor g fuel f.DeclaringType with
        | none => rfl
        | some parent =>
          simp only [Option.map_some']
          by_cases hn : parent = []
          · subst hn
            simp [renderPath]
          · have hne : String.mk (renderPath parent) ≠ "" := by
              intro h
              have := congrArg String.data h
              exact hn ((renderPath_eq_nil parent).1 this)
            simp only [hne, hn, if_false, Option.map_some']
            apply congrArg some
            apply String.ext
            simp only [String.data_append, renderPath_append, List.append_assoc]
            congr 1
            simp only [renderPath, List.flatMap_cons, List.flatMap_nil, List.append_nil,
              renderSegment, SegKind.chars]
            rw [escapeName_data]

theorem scipSymbol_eq_some_iff (g : SymbolGraph) (fuel : Nat) (id : SymbolID) (s : String)
    (hs : s ≠ "") :
    scipSymbol g fuel id = some s ↔
      id ≠ InvalidSymbol ∧ ∃ d, descriptorsFor g fuel id = some d ∧ d ≠ "" ∧
        s = symbolPrefix ++ d := by
  unfold scipSymbol
  by_cases hid : id = InvalidSymbol
  · simp [hid, hs.symm]
  · simp only [hid, if_false, ne_eq, not_false_eq_true, true_and]
    cases hd : descriptorsFor g fuel id with
    | none => simp
    | some d =>
      by_cases hde : d = ""
      · simp [hde, hs.symm]
      · simp only [hde, if_false, Option.some.injEq]
        constructor
        · intro h; exact ⟨d, rfl, hde, h.symm⟩
        · rintro ⟨d', h1, _, h3⟩; rw [h3, ← h1]

/-- Two entities with the same non-empty identifier have the same descriptor
path. -/
theorem pathFor_eq_of_scipSymbol_eq (g : SymbolGraph) (fuel : Nat) (a b : SymbolID) (s : String)
    (hs : s ≠ "") (ha : scipSymbol g fuel a = some s) (hb : scipSymbol g fuel b = some s) :
    ∃ p, p ≠ [] ∧ pathFor g fuel a = some p ∧ pathFor g fuel b = some p := by
  obtain ⟨_, da, hda, hnea, hsa⟩ := (scipSymbol_eq_some_iff g fuel a s hs).1 ha
  obtain ⟨_, db, hdb, _, hsb⟩ := (scipSymbol_eq_some_iff g fuel b s hs).1 hb
  have hdd : da = db := by
    apply String.ext
    have := congrArg String.data (hsa.symm.trans hsb)
    simpa [String.data_append] using this
  subst hdd
  rw [descriptorsFor_eq_render] at hda hdb
  cases hpa : pathFor g fuel a with
  | none => simp [hpa] at hda
  | some pa =>
    cases hpb : pathFor g fuel b with
    | none => simp [hpb] at hdb
    | some pb =>
      simp only [hpa, hpb, Option.map_some', Option.some.injEq] at hda hdb
      have hr : renderPath pa = renderPath pb := by
        have := congrArg String.data (hda.trans hdb.symm)
        simpa using this
      have hpp := renderPath_injective hr
      subst hpp
      refine ⟨pa, ?_, rfl, rfl⟩
      intro hnil
      apply hnea
      rw [← hda, hnil]
      rfl

theorem typePath_kind (q : String) (s : Segment) (h : s ∈ typePath q) : s.2 = SegKind.type := by
  unfold typePath at h
  simp only [List.mem_map] at h
  obtain ⟨p, _, rfl⟩ := h
  rfl

theorem pathFor_type (g : SymbolGraph) (fuel : Nat) (id : SymbolID) (q : String)
    (he : entityAt g id = some (Entity.type q)) : pathFor g (fuel + 1) id = some (typePath q) := by
  simp [pathFor, he]

theorem pathFor_method (g : SymbolGraph) (fuel : Nat) (id : SymbolID) (m : MethodSymbol)
    (p : List Segment) (hp : p ≠ [])
    (he : entityAt g id = some (Entity.method m)) (h : pathFor g (fuel + 1) id = some p) :
    ∃ parent, parent ≠ [] ∧ pathFor g fuel m.DeclaringType = some parent ∧
      p = parent ++ [((methodSegmentName m).data, SegKind.method)] := by
  simp only [pathFor, he] at h
  cases hq : pathFor g fuel m.DeclaringType with
  | none => simp [hq] at h
  | some parent =>
    by_cases hn : parent = []
    · simp [hq, hn] at h; exact absurd h hp
    · simp only [hq, hn, if_false, Option.some.injEq] at h
      exact ⟨parent, hn, rfl, h.symm⟩

theorem pathFor_field (g : SymbolGraph) (fuel : Nat) (id : SymbolID) (f : FieldSymbol)
    (p : List Segment) (hp : p ≠ [])
    (he : entityAt g id = some (Entity.field f)) (h : pathFor g (fuel + 1) id = some p) :
    ∃ parent, parent ≠ [] ∧ pathFor g fuel f.DeclaringType = some parent ∧
      p = parent ++ [(f.Name.data, SegKind.term)] := by
  simp only [pathFor, he] at h
  cases hq : pathFor g fuel f.DeclaringType with
  | none => simp [hq] at h
  | some parent =>
    by_cases hn : parent = []
    · simp [hq, hn] at h; exact absurd h hp
    · simp only [hq, hn, if_false, Option.some.injEq] at h
      exact ⟨parent, hn, rfl, h.symm⟩

theorem methodName_render (m : MethodSymbol) :
    (if m.Kind = SymbolKind.Constructor then "`<init>`" else escapeName m.Name)
      = escapeName (methodSegmentName m) := by
  unfold methodSegmentName
  split
  · decide
  · rfl

theorem sameNaming_of_scipSymbol_eq (g : SymbolGraph) (fuel : Nat) (a b : SymbolID) (s : String)
    (hs : s ≠ "") (ha : scipSymbol g (fuel + 1) a = some s)
    (hb : scipSymbol g (fuel + 1) b = some s) :
    SameNaming g fuel (entityAt g a) (entityAt g b) := by
  obtain ⟨p, hp, hpa, hpb⟩ := pathFor_eq_of_scipSymbol_eq g (fuel + 1) a b s hs ha hb
  have hdesc : ∀ x y parent, pathFor g fuel x = some parent → pathFor g fuel y = some parent →
      descriptorsFor g fuel x = descriptorsFor g fuel y := by
    intro x y parent hx hy
    rw [descriptorsFor_eq_render, descriptorsFor_eq_render, hx, hy]
  cases hea : entityAt g a with
  | none => simp [pathFor, hea] at hpa; exact absurd hpa hp
  | some ea =>
    cases heb : entityAt g b with
    | none => simp [pathFor, heb] at hpb; exact absurd hpb hp
    | some eb =>
      cases ea with
      | type q₁ =>
        rw [pathFor_type g fuel a q₁ hea] at hpa
        cases eb with
        | type q₂ =>
          rw [pathFor_type g fuel b q₂ heb] at hpb
          simp only [Option.some.injEq] at hpa hpb
          exact typePath_injective (hpa.trans hpb.symm)
        | method m₂ =>
          obtain ⟨par, _, _, he⟩ := pathFor_method g fuel b m₂ p hp heb hpb
          simp only [Option.some.injEq] at hpa
          have := typePath_kind q₁ ((methodSegmentName m₂).data, SegKind.method)
            (by rw [hpa, he]; simp)
          simp at this
        | field f₂ =>
          obtain ⟨par, _, _, he⟩ := pathFor_field g fuel b f₂ p hp heb hpb
          simp only [Option.some.injEq] at hpa
          have := typePath_kind q₁ (f₂.Name.data, SegKind.term) (by rw [hpa, he]; simp)
          simp at this
      | method m₁ =>
        obtain ⟨par₁, _, hq₁, he₁⟩ := pathFor_method g fuel a m₁ p hp hea hpa
        cases eb with
        | type q₂ =>
          rw [pathFor_type g fuel b q₂ heb] at hpb
          simp only [Option.some.injEq] at hpb
          have := typePath_kind q₂ ((methodSegmentName m₁).data, SegKind.method)
            (by rw [hpb, he₁]; simp)
          simp at this
        | method m₂ =>
          obtain ⟨par₂, _, hq₂, he₂⟩ := pathFor_method g fuel b m₂ p hp heb hpb
          have hh := List.append_inj' (he₁.symm.trans he₂) rfl
          simp only [List.cons.injEq, Prod.mk.injEq, and_true] at hh
          refine ⟨hdesc _ _ par₁ hq₁ (hh.1 ▸ hq₂), String.ext hh.2⟩
        | field f₂ =>
          obtain ⟨par₂, _, hq₂, he₂⟩ := pathFor_field g fuel b f₂ p hp heb hpb
          have hh := List.append_inj' (he₁.symm.trans he₂) rfl
          simp at hh
      | field f₁ =>
        obtain ⟨par₁, _, hq₁, he₁⟩ := pathFor_field g fuel a f₁ p hp hea hpa
        cases eb with
        | type q₂ =>
          rw [pathFor_type g fuel b q₂ heb] at hpb
          simp only [Option.some.injEq] at hpb
          have := typePath_kind q₂ (f₁.Name.data, SegKind.term) (by rw [hpb, he₁]; simp)
          simp at this
        | method m₂ =>
          obtain ⟨par₂, _, hq₂, he₂⟩ := pathFor_method g fuel b m₂ p hp heb hpb
          have hh := List.append_inj' (he₁.symm.trans he₂) rfl
          simp at hh
        | field f₂ =>
          obtain ⟨par₂, _, hq₂, he₂⟩ := pathFor_field g fuel b f₂ p hp heb hpb
          have hh := List.append_inj' (he₁.symm.trans he₂) rfl
          simp only [List.cons.injEq, Prod.mk.injEq, and_true] at hh
          refine ⟨hdesc _ _ par₁ hq₁ (hh.1 ▸ hq₂), String.ext hh.2⟩

theorem scipSymbol_eq_of_sameNaming (g : SymbolGraph) (fuel : Nat) (a b : SymbolID) (s : String)
    (hs : s ≠ "") (ha : scipSymbol g (fuel + 1) a = some s) (hb : b ≠ InvalidSymbol)
    (h : SameNaming g fuel (entityAt g a) (entityAt g b)) :
    scipSymbol g (fuel + 1) b = some s := by
  obtain ⟨_, d, hd, hne, hsd⟩ := (scipSymbol_eq_some_iff g (fuel + 1) a s hs).1 ha
  rw [scipSymbol_eq_some_iff g (fuel + 1) b s hs]
  refine ⟨hb, d, ?_, hne, hsd⟩
  cases hea : entityAt g a with
  | none => rw [hea] at h; simp [SameNaming] at h
  | some ea =>
    cases heb : entityAt g b with
    | none => rw [hea, heb] at h; cases ea <;> simp [SameNaming] at h
    | some eb =>
      rw [hea, heb] at h
      cases ea with
      | type q₁ =>
        cases eb with
        | type q₂ =>
          simp only [SameNaming] at h
          rw [descriptorsFor_type g fuel b q₂ heb, ← h, ← descriptorsFor_type g fuel a q₁ hea, hd]
        | method m₂ => simp [SameNaming] at h
        | field f₂ => simp [SameNaming] at h
      | method m₁ =>
        cases eb with
        | type q₂ => simp [SameNaming] at h
        | method m₂ =>
          simp only [SameNaming] at h
          rw [descriptorsFor_method g fuel b m₂ heb, ← h.1, methodName_render, ← h.2,
            ← methodName_render, ← descriptorsFor_method g fuel a m₁ hea, hd]
        | field f₂ => simp [SameNaming] at h
      | field f₁ =>
        cases eb with
        | type q₂ => simp [SameNaming] at h
        | method m₂ => simp [SameNaming] at h
        | field f₂ =>
          simp only [SameNaming] at h
          rw [descriptorsFor_field g fuel b f₂ heb, ← h.1, ← h.2,
            ← descriptorsFor_field g fuel a f₁ hea, hd]

/-- C2, as the code has it. Two entities get the same non-empty identifier
exactly when the encoder's naming does not tell them apart: both are types
with the same qualified name, or both are methods whose declaring types have
the same descriptor and whose name segments agree (a constructor's segment is
the reserved `<init>`), or both are fields whose declaring types have the same
descriptor and whose names agree. Entities of different categories never
share an identifier. -/
theorem C2_identifier_collisions (g : SymbolGraph) (fuel : Nat) (a b : SymbolID) (s : String)
    (hs : s ≠ "") (ha : scipSymbol g (fuel + 1) a = some s) (hb : b ≠ InvalidSymbol) :
    scipSymbol g (fuel + 1) b = some s ↔ SameNaming g fuel (entityAt g a) (entityAt g b) :=
  ⟨sameNaming_of_scipSymbol_eq g fuel a b s hs ha,
   scipSymbol_eq_of_sameNaming g fuel a b s hs ha hb⟩

/-- C2 at `myClassGraph`: the method `getCount` and the field `count` are told
apart, and so are the method and the constructor. -/
theorem C2_identifier_collisions_witness :
    scipSymbol myClassGraph 2 2 ≠ some "scip-apex apex . . MyClass#getCount()." ∧
    scipSymbol myClassGraph 2 4 ≠ some "scip-apex apex . . MyClass#getCount()." :=
  ⟨fun h => (C2_identifier_collisions myClassGraph 1 3 2 _ (by decide) (by decide)
      (by decide)).1 h,
   fun h => absurd ((C2_identifier_collisions myClassGraph 1 3 4 _ (by decide) (by decide)
      (by decide)).1 h).2 (by decide)⟩

/-- C2 fails as stated: the two overloads of `foo` in `overloadGraph` are
distinct methods with one identifier, and the class and the interface named
`C` are distinct types with one identifier. -/
theorem C2_uniqueness_counterexample :
    scipSymbol overloadGraph 2 2 = some "scip-apex apex . . C#foo()." ∧
    scipSymbol overloadGraph 2 3 = some "scip-apex apex . . C#foo()." ∧
    overloadGraph.MethodByID 2 ≠ overloadGraph.MethodByID 3 ∧
    scipSymbol overloadGraph 2 1 = some "scip-apex apex . . C#" ∧
    scipSymbol overloadGraph 2 4 = some "scip-apex apex . . C#" ∧
    (overloadGraph.ClassByID 1).isSome = true ∧ (overloadGraph.InterfaceByID 4).isSome = true := by
  decide

/-! ## The document builder: primitive operations -/

@[simp] theorem getOrCreateDoc_docs (cx : BuilderEnv) (p : String) (db : documentBuilder) :
    (getOrCreateDoc cx p db).docs = createDoc (cx.relativePath p) db.docs := by
  simp only [getOrCreateDoc, createDoc]
  split <;> simp_all

@[simp] theorem getOrCreateDoc_symbolInfos (cx : BuilderEnv) (p : String)
    (db : documentBuilder) : (getOrCreateDoc cx p db).symbolInfos = db.symbolInfos := by
  simp only [getOrCreateDoc]
  split <;> rfl

@[simp] theorem getOrCreateDoc_localCount (cx : BuilderEnv) (p : String)
    (db : documentBuilder) : (getOrCreateDoc cx p db).localCount = db.localCount := by
  simp only [getOrCreateDoc]
  split <;> rfl

@[simp] theorem addOccurrence_docs (k : String) (l c e : Int) (s : String) (r : Nat)
    (db : documentBuilder) :
    (addOccurrence k l c e s r db).docs =
      appendOcc k { Range := [int32 l, int32 c, int32 e], Symbol := s, SymbolRoles := r }
        db.docs := rfl

@[simp] theorem addOccurrence_symbolInfos (k : String) (l c e : Int) (s : String) (r : Nat)
    (db : documentBuilder) : (addOccurrence k l c e s r db).symbolInfos = db.symbolInfos := rfl

@[simp] theorem addOccurrence_localCount (k : String) (l c e : Int) (s : String) (r : Nat)
    (db : documentBuilder) : (addOccurrence k l c e s r db).localCount = db.localCount := rfl

@[simp] theorem symbolInfo_docs (s n : String) (k : SymbolInformation_Kind)
    (db : documentBuilder) : (symbolInfo s n k db).docs = db.docs := by
  unfold symbolInfo
  split <;> rfl

@[simp] theorem symbolInfo_localCount (s n : String) (k : SymbolInformation_Kind)
    (db : documentBuilder) : (symbolInfo s n k db).localCount = db.localCount := by
  unfold symbolInfo
  split <;> rfl

@[simp] theorem setDocumentation_docs (s d : String) (db : documentBuilder) :
    (setDocumentation s d db).docs = db.docs := rfl

@[simp] theorem appendRelationship_docs (s : String) (r : Relationship)
    (db : documentBuilder) : (appendRelationship s r db).docs = db.docs := rfl

@[simp] theorem nextLocal_docs (p : String) (db : documentBuilder) :
    (nextLocal p db).2.docs = db.docs := rfl

@[simp] theorem nextLocal_symbolInfos (p : String) (db : documentBuilder) :
    (nextLocal p db).2.symbolInfos = db.symbolInfos := rfl

/-! ## Reachability of document maps -/

theorem DocsReach.trans {C : String → Prop} {O : String → Occurrence → Prop}
    {a b c : List Document} (h₁ : DocsReach C O a b) (h₂ : DocsReach C O b c) :
    DocsReach C O a c := by
  induction h₂ with
  | refl => exact h₁
  | create key _ hc ih => exact DocsReach.create key ih hc
  | occ key o _ ho ih => exact DocsReach.occ key o ih ho

theorem DocsReach.mono {C C' : String → Prop} {O O' : String → Occurrence → Prop}
    {a b : List Document} (h : DocsReach C O a b) (hC : ∀ k, C k → C' k)
    (hO : ∀ k o, O k o → O' k o) : DocsReach C' O' a b := by
  induction h with
  | refl => exact DocsReach.refl _
  | create key _ hc ih => exact DocsReach.create key ih (hC _ hc)
  | occ key o _ ho ih => exact DocsReach.occ key o ih (hO _ _ ho)

theorem mem_createDoc {key : String} {docs : List Document} {d : Document}
    (h : d ∈ createDoc key docs) :
    d ∈ docs ∨ (d.RelativePath = key ∧ d.Occurrences = [] ∧ d.Symbols = []) := by
  unfold createDoc at h
  split at h
  · exact Or.inl h
  · simp only [List.mem_append, List.mem_singleton] at h
    rcases h with h | h
    · exact Or.inl h
    · right; rw [h]; exact ⟨rfl, rfl, rfl⟩

theorem mem_appendOcc {key : String} {o : Occurrence} {docs : List Document} {d : Document}
    (h : d ∈ appendOcc key o docs) :
    ∃ d₀ ∈ docs, d.RelativePath = d₀.RelativePath ∧ d.Symbols = d₀.Symbols ∧
      (d.Occurrences = d₀.Occurrences ∨
        (d₀.RelativePath = key ∧ d.Occurrences = d₀.Occurrences ++ [o])) := by
  unfold appendOcc at h
  simp only [List.mem_map] at h
  obtain ⟨d₀, hd₀, rfl⟩ := h
  refine ⟨d₀, hd₀, ?_⟩
  split
  · rename_i hk; exact ⟨rfl, rfl, Or.inr ⟨hk, rfl⟩⟩
  · exact ⟨rfl, rfl, Or.inl rfl⟩

/-- An invariant on keys and on occurrences carries over along `DocsReach`. -/
theorem DocsReach.invariant {C K : String → Prop} {O P : String → Occurrence → Prop}
    {a b : List Document} (h : DocsReach C O a b)
    (hC : ∀ k, C k → K k) (hO : ∀ k o, O k o → P k o)
    (ha : ∀ d ∈ a, K d.RelativePath ∧ ∀ o ∈ d.Occurrences, P d.RelativePath o) :
    ∀ d ∈ b, K d.RelativePath ∧ ∀ o ∈ d.Occurrences, P d.RelativePath o := by
  induction h with
  | refl => exact ha
  | create key _ hc ih =>
    intro d hd
    rcases mem_createDoc hd with h | ⟨hk, ho, _⟩
    · exact ih d h
    · rw [hk, ho]; exact ⟨hC _ hc, by simp⟩
  | occ key o _ ho ih =>
    intro d hd
    obtain ⟨d₀, hd₀, hk, _, hocc⟩ := mem_appendOcc hd
    have := ih d₀ hd₀
    rw [hk]
    refine ⟨this.1, ?_⟩
    rcases hocc with h | ⟨hkey, h⟩
    · rw [h]; exact this.2
    · rw [h]
      intro o' ho'
      simp only [List.mem_append, List.mem_singleton] at ho'
      rcases ho' with h' | h'
      · exact this.2 o' h'
      · rw [h', hkey]; exact hO _ _ ho

theorem HasOcc_createDoc {docs : List Document} {k : String} {o : Occurrence} (key : String)
    (h : HasOcc docs k o) : HasOcc (createDoc key docs) k o := by
  obtain ⟨d, hd, hk, ho⟩ := h
  refine ⟨d, ?_, hk, ho⟩
  unfold createDoc
  split
  · exact hd
  · simp [hd]

theorem HasOcc_appendOcc {docs : List Document} {k : String} {o : Occurrence} (key : String)
    (o' : Occurrence) (h : HasOcc docs k o) : HasOcc (appendOcc key o' docs) k o := by
  obtain ⟨d, hd, hk, ho⟩ := h
  by_cases hkey : d.RelativePath = key
  · refine ⟨{ d with Occurrences := d.Occurrences ++ [o'] }, ?_, hk, by simp [ho]⟩
    unfold appendOcc
    simp only [List.mem_map]
    exact ⟨d, hd, by simp [hkey]⟩
  · refine ⟨d, ?_, hk, ho⟩
    unfold appendOcc
    simp only [List.mem_map]
    exact ⟨d, hd, by simp [hkey]⟩

/-- Occurrences are never removed along `DocsReach`. -/
theorem DocsReach.hasOcc {C : String → Prop} {O : String → Occurrence → Prop}
    {a b : List Document} (h : DocsReach C O a b) {k : String} {o : Occurrence}
    (ha : HasOcc a k o) : HasOcc b k o := by
  induction h with
  | refl => exact ha
  | create key _ _ ih => exact HasOcc_createDoc key ih
  | occ key o' _ _ ih => exact HasOcc_appendOcc key o' ih

/-- After `createDoc key`, appending to `key` stores the occurrence. -/
theorem HasOcc_appendOcc_createDoc (docs : List Document) (key : String) (o : Occurrence) :
    HasOcc (appendOcc key o (createDoc key docs)) key o := by
  have hex : ∃ d ∈ createDoc key docs, d.RelativePath = key := by
    unfold createDoc
    split
    · rename_i h
      simp only [List.any_eq_true, decide_eq_true_eq] at h
      exact h
    · exact ⟨_, List.mem_append_right _ (List.mem_singleton.2 rfl), rfl⟩
  obtain ⟨d, hd, hk⟩ := hex
  refine ⟨{ d with Occurrences := d.Occurrences ++ [o] }, ?_, hk, by simp⟩
  unfold appendOcc
  simp only [List.mem_map]
  exact ⟨d, hd, by simp [hk]⟩

/-! ## Loops in `Option` -/

theorem foldlM_rel {α β : Type} (R : β → β → Prop) (hrefl : ∀ b, R b b)
    (htrans : ∀ a b c, R a b → R b c → R a c) (f : β → α → Option β) (l : List α) :
    ∀ (b b' : β), (∀ x ∈ l, ∀ c c', f c x = some c' → R c c') →
      l.foldlM f b = some b' → R b b' := by
  induction l with
  | nil =>
    intro b b' _ h
    simp only [List.foldlM_nil, pure, Option.some.injEq] at h
    rw [← h]; exact hrefl b
  | cons x xs ih =>
    intro b b' hstep h
    simp only [List.foldlM_cons, bind, Option.bind_eq_some] at h
    obtain ⟨c, hc, hrest⟩ := h
    exact htrans _ _ _ (hstep x (by simp) b c hc)
      (ih c b' (fun y hy => hstep y (by simp [hy])) hrest)

theorem foldlM_total {α β : Type} (f : β → α → Option β) (l : List α)
    (hstep : ∀ x ∈ l, ∀ c, ∃ c', f c x = some c') :
    ∀ b, ∃ b', l.foldlM f b = some b' := by
  induction l with
  | nil => intro b; exact ⟨b, rfl⟩
  | cons x xs ih =>
    intro b
    obtain ⟨c, hc⟩ := hstep x (by simp) b
    obtain ⟨b', hb'⟩ := ih (fun y hy => hstep y (by simp [hy])) c
    exact ⟨b', by simp [List.foldlM_cons, hc, hb']⟩

/-! ## The definitions pass, step by step -/

theorem implementsStep_docs {cx : BuilderEnv} {si : String} {db db' : documentBuilder}
    {id : SymbolID} (h : implementsStep cx si db id = some db') : db'.docs = db.docs := by
  unfold implementsStep at h
  split at h
  · simp at h
  · simp only [Option.some.injEq] at h; rw [h]
  · split at h
    · simp at h
    · split at h
      all_goals
        simp only [Option.some.injEq] at h
        rw [← h]
        try rfl

theorem addImplementsRelationships_docs {cx : BuilderEnv} {si : String} {ids : List SymbolID}
    {db db' : documentBuilder} (h : addImplementsRelationships cx si ids db = some db') :
    db'.docs = db.docs :=
  foldlM_rel (fun (a b : documentBuilder) => b.docs = a.docs) (fun _ => rfl) (fun _ _ _ h₁ h₂ => h₂.trans h₁)
    (implementsStep cx si) ids db db' (fun _ _ _ _ hc => implementsStep_docs hc) h

theorem addExtendsRelationship_docs {cx : BuilderEnv} {si : String} {db db' : documentBuilder}
    {id : SymbolID} (h : addExtendsRelationship cx si db id = some db') :
    db'.docs = db.docs := by
  unfold addExtendsRelationship at h
  split at h
  · simp only [Option.some.injEq] at h; rw [h]
  · split at h
    · simp at h
    · simp only [Option.some.injEq] at h; rw [h]
    · split at h
      · simp at h
      · split at h
        all_goals
          simp only [Option.some.injEq] at h
          rw [← h]
          try rfl

theorem addExtendsRelationships_docs {cx : BuilderEnv} {si : String} {ids : List SymbolID}
    {db db' : documentBuilder} (h : addExtendsRelationships cx si ids db = some db') :
    db'.docs = db.docs :=
  foldlM_rel (fun (a b : documentBuilder) => b.docs = a.docs) (fun _ => rfl) (fun _ _ _ h₁ h₂ => h₂.trans h₁)
    (addExtendsRelationship cx si) ids db db' (fun _ _ _ _ hc => addExtendsRelationship_docs hc) h

theorem parameterStep_reach {C : String → Prop} {O : String → Occurrence → Prop}
    (cx : BuilderEnv) (path : String) (db : documentBuilder) (pid : SymbolID)
    (hC : C (cx.relativePath path)) :
    DocsReach C O db.docs (parameterStep cx path db pid).docs := by
  unfold parameterStep
  split
  · exact DocsReach.refl _
  · split
    · exact DocsReach.refl _
    · simp only [symbolInfo_docs, getOrCreateDoc_docs, nextLocal_docs]
      exact DocsReach.create _ (DocsReach.refl _) hC

theorem registerParameters_reach {C : String → Prop} {O : String → Occurrence → Prop}
    (cx : BuilderEnv) (path : String) (m : MethodSymbol) (db : documentBuilder)
    (hC : C (cx.relativePath path)) :
    DocsReach C O db.docs (registerParameters cx path m db).docs := by
  unfold registerParameters
  split
  · exact DocsReach.refl _
  · generalize m.Parameters = ps
    induction ps generalizing db with
    | nil => exact DocsReach.refl _
    | cons p ps ih =>
      simp only [List.foldl_cons]
      exact (parameterStep_reach cx path db p hC).trans (ih _)

theorem ite_setDocumentation_docs (c : Prop) [Decidable c] (s d : String)
    (db : documentBuilder) :
    (if c then setDocumentation s d db else db).docs = db.docs := by
  split <;> rfl

theorem methodStep_reach {C : String → Prop} {O : String → Occurrence → Prop}
    {cx : BuilderEnv} {path : String} {db db' : documentBuilder} {mid : SymbolID}
    (h : methodStep cx path db mid = some db')
    (hsite : ∀ m decl, cx.graph.MethodByID mid = some m → m.Declaration = some decl →
      SiteOK C O cx path mid decl.Line decl.Column decl.Name) :
    DocsReach C O db.docs db'.docs := by
  unfold methodStep at h
  cases hm : cx.graph.MethodByID mid with
  | none => simp only [hm, Option.some.injEq] at h; rw [← h]; exact DocsReach.refl _
  | some m =>
    cases hd : m.Declaration with
    | none => simp only [hm, hd, Option.some.injEq] at h; rw [← h]; exact DocsReach.refl _
    | some decl =>
      obtain ⟨hC, hO⟩ := hsite m decl hm hd
      simp only [hm, hd] at h
      cases hs : scipSymbol cx.graph cx.fuel mid with
      | none => simp [hs] at h
      | some sym =>
        simp only [hs] at h
        by_cases hne : sym = ""
        · simp only [hne, if_true, Option.some.injEq] at h
          rw [← h, getOrCreateDoc_docs]
          exact DocsReach.create _ (DocsReach.refl _) hC
        · simp only [hne, if_false, Option.some.injEq] at h
          rw [← h]
          refine DocsReach.trans ?_ (registerParameters_reach cx path m _ hC)
          rw [ite_setDocumentation_docs, symbolInfo_docs, addOccurrence_docs,
            getOrCreateDoc_docs]
          exact DocsReach.occ _ _ (DocsReach.create _ (DocsReach.refl _) hC) (hO sym hs hne)

theorem foldlM_reach {α : Type} {C : String → Prop} {O : String → Occurrence → Prop}
    (f : documentBuilder → α → Option documentBuilder) (l : List α)
    (db db' : documentBuilder)
    (hstep : ∀ x ∈ l, ∀ c c', f c x = some c' → DocsReach C O c.docs c'.docs)
    (h : l.foldlM f db = some db') : DocsReach C O db.docs db'.docs :=
  foldlM_rel (fun (a b : documentBuilder) => DocsReach C O a.docs b.docs) (fun _ => DocsReach.refl _)
    (fun _ _ _ h₁ h₂ => h₁.trans h₂) f l db db' hstep h

theorem registerMethods_reach {C : String → Prop} {O : String → Occurrence → Prop}
    {cx : BuilderEnv} {path : String} {mids : List SymbolID} {db db' : documentBuilder}
    (h : registerMethods cx path mids db = some db')
    (hsite : path ≠ "" → ∀ mid ∈ mids, ∀ m decl, cx.graph.MethodByID mid = some m →
      m.Declaration = some decl → SiteOK C O cx path mid decl.Line decl.Column decl.Name) :
    DocsReach C O db.docs db'.docs := by
  unfold registerMethods at h
  split at h
  · simp only [Option.some.injEq] at h; rw [h]; exact DocsReach.refl _
  · rename_i hp
    exact foldlM_reach _ mids db db'
      (fun mid hmid c c' hc => methodStep_reach hc (hsite hp mid hmid)) h

theorem fieldStep_reach {C : String → Prop} {O : String → Occurrence → Prop}
    {cx : BuilderEnv} {cdecl : ClassDeclaration} {db db' : documentBuilder} {fid : SymbolID}
    (h : fieldStep cx cdecl db fid = some db')
    (hsite : ∀ f decl, cx.graph.FieldByID fid = some f → f.Declaration = some decl →
      (if decl.FilePath ≠ "" then decl.FilePath else cdecl.FilePath) ≠ "" →
      isMetadataXML (if decl.FilePath ≠ "" then decl.FilePath else cdecl.FilePath) = false →
      SiteOK C O cx (if decl.FilePath ≠ "" then decl.FilePath else cdecl.FilePath) fid
        decl.Line decl.Column decl.Name) :
    DocsReach C O db.docs db'.docs := by
  unfold fieldStep at h
  cases hf : cx.graph.FieldByID fid with
  | none => simp only [hf, Option.some.injEq] at h; rw [← h]; exact DocsReach.refl _
  | some f =>
    cases hd : f.Declaration with
    | none => simp only [hf, hd, Option.some.injEq] at h; rw [← h]; exact DocsReach.refl _
    | some decl =>
      simp only [hf, hd] at h
      have hsite' := hsite f decl hf hd
      generalize (if decl.FilePath ≠ "" then decl.FilePath else cdecl.FilePath) = fp
        at h hsite'
      by_cases hp : fp = "" ∨ isMetadataXML fp = true
      · rw [if_pos hp] at h
        simp only [Option.some.injEq] at h; rw [← h]; exact DocsReach.refl _
      · rw [if_neg hp] at h
        simp only [not_or, Bool.not_eq_true] at hp
        obtain ⟨hC, hO⟩ := hsite' hp.1 hp.2
        cases hs : scipSymbol cx.graph cx.fuel fid with
        | none => simp [hs] at h
        | some sym =>
          simp only [hs] at h
          by_cases hne : sym = ""
          · simp only [hne, if_true, Option.some.injEq] at h
            rw [← h, getOrCreateDoc_docs]
            exact DocsReach.create _ (DocsReach.refl _) hC
          · simp only [hne, if_false, Option.some.injEq] at h
            rw [← h, symbolInfo_docs, addOccurrence_docs, getOrCreateDoc_docs]
            exact DocsReach.occ _ _ (DocsReach.create _ (DocsReach.refl _) hC) (hO sym hs hne)

theorem defineClass_reach {C : String → Prop} {O : String → Occurrence → Prop}
    {cx : BuilderEnv} {cls : ClassSymbol} {decl : ClassDeclaration} {db db' : documentBuilder}
    (h : defineClass cx cls decl db = some db')
    (hsite : decl.FilePath ≠ "" → isMetadataXML decl.FilePath = false →
      SiteOK C O cx decl.FilePath cls.ID decl.Line decl.Column decl.Name) :
    DocsReach C O db.docs db'.docs := by
  unfold defineClass at h
  split at h
  · rename_i hp
    obtain ⟨hC, hO⟩ := hsite hp.1 hp.2
    cases hs : scipSymbol cx.graph cx.fuel cls.ID with
    | none => simp [hs] at h
    | some sym =>
      simp only [hs] at h
      by_cases hne : sym = ""
      · simp only [hne, ne_eq, not_true_eq_false, if_false, Option.some.injEq] at h
        rw [← h, getOrCreateDoc_docs]
        exact DocsReach.create _ (DocsReach.refl _) hC
      · simp only [ne_eq, hne, not_false_eq_true, if_true] at h
        split at h
        · simp at h
        · rename_i db₁ h₁
          rw [addExtendsRelationship_docs h, addImplementsRelationships_docs h₁,
            ite_setDocumentation_docs, symbolInfo_docs, addOccurrence_docs, getOrCreateDoc_docs]
          exact DocsReach.occ _ _ (DocsReach.create _ (DocsReach.refl _) hC) (hO sym hs hne)
  · simp only [Option.some.injEq] at h; rw [← h]; exact DocsReach.refl _

theorem registerFields_reach {C : String → Prop} {O : String → Occurrence → Prop}
    {cx : BuilderEnv} {cls : ClassSymbol} {db db' : documentBuilder}
    (h : registerFields cx cls db = some db')
    (hsite : ∀ cdecl, cls.Declaration = some cdecl → ∀ fid ∈ cls.Fields, ∀ f decl,
      cx.graph.FieldByID fid = some f → f.Declaration = some decl →
      (if decl.FilePath ≠ "" then decl.FilePath else cdecl.FilePath) ≠ "" →
      isMetadataXML (if decl.FilePath ≠ "" then decl.FilePath else cdecl.FilePath) = false →
      SiteOK C O cx (if decl.FilePath ≠ "" then decl.FilePath else cdecl.FilePath) fid
        decl.Line decl.Column decl.Name) :
    DocsReach C O db.docs db'.docs := by
  unfold registerFields at h
  cases hd : cls.Declaration with
  | none => simp only [hd, Option.some.injEq] at h; rw [← h]; exact DocsReach.refl _
  | some cdecl =>
    simp only [hd] at h
    exact foldlM_reach _ cls.Fields db db'
      (fun fid hfid c c' hc => fieldStep_reach hc (hsite cdecl hd fid hfid)) h

theorem classStep_reach {C : String → Prop} {O : String → Occurrence → Prop}
    {cx : BuilderEnv} {cls : ClassSymbol} {db db' : documentBuilder}
    (h : classStep cx db cls = some db')
    (hsite : ∀ path id line col name, cls ∈ cx.graph.AllClasses →
      DefSite cx path id line col name → SiteOK C O cx path id line col name)
    (hmem : cls ∈ cx.graph.AllClasses) :
    DocsReach C O db.docs db'.docs := by
  unfold classStep at h
  cases hd : cls.Declaration with
  | none => simp only [hd, Option.some.injEq] at h; rw [← h]; exact DocsReach.refl _
  | some decl =>
    simp only [hd] at h
    cases h₁ : defineClass cx cls decl db with
    | none => simp [h₁] at h
    | some db₁ =>
      simp only [h₁] at h
      cases h₂ : registerFields cx cls db₁ with
      | none => simp [h₂] at h
      | some db₂ =>
        simp only [h₂] at h
        cases h₃ : registerMethods cx decl.FilePath cls.Methods db₂ with
        | none => simp [h₃] at h
        | some db₃ =>
          simp only [h₃, Option.some.injEq, registerNestedDeclarations] at h
          rw [← h]
          refine ((defineClass_reach h₁ ?_).trans (registerFields_reach h₂ ?_)).trans
            (registerMethods_reach h₃ ?_)
          · intro hp hm
            exact hsite _ _ _ _ _ hmem (DefSite.cls cls decl hmem hd hp hm)
          · intro cdecl hcd fid hfid f fdecl hf hfd hp hm
            exact hsite _ _ _ _ _ hmem (DefSite.field cls cdecl fid f fdecl hmem hcd hfid hf hfd hp hm)
          · intro hp mid hmid m mdecl hm hmd
            exact hsite _ _ _ _ _ hmem
              (DefSite.classMethod cls decl mid m mdecl hmem hd hp hmid hm hmd)

theorem interfaceStep_reach {C : String → Prop} {O : String → Occurrence → Prop}
    {cx : BuilderEnv} {iface : InterfaceSymbol} {db db' : documentBuilder}
    (h : interfaceStep cx db iface = some db')
    (hsite : ∀ path id line col name,
      DefSite cx path id line col name → SiteOK C O cx path id line col name)
    (hmem : iface ∈ cx.graph.AllInterfaces) :
    DocsReach C O db.docs db'.docs := by
  unfold interfaceStep at h
  cases hd : iface.Declaration with
  | none => simp only [hd, Option.some.injEq] at h; rw [← h]; exact DocsReach.refl _
  | some decl =>
    simp only [hd] at h
    by_cases hp : decl.FilePath = ""
    · rw [if_pos hp] at h
      simp only [Option.some.injEq] at h; rw [← h]; exact DocsReach.refl _
    · rw [if_neg hp] at h
      obtain ⟨hC, hO⟩ := hsite _ _ _ _ _ (DefSite.iface iface decl hmem hd hp)
      cases hs : scipSymbol cx.graph cx.fuel iface.ID with
      | none => simp [hs] at h
      | some sym =>
        simp only [hs] at h
        by_cases hne : sym = ""
        · simp only [hne, if_true, Option.some.injEq] at h
          rw [← h, getOrCreateDoc_docs]
          exact DocsReach.create _ (DocsReach.refl _) hC
        · simp only [hne, if_false] at h
          split at h
          · simp at h
          · rename_i db₁ h₁
            refine DocsReach.trans ?_ (registerMethods_reach h ?_)
            · rw [addExtendsRelationships_docs h₁, symbolInfo_docs, addOccurrence_docs,
                getOrCreateDoc_docs]
              exact DocsReach.occ _ _ (DocsReach.create _ (DocsReach.refl _) hC)
                (hO sym hs hne)
            · intro _ mid hmid m mdecl hm hmd
              exact hsite _ _ _ _ _
                (DefSite.ifaceMethod iface decl mid m mdecl hmem hd hp hmid hm hmd)

theorem enumStep_reach {C : String → Prop} {O : String → Occurrence → Prop}
    {cx : BuilderEnv} {enum : EnumSymbol} {db db' : documentBuilder}
    (h : enumStep cx db enum = some db')
    (hsite : ∀ path id line col name,
      DefSite cx path id line col name → SiteOK C O cx path id line col name)
    (hmem : enum ∈ cx.graph.AllEnums) :
    DocsReach C O db.docs db'.docs := by
  unfold enumStep at h
  cases hd : enum.Declaration with
  | none => simp only [hd, Option.some.injEq] at h; rw [← h]; exact DocsReach.refl _
  | some decl =>
    simp only [hd] at h
    by_cases hp : decl.FilePath = ""
    · rw [if_pos hp] at h
      simp only [Option.some.injEq] at h; rw [← h]; exact DocsReach.refl _
    · rw [if_neg hp] at h
      obtain ⟨hC, hO⟩ := hsite _ _ _ _ _ (DefSite.enum enum decl hmem hd hp)
      cases hs : scipSymbol cx.graph cx.fuel enum.ID with
      | none => simp [hs] at h
      | some sym =>
        simp only [hs] at h
        by_cases hne : sym = ""
        · simp only [hne, if_true, Option.some.injEq] at h
          rw [← h, getOrCreateDoc_docs]
          exact DocsReach.create _ (DocsReach.refl _) hC
        · simp only [hne, if_false, Option.some.injEq] at h
          rw [← h, symbolInfo_docs, addOccurrence_docs, getOrCreateDoc_docs]
          exact DocsReach.occ _ _ (DocsReach.create _ (DocsReach.refl _) hC) (hO sym hs hne)

theorem triggerStep_reach {C : String → Prop} {O : String → Occurrence → Prop}
    {cx : BuilderEnv} {trigger : TriggerSymbol} {db db' : documentBuilder}
    (h : triggerStep cx db trigger = some db')
    (hsite : ∀ path id line col name,
      DefSite cx path id line col name → SiteOK C O cx path id line col name)
    (hmem : trigger ∈ cx.graph.AllTriggers) :
    DocsReach C O db.docs db'.docs := by
  unfold triggerStep at h
  cases hd : trigger.Declaration with
  | none => simp only [hd, Option.some.injEq] at h; rw [← h]; exact DocsReach.refl _
  | some decl =>
    simp only [hd] at h
    by_cases hp : decl.FilePath = ""
    · rw [if_pos hp] at h
      simp only [Option.some.injEq] at h; rw [← h]; exact DocsReach.refl _
    · rw [if_neg hp] at h
      obtain ⟨hC, hO⟩ := hsite _ _ _ _ _ (DefSite.trigger trigger decl hmem hd hp)
      cases hs : scipSymbol cx.graph cx.fuel trigger.ID with
      | none => simp [hs] at h
      | some sym =>
        simp only [hs] at h
        by_cases hne : sym = ""
        · simp only [hne, if_true, Option.some.injEq] at h
          rw [← h, getOrCreateDoc_docs]
          exact DocsReach.create _ (DocsReach.refl _) hC
        · simp only [hne, if_false, Option.some.injEq] at h
          rw [← h, symbolInfo_docs, addOccurrence_docs, getOrCreateDoc_docs]
          exact DocsReach.occ _ _ (DocsReach.create _ (DocsReach.refl _) hC) (hO sym hs hne)

/-- The definitions pass only creates the documents of definition sites and
only appends the definition occurrences of nameable definition sites. -/
theorem buildDefinitions_reach {C : String → Prop} {O : String → Occurrence → Prop}
    {cx : BuilderEnv} {db db' : documentBuilder}
    (h : buildDefinitions cx db = some db')
    (hsite : ∀ path id line col name,
      DefSite cx path id line col name → SiteOK C O cx path id line col name) :
    DocsReach C O db.docs db'.docs := by
  unfold buildDefinitions at h
  cases h₁ : cx.graph.AllClasses.foldlM (classStep cx) db with
  | none => simp [h₁] at h
  | some db₁ =>
    simp only [h₁] at h
    cases h₂ : cx.graph.AllInterfaces.foldlM (interfaceStep cx) db₁ with
    | none => simp [h₂] at h
    | some db₂ =>
      simp only [h₂] at h
      cases h₃ : cx.graph.AllEnums.foldlM (enumStep cx) db₂ with
      | none => simp [h₃] at h
      | some db₃ =>
        simp only [h₃] at h
        refine (((foldlM_reach _ _ db db₁ ?_ h₁).trans (foldlM_reach _ _ db₁ db₂ ?_ h₂)).trans
          (foldlM_reach _ _ db₂ db₃ ?_ h₃)).trans (foldlM_reach _ _ db₃ db' ?_ h)
        · intro x hx c c' hc
          exact classStep_reach hc (fun p i l co n _ hs => hsite p i l co n hs) hx
        · intro x hx c c' hc
          exact interfaceStep_reach hc hsite hx
        · intro x hx c c' hc
          exact enumStep_reach hc hsite hx
        · intro x hx c c' hc
          exact triggerStep_reach hc hsite hx

/-! ## The definitions pass: files -/

theorem DefSite.path_ne {cx : BuilderEnv} {path : String} {id : SymbolID} {line col : Int}
    {name : String} (h : DefSite cx path id line col name) : path ≠ "" := by
  cases h <;> assumption

theorem getD_eq_some {α : Type} (o : Option α) (d : α) (h : o.isSome = true) :
    o = some (o.getD d) := by
  cases o with
  | none => simp at h
  | some x => rfl

theorem myClassDefinitions_eq :
    buildDefinitions myClassEnv newDocumentBuilder = some myClassDefinitions :=
  getD_eq_some _ _ (by decide)

/-- C8. No file, no definition: the definitions pass creates documents and
appends occurrences only under the relative paths of non-empty file paths, and
every occurrence it appends is a definition; on a fresh builder every document
of the result is the document of a non-empty file path. A class, interface,
enum or trigger with an empty `FilePath` leaves the builder as it is, so do the
methods of a type with an empty `FilePath`, and so does a field when its own
`FilePath` and its class's are both empty. -/
theorem C8_no_file_no_definition (cx : BuilderEnv) (db db' : documentBuilder)
    (h : buildDefinitions cx db = some db') :
    DocsReach (fun k => ∃ p, p ≠ "" ∧ k = cx.relativePath p)
      (fun k o => (∃ p, p ≠ "" ∧ k = cx.relativePath p) ∧
        o.SymbolRoles = SymbolRole_Definition)
      db.docs db'.docs ∧
    (db.docs = [] → ∀ d ∈ db'.docs, (∃ p, p ≠ "" ∧ d.RelativePath = cx.relativePath p) ∧
      ∀ o ∈ d.Occurrences, o.SymbolRoles = SymbolRole_Definition) ∧
    (∀ (cls : ClassSymbol) (decl : ClassDeclaration) (b : documentBuilder),
      decl.FilePath = "" →
      defineClass cx cls decl b = some b ∧
      registerMethods cx decl.FilePath cls.Methods b = some b) ∧
    (∀ (cdecl : ClassDeclaration) (fid : SymbolID) (f : FieldSymbol) (decl : FieldDeclaration)
      (b : documentBuilder), cdecl.FilePath = "" → cx.graph.FieldByID fid = some f →
      f.Declaration = some decl → decl.FilePath = "" → fieldStep cx cdecl b fid = some b) ∧
    (∀ (iface : InterfaceSymbol) (decl : InterfaceDeclaration) (b : documentBuilder),
      iface.Declaration = some decl → decl.FilePath = "" →
      interfaceStep cx b iface = some b) ∧
    (∀ (enum : EnumSymbol) (decl : EnumDeclaration) (b : documentBuilder),
      enum.Declaration = some decl → decl.FilePath = "" → enumStep cx b enum = some b) ∧
    (∀ (trigger : TriggerSymbol) (decl : TriggerDeclaration) (b : documentBuilder),
      trigger.Declaration = some decl → decl.FilePath = "" →
      triggerStep cx b trigger = some b) := by
  have hreach : DocsReach (fun k => ∃ p, p ≠ "" ∧ k = cx.relativePath p)
      (fun k o => (∃ p, p ≠ "" ∧ k = cx.relativePath p) ∧
        o.SymbolRoles = SymbolRole_Definition) db.docs db'.docs := by
    apply buildDefinitions_reach h
    intro path id line col name hs
    exact ⟨⟨path, hs.path_ne, rfl⟩, fun sym _ _ => ⟨⟨path, hs.path_ne, rfl⟩, rfl⟩⟩
  refine ⟨hreach, ?_, ?_, ?_, ?_, ?_, ?_⟩
  · intro hnil d hd
    have := hreach.invariant (K := fun k => ∃ p, p ≠ "" ∧ k = cx.relativePath p)
      (P := fun _ o => o.SymbolRoles = SymbolRole_Definition)
      (fun _ hk => hk) (fun _ _ ho => ho.2) (by rw [hnil]; simp) d hd
    exact this
  · intro cls decl b hp
    constructor
    · simp [defineClass, hp]
    · simp [registerMethods, hp]
  · intro cdecl fid f decl b hc hf hd hp
    simp [fieldStep, hf, hd, hp, hc]
  · intro iface decl b hd hp
    simp [interfaceStep, hd, hp]
  · intro enum decl b hd hp
    simp [enumStep, hd, hp]
  · intro trigger decl b hd hp
    simp [triggerStep, hd, hp]

/-- C8 on `myClassGraph`: the definitions pass yields the one document
`MyClass.cls`. -/
theorem C8_no_file_no_definition_witness :
    myClassDefinitions.docs.map Document.RelativePath = ["MyClass.cls"] ∧
    DocsReach (fun k => ∃ p, p ≠ "" ∧ k = myClassEnv.relativePath p)
      (fun k o => (∃ p, p ≠ "" ∧ k = myClassEnv.relativePath p) ∧
        o.SymbolRoles = SymbolRole_Definition)
      newDocumentBuilder.docs myClassDefinitions.docs :=
  ⟨by decide,
   (C8_no_file_no_definition myClassEnv newDocumentBuilder myClassDefinitions
      myClassDefinitions_eq).1⟩

/-! ## The definitions pass: foreign entities -/

theorem descriptorsFor_zero (g : SymbolGraph) (id : SymbolID) : descriptorsFor g 0 id = none :=
  rfl

theorem isStdlib_class (g : SymbolGraph) (n : Nat) (id : SymbolID) (c : ClassSymbol)
    (hid : id ≠ InvalidSymbol) (hc : g.ClassByID id = some c) :
    isStdlib g (n + 1) id = some (noFile ClassDeclaration.FilePath c.Declaration) := by
  simp [isStdlib, hid, hc]

theorem isStdlib_interface (g : SymbolGraph) (n : Nat) (id : SymbolID) (i : InterfaceSymbol)
    (hid : id ≠ InvalidSymbol) (hc : g.ClassByID id = none) (hi : g.InterfaceByID id = some i) :
    isStdlib g (n + 1) id = some (noFile InterfaceDeclaration.FilePath i.Declaration) := by
  simp [isStdlib, hid, hc, hi]

theorem isStdlib_enum (g : SymbolGraph) (n : Nat) (id : SymbolID) (e : EnumSymbol)
    (hid : id ≠ InvalidSymbol) (hc : g.ClassByID id = none) (hi : g.InterfaceByID id = none)
    (he : g.EnumByID id = some e) :
    isStdlib g (n + 1) id = some (noFile EnumDeclaration.FilePath e.Declaration) := by
  simp [isStdlib, hid, hc, hi, he]

theorem isStdlib_trigger (g : SymbolGraph) (n : Nat) (id : SymbolID) (t : TriggerSymbol)
    (hid : id ≠ InvalidSymbol) (hc : g.ClassByID id = none) (hi : g.InterfaceByID id = none)
    (he : g.EnumByID id = none) (hm : g.MethodByID id = none) (hf : g.FieldByID id = none)
    (ht : g.TriggerByID id = some t) :
    isStdlib g (n + 1) id = some (noFile TriggerDeclaration.FilePath t.Declaration) := by
  simp [isStdlib, hid, hc, hi, he, hm, hf, ht]

theorem isStdlib_method (g : SymbolGraph) (n : Nat) (id : SymbolID) (m : MethodSymbol)
    (hid : id ≠ InvalidSymbol) (hc : g.ClassByID id = none) (hi : g.InterfaceByID id = none)
    (he : g.EnumByID id = none) (hm : g.MethodByID id = some m) :
    isStdlib g (n + 1) id = isStdlib g n m.DeclaringType := by
  simp [isStdlib, hid, hc, hi, he, hm]

theorem isStdlib_field (g : SymbolGraph) (n : Nat) (id : SymbolID) (f : FieldSymbol)
    (hid : id ≠ InvalidSymbol) (hc : g.ClassByID id = none) (hi : g.InterfaceByID id = none)
    (he : g.EnumByID id = none) (hm : g.MethodByID id = none) (hf : g.FieldByID id = some f) :
    isStdlib g (n + 1) id = isStdlib g n f.DeclaringType := by
  simp [isStdlib, hid, hc, hi, he, hm, hf]

/-- A non-empty identifier needs fuel, and an identifier other than the
sentinel. -/
theorem scipSymbol_ne_empty (g : SymbolGraph) (fuel : Nat) (id : SymbolID) (s : String)
    (hs : s ≠ "") (h : scipSymbol g fuel id = some s) :
    id ≠ InvalidSymbol ∧ ∃ n d, fuel = n + 1 ∧ descriptorsFor g (n + 1) id = some d ∧ d ≠ "" := by
  obtain ⟨hid, d, hd, hne, _⟩ := (scipSymbol_eq_some_iff g fuel id s hs).1 h
  refine ⟨hid, ?_⟩
  cases fuel with
  | zero => simp [descriptorsFor] at hd
  | succ n => exact ⟨n, d, rfl, hd, hne⟩

/-- A member with a non-empty descriptor leaves fuel for its declaring type. -/
theorem member_fuel (g : SymbolGraph) (n : Nat) (id parent : SymbolID) (d : String)
    (hd : descriptorsFor g (n + 1) id = some d) (_hne : d ≠ "")
    (hm : (∃ m, entityAt g id = some (Entity.method m) ∧ m.DeclaringType = parent) ∨
      (∃ f, entityAt g id = some (Entity.field f) ∧ f.DeclaringType = parent)) :
    ∃ k, n = k + 1 := by
  cases n with
  | zero =>
    rcases hm with ⟨m, he, _⟩ | ⟨f, he, _⟩
    · rw [descriptorsFor_method g 0 id m he] at hd
      simp [descriptorsFor] at hd
    · rw [descriptorsFor_field g 0 id f he] at hd
      simp [descriptorsFor] at hd
  | succ k => exact ⟨k, rfl⟩

theorem entityAt_method (g : SymbolGraph) (id : SymbolID) (m : MethodSymbol)
    (hc : g.ClassByID id = none) (hi : g.InterfaceByID id = none) (he : g.EnumByID id = none)
    (hm : g.MethodByID id = some m) : entityAt g id = some (Entity.method m) := by
  simp [entityAt, hc, hi, he, hm]

theorem entityAt_field (g : SymbolGraph) (id : SymbolID) (f : FieldSymbol)
    (hc : g.ClassByID id = none) (hi : g.InterfaceByID id = none) (he : g.EnumByID id = none)
    (hm : g.MethodByID id = none) (hf : g.FieldByID id = some f) :
    entityAt g id = some (Entity.field f) := by
  simp [entityAt, hc, hi, he, hm, hf]

theorem noFile_false {α : Type} (fp : α → String) (d : α) (h : fp d ≠ "") :
    noFile fp (some d) = false := by
  simp [noFile, h]

/-- In a consistent graph, a nameable definition site is the site of an entity
that is not foreign, or of a field whose own declaration names a file. -/
theorem defSite_not_foreign {cx : BuilderEnv} (hwf : Consistent cx.graph) {path : String}
    {id : SymbolID} {line col : Int} {name sym : String}
    (hs : DefSite cx path id line col name)
    (hsym : scipSymbol cx.graph cx.fuel id = some sym) (hne : sym ≠ "") :
    isStdlib cx.graph cx.fuel id = some false ∨ OwnFileField cx.graph id := by
  obtain ⟨hid, n, d, hfuel, hd, hdne⟩ := scipSymbol_ne_empty _ _ _ _ hne hsym
  rw [hfuel]
  cases hs with
  | cls c decl hmem hdecl hp _ =>
    left
    obtain ⟨_, hc⟩ := hwf.classes c hmem
    rw [isStdlib_class _ n _ c hid hc, hdecl, noFile_false _ _ hp]
  | field c cdecl fid f decl hmem hcd hfid hf hfd hp hm =>
    by_cases hown : decl.FilePath = ""
    · left
      obtain ⟨hdt, _, h1, h2, h3, h4⟩ := hwf.fields c hmem id hfid f hf
      obtain ⟨hcid, hc⟩ := hwf.classes c hmem
      obtain ⟨k, hk⟩ := member_fuel _ n id c.ID d hd hdne
        (Or.inr ⟨f, entityAt_field _ _ _ h1 h2 h3 h4 hf, hdt⟩)
      rw [isStdlib_field _ n _ f hid h1 h2 h3 h4 hf, hdt, hk,
        isStdlib_class _ k _ c hcid hc, hcd]
      simp only [hown, ne_eq, not_true_eq_false, if_false] at hp
      rw [noFile_false _ _ hp]
    · right
      simp only [ne_eq, hown, not_false_eq_true, if_true] at hm
      exact ⟨f, decl, hf, hfd, hown, hm⟩
  | classMethod c cdecl mid m decl hmem hcd hp hmid hmm hmd =>
    left
    obtain ⟨hdt, _, h1, h2, h3⟩ := hwf.classMethods c hmem id hmid m hmm
    obtain ⟨hcid, hc⟩ := hwf.classes c hmem
    obtain ⟨k, hk⟩ := member_fuel _ n id c.ID d hd hdne
      (Or.inl ⟨m, entityAt_method _ _ _ h1 h2 h3 hmm, hdt⟩)
    rw [isStdlib_method _ n _ m hid h1 h2 h3 hmm, hdt, hk, isStdlib_class _ k _ c hcid hc,
      hcd, noFile_false _ _ hp]
  | iface i decl hmem hdecl hp =>
    left
    obtain ⟨_, hc, hi⟩ := hwf.interfaces i hmem
    rw [isStdlib_interface _ n _ i hid hc hi, hdecl, noFile_false _ _ hp]
  | ifaceMethod i idecl mid m decl hmem hid' hp hmid hmm hmd =>
    left
    obtain ⟨hdt, _, h1, h2, h3⟩ := hwf.interfaceMethods i hmem id hmid m hmm
    obtain ⟨hiid, hc, hi⟩ := hwf.interfaces i hmem
    obtain ⟨k, hk⟩ := member_fuel _ n id i.ID d hd hdne
      (Or.inl ⟨m, entityAt_method _ _ _ h1 h2 h3 hmm, hdt⟩)
    rw [isStdlib_method _ n _ m hid h1 h2 h3 hmm, hdt, hk,
      isStdlib_interface _ k _ i hiid hc hi, hid', noFile_false _ _ hp]
  | enum e decl hmem hdecl hp =>
    left
    obtain ⟨hc, hi, he⟩ := hwf.enums e hmem
    rw [isStdlib_enum _ n _ e hid hc hi he, hdecl, noFile_false _ _ hp]
  | trigger t decl hmem hdecl hp =>
    left
    obtain ⟨hc, hi, he, hm, hf, ht⟩ := hwf.triggers t hmem
    rw [isStdlib_trigger _ n _ t hid hc hi he hm hf ht, hdecl, noFile_false _ _ hp]

theorem myClassGraph_consistent : Consistent myClassGraph := by
  constructor
  · intro c hc
    simp only [myClassGraph, List.mem_singleton] at hc
    subst hc
    decide
  · intro i hi
    simp [myClassGraph, emptyGraph] at hi
  · intro e he
    simp [myClassGraph, emptyGraph] at he
  · intro t ht
    simp [myClassGraph, emptyGraph] at ht
  · intro c hc mid hmid m hm
    simp only [myClassGraph, List.mem_singleton] at hc
    subst hc
    simp only [myClass, List.mem_cons, List.mem_singleton, List.not_mem_nil, or_false] at hmid
    rcases hmid with rfl | rfl
    · simp only [myClassGraph] at hm
      simp only [if_true, Option.some.injEq] at hm
      subst hm
      decide
    · simp only [myClassGraph] at hm
      simp only [Nat.succ_ne_self, if_false, if_true, Option.some.injEq] at hm
      have hm' : myClassConstructor = m := by simpa using hm
      subst hm'
      decide
  · intro i hi
    simp [myClassGraph, emptyGraph] at hi
  · intro c hc fid hfid f hf
    simp only [myClassGraph, List.mem_singleton] at hc
    subst hc
    simp only [myClass, List.mem_singleton] at hfid
    subst hfid
    simp only [myClassGraph, if_true, Option.some.injEq] at hf
    subst hf
    decide

theorem foreignFieldGraph_consistent : Consistent foreignFieldGraph := by
  constructor
  · intro c hc
    simp only [foreignFieldGraph, List.mem_singleton] at hc
    subst hc
    decide
  · intro i hi
    simp [foreignFieldGraph, emptyGraph] at hi
  · intro e he
    simp [foreignFieldGraph, emptyGraph] at he
  · intro t ht
    simp [foreignFieldGraph, emptyGraph] at ht
  · intro c hc mid hmid m hm
    simp only [foreignFieldGraph, List.mem_singleton] at hc
    subst hc
    simp at hmid
  · intro i hi
    simp [foreignFieldGraph, emptyGraph] at hi
  · intro c hc fid hfid f hf
    simp only [foreignFieldGraph, List.mem_singleton] at hc
    subst hc
    simp only [List.mem_singleton] at hfid
    subst hfid
    simp only [foreignFieldGraph, if_true, Option.some.injEq] at hf
    subst hf
    decide

/-- C9, as the code has it. In a graph whose lookups and enumerations agree,
every occurrence the definitions pass appends is a definition of an entity
that is not foreign, or of a field whose own declaration names a file that is
not a metadata-descriptor file: the field's own file takes precedence over its
class's, whether or not the class has one. A field whose own declaration names
no file gets no definition when its class has no file, and no field gets one
under a metadata-descriptor file. -/
theorem C9_definitions_not_foreign (cx : BuilderEnv) (db db' : documentBuilder)
    (hwf : Consistent cx.graph) (h : buildDefinitions cx db = some db') :
    DocsReach (fun _ => True)
      (fun _ o => o.SymbolRoles = SymbolRole_Definition ∧
        ∃ id, scipSymbol cx.graph cx.fuel id = some o.Symbol ∧
          (isStdlib cx.graph cx.fuel id = some false ∨ OwnFileField cx.graph id))
      db.docs db'.docs ∧
    (db.docs = [] → ∀ d ∈ db'.docs, ∀ o ∈ d.Occurrences,
      o.SymbolRoles = SymbolRole_Definition ∧
        ∃ id, scipSymbol cx.graph cx.fuel id = some o.Symbol ∧
          (isStdlib cx.graph cx.fuel id = some false ∨ OwnFileField cx.graph id)) ∧
    (∀ (cdecl : ClassDeclaration) (fid : SymbolID) (f : FieldSymbol) (decl : FieldDeclaration)
      (b : documentBuilder), cx.graph.FieldByID fid = some f → f.Declaration = some decl →
      (decl.FilePath = "" ∧ cdecl.FilePath = "") ∨ isMetadataXML decl.FilePath = true →
      fieldStep cx cdecl b fid = some b) := by
  have hreach : DocsReach (fun _ => True)
      (fun _ o => o.SymbolRoles = SymbolRole_Definition ∧
        ∃ id, scipSymbol cx.graph cx.fuel id = some o.Symbol ∧
          (isStdlib cx.graph cx.fuel id = some false ∨ OwnFileField cx.graph id))
      db.docs db'.docs := by
    apply buildDefinitions_reach h
    intro path id line col name hs
    exact ⟨trivial, fun sym hsym hne => ⟨rfl, id, hsym, defSite_not_foreign hwf hs hsym hne⟩⟩
  refine ⟨hreach, ?_, ?_⟩
  · intro hnil d hd
    exact (hreach.invariant (K := fun _ => True)
      (P := fun _ o => o.SymbolRoles = SymbolRole_Definition ∧
        ∃ id, scipSymbol cx.graph cx.fuel id = some o.Symbol ∧
          (isStdlib cx.graph cx.fuel id = some false ∨ OwnFileField cx.graph id))
      (fun _ hk => hk) (fun _ _ ho => ho) (by rw [hnil]; simp) d hd).2
  · intro cdecl fid f decl b hf hd hp
    rcases hp with ⟨h1, h2⟩ | h1
    · simp [fieldStep, hf, hd, h1, h2]
    · have hne : decl.FilePath ≠ "" := by
        intro he
        rw [he] at h1
        exact absurd h1 (by decide)
      simp [fieldStep, hf, hd, h1, hne]

/-- C9 on `myClassGraph`: every occurrence of the definitions pass is the
definition of an entity that is not foreign or of a field with a file of its
own. -/
theorem C9_definitions_not_foreign_witness :
    myClassDefinitions.docs.map (fun d => d.Occurrences.map Occurrence.Symbol) =
      [["scip-apex apex . . MyClass#", "scip-apex apex . . MyClass#count.",
        "scip-apex apex . . MyClass#getCount().", "scip-apex apex . . MyClass#`<init>`()."]] ∧
    (newDocumentBuilder.docs = [] → ∀ d ∈ myClassDefinitions.docs, ∀ o ∈ d.Occurrences,
      o.SymbolRoles = SymbolRole_Definition ∧
        ∃ id, scipSymbol myClassEnv.graph myClassEnv.fuel id = some o.Symbol ∧
          (isStdlib myClassEnv.graph myClassEnv.fuel id = some false ∨
            OwnFileField myClassEnv.graph id)) :=
  ⟨by decide,
   (C9_definitions_not_foreign myClassEnv newDocumentBuilder myClassDefinitions
      myClassGraph_consistent myClassDefinitions_eq).2.1⟩

/-- C9 fails as stated: in `foreignFieldGraph`, whose lookups and enumerations
agree, the definitions pass appends a definition occurrence for the field `f`
under `F.cls`, although the classifier reports the field as foreign, and no
other entity has that identifier. -/
theorem C9_foreign_field_counterexample :
    (buildDefinitions foreignFieldEnv newDocumentBuilder).map documentBuilder.docs =
      some [
        { Language := "apex"
          RelativePath := "F.cls"
          PositionEncoding := 1
          Occurrences := [
            { Range := [6, 4, 5], Symbol := "scip-apex apex . . C#f.", SymbolRoles := 1 }]
          Symbols := [] }] ∧
    isStdlib foreignFieldGraph 3 2 = some true ∧
    (∀ id, scipSymbol foreignFieldGraph 3 id = some "scip-apex apex . . C#f." → id = 2) ∧
    Consistent foreignFieldGraph := by
  refine ⟨by decide, by decide, ?_, foreignFieldGraph_consistent⟩
  intro id h
  by_cases h1 : id = 1
  · subst h1; revert h; decide
  · by_cases h2 : id = 2
    · exact h2
    · exfalso
      have hu : entityAt foreignFieldGraph id = none := by
        simp [entityAt, foreignFieldGraph, emptyGraph, h1, h2]
      unfold scipSymbol at h
      rw [descriptorsFor_unknown _ 2 id hu] at h
      split at h <;> simp at h

/-! ## Enough fuel: every pass returns -/

theorem scipSymbol_total {cx : BuilderEnv} (hA : Adequate cx) (id : SymbolID) :
    ∃ s, scipSymbol cx.graph cx.fuel id = some s := by
  unfold scipSymbol
  obtain ⟨d, hd⟩ := Option.isSome_iff_exists.1 (hA id).1
  rw [hd]
  split
  · exact ⟨_, rfl⟩
  · dsimp only
    split <;> exact ⟨_, rfl⟩

theorem isStdlib_total {cx : BuilderEnv} (hA : Adequate cx) (id : SymbolID) :
    ∃ s, isStdlib cx.graph cx.fuel id = some s :=
  Option.isSome_iff_exists.1 (hA id).2

theorem implementsStep_total {cx : BuilderEnv} (hA : Adequate cx) (si : String)
    (db : documentBuilder) (id : SymbolID) : ∃ db', implementsStep cx si db id = some db' := by
  obtain ⟨s, hs⟩ := scipSymbol_total hA id
  obtain ⟨f, hf⟩ := isStdlib_total hA id
  unfold implementsStep
  rw [hs, hf]
  cases f
  · dsimp only
    split <;> exact ⟨_, rfl⟩
  · exact ⟨_, rfl⟩

theorem addImplementsRelationships_total {cx : BuilderEnv} (hA : Adequate cx) (si : String)
    (ids : List SymbolID) (db : documentBuilder) :
    ∃ db', addImplementsRelationships cx si ids db = some db' :=
  foldlM_total _ ids (fun x _ c => implementsStep_total hA si c x) db

theorem addExtendsRelationship_total {cx : BuilderEnv} (hA : Adequate cx) (si : String)
    (db : documentBuilder) (id : SymbolID) :
    ∃ db', addExtendsRelationship cx si db id = some db' := by
  obtain ⟨s, hs⟩ := scipSymbol_total hA id
  obtain ⟨f, hf⟩ := isStdlib_total hA id
  unfold addExtendsRelationship
  rw [hs, hf]
  split
  · exact ⟨_, rfl⟩
  · cases f
    · dsimp only
      split <;> exact ⟨_, rfl⟩
    · exact ⟨_, rfl⟩

theorem addExtendsRelationships_total {cx : BuilderEnv} (hA : Adequate cx) (si : String)
    (ids : List SymbolID) (db : documentBuilder) :
    ∃ db', addExtendsRelationships cx si ids db = some db' :=
  foldlM_total _ ids (fun x _ c => addExtendsRelationship_total hA si c x) db

theorem methodStep_total {cx : BuilderEnv} (hA : Adequate cx) (path : String)
    (db : documentBuilder) (mid : SymbolID) : ∃ db', methodStep cx path db mid = some db' := by
  obtain ⟨s, hs⟩ := scipSymbol_total hA mid
  unfold methodStep
  rw [hs]
  split
  · exact ⟨_, rfl⟩
  · split
    · exact ⟨_, rfl⟩
    · dsimp only
      split <;> exact ⟨_, rfl⟩

theorem registerMethods_total {cx : BuilderEnv} (hA : Adequate cx) (path : String)
    (mids : List SymbolID) (db : documentBuilder) :
    ∃ db', registerMethods cx path mids db = some db' := by
  unfold registerMethods
  split
  · exact ⟨_, rfl⟩
  · exact foldlM_total _ mids (fun x _ c => methodStep_total hA path c x) db

theorem fieldStep_total {cx : BuilderEnv} (hA : Adequate cx) (cdecl : ClassDeclaration)
    (db : documentBuilder) (fid : SymbolID) : ∃ db', fieldStep cx cdecl db fid = some db' := by
  obtain ⟨s, hs⟩ := scipSymbol_total hA fid
  unfold fieldStep
  rw [hs]
  split
  · exact ⟨_, rfl⟩
  · split
    · exact ⟨_, rfl⟩
    · dsimp only
      repeat' split
      all_goals exact ⟨_, rfl⟩

theorem registerFields_total {cx : BuilderEnv} (hA : Adequate cx) (cls : ClassSymbol)
    (db : documentBuilder) : ∃ db', registerFields cx cls db = some db' := by
  unfold registerFields
  split
  · exact ⟨_, rfl⟩
  · exact foldlM_total _ cls.Fields (fun x _ c => fieldStep_total hA _ c x) db

theorem defineClass_total {cx : BuilderEnv} (hA : Adequate cx) (cls : ClassSymbol)
    (decl : ClassDeclaration) (db : documentBuilder) :
    ∃ db', defineClass cx cls decl db = some db' := by
  obtain ⟨s, hs⟩ := scipSymbol_total hA cls.ID
  unfold defineClass
  rw [hs]
  split
  · dsimp only
    split
    · obtain ⟨db₁, h₁⟩ := addImplementsRelationships_total hA s cls.Implements
        (if decl.DocComment ≠ "" then
          setDocumentation s decl.DocComment
            (symbolInfo s decl.Name (scipKind SymbolKind.Class)
              (addOccurrence (cx.relativePath decl.FilePath) (decl.Line - 1) decl.Column
                (decl.Column + len decl.Name) s SymbolRole_Definition
                (getOrCreateDoc cx decl.FilePath db)))
        else
          symbolInfo s decl.Name (scipKind SymbolKind.Class)
            (addOccurrence (cx.relativePath decl.FilePath) (decl.Line - 1) decl.Column
              (decl.Column + len decl.Name) s SymbolRole_Definition
              (getOrCreateDoc cx decl.FilePath db)))
      rw [h₁]
      exact addExtendsRelationship_total hA s db₁ cls.Extends
    · exact ⟨_, rfl⟩
  · exact ⟨_, rfl⟩

theorem classStep_total {cx : BuilderEnv} (hA : Adequate cx) (db : documentBuilder)
    (cls : ClassSymbol) : ∃ db', classStep cx db cls = some db' := by
  unfold classStep
  split
  · exact ⟨_, rfl⟩
  · rename_i decl _
    obtain ⟨db₁, h₁⟩ := defineClass_total hA cls decl db
    obtain ⟨db₂, h₂⟩ := registerFields_total hA cls db₁
    obtain ⟨db₃, h₃⟩ := registerMethods_total hA decl.FilePath cls.Methods db₂
    rw [h₁]; dsimp only; rw [h₂]; dsimp only; rw [h₃]
    exact ⟨_, rfl⟩

theorem interfaceStep_total {cx : BuilderEnv} (hA : Adequate cx) (db : documentBuilder)
    (iface : InterfaceSymbol) : ∃ db', interfaceStep cx db iface = some db' := by
  obtain ⟨s, hs⟩ := scipSymbol_total hA iface.ID
  unfold interfaceStep
  rw [hs]
  split
  · exact ⟨_, rfl⟩
  · rename_i decl _
    split
    · exact ⟨_, rfl⟩
    · dsimp only
      split
      · exact ⟨_, rfl⟩
      · obtain ⟨db₁, h₁⟩ := addExtendsRelationships_total hA s iface.Extends
          (symbolInfo s decl.Name (scipKind SymbolKind.Interface)
            (addOccurrence (cx.relativePath decl.FilePath) (decl.Line - 1) decl.Column
              (decl.Column + len decl.Name) s SymbolRole_Definition
              (getOrCreateDoc cx decl.FilePath db)))
        rw [h₁]
        exact registerMethods_total hA _ _ _

theorem enumStep_total {cx : BuilderEnv} (hA : Adequate cx) (db : documentBuilder)
    (enum : EnumSymbol) : ∃ db', enumStep cx db enum = some db' := by
  obtain ⟨s, hs⟩ := scipSymbol_total hA enum.ID
  unfold enumStep
  rw [hs]
  split
  · exact ⟨_, rfl⟩
  · split
    · exact ⟨_, rfl⟩
    · dsimp only
      split <;> exact ⟨_, rfl⟩

theorem triggerStep_total {cx : BuilderEnv} (hA : Adequate cx) (db : documentBuilder)
    (trigger : TriggerSymbol) : ∃ db', triggerStep cx db trigger = some db' := by
  obtain ⟨s, hs⟩ := scipSymbol_total hA trigger.ID
  unfold triggerStep
  rw [hs]
  split
  · exact ⟨_, rfl⟩
  · split
    · exact ⟨_, rfl⟩
    · dsimp only
      split <;> exact ⟨_, rfl⟩

/-- With enough fuel the definitions pass returns a builder. -/
theorem buildDefinitions_total {cx : BuilderEnv} (hA : Adequate cx) (db : documentBuilder) :
    ∃ db', buildDefinitions cx db = some db' := by
  unfold buildDefinitions
  obtain ⟨db₁, h₁⟩ := foldlM_total (classStep cx) cx.graph.AllClasses
    (fun x _ c => classStep_total hA c x) db
  obtain ⟨db₂, h₂⟩ := foldlM_total (interfaceStep cx) cx.graph.AllInterfaces
    (fun x _ c => interfaceStep_total hA c x) db₁
  obtain ⟨db₃, h₃⟩ := foldlM_total (enumStep cx) cx.graph.AllEnums
    (fun x _ c => enumStep_total hA c x) db₂
  rw [h₁]; dsimp only; rw [h₂]; dsimp only; rw [h₃]
  exact foldlM_total (triggerStep cx) cx.graph.AllTriggers
    (fun x _ c => triggerStep_total hA c x) db₃

theorem resolveSymbolString_total {cx : BuilderEnv} (hA : Adequate cx) (id : SymbolID)
    (path : String) (db : documentBuilder) :
    ∃ r, resolveSymbolString cx id path db = some r := by
  obtain ⟨s, hs⟩ := scipSymbol_total hA id
  unfold resolveSymbolString
  rw [hs]
  dsimp only
  split
  · exact ⟨_, rfl⟩
  · split
    · exact ⟨_, rfl⟩
    · split <;> exact ⟨_, rfl⟩

theorem identifierStep_total {cx : BuilderEnv} (hA : Adequate cx) (b : BindingResult)
    (db : documentBuilder) (entry : Identifier × SymbolID) :
    ∃ db', identifierStep cx b db entry = some db' := by
  obtain ⟨f, hf⟩ := isStdlib_total hA entry.2
  obtain ⟨r, hr⟩ := resolveSymbolString_total hA entry.2 (b.NodeFiles entry.1.Ptr) db
  unfold identifierStep
  dsimp only
  rw [hf, hr]
  split
  · exact ⟨_, rfl⟩
  · split
    · exact ⟨_, rfl⟩
    · cases f
      · dsimp only
        split <;> exact ⟨_, rfl⟩
      · exact ⟨_, rfl⟩

theorem referenceStep_total {cx : BuilderEnv} (hA : Adequate cx) (b : BindingResult)
    (ptr : Nat) (line column : Int) (name : String) (symID : SymbolID) (db : documentBuilder) :
    ∃ db', referenceStep cx b ptr line column name symID db = some db' := by
  obtain ⟨f, hf⟩ := isStdlib_total hA symID
  obtain ⟨s, hs⟩ := scipSymbol_total hA symID
  unfold referenceStep
  dsimp only
  rw [hf, hs]
  split
  · exact ⟨_, rfl⟩
  · cases f
    · dsimp only
      split <;> exact ⟨_, rfl⟩
    · exact ⟨_, rfl⟩

/-- With enough fuel the references pass returns a builder. -/
theorem buildReferences_total {cx : BuilderEnv} (hA : Adequate cx) (db : documentBuilder) :
    ∃ db', buildReferences cx db = some db' := by
  unfold buildReferences
  split
  · exact ⟨_, rfl⟩
  · rename_i b _
    obtain ⟨db₁, h₁⟩ := foldlM_total (identifierStep cx b) b.Identifiers
      (fun x _ c => identifierStep_total hA b c x) db
    obtain ⟨db₂, h₂⟩ := foldlM_total (methodCallStep cx b) b.MethodCalls
      (fun x _ c => referenceStep_total hA b _ _ _ _ _ c) db₁
    obtain ⟨db₃, h₃⟩ := foldlM_total (fieldAccessStep cx b) b.FieldAccesses
      (fun x _ c => referenceStep_total hA b _ _ _ _ _ c) db₂
    rw [h₁]; dsimp only; rw [h₂]; dsimp only; rw [h₃]
    exact foldlM_total (constructorStep cx b) b.ConstructorBindings
      (fun x _ c => referenceStep_total hA b _ _ _ _ _ c) db₃

/-! ## The references pass, step by step -/

theorem resolveSymbolString_spec {cx : BuilderEnv} {id : SymbolID} {path sym : String}
    {db db₁ : documentBuilder} (h : resolveSymbolString cx id path db = some (sym, db₁)) :
    db₁.docs = db.docs ∧ db₁.symbolInfos = db.symbolInfos ∧
    (sym ≠ "" → scipSymbol cx.graph cx.fuel id = some sym ∨
      (scipSymbol cx.graph cx.fuel id = some "" ∧ ∃ n : Int, sym = localSymbol n)) := by
  unfold resolveSymbolString at h
  cases hs : scipSymbol cx.graph cx.fuel id with
  | none => simp [hs] at h
  | some s =>
    simp only [hs] at h
    by_cases hne : s = ""
    · simp only [hne, ne_eq, not_true_eq_false, if_false] at h
      subst hne
      cases hv : cx.graph.VariableByID id with
      | none =>
        simp only [hv, Option.some.injEq, Prod.mk.injEq] at h
        obtain ⟨h1, h2⟩ := h
        subst h1 h2
        exact ⟨rfl, rfl, fun hc => absurd rfl hc⟩
      | some v =>
        simp only [hv] at h
        split at h
        · simp only [Option.some.injEq] at h
          have h1 : sym = (nextLocal (cx.relativePath path) db).1 := by rw [h]
          have h2 : db₁ = (nextLocal (cx.relativePath path) db).2 := by rw [h]
          subst h2
          exact ⟨rfl, rfl, fun _ => Or.inr ⟨rfl, _, h1⟩⟩
        · simp only [Option.some.injEq, Prod.mk.injEq] at h
          obtain ⟨h1, h2⟩ := h
          subst h1 h2
          exact ⟨rfl, rfl, fun hc => absurd rfl hc⟩
    · simp only [ne_eq, hne, not_false_eq_true, if_true, Option.some.injEq,
        Prod.mk.injEq] at h
      obtain ⟨h1, h2⟩ := h
      subst h1 h2
      exact ⟨rfl, rfl, fun _ => Or.inl rfl⟩

theorem referenceStep_reach {C : String → Prop} {O : String → Occurrence → Prop}
    {cx : BuilderEnv} {b : BindingResult} {ptr : Nat} {line col : Int} {name : String}
    {symID : SymbolID} {db db' : documentBuilder}
    (h : referenceStep cx b ptr line col name symID db = some db')
    (hsite : RefOK C O cx (b.NodeFiles ptr) line col name symID) :
    DocsReach C O db.docs db'.docs := by
  unfold referenceStep at h
  dsimp only at h
  by_cases hp : b.NodeFiles ptr = ""
  · rw [if_pos hp] at h
    simp only [Option.some.injEq] at h; rw [← h]; exact DocsReach.refl _
  · rw [if_neg hp] at h
    cases hf : isStdlib cx.graph cx.fuel symID with
    | none => simp [hf] at h
    | some f =>
      cases f with
      | true => simp only [hf, Option.some.injEq] at h; rw [← h]; exact DocsReach.refl _
      | false =>
        simp only [hf] at h
        cases hs : scipSymbol cx.graph cx.fuel symID with
        | none => simp [hs] at h
        | some sym =>
          simp only [hs] at h
          by_cases hne : sym = ""
          · simp only [hne, if_true, Option.some.injEq] at h
            rw [← h]; exact DocsReach.refl _
          · simp only [hne, if_false, Option.some.injEq] at h
            obtain ⟨hC, hO⟩ := hsite hp hf sym hne (Or.inl hs)
            rw [← h, addOccurrence_docs, getOrCreateDoc_docs]
            exact DocsReach.occ _ _ (DocsReach.create _ (DocsReach.refl _) hC) hO

theorem identifierStep_reach {C : String → Prop} {O : String → Occurrence → Prop}
    {cx : BuilderEnv} {b : BindingResult} {entry : Identifier × SymbolID}
    {db db' : documentBuilder}
    (h : identifierStep cx b db entry = some db')
    (hsite : entry.1.Synthetic = false →
      RefOK C O cx (b.NodeFiles entry.1.Ptr) entry.1.Line entry.1.Column entry.1.Name entry.2) :
    DocsReach C O db.docs db'.docs := by
  unfold identifierStep at h
  dsimp only at h
  by_cases hsyn : entry.1.Synthetic = true
  · rw [if_pos hsyn] at h
    simp only [Option.some.injEq] at h; rw [← h]; exact DocsReach.refl _
  · rw [if_neg hsyn] at h
    by_cases hp : b.NodeFiles entry.1.Ptr = ""
    · rw [if_pos hp] at h
      simp only [Option.some.injEq] at h; rw [← h]; exact DocsReach.refl _
    · rw [if_neg hp] at h
      cases hf : isStdlib cx.graph cx.fuel entry.2 with
      | none => simp [hf] at h
      | some f =>
        cases f with
        | true => simp only [hf, Option.some.injEq] at h; rw [← h]; exact DocsReach.refl _
        | false =>
          simp only [hf] at h
          cases hr : resolveSymbolString cx entry.2 (b.NodeFiles entry.1.Ptr) db with
          | none => simp [hr] at h
          | some r =>
            obtain ⟨sym, db₁⟩ := r
            obtain ⟨hdocs, _, hsym⟩ := resolveSymbolString_spec hr
            simp only [hr] at h
            by_cases hne : sym = ""
            · simp only [hne, if_true, Option.some.injEq] at h
              rw [← h, hdocs]; exact DocsReach.refl _
            · simp only [hne, if_false, Option.some.injEq] at h
              obtain ⟨hC, hO⟩ := hsite (by simpa using hsyn) hp hf sym hne (hsym hne)
              rw [← h, addOccurrence_docs, getOrCreateDoc_docs, hdocs]
              exact DocsReach.occ _ _ (DocsReach.create _ (DocsReach.refl _) hC) hO

/-- The references pass only creates the documents of reference sites with a
known file and a target that is not foreign, and only appends their
`ReadAccess` occurrences. -/
theorem buildReferences_reach {C : String → Prop} {O : String → Occurrence → Prop}
    {cx : BuilderEnv} {db db' : documentBuilder}
    (h : buildReferences cx db = some db')
    (hsite : ∀ b, cx.binding = some b → ∀ file line col name id,
      RefSite b file line col name id → RefOK C O cx file line col name id) :
    DocsReach C O db.docs db'.docs := by
  unfold buildReferences at h
  cases hb : cx.binding with
  | none => simp only [hb, Option.some.injEq] at h; rw [← h]; exact DocsReach.refl _
  | some b =>
    simp only [hb] at h
    cases h₁ : b.Identifiers.foldlM (identifierStep cx b) db with
    | none => simp [h₁] at h
    | some db₁ =>
      simp only [h₁] at h
      cases h₂ : b.MethodCalls.foldlM (methodCallStep cx b) db₁ with
      | none => simp [h₂] at h
      | some db₂ =>
        simp only [h₂] at h
        cases h₃ : b.FieldAccesses.foldlM (fieldAccessStep cx b) db₂ with
        | none => simp [h₃] at h
        | some db₃ =>
          simp only [h₃] at h
          refine (((foldlM_reach _ _ db db₁ ?_ h₁).trans
            (foldlM_reach _ _ db₁ db₂ ?_ h₂)).trans
            (foldlM_reach _ _ db₂ db₃ ?_ h₃)).trans (foldlM_reach _ _ db₃ db' ?_ h)
          · intro x hx c c' hc
            exact identifierStep_reach hc
              (fun hsyn => hsite b hb _ _ _ _ _ (RefSite.identifier x hx hsyn))
          · intro x hx c c' hc
            exact referenceStep_reach hc (hsite b hb _ _ _ _ _ (RefSite.methodCall x hx))
          · intro x hx c c' hc
            exact referenceStep_reach hc (hsite b hb _ _ _ _ _ (RefSite.fieldAccess x hx))
          · intro x hx c c' hc
            exact referenceStep_reach hc (hsite b hb _ _ _ _ _ (RefSite.newExpression x hx))

/-- Neither pass removes an occurrence. -/
theorem buildDefinitions_hasOcc {cx : BuilderEnv} {db db' : documentBuilder}
    (h : buildDefinitions cx db = some db') {k : String} {o : Occurrence}
    (ho : HasOcc db.docs k o) : HasOcc db'.docs k o :=
  (buildDefinitions_reach (C := fun _ => True) (O := fun _ _ => True) h
    (fun _ _ _ _ _ _ => ⟨trivial, fun _ _ _ => trivial⟩)).hasOcc ho

theorem buildReferences_hasOcc {cx : BuilderEnv} {db db' : documentBuilder}
    (h : buildReferences cx db = some db') {k : String} {o : Occurrence}
    (ho : HasOcc db.docs k o) : HasOcc db'.docs k o :=
  (buildReferences_reach (C := fun _ => True) (O := fun _ _ => True) h
    (fun _ _ _ _ _ _ _ _ _ _ _ _ _ => ⟨trivial, trivial⟩)).hasOcc ho

/-! ## Occurrences that are certainly appended -/

theorem foldlM_mem_adds {α : Type} (f : documentBuilder → α → Option documentBuilder)
    (l : List α) (e : α) (he : e ∈ l) (P : documentBuilder → Prop)
    (hmono : ∀ x ∈ l, ∀ c c', f c x = some c' → P c → P c')
    (hadd : ∀ c c', f c e = some c' → P c') :
    ∀ db db', l.foldlM f db = some db' → P db' := by
  induction l with
  | nil => simp at he
  | cons x xs ih =>
    intro db db' h
    simp only [List.foldlM_cons, bind, Option.bind_eq_some] at h
    obtain ⟨c, hc, hrest⟩ := h
    have hkeep : ∀ (d d' : documentBuilder), xs.foldlM f d = some d' → P d → P d' := by
      intro d d' hd hp
      exact foldlM_rel (fun a b => P a → P b) (fun _ h => h) (fun _ _ _ h₁ h₂ h => h₂ (h₁ h))
        f xs d d' (fun y hy c c' hcc => hmono y (by simp [hy]) c c' hcc) hd hp
    rcases List.mem_cons.1 he with rfl | hmem
    · exact hkeep c db' hrest (hadd db c hc)
    · exact ih hmem (fun y hy => hmono y (by simp [hy])) c db' hrest

theorem methodStep_adds {cx : BuilderEnv} {path : String} {db db' : documentBuilder}
    {mid : SymbolID} {m : MethodSymbol} {decl : MethodDeclaration} {sym : String}
    (hm : cx.graph.MethodByID mid = some m) (hd : m.Declaration = some decl)
    (hs : scipSymbol cx.graph cx.fuel mid = some sym) (hne : sym ≠ "")
    (h : methodStep cx path db mid = some db') :
    HasOcc db'.docs (cx.relativePath path)
      (mkOcc decl.Line decl.Column decl.Name sym SymbolRole_Definition) := by
  unfold methodStep at h
  simp only [hm, hd, hs, hne, if_false, Option.some.injEq] at h
  rw [← h]
  apply (registerParameters_reach (C := fun _ => True) (O := fun _ _ => True) cx path m _
    trivial).hasOcc
  rw [ite_setDocumentation_docs, symbolInfo_docs, addOccurrence_docs, getOrCreateDoc_docs]
  exact HasOcc_appendOcc_createDoc _ _ _

theorem methodStep_keeps {cx : BuilderEnv} {path : String} {db db' : documentBuilder}
    {mid : SymbolID} (h : methodStep cx path db mid = some db') {k : String} {o : Occurrence}
    (ho : HasOcc db.docs k o) : HasOcc db'.docs k o :=
  (methodStep_reach (C := fun _ => True) (O := fun _ _ => True) h
    (fun _ _ _ _ => ⟨trivial, fun _ _ _ => trivial⟩)).hasOcc ho

theorem registerMethods_adds {cx : BuilderEnv} {path : String} {mids : List SymbolID}
    {db db' : documentBuilder} {mid : SymbolID} {m : MethodSymbol} {decl : MethodDeclaration}
    {sym : String} (hp : path ≠ "") (hmid : mid ∈ mids)
    (hm : cx.graph.MethodByID mid = some m) (hd : m.Declaration = some decl)
    (hs : scipSymbol cx.graph cx.fuel mid = some sym) (hne : sym ≠ "")
    (h : registerMethods cx path mids db = some db') :
    HasOcc db'.docs (cx.relativePath path)
      (mkOcc decl.Line decl.Column decl.Name sym SymbolRole_Definition) := by
  unfold registerMethods at h
  rw [if_neg hp] at h
  exact foldlM_mem_adds (methodStep cx path) mids mid hmid
    (fun d => HasOcc d.docs (cx.relativePath path)
      (mkOcc decl.Line decl.Column decl.Name sym SymbolRole_Definition))
    (fun _ _ _ _ hc ho => methodStep_keeps hc ho)
    (fun _ _ hc => methodStep_adds hm hd hs hne hc) db db' h

theorem fieldStep_adds {cx : BuilderEnv} {cdecl : ClassDeclaration} {db db' : documentBuilder}
    {fid : SymbolID} {f : FieldSymbol} {decl : FieldDeclaration} {sym : String}
    (hf : cx.graph.FieldByID fid = some f) (hd : f.Declaration = some decl)
    (hp : (if decl.FilePath ≠ "" then decl.FilePath else cdecl.FilePath) ≠ "")
    (hmeta : isMetadataXML (if decl.FilePath ≠ "" then decl.FilePath else cdecl.FilePath)
      = false)
    (hs : scipSymbol cx.graph cx.fuel fid = some sym) (hne : sym ≠ "")
    (h : fieldStep cx cdecl db fid = some db') :
    HasOcc db'.docs
      (cx.relativePath (if decl.FilePath ≠ "" then decl.FilePath else cdecl.FilePath))
      (mkOcc decl.Line decl.Column decl.Name sym SymbolRole_Definition) := by
  unfold fieldStep at h
  simp only [hf, hd] at h
  generalize (if decl.FilePath ≠ "" then decl.FilePath else cdecl.FilePath) = fp
    at h hp hmeta ⊢
  have hnot : ¬ (fp = "" ∨ isMetadataXML fp = true) := by
    simp [hp, hmeta]
  rw [if_neg hnot] at h
  simp only [hs, hne, if_false, Option.some.injEq] at h
  rw [← h, symbolInfo_docs, addOccurrence_docs, getOrCreateDoc_docs]
  exact HasOcc_appendOcc_createDoc _ _ _

theorem fieldStep_keeps {cx : BuilderEnv} {cdecl : ClassDeclaration}
    {db db' : documentBuilder} {fid : SymbolID} (h : fieldStep cx cdecl db fid = some db')
    {k : String} {o : Occurrence} (ho : HasOcc db.docs k o) : HasOcc db'.docs k o :=
  (fieldStep_reach (C := fun _ => True) (O := fun _ _ => True) h
    (fun _ _ _ _ _ _ => ⟨trivial, fun _ _ _ => trivial⟩)).hasOcc ho

theorem classStep_keeps {cx : BuilderEnv} {cls : ClassSymbol} {db db' : documentBuilder}
    (h : classStep cx db cls = some db') {k : String} {o : Occurrence}
    (ho : HasOcc db.docs k o) : HasOcc db'.docs k o := by
  unfold classStep at h
  cases hd : cls.Declaration with
  | none => simp only [hd, Option.some.injEq] at h; rw [← h]; exact ho
  | some decl =>
    simp only [hd] at h
    cases h₁ : defineClass cx cls decl db with
    | none => simp [h₁] at h
    | some db₁ =>
      simp only [h₁] at h
      cases h₂ : registerFields cx cls db₁ with
      | none => simp [h₂] at h
      | some db₂ =>
        simp only [h₂] at h
        cases h₃ : registerMethods cx decl.FilePath cls.Methods db₂ with
        | none => simp [h₃] at h
        | some db₃ =>
          simp only [h₃, Option.some.injEq, registerNestedDeclarations] at h
          rw [← h]
          exact (((defineClass_reach (C := fun _ => True) (O := fun _ _ => True) h₁
            (fun _ _ => ⟨trivial, fun _ _ _ => trivial⟩)).trans
            (registerFields_reach h₂
              (fun _ _ _ _ _ _ _ _ _ _ => ⟨trivial, fun _ _ _ => trivial⟩))).trans
            (registerMethods_reach h₃
              (fun _ _ _ _ _ _ _ => ⟨trivial, fun _ _ _ => trivial⟩))).hasOcc ho

theorem classStep_adds_method {cx : BuilderEnv} {cls : ClassSymbol} {cdecl : ClassDeclaration}
    {db db' : documentBuilder} {mid : SymbolID} {m : MethodSymbol} {decl : MethodDeclaration}
    {sym : String} (hcd : cls.Declaration = some cdecl) (hp : cdecl.FilePath ≠ "")
    (hmid : mid ∈ cls.Methods)
    (hm : cx.graph.MethodByID mid = some m) (hd : m.Declaration = some decl)
    (hs : scipSymbol cx.graph cx.fuel mid = some sym) (hne : sym ≠ "")
    (h : classStep cx db cls = some db') :
    HasOcc db'.docs (cx.relativePath cdecl.FilePath)
      (mkOcc decl.Line decl.Column decl.Name sym SymbolRole_Definition) := by
  unfold classStep at h
  simp only [hcd] at h
  cases h₁ : defineClass cx cls cdecl db with
  | none => simp [h₁] at h
  | some db₁ =>
    simp only [h₁] at h
    cases h₂ : registerFields cx cls db₁ with
    | none => simp [h₂] at h
    | some db₂ =>
      simp only [h₂] at h
      cases h₃ : registerMethods cx cdecl.FilePath cls.Methods db₂ with
      | none => simp [h₃] at h
      | some db₃ =>
        simp only [h₃, Option.some.injEq, registerNestedDeclarations] at h
        rw [← h]
        exact registerMethods_adds hp hmid hm hd hs hne h₃

theorem classStep_adds_field {cx : BuilderEnv} {cls : ClassSymbol} {cdecl : ClassDeclaration}
    {db db' : documentBuilder} {fid : SymbolID} {f : FieldSymbol} {decl : FieldDeclaration}
    {sym : String} (hcd : cls.Declaration = some cdecl) (hfid : fid ∈ cls.Fields)
    (hf : cx.graph.FieldByID fid = some f) (hd : f.Declaration = some decl)
    (hp : (if decl.FilePath ≠ "" then decl.FilePath else cdecl.FilePath) ≠ "")
    (hmeta : isMetadataXML (if decl.FilePath ≠ "" then decl.FilePath else cdecl.FilePath)
      = false)
    (hs : scipSymbol cx.graph cx.fuel fid = some sym) (hne : sym ≠ "")
    (h : classStep cx db cls = some db') :
    HasOcc db'.docs
      (cx.relativePath (if decl.FilePath ≠ "" then decl.FilePath else cdecl.FilePath))
      (mkOcc decl.Line decl.Column decl.Name sym SymbolRole_Definition) := by
  unfold classStep at h
  simp only [hcd] at h
  cases h₁ : defineClass cx cls cdecl db with
  | none => simp [h₁] at h
  | some db₁ =>
    simp only [h₁] at h
    cases h₂ : registerFields cx cls db₁ with
    | none => simp [h₂] at h
    | some db₂ =>
      simp only [h₂] at h
      cases h₃ : registerMethods cx cdecl.FilePath cls.Methods db₂ with
      | none => simp [h₃] at h
      | some db₃ =>
        simp only [h₃, Option.some.injEq, registerNestedDeclarations] at h
        rw [← h]
        apply (registerMethods_reach (C := fun _ => True) (O := fun _ _ => True) h₃
          (fun _ _ _ _ _ _ _ => ⟨trivial, fun _ _ _ => trivial⟩)).hasOcc
        unfold registerFields at h₂
        simp only [hcd] at h₂
        exact foldlM_mem_adds (fieldStep cx cdecl) cls.Fields fid hfid
          (fun d => HasOcc d.docs
            (cx.relativePath (if decl.FilePath ≠ "" then decl.FilePath else cdecl.FilePath))
            (mkOcc decl.Line decl.Column decl.Name sym SymbolRole_Definition))
          (fun _ _ _ _ hc ho => fieldStep_keeps hc ho)
          (fun _ _ hc => fieldStep_adds hf hd hp hmeta hs hne hc) db₁ db₂ h₂

/-- What the class loop appends stays until the end of the definitions pass. -/
theorem buildDefinitions_of_classStep {cx : BuilderEnv} {cls : ClassSymbol}
    (hmem : cls ∈ cx.graph.AllClasses) {k : String} {o : Occurrence}
    (hadd : ∀ c c', classStep cx c cls = some c' → HasOcc c'.docs k o)
    {db db' : documentBuilder} (h : buildDefinitions cx db = some db') :
    HasOcc db'.docs k o := by
  unfold buildDefinitions at h
  cases h₁ : cx.graph.AllClasses.foldlM (classStep cx) db with
  | none => simp [h₁] at h
  | some db₁ =>
    simp only [h₁] at h
    have hcls : HasOcc db₁.docs k o :=
      foldlM_mem_adds (classStep cx) cx.graph.AllClasses cls hmem
        (fun d => HasOcc d.docs k o) (fun _ _ _ _ hc ho => classStep_keeps hc ho) hadd db db₁ h₁
    cases h₂ : cx.graph.AllInterfaces.foldlM (interfaceStep cx) db₁ with
    | none => simp [h₂] at h
    | some db₂ =>
      simp only [h₂] at h
      cases h₃ : cx.graph.AllEnums.foldlM (enumStep cx) db₂ with
      | none => simp [h₃] at h
      | some db₃ =>
        simp only [h₃] at h
        have hsite : ∀ path id line col name, DefSite cx path id line col name →
            SiteOK (fun _ => True) (fun _ _ => True) cx path id line col name :=
          fun _ _ _ _ _ _ => ⟨trivial, fun _ _ _ => trivial⟩
        exact (((foldlM_reach (C := fun _ => True) (O := fun _ _ => True) _ _ db₁ db₂
          (fun x hx c c' hc => interfaceStep_reach hc hsite hx) h₂).trans
          (foldlM_reach _ _ db₂ db₃ (fun x hx c c' hc => enumStep_reach hc hsite hx) h₃)).trans
          (foldlM_reach _ _ db₃ db' (fun x hx c c' hc => triggerStep_reach hc hsite hx)
            h)).hasOcc hcls

theorem referenceStep_adds {cx : BuilderEnv} {b : BindingResult} {ptr : Nat}
    {line col : Int} {name sym : String} {symID : SymbolID} {db db' : documentBuilder}
    (hp : b.NodeFiles ptr ≠ "") (hf : isStdlib cx.graph cx.fuel symID = some false)
    (hs : scipSymbol cx.graph cx.fuel symID = some sym) (hne : sym ≠ "")
    (h : referenceStep cx b ptr line col name symID db = some db') :
    HasOcc db'.docs (cx.relativePath (b.NodeFiles ptr))
      (mkOcc line col name sym SymbolRole_ReadAccess) := by
  unfold referenceStep at h
  simp only [hp, hf, hs, hne, if_false, Option.some.injEq] at h
  rw [← h, addOccurrence_docs, getOrCreateDoc_docs]
  exact HasOcc_appendOcc_createDoc _ _ _

theorem referenceStep_keeps {cx : BuilderEnv} {b : BindingResult} {ptr : Nat}
    {line col : Int} {name : String} {symID : SymbolID} {db db' : documentBuilder}
    (h : referenceStep cx b ptr line col name symID db = some db') {k : String}
    {o : Occurrence} (ho : HasOcc db.docs k o) : HasOcc db'.docs k o :=
  (referenceStep_reach (C := fun _ => True) (O := fun _ _ => True) h
    (fun _ _ _ _ _ => ⟨trivial, trivial⟩)).hasOcc ho

/-! ## References and definitions carry the same identifier -/

theorem descriptorsFor_succ (g : SymbolGraph) (n : Nat) : ∀ (id : SymbolID) (s : String),
    descriptorsFor g n id = some s → descriptorsFor g (n + 1) id = some s := by
  induction n with
  | zero => intro id s h; simp [descriptorsFor] at h
  | succ n ih =>
    intro id s h
    cases he : entityAt g id with
    | none =>
      rw [descriptorsFor_unknown g n id he] at h
      rw [descriptorsFor_unknown g (n + 1) id he, h]
    | some e =>
      cases e with
      | type q =>
        rw [descriptorsFor_type g n id q he] at h
        rw [descriptorsFor_type g (n + 1) id q he, h]
      | method m =>
        rw [descriptorsFor_method g n id m he] at h
        rw [descriptorsFor_method g (n + 1) id m he]
        cases hp : descriptorsFor g n m.DeclaringType with
        | none => simp [hp] at h
        | some p => rw [ih _ _ hp]; rw [hp] at h; exact h
      | field f =>
        rw [descriptorsFor_field g n id f he] at h
        rw [descriptorsFor_field g (n + 1) id f he]
        cases hp : descriptorsFor g n f.DeclaringType with
        | none => simp [hp] at h
        | some p => rw [ih _ _ hp]; rw [hp] at h; exact h

theorem append_ne_empty (p x : String) (hp : p ≠ "") : p ++ x ≠ "" := by
  intro h
  apply hp
  apply String.ext
  have := congrArg String.data h
  simp only [String.data_append] at this
  exact (List.append_eq_nil.1 this).1

/-- A method or field that is not foreign and whose declaring type is nameable
is nameable. -/
theorem member_nameable {cx : BuilderEnv} (hA : Adequate cx) {target : SymbolID}
    (hforeign : isStdlib cx.graph cx.fuel target = some false)
    (hmember : (∃ m, entityAt cx.graph target = some (Entity.method m) ∧
        Nameable cx m.DeclaringType) ∨
      (∃ f, entityAt cx.graph target = some (Entity.field f) ∧
        Nameable cx f.DeclaringType)) :
    Nameable cx target := by
  obtain ⟨d, hd⟩ := Option.isSome_iff_exists.1 (hA target).1
  have hid : target ≠ InvalidSymbol := by
    intro he
    cases hfu : cx.fuel with
    | zero => rw [hfu] at hforeign; simp [isStdlib] at hforeign
    | succ n => rw [hfu] at hforeign; simp [isStdlib, he] at hforeign
  have hparent : ∀ (parent : SymbolID) (n : Nat) (p : String), cx.fuel = n + 1 →
      Nameable cx parent → descriptorsFor cx.graph n parent = some p → p ≠ "" := by
    intro parent n p hfu ⟨t, ht, htne⟩ hp he
    obtain ⟨_, d', hd', hne', _⟩ := (scipSymbol_eq_some_iff _ _ _ _ htne).1 ht
    rw [hfu, descriptorsFor_succ _ n _ _ hp] at hd'
    simp only [Option.some.injEq] at hd'
    exact hne' (hd' ▸ he)
  have hdne : d ≠ "" := by
    cases hfu : cx.fuel with
    | zero => rw [hfu] at hd; simp [descriptorsFor] at hd
    | succ n =>
      rw [hfu] at hd
      rcases hmember with ⟨m, he, hn⟩ | ⟨f, he, hn⟩
      · rw [descriptorsFor_method _ n _ m he] at hd
        cases hp : descriptorsFor cx.graph n m.DeclaringType with
        | none => simp [hp] at hd
        | some p =>
          have hpne := hparent _ n p hfu hn hp
          simp only [hp, hpne, if_false, Option.some.injEq] at hd
          rw [← hd, String.append_assoc]
          exact append_ne_empty _ _ hpne
      · rw [descriptorsFor_field _ n _ f he] at hd
        cases hp : descriptorsFor cx.graph n f.DeclaringType with
        | none => simp [hp] at hd
        | some p =>
          have hpne := hparent _ n p hfu hn hp
          simp only [hp, hpne, if_false, Option.some.injEq] at hd
          rw [← hd, String.append_assoc]
          exact append_ne_empty _ _ hpne
  refine ⟨symbolPrefix ++ d, ?_, ?_⟩
  · simp [scipSymbol, hid, hd, hdne]
  · intro h
    have := congrArg String.data h
    simp [String.data_append, symbolPrefix_eq] at this

theorem buildReferences_adds {cx : BuilderEnv} {b : BindingResult} (hb : cx.binding = some b)
    {target : SymbolID} {sym : String}
    (hf : isStdlib cx.graph cx.fuel target = some false)
    (hs : scipSymbol cx.graph cx.fuel target = some sym) (hne : sym ≠ "")
    {db db' : documentBuilder} (h : buildReferences cx db = some db') :
    (∀ e ∈ b.MethodCalls, e.2 = target → b.NodeFiles e.1.Ptr ≠ "" →
      HasOcc db'.docs (cx.relativePath (b.NodeFiles e.1.Ptr))
        (mkOcc e.1.Line e.1.Column e.1.Name sym SymbolRole_ReadAccess)) ∧
    (∀ e ∈ b.FieldAccesses, e.2 = target → b.NodeFiles e.1.Ptr ≠ "" →
      HasOcc db'.docs (cx.relativePath (b.NodeFiles e.1.Ptr))
        (mkOcc e.1.Line e.1.Column e.1.FieldName sym SymbolRole_ReadAccess)) := by
  unfold buildReferences at h
  simp only [hb] at h
  cases h₁ : b.Identifiers.foldlM (identifierStep cx b) db with
  | none => simp [h₁] at h
  | some db₁ =>
    simp only [h₁] at h
    cases h₂ : b.MethodCalls.foldlM (methodCallStep cx b) db₁ with
    | none => simp [h₂] at h
    | some db₂ =>
      simp only [h₂] at h
      cases h₃ : b.FieldAccesses.foldlM (fieldAccessStep cx b) db₂ with
      | none => simp [h₃] at h
      | some db₃ =>
        simp only [h₃] at h
        have hk₃ : ∀ {k o}, HasOcc db₂.docs k o → HasOcc db₃.docs k o := fun ho =>
          (foldlM_reach (C := fun _ => True) (O := fun _ _ => True) _ _ db₂ db₃
            (fun x _ c c' hc => referenceStep_reach hc (fun _ _ _ _ _ => ⟨trivial, trivial⟩))
            h₃).hasOcc ho
        have hk₄ : ∀ {k o}, HasOcc db₃.docs k o → HasOcc db'.docs k o := fun ho =>
          (foldlM_reach (C := fun _ => True) (O := fun _ _ => True) _ _ db₃ db'
            (fun x _ c c' hc => referenceStep_reach hc (fun _ _ _ _ _ => ⟨trivial, trivial⟩))
            h).hasOcc ho
        constructor
        · intro e he het hp
          apply hk₄
          apply hk₃
          exact foldlM_mem_adds (methodCallStep cx b) b.MethodCalls e he
            (fun d => HasOcc d.docs (cx.relativePath (b.NodeFiles e.1.Ptr))
              (mkOcc e.1.Line e.1.Column e.1.Name sym SymbolRole_ReadAccess))
            (fun _ _ _ _ hc ho => referenceStep_keeps hc ho)
            (fun _ _ hc => referenceStep_adds hp (het ▸ hf) (het ▸ hs) hne hc) db₁ db₂ h₂
        · intro e he het hp
          apply hk₄
          exact foldlM_mem_adds (fieldAccessStep cx b) b.FieldAccesses e he
            (fun d => HasOcc d.docs (cx.relativePath (b.NodeFiles e.1.Ptr))
              (mkOcc e.1.Line e.1.Column e.1.FieldName sym SymbolRole_ReadAccess))
            (fun _ _ _ _ hc ho => referenceStep_keeps hc ho)
            (fun _ _ hc => referenceStep_adds hp (het ▸ hf) (het ▸ hs) hne hc) db₂ db₃ h₃

theorem interfaceStep_keeps {cx : BuilderEnv} {i : InterfaceSymbol} {db db' : documentBuilder}
    (hmem : i ∈ cx.graph.AllInterfaces) (h : interfaceStep cx db i = some db') {k : String}
    {o : Occurrence} (ho : HasOcc db.docs k o) : HasOcc db'.docs k o :=
  (interfaceStep_reach (C := fun _ => True) (O := fun _ _ => True) h
    (fun _ _ _ _ _ _ => ⟨trivial, fun _ _ _ => trivial⟩) hmem).hasOcc ho

theorem interfaceStep_adds_method {cx : BuilderEnv} {i : InterfaceSymbol}
    {idecl : InterfaceDeclaration} {db db' : documentBuilder} {mid : SymbolID}
    {m : MethodSymbol} {decl : MethodDeclaration} {sym isym : String}
    (hid : i.Declaration = some idecl) (hp : idecl.FilePath ≠ "")
    (his : scipSymbol cx.graph cx.fuel i.ID = some isym) (hine : isym ≠ "")
    (hmid : mid ∈ i.Methods)
    (hm : cx.graph.MethodByID mid = some m) (hd : m.Declaration = some decl)
    (hs : scipSymbol cx.graph cx.fuel mid = some sym) (hne : sym ≠ "")
    (h : interfaceStep cx db i = some db') :
    HasOcc db'.docs (cx.relativePath idecl.FilePath)
      (mkOcc decl.Line decl.Column decl.Name sym SymbolRole_Definition) := by
  unfold interfaceStep at h
  simp only [hid] at h
  rw [if_neg hp, his] at h
  dsimp only at h
  rw [if_neg hine] at h
  split at h
  · exact absurd h (by simp)
  exact registerMethods_adds hp hmid hm hd hs hne h

theorem buildDefinitions_of_interfaceStep {cx : BuilderEnv} {i : InterfaceSymbol}
    (hmem : i ∈ cx.graph.AllInterfaces) {k : String} {o : Occurrence}
    (hadd : ∀ c c', interfaceStep cx c i = some c' → HasOcc c'.docs k o)
    {db db' : documentBuilder} (h : buildDefinitions cx db = some db') :
    HasOcc db'.docs k o := by
  unfold buildDefinitions at h
  cases h₁ : cx.graph.AllClasses.foldlM (classStep cx) db with
  | none => simp [h₁] at h
  | some db₁ =>
    simp only [h₁] at h
    cases h₂ : cx.graph.AllInterfaces.foldlM (interfaceStep cx) db₁ with
    | none => simp [h₂] at h
    | some db₂ =>
      simp only [h₂] at h
      have hif : HasOcc db₂.docs k o :=
        foldlM_mem_adds (interfaceStep cx) cx.graph.AllInterfaces i hmem
          (fun d => HasOcc d.docs k o)
          (fun x hx _ _ hc ho => interfaceStep_keeps hx hc ho) hadd db₁ db₂ h₂
      cases h₃ : cx.graph.AllEnums.foldlM (enumStep cx) db₂ with
      | none => simp [h₃] at h
      | some db₃ =>
        simp only [h₃] at h
        have hsite : ∀ path id line col name, DefSite cx path id line col name →
            SiteOK (fun _ => True) (fun _ _ => True) cx path id line col name :=
          fun _ _ _ _ _ _ => ⟨trivial, fun _ _ _ => trivial⟩
        exact ((foldlM_reach (C := fun _ => True) (O := fun _ _ => True) _ _ db₂ db₃
          (fun x hx c c' hc => enumStep_reach hc hsite hx) h₃).trans
          (foldlM_reach _ _ db₃ db' (fun x hx c c' hc => triggerStep_reach hc hsite hx)
            h)).hasOcc hif

/-- C7. References resolve to definitions: let `target` be a method or field
that is not foreign and whose declaring type is nameable. Then `target` has a
non-empty identifier `sym`; the references pass returns, and for every
method-call or field-access binding of `target` with a known source file the
document of that file holds a `ReadAccess` occurrence, at the span of the
reference, whose identifier is `sym`; and the definitions pass returns, and
puts the same `sym` on the `Definition` occurrence of `target`: for a method
in the document of the class that lists it or of the nameable interface that
lists it, for a field in the document of the class that lists it (of the
field's own file when it names one). -/
theorem C7_references_resolve_to_definitions (cx : BuilderEnv) (b : BindingResult)
    (target : SymbolID) (hb : cx.binding = some b) (hA : Adequate cx)
    (hforeign : isStdlib cx.graph cx.fuel target = some false)
    (hmember : (∃ m, entityAt cx.graph target = some (Entity.method m) ∧
        Nameable cx m.DeclaringType) ∨
      (∃ f, entityAt cx.graph target = some (Entity.field f) ∧
        Nameable cx f.DeclaringType)) :
    ∃ sym, scipSymbol cx.graph cx.fuel target = some sym ∧ sym ≠ "" ∧
      (∀ db, ∃ db', buildReferences cx db = some db' ∧
        (∀ e ∈ b.MethodCalls, e.2 = target → b.NodeFiles e.1.Ptr ≠ "" →
          HasOcc db'.docs (cx.relativePath (b.NodeFiles e.1.Ptr))
            (mkOcc e.1.Line e.1.Column e.1.Name sym SymbolRole_ReadAccess)) ∧
        (∀ e ∈ b.FieldAccesses, e.2 = target → b.NodeFiles e.1.Ptr ≠ "" →
          HasOcc db'.docs (cx.relativePath (b.NodeFiles e.1.Ptr))
            (mkOcc e.1.Line e.1.Column e.1.FieldName sym SymbolRole_ReadAccess))) ∧
      (∀ db, ∃ db', buildDefinitions cx db = some db' ∧
        (∀ (c : ClassSymbol) (cdecl : ClassDeclaration) (m : MethodSymbol)
          (decl : MethodDeclaration), c ∈ cx.graph.AllClasses → c.Declaration = some cdecl →
          cdecl.FilePath ≠ "" → target ∈ c.Methods → cx.graph.MethodByID target = some m →
          m.Declaration = some decl →
          HasOcc db'.docs (cx.relativePath cdecl.FilePath)
            (mkOcc decl.Line decl.Column decl.Name sym SymbolRole_Definition)) ∧
        (∀ (c : ClassSymbol) (cdecl : ClassDeclaration) (f : FieldSymbol)
          (decl : FieldDeclaration), c ∈ cx.graph.AllClasses → c.Declaration = some cdecl →
          target ∈ c.Fields → cx.graph.FieldByID target = some f →
          f.Declaration = some decl →
          (if decl.FilePath ≠ "" then decl.FilePath else cdecl.FilePath) ≠ "" →
          isMetadataXML (if decl.FilePath ≠ "" then decl.FilePath else cdecl.FilePath)
            = false →
          HasOcc db'.docs
            (cx.relativePath (if decl.FilePath ≠ "" then decl.FilePath else cdecl.FilePath))
            (mkOcc decl.Line decl.Column decl.Name sym SymbolRole_Definition)) ∧
        (∀ (i : InterfaceSymbol) (idecl : InterfaceDeclaration) (m : MethodSymbol)
          (decl : MethodDeclaration), i ∈ cx.graph.AllInterfaces →
          i.Declaration = some idecl → idecl.FilePath ≠ "" → Nameable cx i.ID →
          target ∈ i.Methods → cx.graph.MethodByID target = some m →
          m.Declaration = some decl →
          HasOcc db'.docs (cx.relativePath idecl.FilePath)
            (mkOcc decl.Line decl.Column decl.Name sym SymbolRole_Definition))) := by
  obtain ⟨sym, hs, hne⟩ := member_nameable hA hforeign hmember
  refine ⟨sym, hs, hne, ?_, ?_⟩
  · intro db
    obtain ⟨db', h⟩ := buildReferences_total hA db
    exact ⟨db', h, buildReferences_adds hb hforeign hs hne h⟩
  · intro db
    obtain ⟨db', h⟩ := buildDefinitions_total hA db
    refine ⟨db', h, ?_, ?_, ?_⟩
    · intro c cdecl m decl hmem hcd hp hmid hm hd
      exact buildDefinitions_of_classStep hmem
        (fun _ _ hc => classStep_adds_method hcd hp hmid hm hd hs hne hc) h
    · intro c cdecl f decl hmem hcd hfid hf hd hp hmeta
      exact buildDefinitions_of_classStep hmem
        (fun _ _ hc => classStep_adds_field hcd hfid hf hd hp hmeta hs hne hc) h
    · intro i idecl m decl hmem hid hp hname hmid hm hd
      obtain ⟨isym, his, hine⟩ := hname
      exact buildDefinitions_of_interfaceStep hmem
        (fun _ _ hc => interfaceStep_adds_method hid hp his hine hmid hm hd hs hne hc) h
theorem myClassGraph_adequate (n : Nat) :
    ∀ id : SymbolID, (descriptorsFor myClassGraph (n + 2) id).isSome = true ∧
      (isStdlib myClassGraph (n + 2) id).isSome = true := by
  intro id
  by_cases h1 : id = 1
  · subst h1; simp [descriptorsFor, isStdlib, myClassGraph, emptyGraph, InvalidSymbol]
  · by_cases h2 : id = 2
    · subst h2
      simp [descriptorsFor, isStdlib, myClassGraph, emptyGraph, InvalidSymbol, countField]
      split <;> rfl
    · by_cases h3 : id = 3
      · subst h3
        simp [descriptorsFor, isStdlib, myClassGraph, emptyGraph, InvalidSymbol,
          getCountMethod]
        split <;> rfl
      · by_cases h4 : id = 4
        · subst h4
          simp [descriptorsFor, isStdlib, myClassGraph, emptyGraph, InvalidSymbol,
            myClassConstructor]
          split <;> rfl
        · constructor
          · simp [descriptorsFor, myClassGraph, emptyGraph, h1, h2, h3, h4]
          · simp only [isStdlib, myClassGraph, emptyGraph, h1, h2, h3, h4, if_false]
            split <;> rfl

theorem crossFileEnv_adequate : Adequate crossFileEnv := myClassGraph_adequate 1

/-- C7 on the end-to-end example: the call `obj.getCount()` in `Greeter.cls`
gets a `ReadAccess` occurrence with the identifier of the `Definition`
occurrence of `getCount` in `MyClass.cls`. -/
theorem C7_references_resolve_to_definitions_witness :
    ∃ db₁ db₂, buildDefinitions crossFileEnv newDocumentBuilder = some db₁ ∧
      buildReferences crossFileEnv db₁ = some db₂ ∧
      HasOcc db₂.docs "MyClass.cls"
        (mkOcc 5 4 "getCount" "scip-apex apex . . MyClass#getCount()."
          SymbolRole_Definition) ∧
      HasOcc db₂.docs "Greeter.cls"
        (mkOcc 5 12 "getCount" "scip-apex apex . . MyClass#getCount()."
          SymbolRole_ReadAccess) := by
  obtain ⟨sym, hs, _, hrefs, hdefs⟩ :=
    C7_references_resolve_to_definitions crossFileEnv crossFileBinding 3 rfl
      crossFileEnv_adequate (by decide)
      (Or.inl ⟨getCountMethod, by decide, "scip-apex apex . . MyClass#", by decide, by decide⟩)
  have hsym : sym = "scip-apex apex . . MyClass#getCount()." := by
    have h2 : scipSymbol crossFileEnv.graph crossFileEnv.fuel 3 =
        some "scip-apex apex . . MyClass#getCount()." := by decide
    rw [h2] at hs
    exact (Option.some.inj hs).symm
  subst hsym
  obtain ⟨db₁, h₁, hm, _⟩ := hdefs newDocumentBuilder
  obtain ⟨db₂, h₂, hr, _⟩ := hrefs db₁
  refine ⟨db₁, db₂, h₁, h₂, ?_, ?_⟩
  · exact buildReferences_hasOcc h₂
      (hm myClass _ getCountMethod _ (by simp [crossFileEnv, myClassGraph]) rfl (by decide)
        (by decide) (by decide) rfl)
  · exact hr ({ Ptr := 2, Line := 5, Column := 12, Name := "getCount" }, 3)
      (List.mem_singleton.2 rfl) rfl (by decide)

/-! ## Coverage of occurrences by symbol metadata -/

/-- C1 fails on the code. In `parameterEnv` the use of the parameter `p` gets
the occurrence `local 2`, while the only record registered for `p` is
`local 1` and no document lists either; in `customObjectEnv` the constructor
call gets an occurrence for `TestObject__c`, for which no record is registered
at all. For each document the occurrence identifiers are shown first, then the
identifiers of its `Symbols`; `registeredSymbols` is everything the builder
holds. -/
theorem C1_coverage_fails :
    (buildIndex parameterEnv).map (fun docs => docs.map (fun d =>
        (d.Occurrences.map Occurrence.Symbol, d.Symbols.map SymbolInformation.Symbol))) =
      some [(["scip-apex apex . . C#", "scip-apex apex . . C#m().", "local 2"],
             ["scip-apex apex . . C#", "scip-apex apex . . C#m()."])] ∧
    registeredSymbols parameterEnv =
      some ["scip-apex apex . . C#", "scip-apex apex . . C#m().", "local 1"] ∧
    (buildIndex customObjectEnv).map (fun docs => docs.map (fun d =>
        (d.Occurrences.map Occurrence.Symbol, d.Symbols.map SymbolInformation.Symbol))) =
      some [(["scip-apex apex . . User#", "scip-apex apex . . TestObject__c#"],
             ["scip-apex apex . . User#"])] ∧
    registeredSymbols customObjectEnv = some ["scip-apex apex . . User#"] := by
  decide

/-! ## Local and global identifiers -/

theorem localSymbol_data (n : Int) : (localSymbol n).data = 'l' :: ("ocal " ++ toString n).data := by
  simp [localSymbol, String.data_append]

/-- C11. Local and global identifiers are disjoint: no `localSymbol n` is
the result of `scipSymbol`; every non-empty result of `scipSymbol` starts with
`scip-apex apex . . `, and every result of `localSymbol` starts with
`local `. -/
theorem C11_local_global_disjoint (g : SymbolGraph) (fuel : Nat) (id : SymbolID) (n : Int) :
    scipSymbol g fuel id ≠ some (localSymbol n) ∧
    (∀ s, scipSymbol g fuel id = some s → s ≠ "" → ∃ d, s = "scip-apex apex . . " ++ d) ∧
    (∃ t, localSymbol n = "local " ++ t) := by
  have hpre : ∀ s, scipSymbol g fuel id = some s → s ≠ "" →
      ∃ d, s = "scip-apex apex . . " ++ d := by
    intro s hs hne
    obtain ⟨_, d, _, _, hsd⟩ := (scipSymbol_eq_some_iff g fuel id s hne).1 hs
    exact ⟨d, by rw [hsd, symbolPrefix_eq]⟩
  refine ⟨?_, hpre, ⟨toString n, rfl⟩⟩
  intro h
  have hne : localSymbol n ≠ "" := by
    intro he
    have := congrArg String.data he
    rw [localSymbol_data] at this
    simp at this
  obtain ⟨d, hd⟩ := hpre _ h hne
  have := congrArg String.data hd
  rw [localSymbol_data] at this
  have h2 : ("scip-apex apex . . " ++ d).data = 's' :: ("cip-apex apex . . ".data ++ d.data) := by
    rw [String.data_append]
    rfl
  rw [h2] at this
  simp at this

/-- C11 on `myClassGraph`: the identifier of `MyClass` and the first local
identifier. -/
theorem C11_local_global_disjoint_witness :
    scipSymbol myClassGraph 2 1 = some "scip-apex apex . . MyClass#" ∧
    localSymbol 1 = "local 1" ∧
    scipSymbol myClassGraph 2 1 ≠ some (localSymbol 1) :=
  ⟨by decide, by decide, (C11_local_global_disjoint myClassGraph 2 1 1).1⟩

/-! ## Uses of one variable -/

/-- C12 fails on the code. In `twoUsesEnv` the parameter `p` of `m` is used
twice in `C.cls`; `registerParameters` registers `p` as `local 1`, the first
use gets `local 2` and the second `local 3`. -/
theorem C12_two_uses_two_identifiers :
    (buildIndex twoUsesEnv).map (fun docs => docs.map (fun d =>
        d.Occurrences.map (fun o => (o.Range, o.Symbol, o.SymbolRoles)))) =
      some [[([0, 13, 14], "scip-apex apex . . C#", 1),
             ([1, 9, 10], "scip-apex apex . . C#m().", 1),
             ([2, 4, 5], "local 2", 8),
             ([3, 8, 9], "local 3", 8)]] ∧
    registeredSymbols twoUsesEnv =
      some ["scip-apex apex . . C#", "scip-apex apex . . C#m().", "local 1"] := by
  decide

/-! ## Bindings that the references pass skips -/

theorem foldlM_skip {α β : Type} (f : β → α → Option β) (l₁ l₂ : List α) (e : α)
    (hskip : ∀ b, f b e = some b) (b : β) :
    (l₁ ++ e :: l₂).foldlM f b = (l₁ ++ l₂).foldlM f b := by
  rw [List.foldlM_append, List.foldlM_append]
  congr 1
  funext c
  rw [List.foldlM_cons, hskip c]
  rfl

theorem referenceStep_foreign {cx : BuilderEnv} (b : BindingResult) (ptr : Nat)
    (line col : Int) (name : String) {target : SymbolID}
    (hf : isStdlib cx.graph cx.fuel target = some true) (db : documentBuilder) :
    referenceStep cx b ptr line col name target db = some db := by
  unfold referenceStep
  simp only [hf]
  split <;> rfl

theorem identifierStep_foreign {cx : BuilderEnv} (b : BindingResult) (expr : Identifier)
    {target : SymbolID} (hf : isStdlib cx.graph cx.fuel target = some true)
    (db : documentBuilder) : identifierStep cx b db (expr, target) = some db := by
  unfold identifierStep
  simp only [hf]
  split
  · rfl
  · split <;> rfl

theorem identifierStep_synthetic {cx : BuilderEnv} (b : BindingResult)
    (e : Identifier × SymbolID) (hs : e.1.Synthetic = true) (db : documentBuilder) :
    identifierStep cx b db e = some db := by
  unfold identifierStep
  simp [hs]

/-- C15. References to foreign targets are skipped: when `isStdlib` reports
the target of a binding as foreign, `buildReferences` returns the same builder
(hence the same documents) as on the table without that binding, whichever of
the four mappings holds it; the invalid sentinel and the identifiers unknown
to the graph are foreign. -/
theorem C15_foreign_references_skipped (cx : BuilderEnv) (b : BindingResult)
    (db : documentBuilder) (target : SymbolID) (hb : cx.binding = some b)
    (hf : isStdlib cx.graph cx.fuel target = some true) :
    (∀ l₁ l₂ expr, b.Identifiers = l₁ ++ (expr, target) :: l₂ →
      buildReferences cx db =
        buildReferences { cx with binding := some { b with Identifiers := l₁ ++ l₂ } } db) ∧
    (∀ l₁ l₂ expr, b.MethodCalls = l₁ ++ (expr, target) :: l₂ →
      buildReferences cx db =
        buildReferences { cx with binding := some { b with MethodCalls := l₁ ++ l₂ } } db) ∧
    (∀ l₁ l₂ expr, b.FieldAccesses = l₁ ++ (expr, target) :: l₂ →
      buildReferences cx db =
        buildReferences { cx with binding := some { b with FieldAccesses := l₁ ++ l₂ } } db) ∧
    (∀ l₁ l₂ expr, b.ConstructorBindings = l₁ ++ (expr, { TypeID := target }) :: l₂ →
      buildReferences cx db =
        buildReferences
          { cx with binding := some { b with ConstructorBindings := l₁ ++ l₂ } } db) ∧
    (∀ n, isStdlib cx.graph (n + 1) InvalidSymbol = some true) ∧
    (∀ n id, cx.graph.ClassByID id = none → cx.graph.InterfaceByID id = none →
      cx.graph.EnumByID id = none → cx.graph.MethodByID id = none →
      cx.graph.FieldByID id = none → cx.graph.TriggerByID id = none →
      cx.graph.VariableByID id = none → isStdlib cx.graph (n + 1) id = some true) := by
  refine ⟨?_, ?_, ?_, ?_, ?_, ?_⟩
  · intro l₁ l₂ expr h
    simp only [buildReferences, hb, h]
    rw [foldlM_skip (identifierStep cx b) l₁ l₂ _ (identifierStep_foreign b expr hf)]
    rfl
  · intro l₁ l₂ expr h
    simp only [buildReferences, hb, h]
    have hskip : ∀ c, methodCallStep cx b c (expr, target) = some c :=
      fun c => referenceStep_foreign b _ _ _ _ hf c
    simp only [foldlM_skip (methodCallStep cx b) l₁ l₂ (expr, target) hskip]
    rfl
  · intro l₁ l₂ expr h
    simp only [buildReferences, hb, h]
    have hskip : ∀ c, fieldAccessStep cx b c (expr, target) = some c :=
      fun c => referenceStep_foreign b _ _ _ _ hf c
    simp only [foldlM_skip (fieldAccessStep cx b) l₁ l₂ (expr, target) hskip]
    rfl
  · intro l₁ l₂ expr h
    simp only [buildReferences, hb, h]
    have hskip : ∀ c, constructorStep cx b c (expr, { TypeID := target }) = some c :=
      fun c => referenceStep_foreign b _ _ _ _ hf c
    simp only [foldlM_skip (constructorStep cx b) l₁ l₂ (expr, { TypeID := target }) hskip]
    rfl
  · intro n
    simp [isStdlib]
  · intro n id h1 h2 h3 h4 h5 h6 h7
    simp only [isStdlib, h1, h2, h3, h4, h5, h6, h7]
    split <;> rfl

/-- C15 on `foreignCallEnv`: the constructor call of the class without a
source file leaves no document. -/
theorem C15_foreign_references_skipped_witness :
    (buildReferences foreignCallEnv newDocumentBuilder).map documentBuilder.docs = some [] :=
  (congrArg (Option.map documentBuilder.docs)
    ((C15_foreign_references_skipped foreignCallEnv foreignCallBinding newDocumentBuilder 1
      rfl (by decide)).2.2.2.1 [] [] { Ptr := 1, Line := 3, Column := 20, TypeName := "C" }
      rfl)).trans (by decide)

/-- C16. Synthetic reference sites are ignored: an identifier node marked
synthetic contributes nothing; `buildReferences` returns the same builder
(hence the same documents) as on the table without that binding. The mark is
read on identifier nodes, the only nodes that carry it in the model. -/
theorem C16_synthetic_sites_ignored (cx : BuilderEnv) (b : BindingResult)
    (db : documentBuilder) (l₁ l₂ : List (Identifier × SymbolID)) (e : Identifier × SymbolID)
    (hb : cx.binding = some b) (hs : e.1.Synthetic = true)
    (h : b.Identifiers = l₁ ++ e :: l₂) :
    buildReferences cx db =
      buildReferences { cx with binding := some { b with Identifiers := l₁ ++ l₂ } } db := by
  simp only [buildReferences, hb, h]
  rw [foldlM_skip (identifierStep cx b) l₁ l₂ _ (identifierStep_synthetic b e hs)]
  rfl

/-- C16 on `foreignCallEnv`: the synthetic identifier node leaves no
document. -/
theorem C16_synthetic_sites_ignored_witness :
    (buildReferences foreignCallEnv newDocumentBuilder).map documentBuilder.docs = some [] :=
  (congrArg (Option.map documentBuilder.docs)
    (C16_synthetic_sites_ignored foreignCallEnv foreignCallBinding newDocumentBuilder [] []
      ({ Ptr := 2, Synthetic := true, Line := 3, Column := 4, Name := "f" }, 2)
      rfl rfl rfl)).trans (by decide)

/-! ## Both passes: what may stand in the documents -/

/-- The two passes in sequence only create the documents of definition and
reference sites and only append their occurrences. -/
theorem passes_reach {C : String → Prop} {O : String → Occurrence → Prop}
    {cx : BuilderEnv} {db db₁ db₂ : documentBuilder}
    (h₁ : buildDefinitions cx db = some db₁) (h₂ : buildReferences cx db₁ = some db₂)
    (hdef : ∀ path id line col name,
      DefSite cx path id line col name → SiteOK C O cx path id line col name)
    (href : ∀ b, cx.binding = some b → ∀ file line col name id,
      RefSite b file line col name id → RefOK C O cx file line col name id) :
    DocsReach C O db.docs db₂.docs :=
  (buildDefinitions_reach h₁ hdef).trans (buildReferences_reach h₂ href)

theorem attachSymbols_fields (infos : List SymbolInformation) (d : Document) :
    (attachSymbols infos d).Occurrences = d.Occurrences ∧
    (attachSymbols infos d).RelativePath = d.RelativePath := by
  unfold attachSymbols
  induction infos generalizing d with
  | nil => exact ⟨rfl, rfl⟩
  | cons si rest ih =>
    simp only [List.foldl_cons]
    split
    · have := ih { d with Symbols := d.Symbols ++ [si] }
      exact this
    · exact ih d

theorem mem_documents {db : documentBuilder} {d : Document} (h : d ∈ documents db) :
    ∃ d₀ ∈ db.docs, d = attachSymbols db.symbolInfos d₀ := by
  unfold documents at h
  simp only [List.mem_map] at h
  obtain ⟨d₀, hd₀, rfl⟩ := h
  exact ⟨d₀, hd₀, rfl⟩

theorem wellFormed_global {g : SymbolGraph} {fuel : Nat} {id : SymbolID} {sym : String}
    (hs : scipSymbol g fuel id = some sym) (hne : sym ≠ "") : WellFormedSymbol sym := by
  refine ⟨hne, Or.inl ?_⟩
  obtain ⟨_, d, _, _, hsd⟩ := (scipSymbol_eq_some_iff g fuel id sym hne).1 hs
  refine ⟨"apex . . " ++ d, ?_⟩
  rw [hsd, symbolPrefix_eq, ← String.append_assoc]
  rfl

theorem wellFormed_local (n : Int) : WellFormedSymbol (localSymbol n) := by
  refine ⟨?_, Or.inr ⟨toString n, rfl⟩⟩
  intro he
  have := congrArg String.data he
  rw [localSymbol_data] at this
  simp at this

/-- C18. No empty or malformed identifier is emitted: after the definitions
pass and the references pass, every occurrence of every document of the
builder, and of every document returned by `documents`, has a non-empty
`Symbol` that starts with `scip-apex ` or with `local ` (provided the
occurrences the builder started with had, as on a fresh builder). -/
theorem C18_no_malformed_identifier (cx : BuilderEnv) (db db₁ db₂ : documentBuilder)
    (h₁ : buildDefinitions cx db = some db₁) (h₂ : buildReferences cx db₁ = some db₂)
    (h₀ : ∀ d ∈ db.docs, ∀ o ∈ d.Occurrences, WellFormedSymbol o.Symbol) :
    (∀ d ∈ db₂.docs, ∀ o ∈ d.Occurrences, WellFormedSymbol o.Symbol) ∧
    (∀ d ∈ documents db₂, ∀ o ∈ d.Occurrences, WellFormedSymbol o.Symbol) := by
  have hreach : DocsReach (fun _ => True) (fun _ o => WellFormedSymbol o.Symbol)
      db.docs db₂.docs := by
    apply passes_reach h₁ h₂
    · intro path id line col name _
      exact ⟨trivial, fun sym hs hne => wellFormed_global hs hne⟩
    · intro b _ file line col name id _ _ _ sym hne hsym
      refine ⟨trivial, ?_⟩
      rcases hsym with hs | ⟨_, n, hn⟩
      · exact wellFormed_global hs hne
      · rw [hn]; exact wellFormed_local n
  have hall : ∀ d ∈ db₂.docs, ∀ o ∈ d.Occurrences, WellFormedSymbol o.Symbol := fun d hd =>
    (hreach.invariant (K := fun _ => True) (P := fun _ o => WellFormedSymbol o.Symbol)
      (fun _ hk => hk) (fun _ _ ho => ho) (fun d hd => ⟨trivial, h₀ d hd⟩) d hd).2
  refine ⟨hall, ?_⟩
  intro d hd o ho
  obtain ⟨d₀, hd₀, rfl⟩ := mem_documents hd
  rw [(attachSymbols_fields _ _).1] at ho
  exact hall d₀ hd₀ o ho

theorem C18_no_malformed_identifier_witness :
    ∃ db₁ db₂, buildDefinitions twoUsesEnv newDocumentBuilder = some db₁ ∧
      buildReferences twoUsesEnv db₁ = some db₂ ∧
      (∀ d ∈ db₂.docs, ∀ o ∈ d.Occurrences, WellFormedSymbol o.Symbol) ∧
      (∀ d ∈ documents db₂, ∀ o ∈ d.Occurrences, WellFormedSymbol o.Symbol) := by
  have h₁ := getD_eq_some (buildDefinitions twoUsesEnv newDocumentBuilder)
    newDocumentBuilder (by decide)
  have h₂ := getD_eq_some (buildReferences twoUsesEnv
    ((buildDefinitions twoUsesEnv newDocumentBuilder).getD newDocumentBuilder))
    newDocumentBuilder (by decide)
  exact ⟨_, _, h₁, h₂,
    C18_no_malformed_identifier twoUsesEnv newDocumentBuilder _ _ h₁ h₂
      (fun d hd => by simp [newDocumentBuilder] at hd)⟩

theorem int32_of_fits {x : Int} (h : FitsInt32 x) : int32 x = x := by
  obtain ⟨h1, h2⟩ := h
  unfold int32
  omega

theorem utf8Len_nonneg (s : String) : (0 : Int) ≤ (s.utf8ByteSize : Int) :=
  Int.ofNat_nonneg _

/-- C20 (counterexample). A class declared at column `2147483647` with the
one-byte name `C` gets the range `[0, 2147483647, -2147483648]`: the end column
is converted with `int32` and wraps, so the start column exceeds the end
column and the width is not the length of the name. -/
theorem C20_span_wraps_counterexample :
    (buildDefinitions wideLineEnv newDocumentBuilder).map
        (fun db => db.docs.map (fun d => d.Occurrences.map (fun o => o.Range))) =
      some [[[0, 2147483647, -2147483648]]] ∧
    ¬ ((2147483647 : Int) ≤ -2147483648) ∧
    (-2147483648 : Int) - 2147483647 ≠ len "C" := by
  refine ⟨by decide, by decide, by decide⟩

/-- C20 (amended). Every occurrence in the documents after both passes on a
fresh builder belongs to a definition site (role `Definition`) or a reference
site (role `ReadAccess`) with line, column and name those of the declaration
or of the reference node (for a constructor invocation the whole `TypeName`),
and its range is `[int32 (Line-1), int32 Column, int32 (Column + len name)]`.
When the three values fit in an `int32` the range is
`[Line-1, Column, Column + len name]`, the start column does not exceed the
end column and the width is the byte length of the name. -/
theorem C20_occurrence_spans (cx : BuilderEnv) (db₁ db₂ : documentBuilder)
    (h₁ : buildDefinitions cx newDocumentBuilder = some db₁)
    (h₂ : buildReferences cx db₁ = some db₂) :
    ∀ d ∈ db₂.docs, ∀ o ∈ d.Occurrences, ∃ line col name,
      SpanSite cx o.SymbolRoles line col name ∧
      o.Range = [int32 (line - 1), int32 col, int32 (col + len name)] ∧
      (FitsInt32 (line - 1) → FitsInt32 col → FitsInt32 (col + len name) →
        o.Range = [line - 1, col, col + len name] ∧ col ≤ col + len name ∧
        col + len name - col = len name) := by
  have hreach : DocsReach (fun _ => True)
      (fun _ o => ∃ line col name, SpanSite cx o.SymbolRoles line col name ∧
        o.Range = [int32 (line - 1), int32 col, int32 (col + len name)])
      newDocumentBuilder.docs db₂.docs := by
    apply passes_reach h₁ h₂
    · intro path id line col name hsite
      exact ⟨trivial, fun sym _ _ =>
        ⟨line, col, name, Or.inl ⟨rfl, path, id, hsite⟩, rfl⟩⟩
    · intro b hb file line col name id hsite _ _ sym _ _
      exact ⟨trivial, line, col, name, Or.inr ⟨rfl, b, file, id, hb, hsite⟩, rfl⟩
  intro d hd o ho
  obtain ⟨line, col, name, hsite, hr⟩ :=
    (hreach.invariant (K := fun _ => True)
      (P := fun _ o => ∃ line col name, SpanSite cx o.SymbolRoles line col name ∧
        o.Range = [int32 (line - 1), int32 col, int32 (col + len name)])
      (fun _ hk => hk) (fun _ _ h => h)
      (fun d hd => by simp [newDocumentBuilder] at hd) d hd).2 o ho
  refine ⟨line, col, name, hsite, hr, ?_⟩
  intro f₁ f₂ f₃
  rw [hr, int32_of_fits f₁, int32_of_fits f₂, int32_of_fits f₃]
  have := utf8Len_nonneg name
  unfold len
  refine ⟨rfl, by omega, by omega⟩

theorem C20_occurrence_spans_witness :
    ∃ db₁ db₂, buildDefinitions twoUsesEnv newDocumentBuilder = some db₁ ∧
      buildReferences twoUsesEnv db₁ = some db₂ ∧
      ∀ d ∈ db₂.docs, ∀ o ∈ d.Occurrences, ∃ line col name,
        SpanSite twoUsesEnv o.SymbolRoles line col name ∧
        o.Range = [int32 (line - 1), int32 col, int32 (col + len name)] ∧
        (FitsInt32 (line - 1) → FitsInt32 col → FitsInt32 (col + len name) →
          o.Range = [line - 1, col, col + len name] ∧ col ≤ col + len name ∧
          col + len name - col = len name) := by
  have h₁ := getD_eq_some (buildDefinitions twoUsesEnv newDocumentBuilder)
    newDocumentBuilder (by decide)
  have h₂ := getD_eq_some (buildReferences twoUsesEnv
    ((buildDefinitions twoUsesEnv newDocumentBuilder).getD newDocumentBuilder))
    newDocumentBuilder (by decide)
  exact ⟨_, _, h₁, h₂, C20_occurrence_spans twoUsesEnv _ _ h₁ h₂⟩

/-- C17. Metadata-descriptor files are indexed as documents: a class declared
in `X.object` with a declared method `m` gets the document `X.object`, which
holds the `Definition` occurrence of `m` (the class's own definition is
skipped by the metadata-file test, `registerMethods` receives the path
untested); an enum declared in `Shape.object` gets the document
`Shape.object` (the enum loop tests only that the path is not empty). -/
theorem C17_metadata_file_indexed :
    (buildIndex metadataMethodEnv).map (fun docs => docs.map (fun d => d.RelativePath)) =
      some ["X.object"] ∧
    (buildIndex metadataMethodEnv).map (fun docs => docs.map (fun d =>
        d.Occurrences.map (fun o => (o.Range, o.Symbol, o.SymbolRoles)))) =
      some [[([1, 9, 10], "scip-apex apex . . X#m().", 1)]] ∧
    isMetadataXML "X.object" = true ∧
    hasSuffix "X.object" ".object" = true ∧
    ((buildDefinitions metadataEnumEnv newDocumentBuilder).bind
        (buildReferences metadataEnumEnv)).map
        (fun db => db.docs.map (fun d => d.RelativePath)) = some ["Shape.object"] ∧
    isMetadataXML "Shape.object" = true ∧
    hasSuffix "Shape.object" ".object" = true := by
  refine ⟨by decide, by decide, by decide, by decide, by decide, by decide, by decide⟩

/-- After both passes on a fresh builder every document is the
document of a non-empty file path that either passes the metadata-file test
(the only paths a class's own definition and its fields use) or is one of the
paths used without that test (`UnguardedPath`). Hence, when taking the relative
path keeps a non-metadata path non-metadata and no unguarded path is a
metadata-descriptor file, no document has a path ending in `.object-meta.xml`,
`.field-meta.xml` or `.object`. -/
theorem documents_path_origin (cx : BuilderEnv) (db₁ db₂ : documentBuilder)
    (h₁ : buildDefinitions cx newDocumentBuilder = some db₁)
    (h₂ : buildReferences cx db₁ = some db₂) :
    (∀ d ∈ db₂.docs, ∃ p, d.RelativePath = cx.relativePath p ∧ p ≠ "" ∧
      (isMetadataXML p = false ∨ UnguardedPath cx p)) ∧
    ((∀ p, isMetadataXML p = false → isMetadataXML (cx.relativePath p) = false) →
      (∀ p, UnguardedPath cx p → isMetadataXML p = false) →
      ∀ d ∈ db₂.docs, isMetadataXML d.RelativePath = false ∧
        hasSuffix d.RelativePath ".object-meta.xml" = false ∧
        hasSuffix d.RelativePath ".field-meta.xml" = false ∧
        hasSuffix d.RelativePath ".object" = false) := by
  have hreach : DocsReach
      (fun k => ∃ p, k = cx.relativePath p ∧ p ≠ "" ∧
        (isMetadataXML p = false ∨ UnguardedPath cx p))
      (fun _ _ => True) newDocumentBuilder.docs db₂.docs := by
    apply passes_reach h₁ h₂
    · intro path id line col name hsite
      refine ⟨⟨path, rfl, hsite.path_ne, ?_⟩, fun _ _ _ => trivial⟩
      cases hsite with
      | cls c decl hc hd hp hm => exact Or.inl hm
      | field c cdecl fid f decl hc hd hf hg hfd hp hm => exact Or.inl hm
      | classMethod c cdecl mid m decl hc hd hp hmid hg hmd =>
        exact Or.inr (UnguardedPath.classMethod c cdecl _ m decl hc hd hp hmid hg hmd)
      | iface i decl hi hd hp => exact Or.inr (UnguardedPath.iface i decl hi hd hp)
      | ifaceMethod i idecl mid m decl hi hd hp hmid hg hmd =>
        exact Or.inr (UnguardedPath.iface i idecl hi hd hp)
      | enum e decl he hd hp => exact Or.inr (UnguardedPath.enum e decl he hd hp)
      | trigger t decl ht hd hp => exact Or.inr (UnguardedPath.trigger t decl ht hd hp)
    · intro b hb file line col name id hsite hfile hstd sym _ _
      exact ⟨⟨file, rfl, hfile,
        Or.inr (UnguardedPath.reference b file line col name id hb hsite hfile hstd)⟩, trivial⟩
  have hall : ∀ d ∈ db₂.docs, ∃ p, d.RelativePath = cx.relativePath p ∧ p ≠ "" ∧
      (isMetadataXML p = false ∨ UnguardedPath cx p) := fun d hd =>
    (hreach.invariant (K := fun k => ∃ p, k = cx.relativePath p ∧ p ≠ "" ∧
        (isMetadataXML p = false ∨ UnguardedPath cx p)) (P := fun _ _ => True)
      (fun _ hk => hk) (fun _ _ h => h)
      (fun d hd => by simp [newDocumentBuilder] at hd) d hd).1
  refine ⟨hall, ?_⟩
  intro hrel hun d hd
  obtain ⟨p, hk, _, hp⟩ := hall d hd
  have hm : isMetadataXML d.RelativePath = false := by
    rw [hk]
    exact hrel p (hp.elim id (hun p))
  refine ⟨hm, ?_⟩
  unfold isMetadataXML at hm
  simp only [Bool.or_eq_false_iff] at hm
  exact ⟨hm.1.1, hm.1.2, hm.2⟩

theorem documents_path_origin_example :
    ∃ db₁ db₂, buildDefinitions myClassEnv newDocumentBuilder = some db₁ ∧
      buildReferences myClassEnv db₁ = some db₂ ∧
      ∀ d ∈ db₂.docs, isMetadataXML d.RelativePath = false ∧
        hasSuffix d.RelativePath ".object-meta.xml" = false ∧
        hasSuffix d.RelativePath ".field-meta.xml" = false ∧
        hasSuffix d.RelativePath ".object" = false := by
  have h₁ := getD_eq_some (buildDefinitions myClassEnv newDocumentBuilder)
    newDocumentBuilder (by decide)
  have h₂ := getD_eq_some (buildReferences myClassEnv
    ((buildDefinitions myClassEnv newDocumentBuilder).getD newDocumentBuilder))
    newDocumentBuilder (by decide)
  refine ⟨_, _, h₁, h₂, (documents_path_origin myClassEnv _ _ h₁ h₂).2 (fun p hp => hp) ?_⟩
  intro p hp
  cases hp with
  | classMethod c decl mid m mdecl hc hd _ _ _ _ =>
    simp only [myClassEnv, myClassGraph, List.mem_singleton] at hc
    subst hc
    simp only [myClass, Option.some.injEq] at hd
    subst hd
    decide
  | iface i decl hi => simp [myClassEnv, myClassGraph, emptyGraph] at hi
  | enum e decl he => simp [myClassEnv, myClassGraph, emptyGraph] at he
  | trigger t decl ht => simp [myClassEnv, myClassGraph, emptyGraph] at ht
  | reference b file line col name id hb => simp [myClassEnv] at hb

/-! ## Finalization -/

/-- The inner loops of `documents` append to `Symbols`, in the order of the
map, the records that match a definition occurrence of the document. -/
theorem attachSymbols_symbols (infos : List SymbolInformation) (d : Document) :
    (attachSymbols infos d).Symbols = d.Symbols ++ infos.filter (fun si =>
      d.Occurrences.any (fun occ => occ.Symbol = si.Symbol && isDefinition occ)) := by
  unfold attachSymbols
  induction infos generalizing d with
  | nil => simp
  | cons si rest ih =>
    simp only [List.foldl_cons]
    by_cases hm : d.Occurrences.any (fun occ => occ.Symbol = si.Symbol && isDefinition occ) = true
    · rw [if_pos hm, ih]
      simp [List.filter_cons, hm]
    · rw [if_neg hm, ih]
      simp [List.filter_cons, hm]

/-- C19. Finalization attaches exactly the defined symbols: on a builder whose
symbol-metadata map holds one record per identifier (it is a map keyed by the
identifier) and whose documents have empty `Symbols`, every document returned
by `documents` carries a registered record if and only if the document has an
occurrence with the record's identifier and the `Definition` bit; it carries
registered records only, and no identifier twice, so no record twice. -/
theorem C19_finalization_attaches_defined (db : documentBuilder)
    (hkeys : (db.symbolInfos.map (fun si => si.Symbol)).Nodup)
    (hempty : ∀ d ∈ db.docs, d.Symbols = []) :
    ∀ d ∈ documents db,
      (∀ r ∈ db.symbolInfos, r ∈ d.Symbols ↔
        ∃ o ∈ d.Occurrences, o.Symbol = r.Symbol ∧ isDefinition o = true) ∧
      (∀ r ∈ d.Symbols, r ∈ db.symbolInfos) ∧
      (d.Symbols.map (fun si => si.Symbol)).Nodup ∧ d.Symbols.Nodup := by
  intro d hd
  obtain ⟨d₀, hd₀, rfl⟩ := mem_documents hd
  have hsym := attachSymbols_symbols db.symbolInfos d₀
  rw [hempty d₀ hd₀, List.nil_append] at hsym
  rw [hsym, (attachSymbols_fields _ _).1]
  have hnd : ((db.symbolInfos.filter (fun si => d₀.Occurrences.any
      (fun occ => occ.Symbol = si.Symbol && isDefinition occ))).map
      (fun si => si.Symbol)).Nodup :=
    (List.filter_sublist _).map _ |>.nodup hkeys
  refine ⟨?_, ?_, hnd, hnd.of_map _⟩
  · intro r hr
    simp only [List.mem_filter, hr, true_and, List.any_eq_true, Bool.and_eq_true,
      decide_eq_true_eq]
  · intro r hr
    exact (List.mem_filter.1 hr).1

theorem C19_finalization_attaches_defined_witness :
    ∃ db₁ db₂, buildDefinitions twoUsesEnv newDocumentBuilder = some db₁ ∧
      buildReferences twoUsesEnv db₁ = some db₂ ∧
      (db₂.symbolInfos.map (fun si => si.Symbol)).Nodup ∧
      (∀ d ∈ db₂.docs, d.Symbols = []) ∧
      ∀ d ∈ documents db₂,
        (∀ r ∈ db₂.symbolInfos, r ∈ d.Symbols ↔
          ∃ o ∈ d.Occurrences, o.Symbol = r.Symbol ∧ isDefinition o = true) ∧
        (∀ r ∈ d.Symbols, r ∈ db₂.symbolInfos) ∧
        (d.Symbols.map (fun si => si.Symbol)).Nodup ∧ d.Symbols.Nodup := by
  have h₁ := getD_eq_some (buildDefinitions twoUsesEnv newDocumentBuilder)
    newDocumentBuilder (by decide)
  have h₂ := getD_eq_some (buildReferences twoUsesEnv
    ((buildDefinitions twoUsesEnv newDocumentBuilder).getD newDocumentBuilder))
    newDocumentBuilder (by decide)
  have hk : (((buildReferences twoUsesEnv
      ((buildDefinitions twoUsesEnv newDocumentBuilder).getD newDocumentBuilder)).getD
      newDocumentBuilder).symbolInfos.map (fun si => si.Symbol)).Nodup := by decide
  have he : ∀ d ∈ ((buildReferences twoUsesEnv
      ((buildDefinitions twoUsesEnv newDocumentBuilder).getD newDocumentBuilder)).getD
      newDocumentBuilder).docs, d.Symbols = [] := by decide
  exact ⟨_, _, h₁, h₂, hk, he, C19_finalization_attaches_defined _ hk he⟩

/-! ## The map of symbol-metadata records -/

@[simp] theorem symbolInfo_symbolInfos (sym name : String) (kind : SymbolInformation_Kind)
    (db : documentBuilder) :
    (symbolInfo sym name kind db).symbolInfos = insertInfo sym name kind db.symbolInfos := by
  unfold symbolInfo insertInfo
  split <;> rfl

@[simp] theorem setDocumentation_symbolInfos (sym doc : String) (db : documentBuilder) :
    (setDocumentation sym doc db).symbolInfos = setDocInfo sym doc db.symbolInfos := rfl

@[simp] theorem appendRelationship_symbolInfos (sym : String) (r : Relationship)
    (db : documentBuilder) :
    (appendRelationship sym r db).symbolInfos = addRelInfo sym r db.symbolInfos := rfl

theorem InfosReach.chain {R : Relationship → Prop} {a b c : List SymbolInformation}
    (h₁ : InfosReach R a b) (h₂ : InfosReach R b c) : InfosReach R a c := by
  induction h₂ with
  | refl => exact h₁
  | info sym name kind _ ih => exact InfosReach.info sym name kind ih
  | doc sym d _ ih => exact InfosReach.doc sym d ih
  | rel sym r hr _ ih => exact InfosReach.rel sym r hr ih

theorem insertInfo_keys (sym name : String) (kind : SymbolInformation_Kind)
    (l : List SymbolInformation) :
    (insertInfo sym name kind l).map (fun si => si.Symbol) =
      if sym ∈ l.map (fun si => si.Symbol) then l.map (fun si => si.Symbol)
      else l.map (fun si => si.Symbol) ++ [sym] := by
  unfold insertInfo
  by_cases h : l.any (fun si => si.Symbol = sym) = true
  · rw [if_pos h, if_pos]
    simp only [List.any_eq_true, decide_eq_true_eq] at h
    simpa using h
  · rw [if_neg h, if_neg]
    · simp
    · simp only [List.any_eq_true, decide_eq_true_eq] at h
      simpa using h

theorem setDocInfo_keys (sym doc : String) (l : List SymbolInformation) :
    (setDocInfo sym doc l).map (fun si => si.Symbol) = l.map (fun si => si.Symbol) := by
  unfold setDocInfo
  rw [List.map_map]
  apply List.map_congr_left
  intro si _
  simp only [Function.comp]
  split <;> rfl

theorem addRelInfo_keys (sym : String) (r : Relationship) (l : List SymbolInformation) :
    (addRelInfo sym r l).map (fun si => si.Symbol) = l.map (fun si => si.Symbol) := by
  unfold addRelInfo
  rw [List.map_map]
  apply List.map_congr_left
  intro si _
  simp only [Function.comp]
  split <;> rfl

/-- The keys of the map stay distinct. -/
theorem InfosReach.keys_nodup {R : Relationship → Prop} {a b : List SymbolInformation}
    (h : InfosReach R a b) (ha : (a.map (fun si => si.Symbol)).Nodup) :
    (b.map (fun si => si.Symbol)).Nodup := by
  induction h with
  | refl => exact ha
  | info sym name kind _ ih =>
    rw [insertInfo_keys]
    split
    · exact ih
    · rename_i hn
      exact List.Nodup.append ih (List.nodup_singleton _)
        (by simpa [List.Disjoint] using hn)
  | doc sym d _ ih => rw [setDocInfo_keys]; exact ih
  | rel sym r _ _ ih => rw [addRelInfo_keys]; exact ih

/-- Every relationship of every record satisfies `R` when those of the
records at the start do. -/
theorem InfosReach.relsInvariant {R : Relationship → Prop} {a b : List SymbolInformation}
    (h : InfosReach R a b) (ha : ∀ si ∈ a, ∀ r ∈ si.Relationships, R r) :
    ∀ si ∈ b, ∀ r ∈ si.Relationships, R r := by
  induction h with
  | refl => exact ha
  | info sym name kind _ ih =>
    intro si hsi
    unfold insertInfo at hsi
    split at hsi
    · exact ih si hsi
    · rcases List.mem_append.1 hsi with h | h
      · exact ih si h
      · rw [List.mem_singleton.1 h]
        intro r hr
        simp at hr
  | doc sym d _ ih =>
    intro si hsi
    unfold setDocInfo at hsi
    obtain ⟨s₀, hs₀, rfl⟩ := List.mem_map.1 hsi
    split
    · exact ih s₀ hs₀
    · exact ih s₀ hs₀
  | rel sym r hr _ ih =>
    intro si hsi
    unfold addRelInfo at hsi
    obtain ⟨s₀, hs₀, rfl⟩ := List.mem_map.1 hsi
    split
    · intro r' hr'
      rcases List.mem_append.1 hr' with h | h
      · exact ih s₀ hs₀ r' h
      · rw [List.mem_singleton.1 h]; exact hr
    · exact ih s₀ hs₀

theorem InfosReach.hasInfo {R : Relationship → Prop} {a b : List SymbolInformation}
    (h : InfosReach R a b) {sym : String} (ha : HasInfo a sym) : HasInfo b sym := by
  have hk : ∀ l : List SymbolInformation,
      HasInfo l sym ↔ sym ∈ l.map (fun si => si.Symbol) := by
    intro l
    unfold HasInfo
    simp
  rw [hk] at ha ⊢
  induction h with
  | refl => exact ha
  | info s name kind _ ih =>
    rw [insertInfo_keys]
    split
    · exact ih
    · exact List.mem_append_left _ ih
  | doc s d _ ih => rw [setDocInfo_keys]; exact ih
  | rel s r _ _ ih => rw [addRelInfo_keys]; exact ih

theorem HasRel_addRelInfo_keep (s : String) (r' : Relationship)
    {l : List SymbolInformation} {sym : String} {r : Relationship} (h : HasRel l sym r) :
    HasRel (addRelInfo s r' l) sym r := by
  obtain ⟨si, hsi, hk, hr⟩ := h
  by_cases hs : si.Symbol = s
  · refine ⟨{ si with Relationships := si.Relationships ++ [r'] }, ?_, hk,
      List.mem_append_left _ hr⟩
    unfold addRelInfo
    exact List.mem_map.2 ⟨si, hsi, by rw [if_pos hs]⟩
  · refine ⟨si, ?_, hk, hr⟩
    unfold addRelInfo
    exact List.mem_map.2 ⟨si, hsi, by rw [if_neg hs]⟩

theorem HasRel_addRelInfo_new {l : List SymbolInformation} {sym : String}
    (r : Relationship) (h : HasInfo l sym) : HasRel (addRelInfo sym r l) sym r := by
  obtain ⟨si, hsi, hk⟩ := h
  refine ⟨{ si with Relationships := si.Relationships ++ [r] }, ?_, hk,
    List.mem_append_right _ (List.mem_singleton.2 rfl)⟩
  unfold addRelInfo
  exact List.mem_map.2 ⟨si, hsi, by rw [if_pos hk]⟩

theorem InfosReach.hasRel {R : Relationship → Prop} {a b : List SymbolInformation}
    (h : InfosReach R a b) {sym : String} {r : Relationship} (ha : HasRel a sym r) :
    HasRel b sym r := by
  induction h with
  | refl => exact ha
  | info s name kind _ ih =>
    obtain ⟨si, hsi, hk, hr⟩ := ih
    refine ⟨si, ?_, hk, hr⟩
    unfold insertInfo
    split
    · exact hsi
    · exact List.mem_append_left _ hsi
  | doc s d _ ih =>
    obtain ⟨si, hsi, hk, hr⟩ := ih
    by_cases hs : si.Symbol = s
    · refine ⟨{ si with Documentation := [d] }, ?_, hk, hr⟩
      unfold setDocInfo
      exact List.mem_map.2 ⟨si, hsi, by rw [if_pos hs]⟩
    · refine ⟨si, ?_, hk, hr⟩
      unfold setDocInfo
      exact List.mem_map.2 ⟨si, hsi, by rw [if_neg hs]⟩
  | rel s r' _ _ ih => exact HasRel_addRelInfo_keep s r' ih

theorem HasInfo_insertInfo (sym name : String) (kind : SymbolInformation_Kind)
    (l : List SymbolInformation) : HasInfo (insertInfo sym name kind l) sym := by
  unfold insertInfo
  by_cases h : l.any (fun si => si.Symbol = sym) = true
  · rw [if_pos h]
    simp only [List.any_eq_true, decide_eq_true_eq] at h
    exact h
  · rw [if_neg h]
    exact ⟨_, List.mem_append_right _ (List.mem_singleton.2 rfl), rfl⟩

/-! ## The definitions pass on the map of records -/

theorem foldlM_infos {α : Type} {R : Relationship → Prop}
    (f : documentBuilder → α → Option documentBuilder) (l : List α)
    (db db' : documentBuilder)
    (hstep : ∀ x ∈ l, ∀ c c', f c x = some c' → InfosReach R c.symbolInfos c'.symbolInfos)
    (h : l.foldlM f db = some db') : InfosReach R db.symbolInfos db'.symbolInfos :=
  foldlM_rel (fun (a b : documentBuilder) => InfosReach R a.symbolInfos b.symbolInfos)
    (fun _ => InfosReach.refl _) (fun _ _ _ h₁ h₂ => h₁.chain h₂) f l db db' hstep h

theorem implementsStep_infos {cx : BuilderEnv} {si : String} {db db' : documentBuilder}
    {id : SymbolID} (h : implementsStep cx si db id = some db') :
    InfosReach (RelTarget cx) db.symbolInfos db'.symbolInfos := by
  unfold implementsStep at h
  cases hstd : isStdlib cx.graph cx.fuel id with
  | none => simp [hstd] at h
  | some b =>
    cases b with
    | true =>
      simp only [hstd, Option.some.injEq] at h
      rw [← h]; exact InfosReach.refl _
    | false =>
      simp only [hstd] at h
      cases hs : scipSymbol cx.graph cx.fuel id with
      | none => simp [hs] at h
      | some sym =>
        simp only [hs] at h
        by_cases he : sym = ""
        · rw [if_pos he, Option.some.injEq] at h
          rw [← h]; exact InfosReach.refl _
        · rw [if_neg he, Option.some.injEq] at h
          rw [← h, appendRelationship_symbolInfos]
          exact InfosReach.rel _ _ ⟨id, hstd, hs, he, Or.inl ⟨rfl, rfl⟩⟩ (InfosReach.refl _)

theorem addImplementsRelationships_infos {cx : BuilderEnv} {si : String}
    {ids : List SymbolID} {db db' : documentBuilder}
    (h : addImplementsRelationships cx si ids db = some db') :
    InfosReach (RelTarget cx) db.symbolInfos db'.symbolInfos :=
  foldlM_infos _ ids db db' (fun _ _ _ _ hc => implementsStep_infos hc) h

theorem addExtendsRelationship_infos {cx : BuilderEnv} {si : String}
    {db db' : documentBuilder} {id : SymbolID}
    (h : addExtendsRelationship cx si db id = some db') :
    InfosReach (RelTarget cx) db.symbolInfos db'.symbolInfos := by
  unfold addExtendsRelationship at h
  by_cases hinv : id = InvalidSymbol
  · rw [if_pos hinv, Option.some.injEq] at h
    rw [← h]; exact InfosReach.refl _
  · rw [if_neg hinv] at h
    cases hstd : isStdlib cx.graph cx.fuel id with
    | none => simp [hstd] at h
    | some b =>
      cases b with
      | true =>
        simp only [hstd, Option.some.injEq] at h
        rw [← h]; exact InfosReach.refl _
      | false =>
        simp only [hstd] at h
        cases hs : scipSymbol cx.graph cx.fuel id with
        | none => simp [hs] at h
        | some sym =>
          simp only [hs] at h
          by_cases he : sym = ""
          · rw [if_pos he, Option.some.injEq] at h
            rw [← h]; exact InfosReach.refl _
          · rw [if_neg he, Option.some.injEq] at h
            rw [← h, appendRelationship_symbolInfos]
            exact InfosReach.rel _ _ ⟨id, hstd, hs, he, Or.inr ⟨rfl, rfl⟩⟩ (InfosReach.refl _)

theorem addExtendsRelationships_infos {cx : BuilderEnv} {si : String}
    {ids : List SymbolID} {db db' : documentBuilder}
    (h : addExtendsRelationships cx si ids db = some db') :
    InfosReach (RelTarget cx) db.symbolInfos db'.symbolInfos :=
  foldlM_infos _ ids db db' (fun _ _ _ _ hc => addExtendsRelationship_infos hc) h

theorem parameterStep_infos {R : Relationship → Prop} (cx : BuilderEnv) (path : String)
    (db : documentBuilder) (pid : SymbolID) :
    InfosReach R db.symbolInfos (parameterStep cx path db pid).symbolInfos := by
  unfold parameterStep
  cases hv : cx.graph.VariableByID pid with
  | none => exact InfosReach.refl _
  | some v =>
    cases hd : v.Declaration with
    | none => simp only [hd]; exact InfosReach.refl _
    | some p =>
      simp only [hd, symbolInfo_symbolInfos, getOrCreateDoc_symbolInfos,
        nextLocal_symbolInfos]
      exact InfosReach.info _ _ _ (InfosReach.refl _)

theorem registerParameters_infos {R : Relationship → Prop} (cx : BuilderEnv) (path : String)
    (m : MethodSymbol) (db : documentBuilder) :
    InfosReach R db.symbolInfos (registerParameters cx path m db).symbolInfos := by
  unfold registerParameters
  cases m.Declaration with
  | none => exact InfosReach.refl _
  | some _ =>
    simp only
    generalize m.Parameters = ps
    induction ps generalizing db with
    | nil => exact InfosReach.refl _
    | cons p ps ih =>
      rw [List.foldl_cons]
      exact (parameterStep_infos cx path db p).chain (ih _)

theorem ite_setDocumentation_infos {R : Relationship → Prop} (c : Prop) [Decidable c]
    (sym doc : String) (db : documentBuilder) :
    InfosReach R db.symbolInfos (if c then setDocumentation sym doc db else db).symbolInfos := by
  split
  · rw [setDocumentation_symbolInfos]; exact InfosReach.doc _ _ (InfosReach.refl _)
  · exact InfosReach.refl _

theorem methodStep_infos {R : Relationship → Prop} {cx : BuilderEnv} {path : String}
    {db db' : documentBuilder} {mid : SymbolID} (h : methodStep cx path db mid = some db') :
    InfosReach R db.symbolInfos db'.symbolInfos := by
  unfold methodStep at h
  cases hm : cx.graph.MethodByID mid with
  | none => simp only [hm, Option.some.injEq] at h; rw [← h]; exact InfosReach.refl _
  | some m =>
    simp only [hm] at h
    cases hd : m.Declaration with
    | none => simp only [hd, Option.some.injEq] at h; rw [← h]; exact InfosReach.refl _
    | some decl =>
      simp only [hd] at h
      cases hs : scipSymbol cx.graph cx.fuel mid with
      | none => simp [hs] at h
      | some sym =>
        simp only [hs] at h
        by_cases he : sym = ""
        · rw [if_pos he, Option.some.injEq] at h
          rw [← h, getOrCreateDoc_symbolInfos]; exact InfosReach.refl _
        · rw [if_neg he, Option.some.injEq] at h
          rw [← h]
          refine InfosReach.chain ?_ (registerParameters_infos cx path m _)
          refine InfosReach.chain ?_ (ite_setDocumentation_infos _ _ _ _)
          rw [symbolInfo_symbolInfos, addOccurrence_symbolInfos, getOrCreateDoc_symbolInfos]
          exact InfosReach.info _ _ _ (InfosReach.refl _)

theorem registerMethods_infos {R : Relationship → Prop} {cx : BuilderEnv} {path : String}
    {mids : List SymbolID} {db db' : documentBuilder}
    (h : registerMethods cx path mids db = some db') :
    InfosReach R db.symbolInfos db'.symbolInfos := by
  unfold registerMethods at h
  by_cases hp : path = ""
  · rw [if_pos hp, Option.some.injEq] at h
    rw [← h]; exact InfosReach.refl _
  · rw [if_neg hp] at h
    exact foldlM_infos _ mids db db' (fun _ _ _ _ hc => methodStep_infos hc) h

theorem fieldStep_infos {R : Relationship → Prop} {cx : BuilderEnv}
    {cdecl : ClassDeclaration} {db db' : documentBuilder} {fid : SymbolID}
    (h : fieldStep cx cdecl db fid = some db') :
    InfosReach R db.symbolInfos db'.symbolInfos := by
  unfold fieldStep at h
  cases hf : cx.graph.FieldByID fid with
  | none => simp only [hf, Option.some.injEq] at h; rw [← h]; exact InfosReach.refl _
  | some f =>
    simp only [hf] at h
    cases hd : f.Declaration with
    | none => simp only [hd, Option.some.injEq] at h; rw [← h]; exact InfosReach.refl _
    | some decl =>
      simp only [hd] at h
      generalize (if decl.FilePath ≠ "" then decl.FilePath else cdecl.FilePath) = fp at h
      by_cases hg : fp = "" ∨ isMetadataXML fp = true
      · rw [if_pos hg, Option.some.injEq] at h; rw [← h]; exact InfosReach.refl _
      · rw [if_neg hg] at h
        cases hs : scipSymbol cx.graph cx.fuel fid with
        | none => simp [hs] at h
        | some sym =>
          simp only [hs] at h
          by_cases he : sym = ""
          · rw [if_pos he, Option.some.injEq] at h
            rw [← h, getOrCreateDoc_symbolInfos]; exact InfosReach.refl _
          · rw [if_neg he, Option.some.injEq] at h
            rw [← h, symbolInfo_symbolInfos, addOccurrence_symbolInfos,
              getOrCreateDoc_symbolInfos]
            exact InfosReach.info _ _ _ (InfosReach.refl _)

theorem registerFields_infos {R : Relationship → Prop} {cx : BuilderEnv} {cls : ClassSymbol}
    {db db' : documentBuilder} (h : registerFields cx cls db = some db') :
    InfosReach R db.symbolInfos db'.symbolInfos := by
  unfold registerFields at h
  cases hd : cls.Declaration with
  | none => simp only [hd, Option.some.injEq] at h; rw [← h]; exact InfosReach.refl _
  | some decl =>
    simp only [hd] at h
    exact foldlM_infos _ cls.Fields db db' (fun _ _ _ _ hc => fieldStep_infos hc) h

theorem defineClass_infos {cx : BuilderEnv} {cls : ClassSymbol} {decl : ClassDeclaration}
    {db db' : documentBuilder} (h : defineClass cx cls decl db = some db') :
    InfosReach (RelTarget cx) db.symbolInfos db'.symbolInfos := by
  unfold defineClass at h
  by_cases hg : decl.FilePath ≠ "" ∧ isMetadataXML decl.FilePath = false
  · rw [if_pos hg] at h
    cases hs : scipSymbol cx.graph cx.fuel cls.ID with
    | none => simp [hs] at h
    | some sym =>
      rw [hs] at h
      dsimp only at h
      by_cases he : sym ≠ ""
      · rw [if_pos he] at h
        split at h
        · exact absurd h (by simp)
        rename_i db₁ h₁
        have h₂ := h
        refine InfosReach.chain ?_ (addExtendsRelationship_infos h₂)
        refine InfosReach.chain ?_ (addImplementsRelationships_infos h₁)
        refine InfosReach.chain ?_ (ite_setDocumentation_infos _ _ _ _)
        rw [symbolInfo_symbolInfos, addOccurrence_symbolInfos, getOrCreateDoc_symbolInfos]
        exact InfosReach.info _ _ _ (InfosReach.refl _)
      · rw [if_neg he, Option.some.injEq] at h
        rw [← h, getOrCreateDoc_symbolInfos]; exact InfosReach.refl _
  · rw [if_neg hg, Option.some.injEq] at h
    rw [← h]; exact InfosReach.refl _

theorem classStep_infos {cx : BuilderEnv} {cls : ClassSymbol} {db db' : documentBuilder}
    (h : classStep cx db cls = some db') :
    InfosReach (RelTarget cx) db.symbolInfos db'.symbolInfos := by
  unfold classStep at h
  cases hd : cls.Declaration with
  | none => simp only [hd, Option.some.injEq] at h; rw [← h]; exact InfosReach.refl _
  | some decl =>
    simp only [hd] at h
    cases h₁ : defineClass cx cls decl db with
    | none => simp [h₁] at h
    | some db₁ =>
      simp only [h₁] at h
      cases h₂ : registerFields cx cls db₁ with
      | none => simp [h₂] at h
      | some db₂ =>
        simp only [h₂] at h
        cases h₃ : registerMethods cx decl.FilePath cls.Methods db₂ with
        | none => simp [h₃] at h
        | some db₃ =>
          simp only [h₃, Option.some.injEq, registerNestedDeclarations] at h
          rw [← h]
          exact ((defineClass_infos h₁).chain (registerFields_infos h₂)).chain
            (registerMethods_infos h₃)

theorem interfaceStep_infos {cx : BuilderEnv} {i : InterfaceSymbol} {db db' : documentBuilder}
    (h : interfaceStep cx db i = some db') :
    InfosReach (RelTarget cx) db.symbolInfos db'.symbolInfos := by
  unfold interfaceStep at h
  cases hd : i.Declaration with
  | none => simp only [hd, Option.some.injEq] at h; rw [← h]; exact InfosReach.refl _
  | some decl =>
    simp only [hd] at h
    by_cases hp : decl.FilePath = ""
    · rw [if_pos hp, Option.some.injEq] at h
      rw [← h]; exact InfosReach.refl _
    · rw [if_neg hp] at h
      cases hs : scipSymbol cx.graph cx.fuel i.ID with
      | none => simp [hs] at h
      | some sym =>
        simp only [hs] at h
        by_cases he : sym = ""
        · rw [if_pos he, Option.some.injEq] at h
          rw [← h, getOrCreateDoc_symbolInfos]; exact InfosReach.refl _
        · rw [if_neg he] at h
          split at h
          · exact absurd h (by simp)
          rename_i db₁ h₁
          have h₂ := h
          refine InfosReach.chain ?_ (registerMethods_infos h₂)
          refine InfosReach.chain ?_ (addExtendsRelationships_infos h₁)
          rw [symbolInfo_symbolInfos, addOccurrence_symbolInfos, getOrCreateDoc_symbolInfos]
          exact InfosReach.info _ _ _ (InfosReach.refl _)

theorem enumStep_infos {R : Relationship → Prop} {cx : BuilderEnv} {e : EnumSymbol}
    {db db' : documentBuilder} (h : enumStep cx db e = some db') :
    InfosReach R db.symbolInfos db'.symbolInfos := by
  unfold enumStep at h
  cases hd : e.Declaration with
  | none => simp only [hd, Option.some.injEq] at h; rw [← h]; exact InfosReach.refl _
  | some decl =>
    simp only [hd] at h
    by_cases hp : decl.FilePath = ""
    · rw [if_pos hp, Option.some.injEq] at h
      rw [← h]; exact InfosReach.refl _
    · rw [if_neg hp] at h
      cases hs : scipSymbol cx.graph cx.fuel e.ID with
      | none => simp [hs] at h
      | some sym =>
        simp only [hs] at h
        by_cases he : sym = ""
        · rw [if_pos he, Option.some.injEq] at h
          rw [← h, getOrCreateDoc_symbolInfos]; exact InfosReach.refl _
        · rw [if_neg he, Option.some.injEq] at h
          rw [← h, symbolInfo_symbolInfos, addOccurrence_symbolInfos,
            getOrCreateDoc_symbolInfos]
          exact InfosReach.info _ _ _ (InfosReach.refl _)

theorem triggerStep_infos {R : Relationship → Prop} {cx : BuilderEnv} {t : TriggerSymbol}
    {db db' : documentBuilder} (h : triggerStep cx db t = some db') :
    InfosReach R db.symbolInfos db'.symbolInfos := by
  unfold triggerStep at h
  cases hd : t.Declaration with
  | none => simp only [hd, Option.some.injEq] at h; rw [← h]; exact InfosReach.refl _
  | some decl =>
    simp only [hd] at h
    by_cases hp : decl.FilePath = ""
    · rw [if_pos hp, Option.some.injEq] at h
      rw [← h]; exact InfosReach.refl _
    · rw [if_neg hp] at h
      cases hs : scipSymbol cx.graph cx.fuel t.ID with
      | none => simp [hs] at h
      | some sym =>
        simp only [hs] at h
        by_cases he : sym = ""
        · rw [if_pos he, Option.some.injEq] at h
          rw [← h, getOrCreateDoc_symbolInfos]; exact InfosReach.refl _
        · rw [if_neg he, Option.some.injEq] at h
          rw [← h, symbolInfo_symbolInfos, addOccurrence_symbolInfos,
            getOrCreateDoc_symbolInfos]
          exact InfosReach.info _ _ _ (InfosReach.refl _)

/-- The definitions pass only registers records, sets documentation and appends
relationships whose target is not foreign and nameable. -/
theorem buildDefinitions_infos {cx : BuilderEnv} {db db' : documentBuilder}
    (h : buildDefinitions cx db = some db') :
    InfosReach (RelTarget cx) db.symbolInfos db'.symbolInfos := by
  unfold buildDefinitions at h
  cases h₁ : cx.graph.AllClasses.foldlM (classStep cx) db with
  | none => simp [h₁] at h
  | some db₁ =>
    simp only [h₁] at h
    cases h₂ : cx.graph.AllInterfaces.foldlM (interfaceStep cx) db₁ with
    | none => simp [h₂] at h
    | some db₂ =>
      simp only [h₂] at h
      cases h₃ : cx.graph.AllEnums.foldlM (enumStep cx) db₂ with
      | none => simp [h₃] at h
      | some db₃ =>
        simp only [h₃] at h
        exact (((foldlM_infos _ _ db db₁ (fun _ _ _ _ hc => classStep_infos hc) h₁).chain
          (foldlM_infos _ _ db₁ db₂ (fun _ _ _ _ hc => interfaceStep_infos hc) h₂)).chain
          (foldlM_infos _ _ db₂ db₃ (fun _ _ _ _ hc => enumStep_infos hc) h₃)).chain
          (foldlM_infos _ _ db₃ db' (fun _ _ _ _ hc => triggerStep_infos hc) h)

/-! ## Relationships -/

theorem referenceStep_symbolInfos {cx : BuilderEnv} {b : BindingResult} {ptr : Nat}
    {line col : Int} {name : String} {id : SymbolID} {db db' : documentBuilder}
    (h : referenceStep cx b ptr line col name id db = some db') :
    db'.symbolInfos = db.symbolInfos := by
  unfold referenceStep at h
  dsimp only at h
  by_cases hp : b.NodeFiles ptr = ""
  · rw [if_pos hp, Option.some.injEq] at h; rw [← h]
  · rw [if_neg hp] at h
    cases hstd : isStdlib cx.graph cx.fuel id with
    | none => simp [hstd] at h
    | some f =>
      cases f with
      | true => simp only [hstd, Option.some.injEq] at h; rw [← h]
      | false =>
        simp only [hstd] at h
        cases hs : scipSymbol cx.graph cx.fuel id with
        | none => simp [hs] at h
        | some sym =>
          simp only [hs] at h
          by_cases he : sym = ""
          · rw [if_pos he, Option.some.injEq] at h; rw [← h]
          · rw [if_neg he, Option.some.injEq] at h
            rw [← h, addOccurrence_symbolInfos, getOrCreateDoc_symbolInfos]

theorem identifierStep_symbolInfos {cx : BuilderEnv} {b : BindingResult}
    {e : Identifier × SymbolID} {db db' : documentBuilder}
    (h : identifierStep cx b db e = some db') : db'.symbolInfos = db.symbolInfos := by
  unfold identifierStep at h
  dsimp only at h
  by_cases hsyn : e.1.Synthetic = true
  · rw [if_pos hsyn, Option.some.injEq] at h; rw [← h]
  · rw [if_neg hsyn] at h
    by_cases hp : b.NodeFiles e.1.Ptr = ""
    · rw [if_pos hp, Option.some.injEq] at h; rw [← h]
    · rw [if_neg hp] at h
      cases hstd : isStdlib cx.graph cx.fuel e.2 with
      | none => simp [hstd] at h
      | some f =>
        cases f with
        | true => simp only [hstd, Option.some.injEq] at h; rw [← h]
        | false =>
          simp only [hstd] at h
          cases hr : resolveSymbolString cx e.2 (b.NodeFiles e.1.Ptr) db with
          | none => simp [hr] at h
          | some r =>
            obtain ⟨sym, db₁⟩ := r
            simp only [hr] at h
            have hinfo := (resolveSymbolString_spec hr).2.1
            by_cases he : sym = ""
            · rw [if_pos he, Option.some.injEq] at h; rw [← h, hinfo]
            · rw [if_neg he, Option.some.injEq] at h
              rw [← h, addOccurrence_symbolInfos, getOrCreateDoc_symbolInfos, hinfo]

/-- The references pass leaves the map of records as it is. -/
theorem buildReferences_symbolInfos {cx : BuilderEnv} {db db' : documentBuilder}
    (h : buildReferences cx db = some db') : db'.symbolInfos = db.symbolInfos := by
  have hfold : ∀ {α : Type} (f : documentBuilder → α → Option documentBuilder)
      (l : List α) (c c' : documentBuilder),
      (∀ x ∈ l, ∀ d d', f d x = some d' → d'.symbolInfos = d.symbolInfos) →
      l.foldlM f c = some c' → c'.symbolInfos = c.symbolInfos := by
    intro α f l c c' hstep hc
    exact (foldlM_rel (fun (a b : documentBuilder) => a.symbolInfos = b.symbolInfos)
      (fun _ => rfl) (fun _ _ _ h₁ h₂ => h₁.trans h₂) f l c c'
      (fun x hx d d' hd => (hstep x hx d d' hd).symm) hc).symm
  unfold buildReferences at h
  cases hb : cx.binding with
  | none => simp only [hb, Option.some.injEq] at h; rw [← h]
  | some b =>
    simp only [hb] at h
    cases h₁ : b.Identifiers.foldlM (identifierStep cx b) db with
    | none => simp [h₁] at h
    | some db₁ =>
      simp only [h₁] at h
      cases h₂ : b.MethodCalls.foldlM (methodCallStep cx b) db₁ with
      | none => simp [h₂] at h
      | some db₂ =>
        simp only [h₂] at h
        cases h₃ : b.FieldAccesses.foldlM (fieldAccessStep cx b) db₂ with
        | none => simp [h₃] at h
        | some db₃ =>
          simp only [h₃] at h
          rw [hfold _ _ _ _ (fun _ _ _ _ hd => referenceStep_symbolInfos hd) h,
            hfold _ _ _ _ (fun _ _ _ _ hd => referenceStep_symbolInfos hd) h₃,
            hfold _ _ _ _ (fun _ _ _ _ hd => referenceStep_symbolInfos hd) h₂,
            hfold _ _ _ _ (fun _ _ _ _ hd => identifierStep_symbolInfos hd) h₁]

/-- C14 (counterexample). In `shapesGraph` the class `Circle` implements the
foreign, nameable interface `Comparable` and the class `Shape` extends the
foreign, nameable class `Object`, yet the record of `Circle` holds no
relationship to `Comparable#` and the record of `Shape` holds none at all. -/
theorem C14_foreign_targets_dropped_counterexample :
    isStdlib shapesGraph 2 2 = some true ∧
    scipSymbol shapesGraph 2 2 = some "scip-apex apex . . Comparable#" ∧
    isStdlib shapesGraph 2 3 = some true ∧
    scipSymbol shapesGraph 2 3 = some "scip-apex apex . . Object#" ∧
    registeredRelationships shapesEnv = some [
      ("scip-apex apex . . Circle#",
        [{ Symbol := "scip-apex apex . . Drawable#", IsReference := false,
           IsImplementation := true },
         { Symbol := "scip-apex apex . . Shape#", IsReference := true,
           IsImplementation := false }]),
      ("scip-apex apex . . Shape#", []),
      ("scip-apex apex . . Drawable#",
        [{ Symbol := "scip-apex apex . . Visible#", IsReference := true,
           IsImplementation := false }]),
      ("scip-apex apex . . Visible#", [])] := by
  refine ⟨by decide, by decide, by decide, by decide, by decide⟩

/-- C14 (amended). Foreign relationship targets are skipped: an entry of an
`Implements` or `Extends` list that is foreign leaves the builder unchanged,
and after both passes every relationship of every record has as `Symbol` the
non-empty canonical identifier of an entity that is not foreign, with exactly
one of the marks `IsImplementation` and `IsReference` set (provided the
records the builder started with had, as on a fresh builder). -/
theorem C14_relationship_targets_not_foreign (cx : BuilderEnv) (db db₁ db₂ : documentBuilder)
    (h₁ : buildDefinitions cx db = some db₁) (h₂ : buildReferences cx db₁ = some db₂)
    (h₀ : ∀ si ∈ db.symbolInfos, ∀ r ∈ si.Relationships, RelTarget cx r) :
    (∀ si ∈ db₂.symbolInfos, ∀ r ∈ si.Relationships, RelTarget cx r) ∧
    (∀ (sym : String) (c : documentBuilder) (id : SymbolID),
      isStdlib cx.graph cx.fuel id = some true →
      implementsStep cx sym c id = some c ∧
      addImplementsRelationships cx sym [id] c = some c ∧
      addExtendsRelationship cx sym c id = some c) := by
  refine ⟨?_, ?_⟩
  · rw [buildReferences_symbolInfos h₂]
    exact (buildDefinitions_infos h₁).relsInvariant h₀
  · intro sym c id hf
    have hi : implementsStep cx sym c id = some c := by
      unfold implementsStep
      simp only [hf]
    refine ⟨hi, ?_, ?_⟩
    · unfold addImplementsRelationships
      simp [List.foldlM_cons, hi]
    · unfold addExtendsRelationship
      simp only [hf]
      split <;> rfl

theorem C14_relationship_targets_not_foreign_witness :
    ∃ db₁ db₂, buildDefinitions shapesEnv newDocumentBuilder = some db₁ ∧
      buildReferences shapesEnv db₁ = some db₂ ∧
      (∀ si ∈ db₂.symbolInfos, ∀ r ∈ si.Relationships, RelTarget shapesEnv r) ∧
      (∀ (sym : String) (c : documentBuilder) (id : SymbolID),
        isStdlib shapesEnv.graph shapesEnv.fuel id = some true →
        implementsStep shapesEnv sym c id = some c ∧
        addImplementsRelationships shapesEnv sym [id] c = some c ∧
        addExtendsRelationship shapesEnv sym c id = some c) := by
  have h₁ := getD_eq_some (buildDefinitions shapesEnv newDocumentBuilder)
    newDocumentBuilder (by decide)
  have h₂ := getD_eq_some (buildReferences shapesEnv
    ((buildDefinitions shapesEnv newDocumentBuilder).getD newDocumentBuilder))
    newDocumentBuilder (by decide)
  exact ⟨_, _, h₁, h₂,
    C14_relationship_targets_not_foreign shapesEnv newDocumentBuilder _ _ h₁ h₂
      (fun si hsi => by simp [newDocumentBuilder] at hsi)⟩

theorem foldlM_mem_adds_inv {α : Type} (f : documentBuilder → α → Option documentBuilder)
    (l : List α) (e : α) (he : e ∈ l) (I P : documentBuilder → Prop)
    (hinv : ∀ x ∈ l, ∀ c c', f c x = some c' → I c → I c')
    (hmono : ∀ x ∈ l, ∀ c c', f c x = some c' → P c → P c')
    (hadd : ∀ c c', f c e = some c' → I c → P c') :
    ∀ db db', I db → l.foldlM f db = some db' → P db' := by
  induction l with
  | nil => simp at he
  | cons x xs ih =>
    intro db db' hI h
    simp only [List.foldlM_cons, bind, Option.bind_eq_some] at h
    obtain ⟨c, hc, hrest⟩ := h
    have hkeep : ∀ (d d' : documentBuilder), xs.foldlM f d = some d' → P d → P d' := by
      intro d d' hd hp
      exact foldlM_rel (fun a b => P a → P b) (fun _ h => h) (fun _ _ _ h₁ h₂ h => h₂ (h₁ h))
        f xs d d' (fun y hy c c' hcc => hmono y (by simp [hy]) c c' hcc) hd hp
    rcases List.mem_cons.1 he with rfl | hmem
    · exact hkeep c db' hrest (hadd db c hc hI)
    · exact ih hmem (fun y hy => hinv y (by simp [hy])) (fun y hy => hmono y (by simp [hy]))
        c db' (hinv x (by simp) db c hc hI) hrest

theorem implementsStep_adds {cx : BuilderEnv} {sym fsym : String} {db db' : documentBuilder}
    {id : SymbolID} (hstd : isStdlib cx.graph cx.fuel id = some false)
    (hs : scipSymbol cx.graph cx.fuel id = some fsym) (hne : fsym ≠ "")
    (hinfo : HasInfo db.symbolInfos sym) (h : implementsStep cx sym db id = some db') :
    HasRel db'.symbolInfos sym
      { Symbol := fsym, IsReference := false, IsImplementation := true } := by
  unfold implementsStep at h
  simp only [hstd, hs] at h
  rw [if_neg hne, Option.some.injEq] at h
  rw [← h, appendRelationship_symbolInfos]
  exact HasRel_addRelInfo_new _ hinfo

theorem addImplementsRelationships_adds {cx : BuilderEnv} {sym fsym : String}
    {ids : List SymbolID} {db db' : documentBuilder} {id : SymbolID} (hid : id ∈ ids)
    (hstd : isStdlib cx.graph cx.fuel id = some false)
    (hs : scipSymbol cx.graph cx.fuel id = some fsym) (hne : fsym ≠ "")
    (hinfo : HasInfo db.symbolInfos sym)
    (h : addImplementsRelationships cx sym ids db = some db') :
    HasRel db'.symbolInfos sym
      { Symbol := fsym, IsReference := false, IsImplementation := true } :=
  foldlM_mem_adds_inv (implementsStep cx sym) ids id hid
    (fun d => HasInfo d.symbolInfos sym)
    (fun d => HasRel d.symbolInfos sym
      { Symbol := fsym, IsReference := false, IsImplementation := true })
    (fun _ _ _ _ hc hi => (implementsStep_infos hc).hasInfo hi)
    (fun _ _ _ _ hc hr => (implementsStep_infos hc).hasRel hr)
    (fun _ _ hc hi => implementsStep_adds hstd hs hne hi hc) db db' hinfo h

theorem addExtendsRelationship_adds {cx : BuilderEnv} {sym bsym : String}
    {db db' : documentBuilder} {id : SymbolID}
    (hstd : isStdlib cx.graph cx.fuel id = some false)
    (hs : scipSymbol cx.graph cx.fuel id = some bsym) (hne : bsym ≠ "")
    (hinfo : HasInfo db.symbolInfos sym) (h : addExtendsRelationship cx sym db id = some db') :
    HasRel db'.symbolInfos sym
      { Symbol := bsym, IsReference := true, IsImplementation := false } := by
  unfold addExtendsRelationship at h
  have hinv : id ≠ InvalidSymbol := by
    intro he
    rw [he] at hs
    unfold scipSymbol at hs
    rw [if_pos rfl, Option.some.injEq] at hs
    exact hne hs.symm
  rw [if_neg hinv] at h
  simp only [hstd, hs] at h
  rw [if_neg hne, Option.some.injEq] at h
  rw [← h, appendRelationship_symbolInfos]
  exact HasRel_addRelInfo_new _ hinfo

theorem addExtendsRelationships_adds {cx : BuilderEnv} {sym bsym : String}
    {ids : List SymbolID} {db db' : documentBuilder} {id : SymbolID} (hid : id ∈ ids)
    (hstd : isStdlib cx.graph cx.fuel id = some false)
    (hs : scipSymbol cx.graph cx.fuel id = some bsym) (hne : bsym ≠ "")
    (hinfo : HasInfo db.symbolInfos sym)
    (h : addExtendsRelationships cx sym ids db = some db') :
    HasRel db'.symbolInfos sym
      { Symbol := bsym, IsReference := true, IsImplementation := false } :=
  foldlM_mem_adds_inv (addExtendsRelationship cx sym) ids id hid
    (fun d => HasInfo d.symbolInfos sym)
    (fun d => HasRel d.symbolInfos sym
      { Symbol := bsym, IsReference := true, IsImplementation := false })
    (fun _ _ _ _ hc hi => (addExtendsRelationship_infos hc).hasInfo hi)
    (fun _ _ _ _ hc hr => (addExtendsRelationship_infos hc).hasRel hr)
    (fun _ _ hc hi => addExtendsRelationship_adds hstd hs hne hi hc) db db' hinfo h

theorem defineClass_adds {cx : BuilderEnv} {cls : ClassSymbol} {decl : ClassDeclaration}
    {sym : String} {db db' : documentBuilder}
    (hp : decl.FilePath ≠ "") (hm : isMetadataXML decl.FilePath = false)
    (hs : scipSymbol cx.graph cx.fuel cls.ID = some sym) (hne : sym ≠ "")
    (h : defineClass cx cls decl db = some db') :
    (∀ foo ∈ cls.Implements, isStdlib cx.graph cx.fuel foo = some false →
      ∀ fsym, scipSymbol cx.graph cx.fuel foo = some fsym → fsym ≠ "" →
      HasRel db'.symbolInfos sym
        { Symbol := fsym, IsReference := false, IsImplementation := true }) ∧
    (isStdlib cx.graph cx.fuel cls.Extends = some false →
      ∀ bsym, scipSymbol cx.graph cx.fuel cls.Extends = some bsym → bsym ≠ "" →
      HasRel db'.symbolInfos sym
        { Symbol := bsym, IsReference := true, IsImplementation := false }) := by
  unfold defineClass at h
  rw [if_pos ⟨hp, hm⟩, hs] at h
  dsimp only at h
  rw [if_pos hne] at h
  split at h
  · exact absurd h (by simp)
  rename_i db₁ h₁
  have hinfo₀ : HasInfo (if decl.DocComment ≠ "" then setDocumentation sym decl.DocComment
      (symbolInfo sym decl.Name (scipKind SymbolKind.Class)
        (addOccurrence (cx.relativePath decl.FilePath) (decl.Line - 1) decl.Column
          (decl.Column + len decl.Name) sym SymbolRole_Definition
          (getOrCreateDoc cx decl.FilePath db)))
      else symbolInfo sym decl.Name (scipKind SymbolKind.Class)
        (addOccurrence (cx.relativePath decl.FilePath) (decl.Line - 1) decl.Column
          (decl.Column + len decl.Name) sym SymbolRole_Definition
          (getOrCreateDoc cx decl.FilePath db))).symbolInfos sym := by
    apply (ite_setDocumentation_infos (R := fun _ => True) _ _ _ _).hasInfo
    rw [symbolInfo_symbolInfos]
    exact HasInfo_insertInfo _ _ _ _
  refine ⟨?_, ?_⟩
  · intro foo hfoo hstd fsym hfs hfne
    exact (addExtendsRelationship_infos h).hasRel
      (addImplementsRelationships_adds hfoo hstd hfs hfne hinfo₀ h₁)
  · intro hstd bsym hbs hbne
    exact addExtendsRelationship_adds hstd hbs hbne
      ((addImplementsRelationships_infos h₁).hasInfo hinfo₀) h

theorem classStep_adds_rel {cx : BuilderEnv} {cls : ClassSymbol} {decl : ClassDeclaration}
    {sym : String} {db db' : documentBuilder} (hd : cls.Declaration = some decl)
    (hp : decl.FilePath ≠ "") (hm : isMetadataXML decl.FilePath = false)
    (hs : scipSymbol cx.graph cx.fuel cls.ID = some sym) (hne : sym ≠ "")
    (h : classStep cx db cls = some db') :
    (∀ foo ∈ cls.Implements, isStdlib cx.graph cx.fuel foo = some false →
      ∀ fsym, scipSymbol cx.graph cx.fuel foo = some fsym → fsym ≠ "" →
      HasRel db'.symbolInfos sym
        { Symbol := fsym, IsReference := false, IsImplementation := true }) ∧
    (isStdlib cx.graph cx.fuel cls.Extends = some false →
      ∀ bsym, scipSymbol cx.graph cx.fuel cls.Extends = some bsym → bsym ≠ "" →
      HasRel db'.symbolInfos sym
        { Symbol := bsym, IsReference := true, IsImplementation := false }) := by
  unfold classStep at h
  simp only [hd] at h
  cases h₁ : defineClass cx cls decl db with
  | none => simp [h₁] at h
  | some db₁ =>
    simp only [h₁] at h
    cases h₂ : registerFields cx cls db₁ with
    | none => simp [h₂] at h
    | some db₂ =>
      simp only [h₂] at h
      cases h₃ : registerMethods cx decl.FilePath cls.Methods db₂ with
      | none => simp [h₃] at h
      | some db₃ =>
        simp only [h₃, Option.some.injEq, registerNestedDeclarations] at h
        rw [← h]
        have hkeep : InfosReach (RelTarget cx) db₁.symbolInfos db₃.symbolInfos :=
          (registerFields_infos h₂).chain (registerMethods_infos h₃)
        obtain ⟨hi, he⟩ := defineClass_adds hp hm hs hne h₁
        exact ⟨fun foo hfoo hstd fsym hfs hfne => hkeep.hasRel (hi foo hfoo hstd fsym hfs hfne),
          fun hstd bsym hbs hbne => hkeep.hasRel (he hstd bsym hbs hbne)⟩

theorem interfaceStep_adds_rel {cx : BuilderEnv} {i : InterfaceSymbol}
    {decl : InterfaceDeclaration} {sym : String} {db db' : documentBuilder}
    (hd : i.Declaration = some decl) (hp : decl.FilePath ≠ "")
    (hs : scipSymbol cx.graph cx.fuel i.ID = some sym) (hne : sym ≠ "")
    (h : interfaceStep cx db i = some db') :
    ∀ bar ∈ i.Extends, isStdlib cx.graph cx.fuel bar = some false →
      ∀ bsym, scipSymbol cx.graph cx.fuel bar = some bsym → bsym ≠ "" →
      HasRel db'.symbolInfos sym
        { Symbol := bsym, IsReference := true, IsImplementation := false } := by
  unfold interfaceStep at h
  simp only [hd] at h
  rw [if_neg hp, hs] at h
  dsimp only at h
  rw [if_neg hne] at h
  split at h
  · exact absurd h (by simp)
  rename_i db₁ h₁
  intro bar hbar hstd bsym hbs hbne
  apply (registerMethods_infos (R := RelTarget cx) h).hasRel
  apply addExtendsRelationships_adds hbar hstd hbs hbne _ h₁
  rw [symbolInfo_symbolInfos]
  exact HasInfo_insertInfo _ _ _ _

theorem buildDefinitions_split {cx : BuilderEnv} {db db' : documentBuilder}
    (h : buildDefinitions cx db = some db') :
    ∃ db₁ db₂ db₃, cx.graph.AllClasses.foldlM (classStep cx) db = some db₁ ∧
      cx.graph.AllInterfaces.foldlM (interfaceStep cx) db₁ = some db₂ ∧
      cx.graph.AllEnums.foldlM (enumStep cx) db₂ = some db₃ ∧
      cx.graph.AllTriggers.foldlM (triggerStep cx) db₃ = some db' := by
  unfold buildDefinitions at h
  cases h₁ : cx.graph.AllClasses.foldlM (classStep cx) db with
  | none => simp [h₁] at h
  | some db₁ =>
    simp only [h₁] at h
    cases h₂ : cx.graph.AllInterfaces.foldlM (interfaceStep cx) db₁ with
    | none => simp [h₂] at h
    | some db₂ =>
      simp only [h₂] at h
      cases h₃ : cx.graph.AllEnums.foldlM (enumStep cx) db₂ with
      | none => simp [h₃] at h
      | some db₃ =>
        simp only [h₃] at h
        exact ⟨db₁, db₂, db₃, rfl, h₂, h₃, h⟩

/-- C13. Relationship emission: when the fuel suffices, the definitions pass
returns, and in its result the record of every class with a non-empty,
non-metadata file path and a non-empty identifier holds, for each entry of its
`Implements` list that is not foreign and has a non-empty identifier, a
relationship to that identifier with `IsImplementation` set and `IsReference`
not set, and, when its `Extends` target is not foreign and has a non-empty
identifier, a relationship to that identifier with `IsReference` set and
`IsImplementation` not set; the record of every interface with a non-empty
file path and a non-empty identifier holds such an `IsReference` relationship
for each such entry of its `Extends` list. -/
theorem C13_relationship_emission (cx : BuilderEnv) (hA : Adequate cx)
    (db : documentBuilder) :
    ∃ db', buildDefinitions cx db = some db' ∧
      (∀ c ∈ cx.graph.AllClasses, ∀ decl, c.Declaration = some decl →
        decl.FilePath ≠ "" → isMetadataXML decl.FilePath = false →
        ∀ sym, scipSymbol cx.graph cx.fuel c.ID = some sym → sym ≠ "" →
        (∀ foo ∈ c.Implements, isStdlib cx.graph cx.fuel foo = some false →
          ∀ fsym, scipSymbol cx.graph cx.fuel foo = some fsym → fsym ≠ "" →
          HasRel db'.symbolInfos sym
            { Symbol := fsym, IsReference := false, IsImplementation := true }) ∧
        (isStdlib cx.graph cx.fuel c.Extends = some false →
          ∀ bsym, scipSymbol cx.graph cx.fuel c.Extends = some bsym → bsym ≠ "" →
          HasRel db'.symbolInfos sym
            { Symbol := bsym, IsReference := true, IsImplementation := false })) ∧
      (∀ i ∈ cx.graph.AllInterfaces, ∀ decl, i.Declaration = some decl →
        decl.FilePath ≠ "" →
        ∀ sym, scipSymbol cx.graph cx.fuel i.ID = some sym → sym ≠ "" →
        ∀ bar ∈ i.Extends, isStdlib cx.graph cx.fuel bar = some false →
          ∀ bsym, scipSymbol cx.graph cx.fuel bar = some bsym → bsym ≠ "" →
          HasRel db'.symbolInfos sym
            { Symbol := bsym, IsReference := true, IsImplementation := false }) := by
  obtain ⟨db', h⟩ := buildDefinitions_total hA db
  obtain ⟨db₁, db₂, db₃, h₁, h₂, h₃, h₄⟩ := buildDefinitions_split h
  have r₂ : InfosReach (RelTarget cx) db₁.symbolInfos db₂.symbolInfos :=
    foldlM_infos _ _ db₁ db₂ (fun _ _ _ _ hc => interfaceStep_infos hc) h₂
  have r₃ : InfosReach (RelTarget cx) db₂.symbolInfos db'.symbolInfos :=
    (foldlM_infos _ _ db₂ db₃ (fun _ _ _ _ hc => enumStep_infos hc) h₃).chain
      (foldlM_infos _ _ db₃ db' (fun _ _ _ _ hc => triggerStep_infos hc) h₄)
  refine ⟨db', h, ?_, ?_⟩
  · intro c hc decl hd hp hm sym hs hne
    refine ⟨?_, ?_⟩
    · intro foo hfoo hstd fsym hfs hfne
      apply r₃.hasRel
      apply r₂.hasRel
      exact foldlM_mem_adds (classStep cx) cx.graph.AllClasses c hc
        (fun d => HasRel d.symbolInfos sym
          { Symbol := fsym, IsReference := false, IsImplementation := true })
        (fun _ _ _ _ hstep hr => (classStep_infos hstep).hasRel hr)
        (fun _ _ hstep => (classStep_adds_rel hd hp hm hs hne hstep).1 foo hfoo hstd fsym
          hfs hfne) db db₁ h₁
    · intro hstd bsym hbs hbne
      apply r₃.hasRel
      apply r₂.hasRel
      exact foldlM_mem_adds (classStep cx) cx.graph.AllClasses c hc
        (fun d => HasRel d.symbolInfos sym
          { Symbol := bsym, IsReference := true, IsImplementation := false })
        (fun _ _ _ _ hstep hr => (classStep_infos hstep).hasRel hr)
        (fun _ _ hstep => (classStep_adds_rel hd hp hm hs hne hstep).2 hstd bsym hbs hbne)
        db db₁ h₁
  · intro i hi decl hd hp sym hs hne bar hbar hstd bsym hbs hbne
    apply r₃.hasRel
    exact foldlM_mem_adds (interfaceStep cx) cx.graph.AllInterfaces i hi
      (fun d => HasRel d.symbolInfos sym
        { Symbol := bsym, IsReference := true, IsImplementation := false })
      (fun _ _ _ _ hstep hr => (interfaceStep_infos hstep).hasRel hr)
      (fun _ _ hstep => interfaceStep_adds_rel hd hp hs hne hstep bar hbar hstd bsym hbs hbne)
      db₁ db₂ h₂

theorem shapesEnv_adequate : Adequate shapesEnv := by
  intro id
  show (descriptorsFor shapesGraph 2 id).isSome = true ∧
    (isStdlib shapesGraph 2 id).isSome = true
  by_cases h1 : id = 1
  · subst h1; decide
  by_cases h2 : id = 2
  · subst h2; decide
  by_cases h3 : id = 3
  · subst h3; decide
  by_cases h4 : id = 4
  · subst h4; decide
  by_cases h5 : id = 5
  · subst h5; decide
  by_cases h6 : id = 6
  · subst h6; decide
  constructor
  · simp [descriptorsFor, shapesGraph, emptyGraph, h1, h2, h3, h4, h5, h6]
  · simp only [isStdlib, shapesGraph, emptyGraph, h1, h2, h3, h4, h5, h6, if_false]
    split <;> rfl

theorem C13_relationship_emission_witness :
    ∃ db', buildDefinitions shapesEnv newDocumentBuilder = some db' ∧
      HasRel db'.symbolInfos "scip-apex apex . . Circle#"
        { Symbol := "scip-apex apex . . Drawable#", IsReference := false,
          IsImplementation := true } ∧
      HasRel db'.symbolInfos "scip-apex apex . . Circle#"
        { Symbol := "scip-apex apex . . Shape#", IsReference := true,
          IsImplementation := false } ∧
      HasRel db'.symbolInfos "scip-apex apex . . Drawable#"
        { Symbol := "scip-apex apex . . Visible#", IsReference := true,
          IsImplementation := false } := by
  obtain ⟨db', h, hc, hi⟩ :=
    C13_relationship_emission shapesEnv shapesEnv_adequate newDocumentBuilder
  obtain ⟨himpl, hext⟩ := hc
    { ID := 1, QualifiedName := "Circle"
      Declaration := some
        { Name := "Circle", FilePath := "Circle.cls", Line := 1, Column := 13,
          DocComment := "" }
      Fields := [], Methods := [], Implements := [2, 4], Extends := 5 }
    (by decide) _ rfl (by decide) (by decide) "scip-apex apex . . Circle#" (by decide)
    (by decide)
  refine ⟨db', h, ?_, ?_, ?_⟩
  · exact himpl 4 (by decide) (by decide) "scip-apex apex . . Drawable#" (by decide)
      (by decide)
  · exact hext (by decide) "scip-apex apex . . Shape#" (by decide) (by decide)
  · exact hi
      { ID := 4, QualifiedName := "Drawable"
        Declaration := some
          { Name := "Drawable", FilePath := "Drawable.cls", Line := 1, Column := 17 }
        Methods := [], Extends := [6] }
      (by decide) _ rfl (by decide) "scip-apex apex . . Drawable#" (by decide) (by decide)
      6 (by decide) (by decide) "scip-apex apex . . Visible#" (by decide) (by decide)

/-- After both passes on a fresh builder the map of records holds one record
per identifier. -/
theorem passes_keys_nodup {cx : BuilderEnv} {db₁ db₂ : documentBuilder}
    (h₁ : buildDefinitions cx newDocumentBuilder = some db₁)
    (h₂ : buildReferences cx db₁ = some db₂) :
    (db₂.symbolInfos.map (fun si => si.Symbol)).Nodup := by
  rw [buildReferences_symbolInfos h₂]
  exact (buildDefinitions_infos h₁).keys_nodup (by simp [newDocumentBuilder])

/-! ## The descriptor grammar -/

/-- C23. The type descriptor grammar is unambiguous: `typeDescriptors` is
injective on qualified names, whatever characters their parts contain; hence
two identifiers at which `descriptorsFor` finds types with different qualified
names get different, non-empty canonical identifiers. -/
theorem C23_type_descriptors_injective :
    (∀ q₁ q₂ : String, typeDescriptors q₁ = typeDescriptors q₂ → q₁ = q₂) ∧
    (∀ (g : SymbolGraph) (fuel : Nat) (a b : SymbolID) (q₁ q₂ : String),
      a ≠ InvalidSymbol → b ≠ InvalidSymbol →
      entityAt g a = some (Entity.type q₁) → entityAt g b = some (Entity.type q₂) →
      q₁ ≠ q₂ →
      scipSymbol g (fuel + 1) a = some (symbolPrefix ++ typeDescriptors q₁) ∧
      scipSymbol g (fuel + 1) b = some (symbolPrefix ++ typeDescriptors q₂) ∧
      symbolPrefix ++ typeDescriptors q₁ ≠ symbolPrefix ++ typeDescriptors q₂) := by
  have hinj : ∀ q₁ q₂ : String, typeDescriptors q₁ = typeDescriptors q₂ → q₁ = q₂ := by
    intro q₁ q₂ h
    have hd := congrArg String.data h
    rw [typeDescriptors_data, typeDescriptors_data] at hd
    exact typePath_injective (renderPath_injective hd)
  refine ⟨hinj, ?_⟩
  intro g fuel a b q₁ q₂ ha hb hqa hqb hne
  have h₁ : scipSymbol g (fuel + 1) a = some (symbolPrefix ++ typeDescriptors q₁) := by
    rw [symbolPrefix_eq]
    exact scipSymbol_of_descriptor g _ a _ ha (descriptorsFor_type g fuel a q₁ hqa)
      (typeDescriptors_ne_empty q₁)
  have h₂ : scipSymbol g (fuel + 1) b = some (symbolPrefix ++ typeDescriptors q₂) := by
    rw [symbolPrefix_eq]
    exact scipSymbol_of_descriptor g _ b _ hb (descriptorsFor_type g fuel b q₂ hqb)
      (typeDescriptors_ne_empty q₂)
  refine ⟨h₁, h₂, ?_⟩
  intro he
  apply hne
  apply hinj
  have hd := congrArg String.data he
  rw [String.data_append, String.data_append] at hd
  exact String.ext (List.append_cancel_left hd)

/-- C21 (counterexample). In `initGraph` the constructor of `C` and the regular
method named `<init>` of `C` get the same identifier. -/
theorem C21_init_method_counterexample :
    scipSymbol initGraph 2 2 = some "scip-apex apex . . C#`<init>`()." ∧
    scipSymbol initGraph 2 3 = some "scip-apex apex . . C#`<init>`()." ∧
    (initGraph.MethodByID 2).map (fun m => (m.Kind, m.DeclaringType)) =
      some (SymbolKind.Constructor, 1) ∧
    (initGraph.MethodByID 3).map (fun m => (m.Kind, m.DeclaringType)) =
      some (SymbolKind.Method, 1) := by
  refine ⟨by decide, by decide, by decide, by decide⟩

/-- C21 (amended). A constructor with a non-empty identifier and a regular
method with the same declaring type get the same identifier exactly when the
regular method is named `<init>`; so they get different identifiers whenever
the regular method has another name, in particular the name of the declaring
type unless that is `<init>`. -/
theorem C21_constructor_vs_method (g : SymbolGraph) (fuel : Nat) (c m : SymbolID)
    (mc mm : MethodSymbol) (s : String)
    (hc : entityAt g c = some (Entity.method mc)) (hm : entityAt g m = some (Entity.method mm))
    (hkc : mc.Kind = SymbolKind.Constructor) (hkm : mm.Kind ≠ SymbolKind.Constructor)
    (hT : mc.DeclaringType = mm.DeclaringType) (hmid : m ≠ InvalidSymbol)
    (hs : s ≠ "") (hcs : scipSymbol g (fuel + 1) c = some s) :
    (scipSymbol g (fuel + 1) m = some s ↔ mm.Name = "<init>") ∧
    (mm.Name ≠ "<init>" → scipSymbol g (fuel + 1) m ≠ scipSymbol g (fuel + 1) c) := by
  have hiff : scipSymbol g (fuel + 1) m = some s ↔ mm.Name = "<init>" := by
    constructor
    · intro hms
      have h := sameNaming_of_scipSymbol_eq g fuel c m s hs hcs hms
      rw [hc, hm] at h
      have h2 := h.2
      unfold methodSegmentName at h2
      rw [if_pos hkc, if_neg hkm] at h2
      exact h2.symm
    · intro hn
      apply scipSymbol_eq_of_sameNaming g fuel c m s hs hcs hmid
      rw [hc, hm]
      refine ⟨by rw [hT], ?_⟩
      unfold methodSegmentName
      rw [if_pos hkc, if_neg hkm, hn]
  refine ⟨hiff, ?_⟩
  intro hn he
  rw [hcs] at he
  exact hn (hiff.1 he)

theorem C21_constructor_vs_method_witness :
    (scipSymbol initGraph 2 4 = some "scip-apex apex . . C#`<init>`()." ↔ "C" = "<init>") ∧
    ("C" ≠ "<init>" → scipSymbol initGraph 2 4 ≠ scipSymbol initGraph 2 2) :=
  C21_constructor_vs_method initGraph 1 2 4
    { Name := "C", Kind := SymbolKind.Constructor, DeclaringType := 1
      Declaration := none, Parameters := [] }
    { Name := "C", Kind := SymbolKind.Method, DeclaringType := 1
      Declaration := none, Parameters := [] }
    "scip-apex apex . . C#`<init>`()." (by decide) (by decide) rfl (by decide) rfl
    (by decide) (by decide) (by decide)

/-- C26. Unnameable entities yield the empty identifier: `scipSymbol` returns
the empty string for the invalid sentinel, for an identifier at which the
encoder finds no entity (unknown to the graph, or only a variable), and for a
method or field whose declaring type has the empty descriptor (in particular
when the encoder finds no entity at the declaring type); it never returns the
bare prefix: a result is empty or the prefix followed by a non-empty
descriptor. -/
theorem C26_unnameable_empty (g : SymbolGraph) (fuel : Nat) :
    scipSymbol g fuel InvalidSymbol = some "" ∧
    (∀ id, entityAt g id = none → scipSymbol g (fuel + 1) id = some "") ∧
    (∀ id v, g.ClassByID id = none → g.InterfaceByID id = none → g.EnumByID id = none →
      g.MethodByID id = none → g.FieldByID id = none → g.TriggerByID id = none →
      g.VariableByID id = some v → scipSymbol g (fuel + 1) id = some "") ∧
    (∀ id m, entityAt g id = some (Entity.method m) →
      descriptorsFor g fuel m.DeclaringType = some "" →
      scipSymbol g (fuel + 1) id = some "") ∧
    (∀ id f, entityAt g id = some (Entity.field f) →
      descriptorsFor g fuel f.DeclaringType = some "" →
      scipSymbol g (fuel + 1) id = some "") ∧
    (∀ id m, entityAt g id = some (Entity.method m) → entityAt g m.DeclaringType = none →
      scipSymbol g (fuel + 2) id = some "") ∧
    (∀ id f, entityAt g id = some (Entity.field f) → entityAt g f.DeclaringType = none →
      scipSymbol g (fuel + 2) id = some "") ∧
    (∀ id, scipSymbol g fuel id ≠ some symbolPrefix) ∧
    (∀ id s, scipSymbol g fuel id = some s →
      s = "" ∨ ∃ d, d ≠ "" ∧ descriptorsFor g fuel id = some d ∧ s = symbolPrefix ++ d) := by
  have hempty : ∀ (n : Nat) (id : SymbolID), descriptorsFor g n id = some "" →
      scipSymbol g n id = some "" := by
    intro n id h
    unfold scipSymbol
    split
    · rfl
    · rw [h]; rfl
  have hshape : ∀ id s, scipSymbol g fuel id = some s →
      s = "" ∨ ∃ d, d ≠ "" ∧ descriptorsFor g fuel id = some d ∧ s = symbolPrefix ++ d := by
    intro id s h
    unfold scipSymbol at h
    by_cases hid : id = InvalidSymbol
    · rw [if_pos hid, Option.some.injEq] at h
      exact Or.inl h.symm
    · rw [if_neg hid] at h
      cases hd : descriptorsFor g fuel id with
      | none => simp [hd] at h
      | some d =>
        simp only [hd] at h
        by_cases he : d = ""
        · rw [if_pos he, Option.some.injEq] at h
          exact Or.inl h.symm
        · rw [if_neg he, Option.some.injEq] at h
          exact Or.inr ⟨d, he, rfl, h.symm⟩
  have hmethod : ∀ (n : Nat) id m, entityAt g id = some (Entity.method m) →
      descriptorsFor g n m.DeclaringType = some "" →
      scipSymbol g (n + 1) id = some "" := by
    intro n id m hq hp
    apply hempty
    rw [descriptorsFor_method g n id m hq, hp]
    rfl
  have hfield : ∀ (n : Nat) id f, entityAt g id = some (Entity.field f) →
      descriptorsFor g n f.DeclaringType = some "" →
      scipSymbol g (n + 1) id = some "" := by
    intro n id f hq hp
    apply hempty
    rw [descriptorsFor_field g n id f hq, hp]
    rfl
  refine ⟨by unfold scipSymbol; rw [if_pos rfl], ?_, ?_, hmethod fuel, hfield fuel, ?_, ?_,
    ?_, hshape⟩
  · intro id hq
    exact hempty _ _ (descriptorsFor_unknown g fuel id hq)
  · intro id v hc hi he hm hf ht _
    apply hempty
    apply descriptorsFor_unknown
    unfold entityAt
    rw [hc, hi, he, hm, hf, ht]
  · intro id m hq hp
    exact hmethod (fuel + 1) id m hq (descriptorsFor_unknown g fuel _ hp)
  · intro id f hq hp
    exact hfield (fuel + 1) id f hq (descriptorsFor_unknown g fuel _ hp)
  · intro id h
    rcases hshape id _ h with he | ⟨d, hd, _, he⟩
    · have := congrArg String.data he
      rw [symbolPrefix_eq] at this
      simp at this
    · have := congrArg String.data he
      rw [String.data_append] at this
      have h2 : d.data = [] := by simpa using this
      exact hd (String.ext h2)

/-! ## Termination of the recursive walks -/

theorem isStdlib_succ (g : SymbolGraph) (n : Nat) : ∀ (id : SymbolID) (b : Bool),
    isStdlib g n id = some b → isStdlib g (n + 1) id = some b := by
  induction n with
  | zero => intro id b h; simp [isStdlib] at h
  | succ n ih =>
    intro id b h
    unfold isStdlib at h ⊢
    by_cases hid : id = InvalidSymbol
    · rw [if_pos hid] at h ⊢; exact h
    · rw [if_neg hid] at h ⊢
      cases hc : g.ClassByID id with
      | some c => simp only [hc] at h ⊢; exact h
      | none =>
      cases hi : g.InterfaceByID id with
      | some i => simp only [hc, hi] at h ⊢; exact h
      | none =>
      cases he : g.EnumByID id with
      | some e => simp only [hc, hi, he] at h ⊢; exact h
      | none =>
      cases hm : g.MethodByID id with
      | some m => simp only [hc, hi, he, hm] at h ⊢; exact ih _ _ h
      | none =>
      cases hf : g.FieldByID id with
      | some f => simp only [hc, hi, he, hm, hf] at h ⊢; exact ih _ _ h
      | none =>
      cases ht : g.TriggerByID id with
      | some t => simp only [hc, hi, he, hm, hf, ht] at h ⊢; exact h
      | none =>
      cases hv : g.VariableByID id with
      | some v => simp only [hc, hi, he, hm, hf, ht, hv] at h ⊢; exact ih _ _ h
      | none => simp only [hc, hi, he, hm, hf, ht, hv] at h ⊢; exact h

/-- When the chain of links from `id` has fewer than `n` links, the depth `n`
suffices for both walks. -/
theorem walk_none_total (g : SymbolGraph) (n : Nat) : ∀ (id : SymbolID),
    walk g n id = none → ∀ fuel, n ≤ fuel →
      (descriptorsFor g fuel id).isSome = true ∧ (isStdlib g fuel id).isSome = true := by
  induction n with
  | zero => intro id h; simp [walk] at h
  | succ n ih =>
    intro id h fuel hf
    obtain ⟨f, rfl⟩ : ∃ f, fuel = f + 1 := ⟨fuel - 1, by omega⟩
    have hf' : n ≤ f := by omega
    unfold walk walkLink at h
    unfold descriptorsFor isStdlib
    cases hc : g.ClassByID id with
    | some c => simp only [hc]; split <;> simp
    | none =>
    cases hi : g.InterfaceByID id with
    | some i => simp only [hc, hi]; split <;> simp
    | none =>
    cases he : g.EnumByID id with
    | some e => simp only [hc, hi, he]; split <;> simp
    | none =>
    cases hm : g.MethodByID id with
    | some m =>
      simp only [hc, hi, he, hm] at h ⊢
      obtain ⟨h1, h2⟩ := ih _ h f hf'
      obtain ⟨d, hd⟩ := Option.isSome_iff_exists.1 h1
      rw [hd]
      refine ⟨?_, ?_⟩
      · dsimp only; split <;> simp
      · split
        · simp
        · exact h2
    | none =>
    cases hfd : g.FieldByID id with
    | some fl =>
      simp only [hc, hi, he, hm, hfd] at h ⊢
      obtain ⟨h1, h2⟩ := ih _ h f hf'
      obtain ⟨d, hd⟩ := Option.isSome_iff_exists.1 h1
      rw [hd]
      refine ⟨?_, ?_⟩
      · dsimp only; split <;> simp
      · split
        · simp
        · exact h2
    | none =>
    cases ht : g.TriggerByID id with
    | some t => simp only [hc, hi, he, hm, hfd, ht]; split <;> simp
    | none =>
    cases hv : g.VariableByID id with
    | some v =>
      simp only [hc, hi, he, hm, hfd, ht, hv] at h ⊢
      refine ⟨by simp, ?_⟩
      split
      · simp
      · exact (ih _ h f hf').2
    | none => simp only [hc, hi, he, hm, hfd, ht, hv]; split <;> simp

theorem walk_succ (g : SymbolGraph) (n : Nat) (id : SymbolID) :
    walk g (n + 1) id =
      match walkLink g id with
      | none => none
      | some p => walk g n p := rfl

theorem walk_add (g : SymbolGraph) (a b : Nat) : ∀ id : SymbolID,
    walk g (a + b) id = (walk g a id).bind (walk g b) := by
  induction a with
  | zero => intro id; simp [walk]
  | succ a ih =>
    intro id
    rw [Nat.succ_add, walk_succ g (a + b), walk_succ g a]
    cases walkLink g id with
    | none => rfl
    | some p => exact ih p

/-- A chain with fewer than `n + 1` links ends, after at most `n` links, at an
identifier without a link. -/
theorem walk_none_end (g : SymbolGraph) (n : Nat) : ∀ id : SymbolID,
    walk g (n + 1) id = none →
      ∃ k e, k ≤ n ∧ walk g k id = some e ∧ walkLink g e = none := by
  induction n with
  | zero =>
    intro id h
    unfold walk at h
    cases hl : walkLink g id with
    | none => exact ⟨0, id, le_refl _, rfl, hl⟩
    | some p => simp [hl, walk] at h
  | succ n ih =>
    intro id h
    unfold walk at h
    cases hl : walkLink g id with
    | none => exact ⟨0, id, Nat.zero_le _, rfl, hl⟩
    | some p =>
      simp only [hl] at h
      obtain ⟨k, e, hk, hw, he⟩ := ih p h
      refine ⟨k + 1, e, by omega, ?_, he⟩
      unfold walk
      rw [hl]
      exact hw

/-- In an acyclic graph whose identifiers with a link are all below `N`, no
chain of links has more than `N` links. -/
theorem walk_bounded (g : SymbolGraph) (N : Nat) (hac : Acyclic g)
    (hfin : ∀ id, (walkLink g id).isSome = true → id < N) (id : SymbolID) :
    walk g (N + 1) id = none := by
  by_contra hne
  obtain ⟨x, hx⟩ := Option.ne_none_iff_exists'.1 hne
  have hstep : ∀ k, k ≤ N → ∃ y, walk g k id = some y ∧ y < N := by
    intro k hk
    have h := walk_add g k (N + 1 - k) id
    rw [show k + (N + 1 - k) = N + 1 by omega, hx] at h
    cases hy : walk g k id with
    | none => rw [hy] at h; simp at h
    | some y =>
      refine ⟨y, rfl, hfin y ?_⟩
      rw [hy] at h
      obtain ⟨m, hm⟩ : ∃ m, N + 1 - k = m + 1 := ⟨N - k, by omega⟩
      rw [hm, Option.some_bind, walk_succ] at h
      cases hl : walkLink g y with
      | none => rw [hl] at h; simp at h
      | some p => rfl
  have hcyc : ∀ i j, i < j → j ≤ N →
      (walk g i id).getD 0 = (walk g j id).getD 0 → False := by
    intro i j hij hj he
    obtain ⟨y, hy, _⟩ := hstep i (by omega)
    obtain ⟨z, hz, _⟩ := hstep j hj
    rw [hy, hz] at he
    simp only [Option.getD_some] at he
    subst he
    have h := walk_add g i (j - i) id
    rw [show i + (j - i) = j by omega, hz, hy, Option.some_bind] at h
    obtain ⟨m, hm⟩ : ∃ m, j - i = m + 1 := ⟨j - i - 1, by omega⟩
    rw [hm] at h
    exact hac y m h.symm
  obtain ⟨i, hi, j, hj, hneq, he⟩ :=
    Finset.exists_ne_map_eq_of_card_lt_of_maps_to
      (s := Finset.range (N + 1)) (t := Finset.range N)
      (f := fun k => (walk g k id).getD 0) (by simp)
      (by
        intro k hk
        obtain ⟨y, hy, hlt⟩ := hstep k (by simpa [Nat.lt_succ_iff] using hk)
        simp [hy, hlt])
  have hi' : i ≤ N := by simpa [Nat.lt_succ_iff] using hi
  have hj' : j ≤ N := by simpa [Nat.lt_succ_iff] using hj
  rcases Nat.lt_or_gt_of_ne hneq with hlt | hgt
  · exact hcyc i j hlt hj' he
  · exact hcyc j i hgt hi' he.symm

/-- C24. Termination of the recursive walks: in a graph whose links (declaring
type of a method or field, parent of a variable) are acyclic and whose
identifiers with a link all lie below a bound `N` (the graph is finite), the
chain of links from every identifier ends after at most `N` links at an
identifier without a link (a class, interface, enum or trigger, or an
identifier no lookup finds), and `descriptorsFor` and `isStdlib` return, with
the same result at every recursion depth above `N`. -/
theorem C24_walks_terminate (g : SymbolGraph) (N : Nat) (hac : Acyclic g)
    (hfin : ∀ id, (walkLink g id).isSome = true → id < N) (id : SymbolID) :
    (∃ k e, k ≤ N ∧ walk g k id = some e ∧ walkLink g e = none) ∧
    (∃ d b, ∀ fuel, N < fuel →
      descriptorsFor g fuel id = some d ∧ isStdlib g fuel id = some b) := by
  have hw := walk_bounded g N hac hfin id
  refine ⟨walk_none_end g N id hw, ?_⟩
  obtain ⟨h1, h2⟩ := walk_none_total g (N + 1) id hw (N + 1) (le_refl _)
  obtain ⟨d, hd⟩ := Option.isSome_iff_exists.1 h1
  obtain ⟨b, hb⟩ := Option.isSome_iff_exists.1 h2
  refine ⟨d, b, ?_⟩
  intro fuel hf
  obtain ⟨k, rfl⟩ : ∃ k, fuel = N + 1 + k := ⟨fuel - (N + 1), by omega⟩
  induction k with
  | zero => exact ⟨hd, hb⟩
  | succ k ih =>
    obtain ⟨i1, i2⟩ := ih (by omega)
    exact ⟨descriptorsFor_succ g _ id d i1, isStdlib_succ g _ id b i2⟩

theorem myClassGraph_link (id : SymbolID) :
    walkLink myClassGraph id = if id = 2 ∨ id = 3 ∨ id = 4 then some 1 else none := by
  unfold walkLink
  by_cases h1 : id = 1
  · subst h1; rfl
  by_cases h2 : id = 2
  · subst h2; rfl
  by_cases h3 : id = 3
  · subst h3; rfl
  by_cases h4 : id = 4
  · subst h4; rfl
  simp [myClassGraph, emptyGraph, h1, h2, h3, h4]

theorem C24_walks_terminate_witness :
    (∃ k e, k ≤ 5 ∧ walk myClassGraph k 3 = some e ∧ walkLink myClassGraph e = none) ∧
    (∃ d b, ∀ fuel, 5 < fuel →
      descriptorsFor myClassGraph fuel 3 = some d ∧ isStdlib myClassGraph fuel 3 = some b) := by
  apply C24_walks_terminate myClassGraph 5
  · intro id n h
    rw [walk_succ, myClassGraph_link] at h
    by_cases hid : id = 2 ∨ id = 3 ∨ id = 4
    · rw [if_pos hid] at h
      dsimp only at h
      cases n with
      | zero =>
        simp only [walk, Option.some.injEq] at h
        subst h
        simp at hid
      | succ n =>
        rw [walk_succ, myClassGraph_link] at h
        simp at h
    · rw [if_neg hid] at h
      simp at h
  · intro id h
    rw [myClassGraph_link] at h
    by_cases hid : id = 2 ∨ id = 3 ∨ id = 4
    · rcases hid with rfl | rfl | rfl <;> decide
    · rw [if_neg hid] at h
      simp at h

/-! ## The Stdlib Classifier -/

theorem noFile_iff {α : Type} (fp : α → String) (o : Option α) :
    noFile fp o = true ↔ (o = none ∨ ∃ d, o = some d ∧ fp d = "") := by
  cases o with
  | none => simp [noFile]
  | some d => simp [noFile]

theorem isStdlib_true_foreign (g : SymbolGraph) (n : Nat) : ∀ id : SymbolID,
    isStdlib g n id = some true → Foreign g id := by
  induction n with
  | zero => intro id h; simp [isStdlib] at h
  | succ n ih =>
    intro id h
    unfold isStdlib at h
    by_cases hid : id = InvalidSymbol
    · rw [hid]; exact Foreign.invalid
    rw [if_neg hid] at h
    cases hc : g.ClassByID id with
    | some c =>
      simp only [hc, Option.some.injEq] at h
      exact Foreign.cls id c hc ((noFile_iff _ _).1 h)
    | none =>
    cases hi : g.InterfaceByID id with
    | some i =>
      simp only [hc, hi, Option.some.injEq] at h
      exact Foreign.iface id i hc hi ((noFile_iff _ _).1 h)
    | none =>
    cases he : g.EnumByID id with
    | some e =>
      simp only [hc, hi, he, Option.some.injEq] at h
      exact Foreign.enum id e hc hi he ((noFile_iff _ _).1 h)
    | none =>
    cases hm : g.MethodByID id with
    | some m =>
      simp only [hc, hi, he, hm] at h
      exact Foreign.method id m hc hi he hm (ih _ h)
    | none =>
    cases hf : g.FieldByID id with
    | some f =>
      simp only [hc, hi, he, hm, hf] at h
      exact Foreign.field id f hc hi he hm hf (ih _ h)
    | none =>
    cases ht : g.TriggerByID id with
    | some t =>
      simp only [hc, hi, he, hm, hf, ht, Option.some.injEq] at h
      exact Foreign.trigger id t hc hi he hm hf ht ((noFile_iff _ _).1 h)
    | none =>
    cases hv : g.VariableByID id with
    | some v =>
      simp only [hc, hi, he, hm, hf, ht, hv] at h
      exact Foreign.var id v hc hi he hm hf ht hv (ih _ h)
    | none => exact Foreign.unknown id hc hi he hm hf ht hv

theorem isStdlib_false_not_foreign (g : SymbolGraph) (n : Nat) : ∀ id : SymbolID,
    isStdlib g n id = some false → ¬ Foreign g id := by
  induction n with
  | zero => intro id h; simp [isStdlib] at h
  | succ n ih =>
    intro id h hF
    unfold isStdlib at h
    by_cases hid : id = InvalidSymbol
    · rw [if_pos hid] at h; simp at h
    rw [if_neg hid] at h
    cases hc : g.ClassByID id with
    | some c =>
      simp only [hc, Option.some.injEq] at h
      cases hF with
      | invalid => exact hid rfl
      | cls _ c' hc' hd =>
        rw [hc] at hc'
        cases hc'
        rw [(noFile_iff _ _).2 hd] at h
        simp at h
      | _ => simp_all
    | none =>
    cases hi : g.InterfaceByID id with
    | some i =>
      simp only [hc, hi, Option.some.injEq] at h
      cases hF with
      | invalid => exact hid rfl
      | iface _ i' _ hi' hd =>
        rw [hi] at hi'
        cases hi'
        rw [(noFile_iff _ _).2 hd] at h
        simp at h
      | _ => simp_all
    | none =>
    cases he : g.EnumByID id with
    | some e =>
      simp only [hc, hi, he, Option.some.injEq] at h
      cases hF with
      | invalid => exact hid rfl
      | enum _ e' _ _ he' hd =>
        rw [he] at he'
        cases he'
        rw [(noFile_iff _ _).2 hd] at h
        simp at h
      | _ => simp_all
    | none =>
    cases hm : g.MethodByID id with
    | some m =>
      simp only [hc, hi, he, hm] at h
      cases hF with
      | invalid => exact hid rfl
      | method _ m' _ _ _ hm' hp =>
        rw [hm] at hm'
        cases hm'
        exact ih _ h hp
      | _ => simp_all
    | none =>
    cases hf : g.FieldByID id with
    | some f =>
      simp only [hc, hi, he, hm, hf] at h
      cases hF with
      | invalid => exact hid rfl
      | field _ f' _ _ _ _ hf' hp =>
        rw [hf] at hf'
        cases hf'
        exact ih _ h hp
      | _ => simp_all
    | none =>
    cases ht : g.TriggerByID id with
    | some t =>
      simp only [hc, hi, he, hm, hf, ht, Option.some.injEq] at h
      cases hF with
      | invalid => exact hid rfl
      | trigger _ t' _ _ _ _ _ ht' hd =>
        rw [ht] at ht'
        cases ht'
        rw [(noFile_iff _ _).2 hd] at h
        simp at h
      | _ => simp_all
    | none =>
    cases hv : g.VariableByID id with
    | some v =>
      simp only [hc, hi, he, hm, hf, ht, hv] at h
      cases hF with
      | invalid => exact hid rfl
      | var _ v' _ _ _ _ _ _ hv' hp =>
        rw [hv] at hv'
        cases hv'
        exact ih _ h hp
      | _ => simp_all
    | none => simp [hc, hi, he, hm, hf, ht, hv] at h

/-- C25. Stdlib Classifier rule: whenever `isStdlib` returns, it returns true
exactly when the identifier is foreign by the rule of the specification
(`Foreign`: the invalid sentinel, an unknown identifier, a class, interface,
enum or trigger whose declaration is absent or names no file, a method or
field whose declaring type is foreign, a variable whose parent is foreign);
it returns whenever the chain of links from the identifier is shorter than the
recursion depth; and for a class, interface, enum or trigger with a non-empty
file path it returns false. -/
theorem C25_stdlib_classifier_rule (g : SymbolGraph) (fuel : Nat) (id : SymbolID) :
    (∀ b, isStdlib g fuel id = some b → (b = true ↔ Foreign g id)) ∧
    (walk g fuel id = none →
      ∃ b, isStdlib g fuel id = some b ∧ (b = true ↔ Foreign g id)) ∧
    (id ≠ InvalidSymbol →
      (∀ c d, g.ClassByID id = some c → c.Declaration = some d → d.FilePath ≠ "" →
        isStdlib g (fuel + 1) id = some false) ∧
      (∀ i d, g.ClassByID id = none → g.InterfaceByID id = some i →
        i.Declaration = some d → d.FilePath ≠ "" → isStdlib g (fuel + 1) id = some false) ∧
      (∀ e d, g.ClassByID id = none → g.InterfaceByID id = none → g.EnumByID id = some e →
        e.Declaration = some d → d.FilePath ≠ "" → isStdlib g (fuel + 1) id = some false) ∧
      (∀ t d, g.ClassByID id = none → g.InterfaceByID id = none → g.EnumByID id = none →
        g.MethodByID id = none → g.FieldByID id = none → g.TriggerByID id = some t →
        t.Declaration = some d → d.FilePath ≠ "" →
        isStdlib g (fuel + 1) id = some false)) := by
  have hiff : ∀ b, isStdlib g fuel id = some b → (b = true ↔ Foreign g id) := by
    intro b h
    cases b with
    | true => exact ⟨fun _ => isStdlib_true_foreign g fuel id h, fun _ => rfl⟩
    | false =>
      exact ⟨fun hb => absurd hb (by simp),
        fun hF => absurd hF (isStdlib_false_not_foreign g fuel id h)⟩
  refine ⟨hiff, ?_, ?_⟩
  · intro hw
    obtain ⟨b, hb⟩ := Option.isSome_iff_exists.1
      (walk_none_total g fuel id hw fuel (le_refl _)).2
    exact ⟨b, hb, hiff b hb⟩
  · intro hid
    refine ⟨?_, ?_, ?_, ?_⟩
    · intro c d hc hd hp
      unfold isStdlib
      rw [if_neg hid]
      simp only [hc, hd, noFile_false _ _ hp]
    · intro i d hc hi hd hp
      unfold isStdlib
      rw [if_neg hid]
      simp only [hc, hi, hd, noFile_false _ _ hp]
    · intro e d hc hi he hd hp
      unfold isStdlib
      rw [if_neg hid]
      simp only [hc, hi, he, hd, noFile_false _ _ hp]
    · intro t d hc hi he hm hf ht hd hp
      unfold isStdlib
      rw [if_neg hid]
      simp only [hc, hi, he, hm, hf, ht, hd, noFile_false _ _ hp]

/-! ## The two passes as sequences of elementary operations -/

theorem BuilderReach.compose {cx : BuilderEnv} {a b c : documentBuilder}
    (h₁ : BuilderReach cx a b) (h₂ : BuilderReach cx b c) : BuilderReach cx a c := by
  induction h₂ with
  | refl => exact h₁
  | doc p _ ih => exact BuilderReach.doc p ih
  | define key l c e sym name kind hk _ ih => exact BuilderReach.define key l c e sym name kind hk ih
  | info sym name kind hk _ ih => exact BuilderReach.info sym name kind hk ih
  | setDoc sym d _ ih => exact BuilderReach.setDoc sym d ih
  | rel sym r _ ih => exact BuilderReach.rel sym r ih
  | counter p _ ih => exact BuilderReach.counter p ih
  | ref key l c e sym _ ih => exact BuilderReach.ref key l c e sym ih

theorem foldlM_builder {α : Type} {cx : BuilderEnv}
    (f : documentBuilder → α → Option documentBuilder) (l : List α)
    (db db' : documentBuilder)
    (hstep : ∀ x ∈ l, ∀ c c', f c x = some c' → BuilderReach cx c c')
    (h : l.foldlM f db = some db') : BuilderReach cx db db' :=
  foldlM_rel (fun (a b : documentBuilder) => BuilderReach cx a b)
    (fun _ => BuilderReach.refl _) (fun _ _ _ h₁ h₂ => h₁.compose h₂) f l db db' hstep h

theorem implementsStep_builder {cx : BuilderEnv} {si : String} {db db' : documentBuilder}
    {id : SymbolID} (h : implementsStep cx si db id = some db') : BuilderReach cx db db' := by
  unfold implementsStep at h
  cases hstd : isStdlib cx.graph cx.fuel id with
  | none => simp [hstd] at h
  | some b =>
    cases b with
    | true =>
      simp only [hstd, Option.some.injEq] at h
      rw [← h]; exact BuilderReach.refl _
    | false =>
      simp only [hstd] at h
      cases hs : scipSymbol cx.graph cx.fuel id with
      | none => simp [hs] at h
      | some sym =>
        simp only [hs] at h
        by_cases he : sym = ""
        · rw [if_pos he, Option.some.injEq] at h
          rw [← h]; exact BuilderReach.refl _
        · rw [if_neg he, Option.some.injEq] at h
          rw [← h]
          exact BuilderReach.rel _ _ (BuilderReach.refl _)

theorem addExtendsRelationship_builder {cx : BuilderEnv} {si : String}
    {db db' : documentBuilder} {id : SymbolID}
    (h : addExtendsRelationship cx si db id = some db') : BuilderReach cx db db' := by
  unfold addExtendsRelationship at h
  by_cases hinv : id = InvalidSymbol
  · rw [if_pos hinv, Option.some.injEq] at h
    rw [← h]; exact BuilderReach.refl _
  · rw [if_neg hinv] at h
    cases hstd : isStdlib cx.graph cx.fuel id with
    | none => simp [hstd] at h
    | some b =>
      cases b with
      | true =>
        simp only [hstd, Option.some.injEq] at h
        rw [← h]; exact BuilderReach.refl _
      | false =>
        simp only [hstd] at h
        cases hs : scipSymbol cx.graph cx.fuel id with
        | none => simp [hs] at h
        | some sym =>
          simp only [hs] at h
          by_cases he : sym = ""
          · rw [if_pos he, Option.some.injEq] at h
            rw [← h]; exact BuilderReach.refl _
          · rw [if_neg he, Option.some.injEq] at h
            rw [← h]
            exact BuilderReach.rel _ _ (BuilderReach.refl _)

theorem parameterStep_builder (cx : BuilderEnv) (path : String) (db : documentBuilder)
    (pid : SymbolID) : BuilderReach cx db (parameterStep cx path db pid) := by
  unfold parameterStep
  cases hv : cx.graph.VariableByID pid with
  | none => exact BuilderReach.refl _
  | some v =>
    cases hd : v.Declaration with
    | none => simp only [hd]; exact BuilderReach.refl _
    | some p =>
      simp only [hd]
      exact BuilderReach.info _ _ _ (Or.inr (Or.inr (Or.inr (Or.inr (Or.inr (Or.inr
        (Or.inl rfl)))))))
        (BuilderReach.doc _ (BuilderReach.counter _ (BuilderReach.refl _)))

theorem registerParameters_builder (cx : BuilderEnv) (path : String) (m : MethodSymbol)
    (db : documentBuilder) : BuilderReach cx db (registerParameters cx path m db) := by
  unfold registerParameters
  cases m.Declaration with
  | none => exact BuilderReach.refl _
  | some _ =>
    simp only
    generalize m.Parameters = ps
    induction ps generalizing db with
    | nil => exact BuilderReach.refl _
    | cons p ps ih =>
      rw [List.foldl_cons]
      exact (parameterStep_builder cx path db p).compose (ih _)

theorem ite_setDocumentation_builder (cx : BuilderEnv) (c : Prop) [Decidable c]
    (sym doc : String) (db : documentBuilder) :
    BuilderReach cx db (if c then setDocumentation sym doc db else db) := by
  split
  · exact BuilderReach.setDoc _ _ (BuilderReach.refl _)
  · exact BuilderReach.refl _

theorem methodStep_builder {cx : BuilderEnv} {path : String} {db db' : documentBuilder}
    {mid : SymbolID} (h : methodStep cx path db mid = some db') : BuilderReach cx db db' := by
  unfold methodStep at h
  cases hm : cx.graph.MethodByID mid with
  | none => simp only [hm, Option.some.injEq] at h; rw [← h]; exact BuilderReach.refl _
  | some m =>
    simp only [hm] at h
    cases hd : m.Declaration with
    | none => simp only [hd, Option.some.injEq] at h; rw [← h]; exact BuilderReach.refl _
    | some decl =>
      simp only [hd] at h
      cases hs : scipSymbol cx.graph cx.fuel mid with
      | none => simp [hs] at h
      | some sym =>
        simp only [hs] at h
        by_cases he : sym = ""
        · rw [if_pos he, Option.some.injEq] at h
          rw [← h]; exact BuilderReach.doc _ (BuilderReach.refl _)
        · rw [if_neg he, Option.some.injEq] at h
          rw [← h]
          refine BuilderReach.compose ?_ (registerParameters_builder cx path m _)
          refine BuilderReach.compose ?_ (ite_setDocumentation_builder cx _ _ _ _)
          exact BuilderReach.define _ _ _ _ _ _ _
            (Or.inr (Or.inr (Or.inr (Or.inr (Or.inr (Or.inr (Or.inr
              ⟨mid, m, decl, hm, hd, rfl⟩)))))))
            (BuilderReach.doc _ (BuilderReach.refl _))

theorem registerMethods_builder {cx : BuilderEnv} {path : String} {mids : List SymbolID}
    {db db' : documentBuilder} (h : registerMethods cx path mids db = some db') :
    BuilderReach cx db db' := by
  unfold registerMethods at h
  by_cases hp : path = ""
  · rw [if_pos hp, Option.some.injEq] at h
    rw [← h]; exact BuilderReach.refl _
  · rw [if_neg hp] at h
    exact foldlM_builder _ mids db db' (fun _ _ _ _ hc => methodStep_builder hc) h

theorem fieldStep_builder {cx : BuilderEnv} {cdecl : ClassDeclaration}
    {db db' : documentBuilder} {fid : SymbolID}
    (h : fieldStep cx cdecl db fid = some db') : BuilderReach cx db db' := by
  unfold fieldStep at h
  cases hf : cx.graph.FieldByID fid with
  | none => simp only [hf, Option.some.injEq] at h; rw [← h]; exact BuilderReach.refl _
  | some f =>
    simp only [hf] at h
    cases hd : f.Declaration with
    | none => simp only [hd, Option.some.injEq] at h; rw [← h]; exact BuilderReach.refl _
    | some decl =>
      simp only [hd] at h
      generalize (if decl.FilePath ≠ "" then decl.FilePath else cdecl.FilePath) = fp at h
      by_cases hg : fp = "" ∨ isMetadataXML fp = true
      · rw [if_pos hg, Option.some.injEq] at h; rw [← h]; exact BuilderReach.refl _
      · rw [if_neg hg] at h
        cases hs : scipSymbol cx.graph cx.fuel fid with
        | none => simp [hs] at h
        | some sym =>
          simp only [hs] at h
          by_cases he : sym = ""
          · rw [if_pos he, Option.some.injEq] at h
            rw [← h]; exact BuilderReach.doc _ (BuilderReach.refl _)
          · rw [if_neg he, Option.some.injEq] at h
            rw [← h]
            refine BuilderReach.define _ _ _ _ _ _ _ ?_
              (BuilderReach.doc _ (BuilderReach.refl _))
            by_cases hk : (decl.Getter || decl.Setter) = true
            · rw [if_pos hk]
              exact Or.inr (Or.inr (Or.inr (Or.inr (Or.inr (Or.inl rfl)))))
            · rw [if_neg hk]
              exact Or.inr (Or.inr (Or.inr (Or.inr (Or.inl rfl))))

theorem registerFields_builder {cx : BuilderEnv} {cls : ClassSymbol}
    {db db' : documentBuilder} (h : registerFields cx cls db = some db') :
    BuilderReach cx db db' := by
  unfold registerFields at h
  cases hd : cls.Declaration with
  | none => simp only [hd, Option.some.injEq] at h; rw [← h]; exact BuilderReach.refl _
  | some decl =>
    simp only [hd] at h
    exact foldlM_builder _ cls.Fields db db' (fun _ _ _ _ hc => fieldStep_builder hc) h

theorem defineClass_builder {cx : BuilderEnv} {cls : ClassSymbol} {decl : ClassDeclaration}
    {db db' : documentBuilder} (h : defineClass cx cls decl db = some db') :
    BuilderReach cx db db' := by
  unfold defineClass at h
  by_cases hg : decl.FilePath ≠ "" ∧ isMetadataXML decl.FilePath = false
  · rw [if_pos hg] at h
    cases hs : scipSymbol cx.graph cx.fuel cls.ID with
    | none => simp [hs] at h
    | some sym =>
      rw [hs] at h
      dsimp only at h
      by_cases he : sym ≠ ""
      · rw [if_pos he] at h
        split at h
        · exact absurd h (by simp)
        rename_i db₁ h₁
        refine BuilderReach.compose ?_ (addExtendsRelationship_builder h)
        refine BuilderReach.compose ?_
          (foldlM_builder _ _ _ _ (fun _ _ _ _ hc => implementsStep_builder hc) h₁)
        refine BuilderReach.compose ?_ (ite_setDocumentation_builder cx _ _ _ _)
        exact BuilderReach.define _ _ _ _ _ _ _ (Or.inl rfl)
          (BuilderReach.doc _ (BuilderReach.refl _))
      · rw [if_neg he, Option.some.injEq] at h
        rw [← h]; exact BuilderReach.doc _ (BuilderReach.refl _)
  · rw [if_neg hg, Option.some.injEq] at h
    rw [← h]; exact BuilderReach.refl _

theorem classStep_builder {cx : BuilderEnv} {cls : ClassSymbol} {db db' : documentBuilder}
    (h : classStep cx db cls = some db') : BuilderReach cx db db' := by
  unfold classStep at h
  cases hd : cls.Declaration with
  | none => simp only [hd, Option.some.injEq] at h; rw [← h]; exact BuilderReach.refl _
  | some decl =>
    simp only [hd] at h
    cases h₁ : defineClass cx cls decl db with
    | none => simp [h₁] at h
    | some db₁ =>
      simp only [h₁] at h
      cases h₂ : registerFields cx cls db₁ with
      | none => simp [h₂] at h
      | some db₂ =>
        simp only [h₂] at h
        cases h₃ : registerMethods cx decl.FilePath cls.Methods db₂ with
        | none => simp [h₃] at h
        | some db₃ =>
          simp only [h₃, Option.some.injEq, registerNestedDeclarations] at h
          rw [← h]
          exact ((defineClass_builder h₁).compose (registerFields_builder h₂)).compose
            (registerMethods_builder h₃)

theorem interfaceStep_builder {cx : BuilderEnv} {i : InterfaceSymbol}
    {db db' : documentBuilder} (h : interfaceStep cx db i = some db') :
    BuilderReach cx db db' := by
  unfold interfaceStep at h
  cases hd : i.Declaration with
  | none => simp only [hd, Option.some.injEq] at h; rw [← h]; exact BuilderReach.refl _
  | some decl =>
    simp only [hd] at h
    by_cases hp : decl.FilePath = ""
    · rw [if_pos hp, Option.some.injEq] at h
      rw [← h]; exact BuilderReach.refl _
    · rw [if_neg hp] at h
      cases hs : scipSymbol cx.graph cx.fuel i.ID with
      | none => simp [hs] at h
      | some sym =>
        simp only [hs] at h
        by_cases he : sym = ""
        · rw [if_pos he, Option.some.injEq] at h
          rw [← h]; exact BuilderReach.doc _ (BuilderReach.refl _)
        · rw [if_neg he] at h
          split at h
          · exact absurd h (by simp)
          rename_i db₁ h₁
          refine BuilderReach.compose ?_ (registerMethods_builder h)
          refine BuilderReach.compose ?_
            (foldlM_builder _ _ _ _ (fun _ _ _ _ hc => addExtendsRelationship_builder hc) h₁)
          exact BuilderReach.define _ _ _ _ _ _ _ (Or.inr (Or.inl rfl))
            (BuilderReach.doc _ (BuilderReach.refl _))

theorem enumStep_builder {cx : BuilderEnv} {e : EnumSymbol}
    {db db' : documentBuilder} (h : enumStep cx db e = some db') :
    BuilderReach cx db db' := by
  unfold enumStep at h
  cases hd : e.Declaration with
  | none => simp only [hd, Option.some.injEq] at h; rw [← h]; exact BuilderReach.refl _
  | some decl =>
    simp only [hd] at h
    by_cases hp : decl.FilePath = ""
    · rw [if_pos hp, Option.some.injEq] at h
      rw [← h]; exact BuilderReach.refl _
    · rw [if_neg hp] at h
      cases hs : scipSymbol cx.graph cx.fuel e.ID with
      | none => simp [hs] at h
      | some sym =>
        simp only [hs] at h
        by_cases he : sym = ""
        · rw [if_pos he, Option.some.injEq] at h
          rw [← h]; exact BuilderReach.doc _ (BuilderReach.refl _)
        · rw [if_neg he, Option.some.injEq] at h
          rw [← h]
          exact BuilderReach.define _ _ _ _ _ _ _ (Or.inr (Or.inr (Or.inl rfl)))
            (BuilderReach.doc _ (BuilderReach.refl _))

theorem triggerStep_builder {cx : BuilderEnv} {t : TriggerSymbol}
    {db db' : documentBuilder} (h : triggerStep cx db t = some db') :
    BuilderReach cx db db' := by
  unfold triggerStep at h
  cases hd : t.Declaration with
  | none => simp only [hd, Option.some.injEq] at h; rw [← h]; exact BuilderReach.refl _
  | some decl =>
    simp only [hd] at h
    by_cases hp : decl.FilePath = ""
    · rw [if_pos hp, Option.some.injEq] at h
      rw [← h]; exact BuilderReach.refl _
    · rw [if_neg hp] at h
      cases hs : scipSymbol cx.graph cx.fuel t.ID with
      | none => simp [hs] at h
      | some sym =>
        simp only [hs] at h
        by_cases he : sym = ""
        · rw [if_pos he, Option.some.injEq] at h
          rw [← h]; exact BuilderReach.doc _ (BuilderReach.refl _)
        · rw [if_neg he, Option.some.injEq] at h
          rw [← h]
          exact BuilderReach.define _ _ _ _ _ _ _ (Or.inr (Or.inr (Or.inr (Or.inl rfl))))
            (BuilderReach.doc _ (BuilderReach.refl _))

/-- The definitions pass is a sequence of elementary operations. -/
theorem buildDefinitions_builder {cx : BuilderEnv} {db db' : documentBuilder}
    (h : buildDefinitions cx db = some db') : BuilderReach cx db db' := by
  obtain ⟨db₁, db₂, db₃, h₁, h₂, h₃, h₄⟩ := buildDefinitions_split h
  exact (((foldlM_builder _ _ db db₁ (fun _ _ _ _ hc => classStep_builder hc) h₁).compose
    (foldlM_builder _ _ db₁ db₂ (fun _ _ _ _ hc => interfaceStep_builder hc) h₂)).compose
    (foldlM_builder _ _ db₂ db₃ (fun _ _ _ _ hc => enumStep_builder hc) h₃)).compose
    (foldlM_builder _ _ db₃ db' (fun _ _ _ _ hc => triggerStep_builder hc) h₄)

theorem resolveSymbolString_builder {cx : BuilderEnv} {id : SymbolID} {path sym : String}
    {db db₁ : documentBuilder} (h : resolveSymbolString cx id path db = some (sym, db₁)) :
    BuilderReach cx db db₁ := by
  unfold resolveSymbolString at h
  cases hs : scipSymbol cx.graph cx.fuel id with
  | none => simp [hs] at h
  | some s =>
    simp only [hs] at h
    by_cases hne : s ≠ ""
    · rw [if_pos hne, Option.some.injEq, Prod.mk.injEq] at h
      rw [← h.2]; exact BuilderReach.refl _
    · rw [if_neg hne] at h
      cases hv : cx.graph.VariableByID id with
      | none =>
        simp only [hv, Option.some.injEq, Prod.mk.injEq] at h
        rw [← h.2]; exact BuilderReach.refl _
      | some v =>
        simp only [hv] at h
        by_cases hk : v.Kind = SymbolKind.Parameter ∨ v.Kind = SymbolKind.LocalVariable
        · rw [if_pos hk, Option.some.injEq] at h
          have h2 : db₁ = (nextLocal (cx.relativePath path) db).2 := by rw [h]
          rw [h2]
          exact BuilderReach.counter _ (BuilderReach.refl _)
        · rw [if_neg hk, Option.some.injEq, Prod.mk.injEq] at h
          rw [← h.2]; exact BuilderReach.refl _

theorem referenceStep_builder {cx : BuilderEnv} {b : BindingResult} {ptr : Nat}
    {line col : Int} {name : String} {id : SymbolID} {db db' : documentBuilder}
    (h : referenceStep cx b ptr line col name id db = some db') :
    BuilderReach cx db db' := by
  unfold referenceStep at h
  dsimp only at h
  by_cases hp : b.NodeFiles ptr = ""
  · rw [if_pos hp, Option.some.injEq] at h; rw [← h]; exact BuilderReach.refl _
  · rw [if_neg hp] at h
    cases hstd : isStdlib cx.graph cx.fuel id with
    | none => simp [hstd] at h
    | some f =>
      cases f with
      | true => simp only [hstd, Option.some.injEq] at h; rw [← h]; exact BuilderReach.refl _
      | false =>
        simp only [hstd] at h
        cases hs : scipSymbol cx.graph cx.fuel id with
        | none => simp [hs] at h
        | some sym =>
          simp only [hs] at h
          by_cases he : sym = ""
          · rw [if_pos he, Option.some.injEq] at h; rw [← h]; exact BuilderReach.refl _
          · rw [if_neg he, Option.some.injEq] at h
            rw [← h]
            exact BuilderReach.ref _ _ _ _ _ (BuilderReach.doc _ (BuilderReach.refl _))

theorem identifierStep_builder {cx : BuilderEnv} {b : BindingResult}
    {e : Identifier × SymbolID} {db db' : documentBuilder}
    (h : identifierStep cx b db e = some db') : BuilderReach cx db db' := by
  unfold identifierStep at h
  dsimp only at h
  by_cases hsyn : e.1.Synthetic = true
  · rw [if_pos hsyn, Option.some.injEq] at h; rw [← h]; exact BuilderReach.refl _
  · rw [if_neg hsyn] at h
    by_cases hp : b.NodeFiles e.1.Ptr = ""
    · rw [if_pos hp, Option.some.injEq] at h; rw [← h]; exact BuilderReach.refl _
    · rw [if_neg hp] at h
      cases hstd : isStdlib cx.graph cx.fuel e.2 with
      | none => simp [hstd] at h
      | some f =>
        cases f with
        | true => simp only [hstd, Option.some.injEq] at h; rw [← h]; exact BuilderReach.refl _
        | false =>
          simp only [hstd] at h
          cases hr : resolveSymbolString cx e.2 (b.NodeFiles e.1.Ptr) db with
          | none => simp [hr] at h
          | some r =>
            obtain ⟨sym, db₁⟩ := r
            simp only [hr] at h
            have hreach := resolveSymbolString_builder hr
            by_cases he : sym = ""
            · rw [if_pos he, Option.some.injEq] at h; rw [← h]; exact hreach
            · rw [if_neg he, Option.some.injEq] at h
              rw [← h]
              exact BuilderReach.ref _ _ _ _ _ (BuilderReach.doc _ hreach)

/-- The references pass is a sequence of elementary operations. -/
theorem buildReferences_builder {cx : BuilderEnv} {db db' : documentBuilder}
    (h : buildReferences cx db = some db') : BuilderReach cx db db' := by
  unfold buildReferences at h
  cases hb : cx.binding with
  | none => simp only [hb, Option.some.injEq] at h; rw [← h]; exact BuilderReach.refl _
  | some b =>
    simp only [hb] at h
    cases h₁ : b.Identifiers.foldlM (identifierStep cx b) db with
    | none => simp [h₁] at h
    | some db₁ =>
      simp only [h₁] at h
      cases h₂ : b.MethodCalls.foldlM (methodCallStep cx b) db₁ with
      | none => simp [h₂] at h
      | some db₂ =>
        simp only [h₂] at h
        cases h₃ : b.FieldAccesses.foldlM (fieldAccessStep cx b) db₂ with
        | none => simp [h₃] at h
        | some db₃ =>
          simp only [h₃] at h
          exact (((foldlM_builder _ _ db db₁
            (fun _ _ _ _ hc => identifierStep_builder hc) h₁).compose
            (foldlM_builder _ _ db₁ db₂ (fun _ _ _ _ hc => referenceStep_builder hc) h₂)).compose
            (foldlM_builder _ _ db₂ db₃ (fun _ _ _ _ hc => referenceStep_builder hc) h₃)).compose
            (foldlM_builder _ _ db₃ db' (fun _ _ _ _ hc => referenceStep_builder hc) h)

/-! ## Invariants of the builder -/

theorem BuilderReach.infos {cx : BuilderEnv} {db db' : documentBuilder}
    (h : BuilderReach cx db db') :
    InfosReach (fun _ => True) db.symbolInfos db'.symbolInfos := by
  induction h with
  | refl => exact InfosReach.refl _
  | doc p _ ih => rw [getOrCreateDoc_symbolInfos]; exact ih
  | define key l c e sym name kind _ _ ih =>
    rw [symbolInfo_symbolInfos, addOccurrence_symbolInfos]
    exact InfosReach.info _ _ _ ih
  | info sym name kind _ _ ih =>
    rw [symbolInfo_symbolInfos]
    exact InfosReach.info _ _ _ ih
  | setDoc sym d _ ih =>
    rw [setDocumentation_symbolInfos]
    exact InfosReach.doc _ _ ih
  | rel sym r _ ih =>
    rw [appendRelationship_symbolInfos]
    exact InfosReach.rel _ _ trivial ih
  | counter p _ ih => rw [nextLocal_symbolInfos]; exact ih
  | ref key l c e sym _ ih => rw [addOccurrence_symbolInfos]; exact ih

theorem mem_insertInfo {sym name : String} {kind : SymbolInformation_Kind}
    {l : List SymbolInformation} {si : SymbolInformation}
    (h : si ∈ insertInfo sym name kind l) :
    si ∈ l ∨ si = { Symbol := sym, DisplayName := name, Kind := kind, Documentation := [],
                    Relationships := [] } := by
  unfold insertInfo at h
  split at h
  · exact Or.inl h
  · rcases List.mem_append.1 h with h | h
    · exact Or.inl h
    · exact Or.inr (List.mem_singleton.1 h)

theorem mem_setDocInfo {sym doc : String} {l : List SymbolInformation}
    {si : SymbolInformation} (h : si ∈ setDocInfo sym doc l) :
    ∃ s₀ ∈ l, si.Symbol = s₀.Symbol ∧ si.DisplayName = s₀.DisplayName ∧
      si.Kind = s₀.Kind := by
  unfold setDocInfo at h
  obtain ⟨s₀, hs₀, rfl⟩ := List.mem_map.1 h
  refine ⟨s₀, hs₀, ?_⟩
  split <;> exact ⟨rfl, rfl, rfl⟩

theorem mem_addRelInfo {sym : String} {r : Relationship} {l : List SymbolInformation}
    {si : SymbolInformation} (h : si ∈ addRelInfo sym r l) :
    ∃ s₀ ∈ l, si.Symbol = s₀.Symbol ∧ si.DisplayName = s₀.DisplayName ∧
      si.Kind = s₀.Kind := by
  unfold addRelInfo at h
  obtain ⟨s₀, hs₀, rfl⟩ := List.mem_map.1 h
  refine ⟨s₀, hs₀, ?_⟩
  split <;> exact ⟨rfl, rfl, rfl⟩

/-- Every record has a kind under which the passes register records. -/
theorem BuilderReach.recordKinds {cx : BuilderEnv} {db db' : documentBuilder}
    (h : BuilderReach cx db db') (h₀ : ∀ si ∈ db.symbolInfos, RecordKind cx si.Kind) :
    ∀ si ∈ db'.symbolInfos, RecordKind cx si.Kind := by
  induction h with
  | refl => exact h₀
  | doc p _ ih => rw [getOrCreateDoc_symbolInfos]; exact ih
  | define key l c e sym name kind hk _ ih =>
    rw [symbolInfo_symbolInfos, addOccurrence_symbolInfos]
    intro si hsi
    rcases mem_insertInfo hsi with h | h
    · exact ih si h
    · rw [h]; exact hk
  | info sym name kind hk _ ih =>
    rw [symbolInfo_symbolInfos]
    intro si hsi
    rcases mem_insertInfo hsi with h | h
    · exact ih si h
    · rw [h]; exact hk
  | setDoc sym d _ ih =>
    rw [setDocumentation_symbolInfos]
    intro si hsi
    obtain ⟨s₀, hs₀, _, _, hk⟩ := mem_setDocInfo hsi
    rw [hk]; exact ih s₀ hs₀
  | rel sym r _ ih =>
    rw [appendRelationship_symbolInfos]
    intro si hsi
    obtain ⟨s₀, hs₀, _, _, hk⟩ := mem_addRelInfo hsi
    rw [hk]; exact ih s₀ hs₀
  | counter p _ ih => rw [nextLocal_symbolInfos]; exact ih
  | ref key l c e sym _ ih => rw [addOccurrence_symbolInfos]; exact ih

/-- No operation of the passes writes the `Symbols` of a document. -/
theorem BuilderReach.symbolsEmpty {cx : BuilderEnv} {db db' : documentBuilder}
    (h : BuilderReach cx db db') (h₀ : ∀ d ∈ db.docs, d.Symbols = []) :
    ∀ d ∈ db'.docs, d.Symbols = [] := by
  induction h with
  | refl => exact h₀
  | doc p _ ih =>
    rw [getOrCreateDoc_docs]
    intro d hd
    rcases mem_createDoc hd with h | ⟨_, _, h⟩
    · exact ih d h
    · exact h
  | define key l c e sym name kind _ _ ih =>
    rw [symbolInfo_docs, addOccurrence_docs]
    intro d hd
    obtain ⟨d₀, hd₀, _, hs, _⟩ := mem_appendOcc hd
    rw [hs]; exact ih d₀ hd₀
  | info sym name kind _ _ ih => rw [symbolInfo_docs]; exact ih
  | setDoc sym d _ ih => rw [setDocumentation_docs]; exact ih
  | rel sym r _ ih => rw [appendRelationship_docs]; exact ih
  | counter p _ ih => rw [nextLocal_docs]; exact ih
  | ref key l c e sym _ ih =>
    rw [addOccurrence_docs]
    intro d hd
    obtain ⟨d₀, hd₀, _, hs, _⟩ := mem_appendOcc hd
    rw [hs]; exact ih d₀ hd₀

/-- Every `Definition` occurrence keeps a record under its identifier. -/
theorem BuilderReach.defsCovered {cx : BuilderEnv} {db db' : documentBuilder}
    (h : BuilderReach cx db db') (h₀ : DefsCovered db) : DefsCovered db' := by
  induction h with
  | refl => exact h₀
  | doc p _ ih =>
    intro d hd o ho hdef
    rw [getOrCreateDoc_docs] at hd
    rw [getOrCreateDoc_symbolInfos]
    rcases mem_createDoc hd with h | ⟨_, h, _⟩
    · exact ih d h o ho hdef
    · rw [h] at ho; simp at ho
  | define key l c e sym name kind _ _ ih =>
    intro d hd o ho hdef
    rw [symbolInfo_docs, addOccurrence_docs] at hd
    rw [symbolInfo_symbolInfos, addOccurrence_symbolInfos]
    have hmono : ∀ (infos : List SymbolInformation) (s : String), HasInfo infos s →
        HasInfo (insertInfo sym name kind infos) s := fun infos s hs =>
      (InfosReach.info (R := fun _ => True) sym name kind (InfosReach.refl infos)).hasInfo hs
    obtain ⟨d₀, hd₀, _, _, hocc⟩ := mem_appendOcc hd
    rcases hocc with h | ⟨_, h⟩
    · rw [h] at ho
      exact hmono _ _ (ih d₀ hd₀ o ho hdef)
    · rw [h] at ho
      rcases List.mem_append.1 ho with ho | ho
      · exact hmono _ _ (ih d₀ hd₀ o ho hdef)
      · rw [List.mem_singleton.1 ho]
        exact HasInfo_insertInfo _ _ _ _
  | info sym name kind _ _ ih =>
    intro d hd o ho hdef
    rw [symbolInfo_docs] at hd
    rw [symbolInfo_symbolInfos]
    exact (InfosReach.info (R := fun _ => True) sym name kind (InfosReach.refl _)).hasInfo
      (ih d hd o ho hdef)
  | setDoc sym dc _ ih =>
    intro d hd o ho hdef
    rw [setDocumentation_docs] at hd
    rw [setDocumentation_symbolInfos]
    exact (InfosReach.doc (R := fun _ => True) sym dc (InfosReach.refl _)).hasInfo
      (ih d hd o ho hdef)
  | rel sym r _ ih =>
    intro d hd o ho hdef
    rw [appendRelationship_docs] at hd
    rw [appendRelationship_symbolInfos]
    exact (InfosReach.rel (R := fun _ => True) sym r trivial (InfosReach.refl _)).hasInfo
      (ih d hd o ho hdef)
  | counter p _ ih =>
    intro d hd o ho hdef
    rw [nextLocal_docs] at hd
    rw [nextLocal_symbolInfos]
    exact ih d hd o ho hdef
  | ref key l c e sym _ ih =>
    intro d hd o ho hdef
    rw [addOccurrence_docs] at hd
    rw [addOccurrence_symbolInfos]
    obtain ⟨d₀, hd₀, _, _, hocc⟩ := mem_appendOcc hd
    rcases hocc with h | ⟨_, h⟩
    · rw [h] at ho
      exact ih d₀ hd₀ o ho hdef
    · rw [h] at ho
      rcases List.mem_append.1 ho with ho | ho
      · exact ih d₀ hd₀ o ho hdef
      · rw [List.mem_singleton.1 ho] at hdef
        have hread : ∀ (r : List Int) (s : String),
            isDefinition { Range := r, Symbol := s, SymbolRoles := SymbolRole_ReadAccess }
              = false := fun _ _ => by
          simp [isDefinition, SymbolRole_ReadAccess, SymbolRole_Definition]
        rw [hread] at hdef
        exact absurd hdef (by simp)

/-! ## Coverage of definitions and kinds of records -/

theorem newDocumentBuilder_defsCovered : DefsCovered newDocumentBuilder := by
  intro d hd
  simp [newDocumentBuilder] at hd

/-- C27. Definitions are covered in their own document: after the definitions
pass, the references pass and `documents` on a fresh builder, every occurrence
with the `Definition` bit in a document has a symbol-metadata record with the
same identifier in the `Symbols` of that document. -/
theorem C27_definitions_covered (cx : BuilderEnv) (db₁ db₂ : documentBuilder)
    (h₁ : buildDefinitions cx newDocumentBuilder = some db₁)
    (h₂ : buildReferences cx db₁ = some db₂) :
    ∀ d ∈ documents db₂, ∀ o ∈ d.Occurrences, isDefinition o = true →
      ∃ r ∈ d.Symbols, r.Symbol = o.Symbol := by
  have hcov : DefsCovered db₂ :=
    ((buildDefinitions_builder h₁).compose (buildReferences_builder h₂)).defsCovered
      newDocumentBuilder_defsCovered
  intro d hd o ho hdef
  obtain ⟨d₀, hd₀, rfl⟩ := mem_documents hd
  rw [(attachSymbols_fields _ _).1] at ho
  obtain ⟨si, hsi, hsym⟩ := hcov d₀ hd₀ o ho hdef
  refine ⟨si, ?_, hsym⟩
  rw [attachSymbols_symbols]
  apply List.mem_append_right
  rw [List.mem_filter]
  refine ⟨hsi, ?_⟩
  rw [List.any_eq_true]
  exact ⟨o, ho, by simp [hsym, hdef]⟩

theorem C27_definitions_covered_witness :
    ∃ db₁ db₂, buildDefinitions twoUsesEnv newDocumentBuilder = some db₁ ∧
      buildReferences twoUsesEnv db₁ = some db₂ ∧
      ∀ d ∈ documents db₂, ∀ o ∈ d.Occurrences, isDefinition o = true →
        ∃ r ∈ d.Symbols, r.Symbol = o.Symbol := by
  have h₁ := getD_eq_some (buildDefinitions twoUsesEnv newDocumentBuilder)
    newDocumentBuilder (by decide)
  have h₂ := getD_eq_some (buildReferences twoUsesEnv
    ((buildDefinitions twoUsesEnv newDocumentBuilder).getD newDocumentBuilder))
    newDocumentBuilder (by decide)
  exact ⟨_, _, h₁, h₂, C27_definitions_covered twoUsesEnv _ _ h₁ h₂⟩

/-- C22. An attached record without a kind: in `otherKindEnv` the declared
method `m` has a kind that `scipKind` does not name; `scipKind` maps it to
`UnspecifiedKind`, `registerMethods` registers the record of `m` with that
kind, and `documents` attaches it to the document `C.cls`. -/
theorem C22_unspecified_kind_attached :
    scipKind SymbolKind.Other = SymbolInformation_Kind.UnspecifiedKind ∧
    (otherKindEnv.graph.MethodByID 2).map (fun m => m.Kind) = some SymbolKind.Other ∧
    (buildIndex otherKindEnv).map
        (fun docs => docs.map (fun d => (d.RelativePath,
          d.Symbols.map (fun si => (si.Symbol, si.Kind))))) =
      some [("C.cls",
        [("scip-apex apex . . C#", SymbolInformation_Kind.Class),
         ("scip-apex apex . . C#m().", SymbolInformation_Kind.UnspecifiedKind)])] := by
  refine ⟨rfl, by decide, by decide⟩

/-- The kinds of attached records: `scipKind` maps the eleven named kinds as
listed; after both
passes and `documents` on a fresh builder, every record attached to a document
has the kind of a class, interface, enum, trigger, field, property or
parameter, or `scipKind` of the kind of a declared method of the graph, so
none has `UnspecifiedKind` when every declared method has a kind that
`scipKind` names; and a field whose identifier has no record yet is registered
as `Property` exactly when its declaration has a getter or a setter, and as
`Field` otherwise. -/
theorem attached_record_kinds (cx : BuilderEnv) (db₁ db₂ : documentBuilder)
    (h₁ : buildDefinitions cx newDocumentBuilder = some db₁)
    (h₂ : buildReferences cx db₁ = some db₂) :
    (scipKind SymbolKind.Class = SymbolInformation_Kind.Class ∧
     scipKind SymbolKind.Trigger = SymbolInformation_Kind.Class ∧
     scipKind SymbolKind.Interface = SymbolInformation_Kind.Interface ∧
     scipKind SymbolKind.Enum = SymbolInformation_Kind.Enum ∧
     scipKind SymbolKind.Method = SymbolInformation_Kind.Method ∧
     scipKind SymbolKind.Constructor = SymbolInformation_Kind.Constructor ∧
     scipKind SymbolKind.Field = SymbolInformation_Kind.Field ∧
     scipKind SymbolKind.Property = SymbolInformation_Kind.Property ∧
     scipKind SymbolKind.Parameter = SymbolInformation_Kind.Parameter ∧
     scipKind SymbolKind.LocalVariable = SymbolInformation_Kind.Variable ∧
     scipKind SymbolKind.EnumValue = SymbolInformation_Kind.EnumMember) ∧
    (∀ d ∈ documents db₂, ∀ r ∈ d.Symbols, RecordKind cx r.Kind ∧
      ((∀ mid m decl, cx.graph.MethodByID mid = some m → m.Declaration = some decl →
          scipKind m.Kind ≠ SymbolInformation_Kind.UnspecifiedKind) →
        r.Kind ≠ SymbolInformation_Kind.UnspecifiedKind)) ∧
    (∀ (cdecl : ClassDeclaration) (db db' : documentBuilder) (fid : SymbolID)
      (f : FieldSymbol) (decl : FieldDeclaration) (sym : String),
      cx.graph.FieldByID fid = some f → f.Declaration = some decl →
      (if decl.FilePath ≠ "" then decl.FilePath else cdecl.FilePath) ≠ "" →
      isMetadataXML (if decl.FilePath ≠ "" then decl.FilePath else cdecl.FilePath) = false →
      scipSymbol cx.graph cx.fuel fid = some sym → sym ≠ "" →
      ¬ HasInfo db.symbolInfos sym → fieldStep cx cdecl db fid = some db' →
      ∃ si ∈ db'.symbolInfos, si.Symbol = sym ∧ si.DisplayName = decl.Name ∧
        (si.Kind = SymbolInformation_Kind.Property ↔
          (decl.Getter = true ∨ decl.Setter = true)) ∧
        (si.Kind = SymbolInformation_Kind.Field ↔
          ¬ (decl.Getter = true ∨ decl.Setter = true))) := by
  have hreach := (buildDefinitions_builder h₁).compose (buildReferences_builder h₂)
  have hkinds := hreach.recordKinds (by simp [newDocumentBuilder])
  have hsyms := hreach.symbolsEmpty (by simp [newDocumentBuilder])
  refine ⟨⟨rfl, rfl, rfl, rfl, rfl, rfl, rfl, rfl, rfl, rfl, rfl⟩, ?_, ?_⟩
  · intro d hd r hr
    obtain ⟨d₀, hd₀, rfl⟩ := mem_documents hd
    rw [attachSymbols_symbols, hsyms d₀ hd₀, List.nil_append] at hr
    have hk := hkinds r (List.mem_filter.1 hr).1
    refine ⟨hk, ?_⟩
    intro hm
    rcases hk with h | h | h | h | h | h | h | ⟨mid, m, decl, hmid, hdecl, h⟩
    all_goals first
      | (rw [h]; exact hm mid m decl hmid hdecl)
      | (rw [h]; decide)
  · intro cdecl db db' fid f decl sym hf hd hp hmeta hs hne hnew h
    unfold fieldStep at h
    simp only [hf, hd] at h
    generalize (if decl.FilePath ≠ "" then decl.FilePath else cdecl.FilePath) = fp
      at hp hmeta h
    have hg : ¬ (fp = "" ∨ isMetadataXML fp = true) := by
      rw [hmeta]
      simp [hp]
    rw [if_neg hg, hs] at h
    dsimp only at h
    rw [if_neg hne, Option.some.injEq] at h
    have hnone : (db.symbolInfos.any (fun si => si.Symbol = sym)) = false := by
      rw [Bool.eq_false_iff]
      intro hany
      rw [List.any_eq_true] at hany
      obtain ⟨si, hsi, hk⟩ := hany
      exact hnew ⟨si, hsi, by simpa using hk⟩
    refine ⟨{ Symbol := sym, DisplayName := decl.Name,
              Kind := scipKind (if (decl.Getter || decl.Setter) = true then SymbolKind.Property
                else SymbolKind.Field),
              Documentation := [], Relationships := [] }, ?_, rfl, rfl, ?_, ?_⟩
    · rw [← h, symbolInfo_symbolInfos, addOccurrence_symbolInfos, getOrCreateDoc_symbolInfos]
      unfold insertInfo
      rw [hnone]
      simp
    · cases decl.Getter <;> cases decl.Setter <;> simp [scipKind]
    · cases decl.Getter <;> cases decl.Setter <;> simp [scipKind]

theorem attached_record_kinds_example :
    ∃ db₁ db₂, buildDefinitions myClassEnv newDocumentBuilder = some db₁ ∧
      buildReferences myClassEnv db₁ = some db₂ ∧
      ∀ d ∈ documents db₂, ∀ r ∈ d.Symbols,
        r.Kind ≠ SymbolInformation_Kind.UnspecifiedKind := by
  have h₁ := getD_eq_some (buildDefinitions myClassEnv newDocumentBuilder)
    newDocumentBuilder (by decide)
  have h₂ := getD_eq_some (buildReferences myClassEnv
    ((buildDefinitions myClassEnv newDocumentBuilder).getD newDocumentBuilder))
    newDocumentBuilder (by decide)
  refine ⟨_, _, h₁, h₂, ?_⟩
  intro d hd r hr
  apply ((attached_record_kinds myClassEnv _ _ h₁ h₂).2.1 d hd r hr).2
  intro mid m decl hm _
  by_cases h3 : mid = 3
  · subst h3
    have : m = getCountMethod := by
      simpa [myClassEnv, myClassGraph] using hm.symm
    rw [this]; decide
  by_cases h4 : mid = 4
  · subst h4
    have : m = myClassConstructor := by
      simpa [myClassEnv, myClassGraph] using hm.symm
    rw [this]; decide
  simp [myClassEnv, myClassGraph, h3, h4] at hm

/-! ## Deduplication of records -/

/-- C28. Symbol metadata is deduplicated by identifier: on a builder that
holds a record for `sym`, `symbolInfo` leaves the builder as it is (so the
record keeps its display name and kind and the keys stay the same); on a
builder without one it appends exactly one record, with `Symbol = sym` and
the given name and kind, and changes nothing else; distinct keys stay
distinct under `symbolInfo` and under every sequence of operations of the
passes; on the map as key-value pairs, every record's `Symbol` stays equal to
its key and the records are those of the list model. -/
theorem C28_symbolInfo_dedup (sym name : String) (kind : SymbolInformation_Kind)
    (db : documentBuilder) :
    (HasInfo db.symbolInfos sym → symbolInfo sym name kind db = db) ∧
    (¬ HasInfo db.symbolInfos sym →
      (symbolInfo sym name kind db).symbolInfos = db.symbolInfos ++ [
        { Symbol := sym, DisplayName := name, Kind := kind, Documentation := [],
          Relationships := [] }] ∧
      (symbolInfo sym name kind db).docs = db.docs ∧
      (symbolInfo sym name kind db).localCount = db.localCount) ∧
    HasInfo (symbolInfo sym name kind db).symbolInfos sym ∧
    ((db.symbolInfos.map (fun si => si.Symbol)).Nodup →
      ((symbolInfo sym name kind db).symbolInfos.map (fun si => si.Symbol)).Nodup) ∧
    (∀ (cx : BuilderEnv) (db' : documentBuilder), BuilderReach cx db db' →
      (db.symbolInfos.map (fun si => si.Symbol)).Nodup →
      (db'.symbolInfos.map (fun si => si.Symbol)).Nodup) ∧
    (∀ m : List (String × SymbolInformation), (∀ e ∈ m, e.2.Symbol = e.1) →
      (∀ e ∈ symbolInfoKeyed sym name kind m, e.2.Symbol = e.1) ∧
      (symbolInfoKeyed sym name kind m).map Prod.snd =
        insertInfo sym name kind (m.map Prod.snd) ∧
      ((m.map Prod.fst).Nodup → ((symbolInfoKeyed sym name kind m).map Prod.fst).Nodup)) := by
  have hany : (db.symbolInfos.any (fun si => si.Symbol = sym)) = true ↔
      HasInfo db.symbolInfos sym := by
    unfold HasInfo
    simp
  refine ⟨?_, ?_, ?_, ?_, ?_, ?_⟩
  · intro h
    unfold symbolInfo
    rw [if_pos (hany.2 h)]
  · intro h
    have hn : ¬ (db.symbolInfos.any (fun si => si.Symbol = sym)) = true := fun hc => h (hany.1 hc)
    refine ⟨?_, symbolInfo_docs _ _ _ _, symbolInfo_localCount _ _ _ _⟩
    unfold symbolInfo
    rw [if_neg hn]
  · rw [symbolInfo_symbolInfos]
    exact HasInfo_insertInfo _ _ _ _
  · intro hnd
    rw [symbolInfo_symbolInfos]
    exact (InfosReach.info (R := fun _ => True) sym name kind (InfosReach.refl _)).keys_nodup hnd
  · intro cx db' hreach hnd
    exact hreach.infos.keys_nodup hnd
  · intro m hm
    have hkeys : (m.any (fun e => e.1 = sym)) =
        ((m.map Prod.snd).any (fun si => si.Symbol = sym)) := by
      induction m with
      | nil => rfl
      | cons e es ih =>
        simp only [List.any_cons, List.map_cons]
        rw [ih (fun x hx => hm x (List.mem_cons_of_mem _ hx)), hm e (List.mem_cons_self _ _)]
    refine ⟨?_, ?_, ?_⟩
    · intro e he
      unfold symbolInfoKeyed at he
      split at he
      · exact hm e he
      · rcases List.mem_append.1 he with h | h
        · exact hm e h
        · rw [List.mem_singleton.1 h]
    · unfold symbolInfoKeyed insertInfo
      rw [← hkeys]
      split
      · rfl
      · simp
    · intro hnd
      unfold symbolInfoKeyed
      by_cases hc : (m.any (fun e => e.1 = sym)) = true
      · rw [if_pos hc]; exact hnd
      · rw [if_neg hc, List.map_append]
        refine List.Nodup.append hnd (List.nodup_singleton _) ?_
        simp only [List.any_eq_true, decide_eq_true_eq, not_exists, not_and] at hc
        intro k hk hk'
        simp only [List.map_cons, List.map_nil, List.mem_singleton] at hk'
        obtain ⟨e, he, hek⟩ := List.mem_map.1 hk
        exact hc e he (hek.trans hk')

/-! ## Parameters -/

theorem parameterStep_skip (cx : BuilderEnv) (path : String) (db : documentBuilder)
    (pid : SymbolID)
    (h : declaredParameter cx pid = none) :
    parameterStep cx path db pid = db := by
  unfold parameterStep
  unfold declaredParameter at h
  cases hv : cx.graph.VariableByID pid with
  | none => rfl
  | some v =>
    rw [hv] at h
    dsimp only at h ⊢
    rw [h]

theorem parameterStep_declared (cx : BuilderEnv) (path : String) (db : documentBuilder)
    (pid : SymbolID) (p : ParameterDeclaration)
    (h : declaredParameter cx pid = some p) :
    (parameterStep cx path db pid).localCount =
      Function.update db.localCount (cx.relativePath path)
        (db.localCount (cx.relativePath path) + 1) ∧
    (parameterStep cx path db pid).symbolInfos =
      insertInfo (localSymbol (db.localCount (cx.relativePath path) + 1)) p.Name
        (scipKind SymbolKind.Parameter) db.symbolInfos := by
  unfold parameterStep
  unfold declaredParameter at h
  cases hv : cx.graph.VariableByID pid with
  | none => rw [hv] at h; simp at h
  | some v =>
    rw [hv] at h
    dsimp only at h ⊢
    rw [h]
    dsimp only
    rw [symbolInfo_localCount, getOrCreateDoc_localCount, symbolInfo_symbolInfos,
      getOrCreateDoc_symbolInfos]
    exact ⟨rfl, rfl⟩

theorem parameters_fold (cx : BuilderEnv) (path : String) :
    ∀ (ps : List SymbolID) (db : documentBuilder),
      (∀ k, k ≠ cx.relativePath path →
        (ps.foldl (parameterStep cx path) db).localCount k = db.localCount k) ∧
      (ps.foldl (parameterStep cx path) db).localCount (cx.relativePath path) =
        db.localCount (cx.relativePath path) + ((declaredParameters cx ps).length : Int) ∧
      ((∀ si ∈ db.symbolInfos, ∀ k : Int, db.localCount (cx.relativePath path) < k →
          si.Symbol ≠ localSymbol k) →
        (ps.foldl (parameterStep cx path) db).symbolInfos =
          db.symbolInfos ++
            parameterRecords (db.localCount (cx.relativePath path))
              (declaredParameters cx ps)) := by
  intro ps
  induction ps with
  | nil =>
    intro db
    simp [declaredParameters, parameterRecords]
  | cons pid ps ih =>
    intro db
    rw [List.foldl_cons]
    cases hp : declaredParameter cx pid with
    | none =>
      have hdecl : declaredParameters cx (pid :: ps) = declaredParameters cx ps := by
        unfold declaredParameters
        rw [List.filterMap_cons, hp]
      rw [parameterStep_skip cx path db pid hp, hdecl]
      exact ih db
    | some p =>
      have hdecl : declaredParameters cx (pid :: ps) = p :: declaredParameters cx ps := by
        unfold declaredParameters
        rw [List.filterMap_cons, hp]
      obtain ⟨hc, hi⟩ := parameterStep_declared cx path db pid p hp
      obtain ⟨i1, i2, i3⟩ := ih (parameterStep cx path db pid)
      rw [hdecl]
      refine ⟨?_, ?_, ?_⟩
      · intro k hk
        rw [i1 k hk, hc, Function.update_noteq hk]
      · rw [i2, hc, Function.update_same, List.length_cons]
        push_cast
        ring
      · intro hfresh
        have hno : ¬ (db.symbolInfos.any (fun si =>
            si.Symbol = localSymbol (db.localCount (cx.relativePath path) + 1))) = true := by
          rw [List.any_eq_true]
          rintro ⟨si, hsi, hk⟩
          exact hfresh si hsi (db.localCount (cx.relativePath path) + 1) (by omega)
            (by simpa using hk)
        have hi' : (parameterStep cx path db pid).symbolInfos = db.symbolInfos ++ [
            { Symbol := localSymbol (db.localCount (cx.relativePath path) + 1)
              DisplayName := p.Name
              Kind := scipKind SymbolKind.Parameter
              Documentation := []
              Relationships := [] }] := by
          rw [hi]
          unfold insertInfo
          rw [if_neg hno]
        rw [i3, hi', hc, Function.update_same]
        · simp [parameterRecords]
        · intro si hsi k hk
          rw [hc, Function.update_same] at hk
          rw [hi'] at hsi
          rcases List.mem_append.1 hsi with h | h
          · exact hfresh si h k (by omega)
          · rw [List.mem_singleton.1 h]
            intro he
            have := localSymbol_injective he
            omega

/-- The effect of `registerParameters`: for a method with a declaration it
appends no occurrence (every occurrence of every document was there before;
the only document it may create is that of the method's file), leaves the
counter of every other document unchanged, advances the counter of the
method's file by the number of the method's parameters that are variables of
the graph with a parameter declaration, and, when no record of the builder has
an identifier `local k` above that counter, appends for each such parameter, in
order, one record with the parameter's name, the kind `Parameter` and the next
`local <n>` identifier of the file. -/
theorem registerParameters_effect (cx : BuilderEnv) (path : String) (m : MethodSymbol)
    (decl : MethodDeclaration) (db : documentBuilder) (hd : m.Declaration = some decl) :
    (∀ d ∈ (registerParameters cx path m db).docs, ∀ o ∈ d.Occurrences,
      HasOcc db.docs d.RelativePath o) ∧
    (∀ d ∈ (registerParameters cx path m db).docs,
      d ∈ db.docs ∨ d.RelativePath = cx.relativePath path) ∧
    (∀ k, k ≠ cx.relativePath path →
      (registerParameters cx path m db).localCount k = db.localCount k) ∧
    (registerParameters cx path m db).localCount (cx.relativePath path) =
      db.localCount (cx.relativePath path) +
        ((declaredParameters cx m.Parameters).length : Int) ∧
    ((∀ si ∈ db.symbolInfos, ∀ k : Int, db.localCount (cx.relativePath path) < k →
        si.Symbol ≠ localSymbol k) →
      (registerParameters cx path m db).symbolInfos =
        db.symbolInfos ++
          parameterRecords (db.localCount (cx.relativePath path))
            (declaredParameters cx m.Parameters)) := by
  have hreach : DocsReach (fun k => k = cx.relativePath path) (fun _ _ => False) db.docs
      (registerParameters cx path m db).docs :=
    registerParameters_reach cx path m db rfl
  have hfold : registerParameters cx path m db =
      m.Parameters.foldl (parameterStep cx path) db := by
    unfold registerParameters
    rw [hd]
  obtain ⟨f1, f2, f3⟩ := parameters_fold cx path m.Parameters db
  refine ⟨?_, ?_, ?_, ?_, ?_⟩
  · intro d hd' o ho
    exact (hreach.invariant (K := fun _ => True) (P := fun k o => HasOcc db.docs k o)
      (fun _ _ => trivial) (fun _ _ h => h.elim)
      (fun d₀ hd₀ => ⟨trivial, fun o ho => ⟨d₀, hd₀, rfl, ho⟩⟩) d hd').2 o ho
  · intro d hd'
    have hgen : ∀ {a b : List Document},
        DocsReach (fun k => k = cx.relativePath path) (fun _ _ => False) a b →
        ∀ d ∈ b, d ∈ a ∨ d.RelativePath = cx.relativePath path := by
      intro a b h
      induction h with
      | refl => exact fun d hd => Or.inl hd
      | create key _ hc ih =>
        intro d hd
        rcases mem_createDoc hd with h | ⟨hk, _, _⟩
        · exact ih d h
        · exact Or.inr (hk.trans hc)
      | occ key o _ ho _ => exact ho.elim
    exact hgen hreach d hd'
  · rw [hfold]; exact f1
  · rw [hfold]; exact f2
  · rw [hfold]; exact f3

theorem registerParameters_effect_example :
    (registerParameters twoFilesEnv "B.cls" methodOfB newDocumentBuilder).localCount "A.cls"
      = 0 ∧
    (registerParameters twoFilesEnv "B.cls" methodOfB newDocumentBuilder).localCount "B.cls"
      = 1 ∧
    (registerParameters twoFilesEnv "B.cls" methodOfB newDocumentBuilder).symbolInfos =
      [{ Symbol := "local 1", DisplayName := "y", Kind := SymbolInformation_Kind.Parameter,
         Documentation := [], Relationships := [] }] := by
  obtain ⟨_, _, h3, h4, h5⟩ := registerParameters_effect twoFilesEnv "B.cls" methodOfB
    { Name := "n", Line := 2, Column := 9, DocComment := "" } newDocumentBuilder rfl
  refine ⟨?_, ?_, ?_⟩
  · rw [h3 "A.cls" (by decide)]; rfl
  · exact h4.trans (by decide)
  · exact (h5 (by intro si hsi; simp [newDocumentBuilder] at hsi)).trans (by decide)

/-- C29. A second file's parameter gets no record: on a fresh builder
`registerParameters` registers the parameter `x` of `m` in `A.cls` under
`local 1`; for the method `n(y)` of `B.cls` it then advances the counter of
`B.cls` to 1, mints `local 1` again, finds the record of `x` under that
identifier and registers nothing, so no record names `y`; the same happens in
the definitions pass over both classes. -/
theorem C29_second_file_registers_nothing :
    (registerParameters twoFilesEnv "A.cls" methodOfA newDocumentBuilder).symbolInfos.map
      (fun si => (si.Symbol, si.DisplayName)) = [("local 1", "x")] ∧
    declaredParameters twoFilesEnv methodOfB.Parameters = [{ Name := "y" }] ∧
    (registerParameters twoFilesEnv "B.cls" methodOfB
      (registerParameters twoFilesEnv "A.cls" methodOfA newDocumentBuilder)).localCount "B.cls"
      = 1 ∧
    (registerParameters twoFilesEnv "B.cls" methodOfB
      (registerParameters twoFilesEnv "A.cls" methodOfA newDocumentBuilder)).symbolInfos.map
      (fun si => (si.Symbol, si.DisplayName)) = [("local 1", "x")] ∧
    (buildDefinitions twoFilesEnv newDocumentBuilder).map
      (fun db => db.symbolInfos.map (fun si => (si.Symbol, si.DisplayName))) =
      some [("scip-apex apex . . A#", "A"), ("scip-apex apex . . A#m().", "m"),
        ("local 1", "x"), ("scip-apex apex . . B#", "B"),
        ("scip-apex apex . . B#n().", "n")] := by
  refine ⟨by decide, by decide, by decide, by decide, by decide⟩

end ScipApex
